import Mathlib

/-!
# libKD: event loop, callback registry and threadsafe queue

A shallow embedding of the core of `source/kd.c`:

* the doubly linked queue `KDQueueVEN` (`kdQueue*VEN`), at the level of node
  pointers in a heap of `__KDQueueNode` records;
* the per-thread context `KDThread` with its event queue, callback table,
  last event and last error;
* `kdInstallCallback`, `__kdExecCallback`, `kdPostThreadEvent`, `kdPumpEvents`,
  `kdWaitEvent` and `kdDefaultEvent`;
* the process with several threads sharing the heaps: `kdSetError`,
  `kdCreateEvent` and `kdPostThreadEvent` by a given calling thread;
* the window functions on the X11 host (`kdCreateWindow`, `kdDestroyWindow`,
  `kdSetWindowProperty*`, `kdRealizeWindow`), and two overlapping
  `kdCreateWindow` calls as a step relation;
* the timers (`kdSetTimer`, `__kdTimerHandler`, `kdCancelTimer`) as a step
  relation of the worker and the cancelling thread;
* `kdThreadCreate` and `kdThreadDetach` on the POSIX backend, with the
  attribute objects and the detach state of the native threads;
* the translation of host errors (`kdSetErrorPlatformVEN`, `kdRename`);
* `kdThreadSleepVEN`, `kdGmtime_r`, `kdLocaltime_r`, the atomic additions
  (`kdAtomicIntFetchAddVEN`, `kdAtomicIntFetchSubVEN`) under each backend,
  `kdLtostr` and `kdStrtol`;
* several producers and one consumer on one queue, as a step relation.

Conventions.  A pointer is a natural number and `KD_NULL` is `0`.  Memory is a
typed heap: one heap of queue nodes and one heap of events.  A result of
`none` stands for undefined behaviour of the C code (a read or write through
a null or dangling pointer, a store past the end of an array) and for the
end of the process in a failed `kdAssert`.  The callback table of a thread is
the list `callbacks[0..callbackindex-1]`; the array behind it has room for
`callbacksCapacity` pointers.  A `KDint32` operation that leaves its range is
taken modulo `2^32`.  `kdMalloc` is a parameter of the operations that
allocate; the mutex of the queue is not modelled, every `kdQueue*VEN`
call being one atomic step.  `KDsize` counters are natural numbers: the
number of live nodes is bounded by the address space, so `size` cannot wrap.
A handler called through the callback table is recorded in a log; it is taken
not to touch the queue, the callback table or the events.
-/

namespace KD

/-! ## Definitions -/

/-- A pointer value; `0` is the null pointer. -/
abbrev Ptr := Nat

/-- The null pointer `KD_NULL`. -/
abbrev KD_NULL : Ptr := 0

/-- A typed heap: cell `k` holds the object at address `k + 1`, `none` being
an unallocated address. -/
structure Heap (α : Type) where
  cells : List (Option α)
deriving DecidableEq

namespace Heap
variable {α : Type}

/-- The heap with no live object. -/
def empty : Heap α := ⟨[]⟩

/-- Dereference `p`; `none` for the null pointer and for a dead address. -/
def read (h : Heap α) (p : Ptr) : Option α :=
  match p with
  | 0 => none
  | k + 1 => h.cells.getD k none

/-- Store `v` at address `p`. -/
def write (h : Heap α) (p : Ptr) (v : α) : Heap α :=
  match p with
  | 0 => h
  | k + 1 => ⟨(h.cells ++ List.replicate (k + 1 - h.cells.length) none).set k (some v)⟩

/-- Release address `p` (`kdFree`); freeing the null pointer does nothing. -/
def free (h : Heap α) (p : Ptr) : Heap α :=
  match p with
  | 0 => h
  | k + 1 => ⟨h.cells.set k none⟩

/-- Update the live object at `p` in place; undefined on a dead address. -/
def modify (h : Heap α) (p : Ptr) (f : α → α) : Option (Heap α) :=
  match h.read p with
  | none => none
  | some v => some (h.write p (f v))

/-- The allocator that never reuses an address. -/
def bump (h : Heap α) : Ptr := h.cells.length + 1

end Heap

/-- What the operations assume of `kdMalloc`: it succeeds and returns an
address that is not live. -/
def MallocOK {α : Type} (kdMalloc : Heap α → Ptr) : Prop :=
  ∀ m : Heap α, kdMalloc m ≠ KD_NULL ∧ m.read (kdMalloc m) = none

/-! ### Queue (threadsafe) -/

/-- The record `struct __KDQueueNode`. -/
structure __KDQueueNode where
  next : Ptr
  prev : Ptr
  value : Ptr
deriving DecidableEq

/-- The record `struct KDQueueVEN` (without its mutex). -/
structure KDQueueVEN where
  head : Ptr
  tail : Ptr
  size : Nat
deriving DecidableEq

/-- The heap of queue nodes. -/
abbrev NodeHeap := Heap __KDQueueNode

/-- The queue `kdQueueCreateVEN` returns (its argument is unused). -/
def kdQueueCreateVEN : KDQueueVEN := ⟨KD_NULL, KD_NULL, 0⟩

/-- The cached element count, `kdQueueSizeVEN`. -/
def kdQueueSizeVEN (queue : KDQueueVEN) : Nat := queue.size

/-- Link a new node in front of the head, `kdQueuePushHeadVEN`. -/
def kdQueuePushHeadVEN (kdMalloc : NodeHeap → Ptr) (m : NodeHeap) (queue : KDQueueVEN)
    (value : Ptr) : Option (NodeHeap × KDQueueVEN) :=
  let node := kdMalloc m
  if node = KD_NULL then none
  else
    let m1 := m.write node ⟨KD_NULL, KD_NULL, value⟩
    let m2 := m1.write node ⟨queue.head, KD_NULL, value⟩
    match (if queue.head ≠ KD_NULL then m2.modify queue.head (fun n => { n with prev := node })
           else some m2) with
    | none => none
    | some m3 =>
      some (m3, ⟨node, if queue.tail = KD_NULL then node else queue.tail, queue.size + 1⟩)

/-- Link a new node behind the tail, `kdQueuePushTailVEN`. -/
def kdQueuePushTailVEN (kdMalloc : NodeHeap → Ptr) (m : NodeHeap) (queue : KDQueueVEN)
    (value : Ptr) : Option (NodeHeap × KDQueueVEN) :=
  let node := kdMalloc m
  if node = KD_NULL then none
  else
    let m1 := m.write node ⟨KD_NULL, KD_NULL, value⟩
    let m2 := m1.write node ⟨KD_NULL, queue.tail, value⟩
    match (if queue.tail ≠ KD_NULL then m2.modify queue.tail (fun n => { n with next := node })
           else some m2) with
    | none => none
    | some m3 =>
      some (m3, ⟨if queue.head = KD_NULL then node else queue.head, node, queue.size + 1⟩)

/-- Unlink and free the head node and return its value, `kdQueuePopHeadVEN`;
on an empty queue the result is `KD_NULL` and nothing changes. -/
def kdQueuePopHeadVEN (m : NodeHeap) (queue : KDQueueVEN) :
    Option (NodeHeap × KDQueueVEN × Ptr) :=
  if queue.head = KD_NULL then some (m, queue, KD_NULL)
  else
    let node := queue.head
    match m.read node with
    | none => none
    | some n =>
      let head := n.next
      match (if head ≠ KD_NULL then m.modify head (fun h => { h with prev := KD_NULL })
             else some m) with
      | none => none
      | some m1 =>
        let tail := if queue.tail = node then KD_NULL else queue.tail
        match m1.read node with
        | none => none
        | some n1 => some (m1.free node, ⟨head, tail, queue.size - 1⟩, n1.value)

/-- Unlink and free the tail node and return its value, `kdQueuePopTailVEN`. -/
def kdQueuePopTailVEN (m : NodeHeap) (queue : KDQueueVEN) :
    Option (NodeHeap × KDQueueVEN × Ptr) :=
  if queue.head = KD_NULL then some (m, queue, KD_NULL)
  else
    let node := queue.tail
    match m.read node with
    | none => none
    | some n =>
      let tail := n.prev
      match (if tail ≠ KD_NULL then m.modify tail (fun t => { t with next := KD_NULL })
             else some m) with
      | none => none
      | some m1 =>
        let head := if queue.head = node then KD_NULL else queue.head
        match m1.read node with
        | none => none
        | some n1 => some (m1.free node, ⟨head, tail, queue.size - 1⟩, n1.value)

/-- Address of the first cell of a chain, `d` for the empty chain. -/
def headAddr (d : Ptr) : List (Ptr × Ptr) → Ptr
  | [] => d
  | c :: _ => c.1

/-- Address of the last cell of a chain, `d` for the empty chain. -/
def lastAddr (d : Ptr) : List (Ptr × Ptr) → Ptr
  | [] => d
  | c :: cs => lastAddr c.1 cs

/-- The cells `(address, value)` are live nodes linked in this order, the
first with `prev = p` and the last with `next = nx`. -/
def Seg (m : NodeHeap) : Ptr → List (Ptr × Ptr) → Ptr → Prop
  | _, [], _ => True
  | p, c :: cs, nx => m.read c.1 = some ⟨headAddr nx cs, p, c.2⟩ ∧ Seg m c.1 cs nx

/-- The queue `queue` in heap `m` is well formed and holds the values `L`,
head first: its nodes are distinct live cells, doubly linked from `head` to
`tail`, `head->prev` and `tail->next` are null and `size` is the length. -/
def QueueRep (m : NodeHeap) (queue : KDQueueVEN) (L : List Ptr) : Prop :=
  ∃ cells : List (Ptr × Ptr),
    cells.map Prod.snd = L ∧ (cells.map Prod.fst).Nodup ∧ Seg m KD_NULL cells KD_NULL ∧
    queue.head = headAddr KD_NULL cells ∧ queue.tail = lastAddr KD_NULL cells ∧
    queue.size = cells.length

/-- An operation of a queue client: push a value at the tail or pop the head. -/
inductive QueueOp where
  | push (value : Ptr)
  | pop
deriving DecidableEq

/-- The values pushed by a sequence of operations, in order. -/
def pushedValues : List QueueOp → List Ptr
  | [] => []
  | QueueOp.push v :: ops => v :: pushedValues ops
  | QueueOp.pop :: ops => pushedValues ops

/-- Run a sequence of `kdQueuePushTailVEN` / `kdQueuePopHeadVEN` calls.  Each
pop is logged as `(found, value)`: whether it found the queue non-empty
(`queue->head` non-null) and the value it returned. -/
def runQueueOps (kdMalloc : NodeHeap → Ptr) :
    List QueueOp → NodeHeap → KDQueueVEN → Option (List (Bool × Ptr) × NodeHeap × KDQueueVEN)
  | [], m, queue => some ([], m, queue)
  | QueueOp.push v :: ops, m, queue =>
    match kdQueuePushTailVEN kdMalloc m queue v with
    | none => none
    | some (m1, q1) => runQueueOps kdMalloc ops m1 q1
  | QueueOp.pop :: ops, m, queue =>
    match kdQueuePopHeadVEN m queue with
    | none => none
    | some (m1, q1, v) =>
      match runQueueOps kdMalloc ops m1 q1 with
      | none => none
      | some (log, r) => some ((decide (queue.head ≠ KD_NULL), v) :: log, r)

/-- The values returned by the pops that found the queue non-empty. -/
def poppedValues (log : List (Bool × Ptr)) : List Ptr :=
  (log.filter (fun o => o.1)).map Prod.snd

/-! ### Events, callbacks and the thread context -/

/-- The record `KDEvent`: timestamp, kind and user pointer (the payload union
is not read by the event loop and is left out). -/
structure KDEvent where
  timestamp : Int
  type : Int
  userptr : Ptr
deriving DecidableEq

/-- The record `struct __KDCallback`; `func` is the address of the handler. -/
structure __KDCallback where
  func : Ptr
  eventtype : Int
  eventuserptr : Ptr
deriving DecidableEq

/-- The event-loop part of `struct KDThread`.  `callbacks` lists the entries
`callbacks[0] .. callbacks[callbackindex - 1]`, so `callbackindex` is its
length. -/
structure KDThread where
  eventqueue : KDQueueVEN
  lastevent : Ptr
  lasterror : Int
  callbacks : List __KDCallback
deriving DecidableEq

/-- A reading of the host clock (`struct timespec`). -/
structure timespec where
  tv_sec : Int
  tv_nsec : Int
deriving DecidableEq

/-- The host: the allocator of queue nodes and the successive readings of
`clock_gettime(CLOCK_MONOTONIC_RAW)`. -/
structure Host where
  kdMalloc : NodeHeap → Ptr
  clock : Nat → timespec

/-- The state seen by one thread `T`: the two heaps, the context of `T`, the
log of callback invocations `(func, event)` made so far, and the number of
clock readings taken. -/
structure World where
  nodes : NodeHeap
  events : Heap KDEvent
  thread : KDThread
  calls : List (Ptr × Ptr)
  tick : Nat
deriving DecidableEq

/-- Modelled from the spec: the error kind `KD_EAGAIN` of `KD/kd.h`, which is
not among the sources; TRY_AGAIN is the fifth kind of the list in section 7. -/
def KD_EAGAIN : Int := 5

/-- Modelled from the spec: the event kind `KD_EVENT_QUIT` of `KD/kd.h`, which
is not among the sources; any non-zero kind serves. -/
def KD_EVENT_QUIT : Int := 43

/-- The context a successful `__kdThreadInit` builds: empty queue, no last
event, last error `0`, no callback. -/
def __kdThreadInit : KDThread := ⟨kdQueueCreateVEN, KD_NULL, 0, []⟩

/-- The world of a thread that has just been initialised. -/
def World.init : World := ⟨Heap.empty, Heap.empty, __kdThreadInit, [], 0⟩

/-- The unadjusted system time `kdGetTimeUST` computes from a clock reading
(the `__linux__` branch). -/
def kdGetTimeUST (ts : timespec) : Int := ts.tv_nsec

/-- Read the last error, `kdGetError`. -/
def kdGetError (w : World) : Int := w.thread.lasterror

/-- Set the last error, `kdSetError`. -/
def kdSetError (w : World) (error : Int) : World :=
  { w with thread := { w.thread with lasterror := error } }

/-- Release an event, `kdFreeEvent`. -/
def kdFreeEvent (w : World) (event : Ptr) : World :=
  { w with events := w.events.free event }

/-- Modelled from the spec: the error kind `KD_ENOMEM` of `KD/kd.h`, which is
not among the sources; OUT_OF_MEMORY is the twenty-fifth kind of the list in
section 7. -/
def KD_ENOMEM : Int := 25

/-- Allocate an event with timestamp `0`, kind `-1` and null user pointer,
`kdCreateEvent`; on allocation failure set `KD_ENOMEM` and return null. -/
def kdCreateEvent (kdMalloc : Heap KDEvent → Ptr) (w : World) : World × Ptr :=
  let event := kdMalloc w.events
  if event = KD_NULL then (kdSetError w KD_ENOMEM, KD_NULL)
  else ({ w with events := w.events.write event ⟨0, -1, KD_NULL⟩ }, event)

/-- Append `event` to the queue of `T`, stamping it first if its timestamp is
zero: `kdPostThreadEvent(event, T)`, whichever thread calls it. -/
def kdPostThreadEvent (H : Host) (w : World) (event : Ptr) : Option (World × Int) :=
  match w.events.read event with
  | none => none
  | some e =>
    let w1 : World :=
      if e.timestamp = 0 then
        { w with events := w.events.write event { e with timestamp := kdGetTimeUST (H.clock w.tick) },
                 tick := w.tick + 1 }
      else w
    match kdQueuePushTailVEN H.kdMalloc w1.nodes w1.thread.eventqueue event with
    | none => none
    | some (m, q) => some ({ w1 with nodes := m, thread := { w1.thread with eventqueue := q } }, 0)

/-- Post to the calling thread, `kdPostEvent`. -/
def kdPostEvent (H : Host) (w : World) (event : Ptr) : Option (World × Int) :=
  kdPostThreadEvent H w event

/-- The loop of `__kdExecCallback` over the entries not yet visited.  Calling
`func(event)` is logged in `calls`; the handler is taken not to touch the
queue, the callback table or the event heap. -/
def __kdExecCallback_loop (event : Ptr) : List __KDCallback → World → Option (World × Bool)
  | [], w => some (w, false)
  | cb :: cbs, w =>
    if cb.func ≠ KD_NULL then
      match w.events.read event with
      | none => none
      | some e =>
        let typematch := cb.eventtype = e.type ∨ cb.eventtype = 0
        let userptrmatch := cb.eventuserptr = e.userptr
        if typematch ∧ userptrmatch then
          some (kdFreeEvent { w with calls := w.calls ++ [(cb.func, event)] } event, true)
        else __kdExecCallback_loop event cbs w
    else __kdExecCallback_loop event cbs w

/-- Dispatch `event` to the first matching callback, `__kdExecCallback`. -/
def __kdExecCallback (w : World) (event : Ptr) : Option (World × Bool) :=
  __kdExecCallback_loop event w.thread.callbacks w

/-- The loop of `kdPumpEvents` with `n` iterations left. -/
def kdPumpEvents_loop (H : Host) : Nat → World → Option World
  | 0, w => some w
  | n + 1, w =>
    match kdQueuePopHeadVEN w.nodes w.thread.eventqueue with
    | none => none
    | some (m, q, callbackevent) =>
      let w1 : World := { w with nodes := m, thread := { w.thread with eventqueue := q } }
      if callbackevent ≠ KD_NULL then
        match __kdExecCallback w1 callbackevent with
        | none => none
        | some (w2, true) => kdPumpEvents_loop H n w2
        | some (w2, false) =>
          match kdPostEvent H w2 callbackevent with
          | none => none
          | some (w3, _) => kdPumpEvents_loop H n w3
      else kdPumpEvents_loop H n w1

/-- Pump the queue of the calling thread, `kdPumpEvents`, on a host without
window support.  The `KDuint` loop counter is compared with the size snapshot
as a natural number, that is, for queue sizes below `2^32`. -/
def kdPumpEvents (H : Host) (w : World) : Option (World × Int) :=
  let queuesize := kdQueueSizeVEN w.thread.eventqueue
  match kdPumpEvents_loop H queuesize w with
  | none => none
  | some w1 => some (w1, 0)

/-- Get the next event of the calling thread, `kdWaitEvent(timeout)`.  The
sleep for `timeout != -1` changes nothing in the modelled state. -/
def kdWaitEvent (H : Host) (w : World) (timeout : Int) : Option (World × Ptr) :=
  let lastevent := w.thread.lastevent
  let w1 := if lastevent ≠ KD_NULL then kdFreeEvent w lastevent else w
  let w2 := if timeout ≠ -1 then (w1 : World) /- after kdThreadSleepVEN(timeout) -/ else w1
  match kdPumpEvents H w2 with
  | none => none
  | some (w3, _) =>
    if kdQueueSizeVEN w3.thread.eventqueue > 0 then
      match kdQueuePopHeadVEN w3.nodes w3.thread.eventqueue with
      | none => none
      | some (m, q, lastevent) =>
        some ({ w3 with nodes := m, thread := { w3.thread with eventqueue := q } }, lastevent)
    else
      some (kdSetError w3 KD_EAGAIN, KD_NULL)

/-- The search loop of `kdInstallCallback`: replace the function of the first
entry whose kind is `eventtype` or `0` and whose user pointer is
`eventuserptr`; `none` if the loop runs to its end. -/
def kdInstallCallback_loop (func : Ptr) (eventtype : Int) (eventuserptr : Ptr) :
    List __KDCallback → Option (List __KDCallback)
  | [] => none
  | cb :: cbs =>
    let typematch := cb.eventtype = eventtype ∨ cb.eventtype = 0
    let userptrmatch := cb.eventuserptr = eventuserptr
    if typematch ∧ userptrmatch then some ({ cb with func := func } :: cbs)
    else (kdInstallCallback_loop func eventtype eventuserptr cbs).map (fun r => cb :: r)

/-- The number of entries the array `callbacks` of a thread has room for:
`__kdThreadInit` allocates it with `kdMalloc(sizeof(__KDCallback *))`, room for
one pointer, and nothing grows it. -/
def callbacksCapacity : Nat := 1

/-- The callback table after `kdInstallCallback(func, eventtype, eventuserptr)`.
When the loop runs to its end the new entry is stored at
`callbacks[callbackindex]`, unchecked: past the end of the array the store is
undefined, no result.  The allocation of the entry itself is taken to
succeed. -/
def installCallback (cbs : List __KDCallback) (func : Ptr) (eventtype : Int)
    (eventuserptr : Ptr) : Option (List __KDCallback) :=
  match kdInstallCallback_loop func eventtype eventuserptr cbs with
  | some r => some r
  | none =>
    if cbs.length < callbacksCapacity then some (cbs ++ [⟨func, eventtype, eventuserptr⟩])
    else none

/-- Install or remove a callback, `kdInstallCallback`; when it returns, it
returns `0`. -/
def kdInstallCallback (w : World) (func : Ptr) (eventtype : Int) (eventuserptr : Ptr) :
    Option (World × Int) :=
  (installCallback w.thread.callbacks func eventtype eventuserptr).map
    (fun cbs => ({ w with thread := { w.thread with callbacks := cbs } }, 0))

/-! ### Reference notions used to state the properties -/

/-- Kind and user pointer of the live event at `p`. -/
def kindAt (ev : Heap KDEvent) (p : Ptr) : Option (Int × Ptr) :=
  (ev.read p).map (fun e => (e.type, e.userptr))

/-- The matching rule in the words of the specification: a registered
callback matches an event iff its function is not null, its kind filter is
the kind of the event or the wildcard `0`, and its user pointer filter is the
user pointer of the event. -/
def callbackMatches (type : Int) (userptr : Ptr) (cb : __KDCallback) : Bool :=
  decide (cb.func ≠ KD_NULL) &&
    ((decide (cb.eventtype = type) || decide (cb.eventtype = 0)) &&
      decide (cb.eventuserptr = userptr))

/-- Reference dispatch: the first entry, in insertion order, that matches. -/
def dispatchRef (cbs : List __KDCallback) (type : Int) (userptr : Ptr) : Option __KDCallback :=
  cbs.find? (callbackMatches type userptr)

/-- Reference behaviour of `__kdExecCallback` on a live event with content
`e`: the function of the first matching entry is invoked once, the event is
consumed and the result is `1`; without a match nothing happens and the
result is `0`. -/
def execCallbackRef (w : World) (event : Ptr) (e : KDEvent) : World × Bool :=
  match dispatchRef w.thread.callbacks e.type e.userptr with
  | some cb => (kdFreeEvent { w with calls := w.calls ++ [(cb.func, event)] } event, true)
  | none => (w, false)

/-- The invocation `(func, event)` the callback table of `w` makes for the
event at `p`, if any. -/
def dispatchCall (w : World) (p : Ptr) : Option (Ptr × Ptr) :=
  match kindAt w.events p with
  | some k => (dispatchRef w.thread.callbacks k.1 k.2).map (fun cb => (cb.func, p))
  | none => none

/-- Whether the event at `p` is matched by a callback of `w`. -/
def matched (w : World) (p : Ptr) : Bool := (dispatchCall w p).isSome

/-- The invocations made for the events `S`, in order. -/
def dispatchedCalls (w : World) (S : List Ptr) : List (Ptr × Ptr) :=
  S.filterMap (dispatchCall w)

/-- The events of `S` no callback matches, in order. -/
def unmatchedEvents (w : World) (S : List Ptr) : List Ptr :=
  S.filter (fun p => !matched w p)

/-- The event queue of `T` is a well-formed linked queue holding the events
`Q`, which are distinct and live. -/
def WFW (w : World) (Q : List Ptr) : Prop :=
  QueueRep w.nodes w.thread.eventqueue Q ∧ Q.Nodup ∧ ∀ p ∈ Q, w.events.read p ≠ none

/-- The thread fields an operation leaves alone. -/
def Frame (w w' : World) : Prop :=
  w'.thread.callbacks = w.thread.callbacks ∧ w'.thread.lastevent = w.thread.lastevent ∧
    w'.thread.lasterror = w.thread.lasterror

/-- Post the events `es` to `T` one after the other with `kdPostThreadEvent`. -/
def kdPostThreadEvents (H : Host) : List Ptr → World → Option World
  | [], w => some w
  | e :: es, w =>
    match kdPostThreadEvent H w e with
    | none => none
    | some (w1, _) => kdPostThreadEvents H es w1

/-- Call `kdWaitEvent(-1)` `n` times in a row on `T`; the results in order. -/
def kdWaitEvents (H : Host) : Nat → World → Option (World × List Ptr)
  | 0, w => some (w, [])
  | n + 1, w =>
    match kdWaitEvent H w (-1) with
    | none => none
    | some (w1, ev) =>
      match kdWaitEvents H n w1 with
      | none => none
      | some (w2, evs) => some (w2, ev :: evs)

/-! ### Concrete inputs -/

/-- A host with the bump allocator and a clock that advances by one
nanosecond per reading. -/
def exampleHost : Host := ⟨Heap.bump, fun n => ⟨0, 1000 + n⟩⟩

/-- A freshly initialised thread with one callback `(func 100, kind 44, null)`
and three live events at addresses 1, 2 and 3, none of which it matches. -/
def exampleWorld : World :=
  { nodes := Heap.empty
    events := ⟨[some ⟨0, KD_EVENT_QUIT, KD_NULL⟩, some ⟨5, 7, 9⟩, some ⟨0, 44, 9⟩]⟩
    thread := { __kdThreadInit with callbacks := [⟨100, 44, KD_NULL⟩] }
    calls := []
    tick := 0 }

/-- A thread with the callbacks `(null, QUIT, null)`, `(200, wildcard, null)`
and `(300, QUIT, null)`, and the events of `exampleWorld`. -/
def exampleWorld2 : World :=
  { exampleWorld with
    thread := { __kdThreadInit with
      callbacks := [⟨KD_NULL, KD_EVENT_QUIT, KD_NULL⟩, ⟨200, 0, KD_NULL⟩,
        ⟨300, KD_EVENT_QUIT, KD_NULL⟩] } }

/-- The world `exampleWorld2` after its three events were posted in the order
1, 2, 3. -/
def exampleQueued : World :=
  (kdPostThreadEvents exampleHost [1, 2, 3] exampleWorld2).getD exampleWorld2

/-- The scenario of the overview example: a thread installs a handler (address
100) for `(KD_EVENT_QUIT, null)`, creates an event, sets its kind to
`KD_EVENT_QUIT`, posts it to itself, pumps once and then calls
`kdWaitEvent(-1)`.  The result is the log of callback invocations and the
value returned by the wait. -/
def quitScenario : Option (List (Ptr × Ptr) × Ptr) :=
  match kdInstallCallback World.init 100 KD_EVENT_QUIT KD_NULL with
  | none => none
  | some (w0, _) =>
  let (w1, event) := kdCreateEvent Heap.bump w0
  match w1.events.modify event (fun e => { e with type := KD_EVENT_QUIT }) with
  | none => none
  | some ev =>
    match kdPostEvent exampleHost { w1 with events := ev } event with
    | none => none
    | some (w2, _) =>
      match kdPumpEvents exampleHost w2 with
      | none => none
      | some (w3, _) =>
        match kdWaitEvent exampleHost w3 (-1) with
        | none => none
        | some (w4, r) => some (w4.calls, r)

/-- The callback tables a thread can reach: the empty table of
`__kdThreadInit` and whatever a `kdInstallCallback` call that returns makes of
a reachable table. -/
inductive ReachableTable : List __KDCallback → Prop where
  | init : ReachableTable []
  | install (cbs cbs1 : List __KDCallback) (func : Ptr) (eventtype : Int)
      (eventuserptr : Ptr) :
      ReachableTable cbs → installCallback cbs func eventtype eventuserptr = some cbs1 →
      ReachableTable cbs1

/-- The test `typematch && userptrmatch` of the loop of `kdInstallCallback`
for the entry `cb` and the arguments `eventtype`, `eventuserptr`. -/
def keyMatches (eventtype : Int) (eventuserptr : Ptr) (cb : __KDCallback) : Bool :=
  (decide (cb.eventtype = eventtype) || decide (cb.eventtype = 0)) &&
    decide (cb.eventuserptr = eventuserptr)

/-- No entry captures the key of a later entry: what `kdInstallCallback`
maintains. -/
def TableInv (cbs : List __KDCallback) : Prop :=
  cbs.Pairwise (fun a b => keyMatches b.eventtype b.eventuserptr a = false)

/-- The index of the entry `kdInstallCallback(_, eventtype, eventuserptr)`
writes to: the first entry passing the test of its loop, or the length of the
table if there is none (a new entry is appended there). -/
def registrationSlot (cbs : List __KDCallback) (eventtype : Int) (eventuserptr : Ptr) : Nat :=
  cbs.findIdx (keyMatches eventtype eventuserptr)

/-- The table reached by installing `(100, KD_EVENT_QUIT, null)` in the empty
table of a new thread. -/
def exampleTable : List __KDCallback :=
  (installCallback [] 100 KD_EVENT_QUIT KD_NULL).getD []

/-- A freshly initialised thread that has reached the table `exampleTable`. -/
def exampleTableWorld : World :=
  { World.init with thread := { __kdThreadInit with callbacks := exampleTable } }

/-- The table reached by installing the wildcard `(200, 0, null)` in the empty
table of a new thread. -/
def wildcardTable : List __KDCallback :=
  (installCallback [] 200 0 KD_NULL).getD []

/-- A freshly initialised thread that has reached the table `wildcardTable`,
with one live event (1) of kind 45 with a null user pointer. -/
def wildcardWorld : World :=
  { World.init with
    events := ⟨[some ⟨0, 45, KD_NULL⟩]⟩
    thread := { __kdThreadInit with callbacks := wildcardTable } }

/-- The world `exampleWorld` after its three events were posted in the order
1, 2, 3. -/
def exampleQueued1 : World :=
  (kdPostThreadEvents exampleHost [1, 2, 3] exampleWorld).getD exampleWorld

/-- A freshly initialised thread, its callback table empty, with the events of
`exampleWorld`, after the events 2 and 1 were posted in this order: the event
2, of kind 7, is ahead of the `KD_EVENT_QUIT` event 1. -/
def exampleQueued2 : World :=
  (kdPostThreadEvents exampleHost [2, 1] { exampleWorld with thread := __kdThreadInit }).getD
    World.init

/-- The world `exampleQueued2` after `kdInstallCallback(500, KD_EVENT_QUIT,
null)` followed by `kdInstallCallback(null, KD_EVENT_QUIT, null)`. -/
def exampleRemoved : Option World :=
  (kdInstallCallback exampleQueued2 500 KD_EVENT_QUIT KD_NULL).bind
    (fun r => (kdInstallCallback r.1 KD_NULL KD_EVENT_QUIT KD_NULL).map Prod.fst)

/-! ### Interleaving a poster with the event loop of `T`

Each `kdQueue*VEN` call is one atomic step (the queue mutex is held for its
whole body).  The thread `T` calls `kdPumpEvents` and `kdWaitEvent` in any
order; a second thread posts the events of `pending` one after the other.  A
schedule is a list of labels; a label that is not enabled leaves the state
unchanged. -/

/-- The values of the nodes reached from `p` in at most `n` steps along `next`. -/
def queueWalk (m : NodeHeap) : Nat → Ptr → List Ptr
  | 0, _ => []
  | n + 1, p =>
    match m.read p with
    | none => []
    | some node => node.value :: queueWalk m n node.next

/-- The values held by a queue, head first. -/
def kdQueueContents (m : NodeHeap) (queue : KDQueueVEN) : List Ptr :=
  queueWalk m queue.size queue.head

/-- Where the thread `T` stands.  `pumpPop inWait rest`: in the loop of
`kdPumpEvents`, about to call `kdQueuePopHeadVEN`, with `rest` more
iterations after this one.  `pumpDispatch inWait rest ev`: `ev` was popped,
about to run `__kdExecCallback` and, failing a match, `kdPostEvent`.
`waitSize`, `waitPop`: in `kdWaitEvent` after the pump, about to call
`kdQueueSizeVEN`, respectively `kdQueuePopHeadVEN`.  `inWait` tells whether
the pump was called by `kdWaitEvent`. -/
inductive TPC where
  | idle
  | pumpPop (inWait : Bool) (rest : Nat)
  | pumpDispatch (inWait : Bool) (rest : Nat) (callbackevent : Ptr)
  | waitSize
  | waitPop
deriving DecidableEq

/-- A scheduling choice: the poster makes its next `kdPostThreadEvent` call;
`T` calls `kdPumpEvents` or `kdWaitEvent` (up to and including the size
snapshot of the pump); `T` makes its next atomic step. -/
inductive Label where
  | post
  | pump
  | wait
  | step
deriving DecidableEq

/-- The state of the two threads: the world of `T`, where `T` stands, the
events the poster has still to post, and the values returned so far by the
`kdWaitEvent` calls of `T`, oldest first. -/
structure Sys where
  world : World
  pc : TPC
  pending : List Ptr
  returns : List Ptr
deriving DecidableEq

/-- Where `T` goes when `n` iterations of the pump loop are left. -/
def pumpNext (inWait : Bool) : Nat → TPC
  | 0 => if inWait then TPC.waitSize else TPC.idle
  | n + 1 => TPC.pumpPop inWait n

/-- One step of the interleaved system. -/
def Sys.step (H : Host) (s : Sys) : Label → Option Sys
  | Label.post =>
    match s.pending with
    | [] => some s
    | e :: es =>
      match kdPostThreadEvent H s.world e with
      | none => none
      | some (w, _) => some { s with world := w, pending := es }
  | Label.pump =>
    match s.pc with
    | TPC.idle => some { s with pc := pumpNext false (kdQueueSizeVEN s.world.thread.eventqueue) }
    | _ => some s
  | Label.wait =>
    match s.pc with
    | TPC.idle =>
      let lastevent := s.world.thread.lastevent
      let w1 := if lastevent ≠ KD_NULL then kdFreeEvent s.world lastevent else s.world
      some { s with world := w1, pc := pumpNext true (kdQueueSizeVEN w1.thread.eventqueue) }
    | _ => some s
  | Label.step =>
    match s.pc with
    | TPC.idle => some s
    | TPC.pumpPop inWait rest =>
      match kdQueuePopHeadVEN s.world.nodes s.world.thread.eventqueue with
      | none => none
      | some (m, q, callbackevent) =>
        let w1 : World :=
          { s.world with nodes := m, thread := { s.world.thread with eventqueue := q } }
        if callbackevent ≠ KD_NULL then
          some { s with world := w1, pc := TPC.pumpDispatch inWait rest callbackevent }
        else some { s with world := w1, pc := pumpNext inWait rest }
    | TPC.pumpDispatch inWait rest callbackevent =>
      match __kdExecCallback s.world callbackevent with
      | none => none
      | some (w2, true) => some { s with world := w2, pc := pumpNext inWait rest }
      | some (w2, false) =>
        match kdPostEvent H w2 callbackevent with
        | none => none
        | some (w3, _) => some { s with world := w3, pc := pumpNext inWait rest }
    | TPC.waitSize =>
      if kdQueueSizeVEN s.world.thread.eventqueue > 0 then some { s with pc := TPC.waitPop }
      else
        some { s with world := kdSetError s.world KD_EAGAIN, pc := TPC.idle,
                      returns := s.returns ++ [KD_NULL] }
    | TPC.waitPop =>
      match kdQueuePopHeadVEN s.world.nodes s.world.thread.eventqueue with
      | none => none
      | some (m, q, lastevent) =>
        some { s with
          world := { s.world with nodes := m, thread := { s.world.thread with eventqueue := q } },
          pc := TPC.idle, returns := s.returns ++ [lastevent] }

/-- Run a schedule. -/
def Sys.run (H : Host) : List Label → Sys → Option Sys
  | [], s => some s
  | l :: ls, s =>
    match s.step H l with
    | none => none
    | some s1 => Sys.run H ls s1

/-- `kdWaitEvent` has not returned `B` before `A`: `B` is not among the values
returned before the first return of `A`. -/
def NotBefore (A B : Ptr) (returns : List Ptr) : Prop :=
  B ∉ returns.takeWhile (fun r => r ≠ A)

/-- The events a running pump of `T` has snapshotted and not yet re-posted:
the event it holds, if any, and the first entries of the queue, as many as
iterations are left. -/
def pumpWindow (s : Sys) : List Ptr :=
  match s.pc with
  | TPC.pumpPop _ rest =>
    (kdQueueContents s.world.nodes s.world.thread.eventqueue).take (rest + 1)
  | TPC.pumpDispatch _ rest callbackevent =>
    callbackevent :: (kdQueueContents s.world.nodes s.world.thread.eventqueue).take rest
  | _ => []

/-- The schedule never lets the poster post its last event while `A` is in the
window of a running pump of `T`. -/
def admissible (H : Host) (A : Ptr) : List Label → Sys → Bool
  | [], _ => true
  | l :: ls, s =>
    !(decide (l = Label.post) && decide (s.pending.length = 1) && decide (A ∈ pumpWindow s)) &&
    match s.step H l with
    | none => true
    | some s1 => admissible H A ls s1

/-- The event held by `T` between a pop and the re-post, as a list. -/
def heldEvent : TPC → List Ptr
  | TPC.pumpDispatch _ _ callbackevent => [callbackevent]
  | _ => []

/-- The number of queue entries a running pump has still to pop. -/
def windowSize : TPC → Nat
  | TPC.pumpPop _ rest => rest + 1
  | TPC.pumpDispatch _ rest _ => rest
  | _ => 0

/-- The order in which `T` hands out or keeps its events when the queue holds
`Q`: the values already returned, then the entries behind the window of the
running pump, then the held event, then the window (whose entries the pump
will move behind the others). -/
def history (s : Sys) (Q : List Ptr) : List Ptr :=
  s.returns ++ (Q.drop (windowSize s.pc) ++ (heldEvent s.pc ++ Q.take (windowSize s.pc)))

/-- The occurrences of `A` and `B` in a list. -/
def occurrences (A B : Ptr) (l : List Ptr) : List Ptr :=
  l.filter (fun e => decide (e = A) || decide (e = B))

/-- What the interleaved runs maintain about the order of `A` and `B`. -/
structure HistInv (A B : Ptr) (pending hist : List Ptr) : Prop where
  pend : pending = [A, B] ∨ pending = [B] ∨ pending = []
  fresh : ∀ e ∈ pending, e ∉ hist
  posted : A ∉ pending → A ∈ hist
  order : (occurrences A B hist).head? ≠ some B

/-- What the interleaved runs maintain about the memory of `T`. -/
structure WorldInv (A B : Ptr) (s : Sys) (Q : List Ptr) : Prop where
  wf : WFW s.world Q
  lastevent : s.world.thread.lastevent = KD_NULL
  heldOk : ∀ e ∈ heldEvent s.pc, e ∉ Q ∧ s.world.events.read e ≠ none
  window : windowSize s.pc ≤ Q.length
  waitPop : s.pc = TPC.waitPop → Q ≠ []
  liveA : s.world.events.read A ≠ none
  liveB : s.world.events.read B ≠ none
  unA : matched s.world A = false
  unB : matched s.world B = false
  ne : A ≠ B

/-- The schedule of the race: post `A`; `T` pumps and pops `A`; post `B`; `T`
re-posts `A` behind `B`; then `T` calls `kdWaitEvent` twice. -/
def raceSchedule : List Label :=
  [Label.post, Label.pump, Label.step, Label.post, Label.step,
   Label.wait, Label.step, Label.step, Label.step, Label.step, Label.step, Label.step,
   Label.wait, Label.step, Label.step, Label.step, Label.step]

/-- The example thread, idle, and a poster about to post event 1 and then
event 2. -/
def raceInit : Sys := ⟨exampleWorld, TPC.idle, [1, 2], []⟩

/-- The example thread with event 3 already in its queue, idle, and a poster
about to post event 1 and then event 2. -/
def orderedInit : Sys :=
  ⟨(kdPostThreadEvents exampleHost [3] exampleWorld).getD exampleWorld, TPC.idle, [1, 2], []⟩

/-- A schedule in which both posts land while a pump of `T` is running, but
after its size snapshot, so that neither event is in its window; `T` then
calls `kdWaitEvent` twice. -/
def orderedSchedule : List Label :=
  [Label.pump, Label.post, Label.post, Label.step, Label.step, Label.wait] ++
    List.replicate 8 Label.step ++ [Label.wait] ++ List.replicate 6 Label.step

/-! ### Default event handling -/

/-- Default processing of an event, `kdDefaultEvent`.  The flag tells whether
`kdThreadExit(KD_NULL)` was called, which terminates the calling thread and
does not return; nothing else is changed. -/
def kdDefaultEvent (w : World) (event : Ptr) : Option (World × Bool) :=
  if event ≠ KD_NULL then
    match w.events.read event with
    | none => none
    | some e => if e.type = KD_EVENT_QUIT then some (w, true) else some (w, false)
  else some (w, false)

/-- How a run of a thread function ends: still in its loop when the fuel is
used up, terminated by `kdThreadExit`, or returned from the function. -/
inductive ThreadEnd where
  | running
  | exited
  | returned
deriving DecidableEq

/-- The worker of the event loop test, `test_func`, run for at most `fuel`
iterations of its loop: `kdWaitEvent(0)`, then for a non-null event
`kdDefaultEvent`, and `break` if the event was a QUIT event.  The result lists
the non-null events the waits returned, in order. -/
def test_func (H : Host) : Nat → World → Option (World × List Ptr × ThreadEnd)
  | 0, w => some (w, [], ThreadEnd.running)
  | fuel + 1, w =>
    match kdWaitEvent H w 0 with
    | none => none
    | some (w1, event) =>
      if event ≠ KD_NULL then
        match w1.events.read event with
        | none => none
        | some e =>
          let quit := decide (e.type = KD_EVENT_QUIT)
          match kdDefaultEvent w1 event with
          | none => none
          | some (w2, true) => some (w2, [event], ThreadEnd.exited)
          | some (w2, false) =>
            if quit then some (w2, [event], ThreadEnd.returned)
            else
              match test_func H fuel w2 with
              | none => none
              | some (w3, evs, r) => some (w3, event :: evs, r)
      else test_func H fuel w1

/-- A worker thread without callbacks whose queue holds, in this order, an
event of kind 7, a QUIT event and an event of kind 44 (events 1, 2, 3). -/
def exampleWorker : World :=
  (kdPostThreadEvents exampleHost [1, 2, 3]
    { nodes := Heap.empty
      events := ⟨[some ⟨5, 7, 9⟩, some ⟨0, KD_EVENT_QUIT, KD_NULL⟩, some ⟨0, 44, 9⟩]⟩
      thread := __kdThreadInit
      calls := []
      tick := 0 }).getD World.init

/-! ### The queue as a double-ended sequence -/

/-- The addresses of the nodes reached from `p` in at most `n` steps along
`next`. -/
def queueNodes (m : NodeHeap) : Nat → Ptr → List Ptr
  | 0, _ => []
  | n + 1, p =>
    match m.read p with
    | none => []
    | some node => p :: queueNodes m n node.next

/-- The invariant of the linked queue in the words of the specification, for
the abstract sequence `L`: `size` is the length of `L`; `head` is null iff
`tail` is null iff `L` is empty; the head node has no predecessor and the
tail node no successor; `next` and `prev` are mutually inverse on the nodes of
the queue; and the values read along `next` from `head` are `L`. -/
def QueueInv (m : NodeHeap) (queue : KDQueueVEN) (L : List Ptr) : Prop :=
  queue.size = L.length ∧
  (queue.head = KD_NULL ↔ L = []) ∧ (queue.tail = KD_NULL ↔ L = []) ∧
  (L ≠ [] → ∃ h t, m.read queue.head = some h ∧ h.prev = KD_NULL ∧
    m.read queue.tail = some t ∧ t.next = KD_NULL) ∧
  (∀ a ∈ queueNodes m queue.size queue.head, ∀ n, m.read a = some n →
    (n.next ≠ KD_NULL → ∃ n', m.read n.next = some n' ∧ n'.prev = a) ∧
    (n.prev ≠ KD_NULL → ∃ n', m.read n.prev = some n' ∧ n'.next = a)) ∧
  kdQueueContents m queue = L

/-- A call of the queue interface. -/
inductive DequeOp where
  | pushHead (value : Ptr)
  | pushTail (value : Ptr)
  | popHead
  | popTail
  | size
deriving DecidableEq

/-- One call of the queue interface on the linked queue; the result is the
value returned (`0` for the push operations, which return nothing). -/
def kdQueueApply (kdMalloc : NodeHeap → Ptr) (m : NodeHeap) (queue : KDQueueVEN) :
    DequeOp → Option (NodeHeap × KDQueueVEN × Nat)
  | DequeOp.pushHead v => (kdQueuePushHeadVEN kdMalloc m queue v).map (fun r => (r.1, r.2, 0))
  | DequeOp.pushTail v => (kdQueuePushTailVEN kdMalloc m queue v).map (fun r => (r.1, r.2, 0))
  | DequeOp.popHead => kdQueuePopHeadVEN m queue
  | DequeOp.popTail => kdQueuePopTailVEN m queue
  | DequeOp.size => some (m, queue, kdQueueSizeVEN queue)

/-- The same call on a double-ended sequence, in the words of the
specification: the new sequence and the value returned. -/
def dequeApply (L : List Ptr) : DequeOp → List Ptr × Nat
  | DequeOp.pushHead v => (v :: L, 0)
  | DequeOp.pushTail v => (L ++ [v], 0)
  | DequeOp.popHead => (L.tail, L.headD KD_NULL)
  | DequeOp.popTail => (L.dropLast, L.getLastD KD_NULL)
  | DequeOp.size => (L, L.length)

/-- A sequence of calls on the linked queue, with the values returned. -/
def kdQueueRun (kdMalloc : NodeHeap → Ptr) :
    List DequeOp → NodeHeap → KDQueueVEN → Option (List Nat × NodeHeap × KDQueueVEN)
  | [], m, queue => some ([], m, queue)
  | op :: ops, m, queue =>
    match kdQueueApply kdMalloc m queue op with
    | none => none
    | some (m1, q1, r) =>
      match kdQueueRun kdMalloc ops m1 q1 with
      | none => none
      | some (rs, res) => some (r :: rs, res)

/-- The same sequence of calls on a double-ended sequence. -/
def dequeRun : List DequeOp → List Ptr → List Nat × List Ptr
  | [], L => ([], L)
  | op :: ops, L =>
    let r := dequeApply L op
    let rest := dequeRun ops r.1
    (r.2 :: rest.1, rest.2)

/-! ### Timestamps -/

/-- The time in nanoseconds of a clock reading, in the words of the
specification: `tv_sec * 10^9 + tv_nsec`. -/
def nanoseconds (ts : timespec) : Int := ts.tv_sec * 1000000000 + ts.tv_nsec

/-- A host whose monotonic clock reads 0 s 999999999 ns first and 1 s 0 ns at
every later reading. -/
def secondBoundaryHost : Host :=
  ⟨Heap.bump, fun n => if n = 0 then ⟨0, 999999999⟩ else ⟨1, 0⟩⟩

/-- A thread and two unposted events with timestamp `0` (events 1 and 2). -/
def unstampedWorld : World :=
  { nodes := Heap.empty
    events := ⟨[some ⟨0, 7, KD_NULL⟩, some ⟨0, 7, KD_NULL⟩]⟩
    thread := __kdThreadInit
    calls := []
    tick := 0 }

/-- The timestamps of events 1 and 2 of `unstampedWorld` after they were
posted, in this order, on `secondBoundaryHost`. -/
def stampedAcrossSecond : Option (Option Int × Option Int) :=
  (kdPostThreadEvents secondBoundaryHost [1, 2] unstampedWorld).map
    (fun w => ((w.events.read 1).map KDEvent.timestamp, (w.events.read 2).map KDEvent.timestamp))

/-! ### Several queues in one heap -/

/-- The nodes of `queue` are exactly `cells`, as `(address, value)` pairs in
queue order: the representation `QueueRep` with the nodes made explicit. -/
def QueueCells (m : NodeHeap) (queue : KDQueueVEN) (cells : List (Ptr × Ptr)) : Prop :=
  (cells.map Prod.fst).Nodup ∧ Seg m KD_NULL cells KD_NULL ∧
  queue.head = headAddr KD_NULL cells ∧ queue.tail = lastAddr KD_NULL cells ∧
  queue.size = cells.length

/-! ### The process: threads, timers and the window

The state shared by all threads.  A thread is identified by the address of
its `KDThread` context, which is what `kdThreadSelf()` returns; every
operation takes the calling thread `self` as an argument. -/

/-- The record `__KDTimerPayload`. -/
structure __KDTimerPayload where
  interval : Int
  periodic : Int
  eventuserptr : Ptr
  destination : Ptr
deriving DecidableEq

/-- The record `struct KDTimer`. -/
structure KDTimer where
  thread : Ptr
  originthr : Ptr
  payload : Ptr
deriving DecidableEq

/-- The record `struct KDWindow`; the native handles are addresses. -/
structure KDWindow where
  nativewindow : Ptr
  nativedisplay : Ptr
  format : Int
  eventuserptr : Ptr
  originthr : Ptr
deriving DecidableEq

/-- The memory of the process: the heaps of queue nodes, events, thread
contexts, timer payloads, timers and windows, the static `__kd_window`, the
log of callback invocations and the number of clock readings taken. -/
structure Process where
  nodes : NodeHeap
  events : Heap KDEvent
  threads : Heap KDThread
  payloads : Heap __KDTimerPayload
  timers : Heap KDTimer
  windows : Heap KDWindow
  __kd_window : Ptr
  calls : List (Ptr × Ptr)
  tick : Nat
deriving DecidableEq

/-- The platform under the process: the host of the event loop, `kdMalloc`
for each kind of object, the result of `pthread_create`, and the handles
`XOpenDisplay` and `XCreateSimpleWindow` return. -/
structure Platform where
  host : Host
  mallocEvent : Heap KDEvent → Ptr
  mallocThread : Heap KDThread → Ptr
  mallocPayload : Heap __KDTimerPayload → Ptr
  mallocTimer : Heap KDTimer → Ptr
  mallocWindow : Heap KDWindow → Ptr
  pthread_create : Int
  XOpenDisplay : Ptr
  XCreateSimpleWindow : Ptr

/-- What the operations assume of the platform: every allocation succeeds
with an address that is not live, and `pthread_create` succeeds. -/
def PlatformOK (P : Platform) : Prop :=
  MallocOK P.host.kdMalloc ∧ MallocOK P.mallocEvent ∧ MallocOK P.mallocThread ∧
  MallocOK P.mallocPayload ∧ MallocOK P.mallocTimer ∧ MallocOK P.mallocWindow ∧
  P.pthread_create = 0

/-- Modelled from the spec: the error kind `KD_EINVAL` of `KD/kd.h`, which is
not among the sources; INVALID is the seventeenth kind of the list in
section 7. -/
def KD_EINVAL : Int := 17

/-- Modelled from the spec: the error kind `KD_EOPNOTSUPP` of `KD/kd.h`, which
is not among the sources; OP_UNSUPPORTED is the thirty-first kind of the list
in section 7. -/
def KD_EOPNOTSUPP : Int := 31

/-- Modelled from the spec: the error kind `KD_EPERM` of `KD/kd.h`, which is
not among the sources; PERM is the thirty-third kind of the list in
section 7. -/
def KD_EPERM : Int := 33

/-- Modelled from the spec: the event kind `KD_EVENT_TIMER` of `KD/kd.h`, which
is not among the sources; any kind other than `KD_EVENT_QUIT` serves. -/
def KD_EVENT_TIMER : Int := 42

/-- Modelled from the spec: the event kind `KD_EVENT_WINDOWPROPERTY_CHANGE` of
`KD/kd.h`, which is not among the sources; any kind serves. -/
def KD_EVENT_WINDOWPROPERTY_CHANGE : Int := 47

/-- Modelled from the spec: the timer mode `KD_TIMER_ONESHOT` of `KD/kd.h`,
which is not among the sources; the three modes are distinct. -/
def KD_TIMER_ONESHOT : Int := 61

/-- Modelled from the spec: the timer mode `KD_TIMER_PERIODIC_AVERAGE` of
`KD/kd.h`, which is not among the sources. -/
def KD_TIMER_PERIODIC_AVERAGE : Int := 62

/-- Modelled from the spec: the timer mode `KD_TIMER_PERIODIC_MINIMUM` of
`KD/kd.h`, which is not among the sources. -/
def KD_TIMER_PERIODIC_MINIMUM : Int := 63

/-- Modelled from the spec: the property name `KD_WINDOWPROPERTY_SIZE` of
`KD/kd.h`, which is not among the sources. -/
def KD_WINDOWPROPERTY_SIZE : Int := 66

/-- Modelled from the spec: the property name `KD_WINDOWPROPERTY_CAPTION` of
`KD/kd.h`, which is not among the sources. -/
def KD_WINDOWPROPERTY_CAPTION : Int := 69

/-- The state as the thread `thread` sees it through its own context. -/
def Process.world (p : Process) (thread : Ptr) : Option World :=
  (p.threads.read thread).map (fun t => ⟨p.nodes, p.events, t, p.calls, p.tick⟩)

/-- Write back what an operation on the context of `thread` left. -/
def Process.absorb (p : Process) (thread : Ptr) (w : World) : Process :=
  { p with nodes := w.nodes, events := w.events, threads := p.threads.write thread w.thread,
           calls := w.calls, tick := w.tick }

/-- Set the last error of the calling thread, `kdSetError`:
`kdThreadSelf()->lasterror = error`. -/
def Process.kdSetError (p : Process) (self : Ptr) (error : Int) : Option Process :=
  (p.threads.modify self (fun t => { t with lasterror := error })).map
    (fun ts => { p with threads := ts })

/-- Allocate an event, `kdCreateEvent`, called by `self`. -/
def Process.kdCreateEvent (P : Platform) (p : Process) (self : Ptr) : Option (Process × Ptr) :=
  let event := P.mallocEvent p.events
  if event = KD_NULL then (p.kdSetError self KD_ENOMEM).map (fun p1 => (p1, KD_NULL))
  else some ({ p with events := p.events.write event ⟨0, -1, KD_NULL⟩ }, event)

/-- Append `event` to the queue of `thread`, `kdPostThreadEvent(event, thread)`. -/
def Process.kdPostThreadEvent (P : Platform) (p : Process) (event thread : Ptr) :
    Option (Process × Int) :=
  match p.world thread with
  | none => none
  | some w =>
    match KD.kdPostThreadEvent P.host w event with
    | none => none
    | some (w1, r) => some (p.absorb thread w1, r)

/-! ### Windowing (X11 host)

The X11 calls that only talk to the display server are left out; the two
handles they return come from the platform.  The field `format`, which the
X11 branch never assigns, is held as `0`. -/

/-- Create the window, `kdCreateWindow(display, config, eventuserptr)`, called
by `self`. -/
def kdCreateWindow (P : Platform) (p : Process) (self : Ptr) (eventuserptr : Ptr) :
    Option (Process × Ptr) :=
  if p.__kd_window ≠ KD_NULL then
    (p.kdSetError self KD_EPERM).map (fun p1 => (p1, KD_NULL))
  else
    let window := P.mallocWindow p.windows
    if window = KD_NULL then (p.kdSetError self KD_ENOMEM).map (fun p1 => (p1, KD_NULL))
    else
      let record : KDWindow :=
        { nativewindow := P.XCreateSimpleWindow
          nativedisplay := P.XOpenDisplay
          format := 0
          eventuserptr := if eventuserptr = KD_NULL then window else eventuserptr
          originthr := self }
      some ({ p with windows := p.windows.write window record, __kd_window := window }, window)

/-- Destroy a window, `kdDestroyWindow(window)`, called by `self`. -/
def kdDestroyWindow (p : Process) (self : Ptr) (window : Ptr) : Option (Process × Int) :=
  match p.windows.read window with
  | none => none
  | some record =>
    if record.originthr ≠ self then (p.kdSetError self KD_EINVAL).map (fun p1 => (p1, -1))
    else some ({ p with windows := p.windows.free window, __kd_window := KD_NULL }, 0)

/-- The common body of `kdSetWindowPropertyiv` for `KD_WINDOWPROPERTY_SIZE` and
of `kdSetWindowPropertycv` for `KD_WINDOWPROPERTY_CAPTION`: the display and
window handles are read from `window`, then an event is created, its kind set
to `KD_EVENT_WINDOWPROPERTY_CHANGE`, and posted to `kdThreadSelf()`. -/
def kdSetWindowProperty_post (P : Platform) (p : Process) (self : Ptr) (window : Ptr) :
    Option (Process × Int) :=
  match p.windows.read window with
  | none => none
  | some _ =>
    match p.kdCreateEvent P self with
    | none => none
    | some (p1, event) =>
      match p1.events.modify event
          (fun e => { e with type := KD_EVENT_WINDOWPROPERTY_CHANGE }) with
      | none => none
      | some events =>
        match Process.kdPostThreadEvent P { p1 with events := events } event self with
        | none => none
        | some (p2, _) => some (p2, 0)

/-- Set an integer window property, `kdSetWindowPropertyiv(window, pname,
param)`, called by `self`. -/
def kdSetWindowPropertyiv (P : Platform) (p : Process) (self : Ptr) (window : Ptr)
    (pname : Int) : Option (Process × Int) :=
  if pname = KD_WINDOWPROPERTY_SIZE then kdSetWindowProperty_post P p self window
  else (p.kdSetError self KD_EOPNOTSUPP).map (fun p1 => (p1, -1))

/-- Set a string window property, `kdSetWindowPropertycv(window, pname,
param)`, called by `self`. -/
def kdSetWindowPropertycv (P : Platform) (p : Process) (self : Ptr) (window : Ptr)
    (pname : Int) : Option (Process × Int) :=
  if pname = KD_WINDOWPROPERTY_CAPTION then kdSetWindowProperty_post P p self window
  else (p.kdSetError self KD_EOPNOTSUPP).map (fun p1 => (p1, -1))

/-- Set a boolean window property, `kdSetWindowPropertybv`, called by `self`. -/
def kdSetWindowPropertybv (p : Process) (self : Ptr) : Option (Process × Int) :=
  (p.kdSetError self KD_EOPNOTSUPP).map (fun p1 => (p1, -1))

/-- Realize a window, `kdRealizeWindow(window, nativewindow)`, called by `self`.
The third component is what was stored through the out parameter
`nativewindow`, `none` if nothing was stored. -/
def kdRealizeWindow (p : Process) (_self : Ptr) (window : Ptr) :
    Option (Process × Int × Option Ptr) :=
  match p.windows.read window with
  | none => none
  | some record => some (p, 0, some record.nativewindow)

/-- A call of the window interface by a thread. -/
inductive WindowOp where
  | create (self : Ptr) (eventuserptr : Ptr)
  | destroy (self : Ptr) (window : Ptr)
deriving DecidableEq

/-- Run a sequence of `kdCreateWindow` and `kdDestroyWindow` calls made one
after the other by any threads; the values returned are dropped. -/
def runWindowOps (P : Platform) : List WindowOp → Process → Option Process
  | [], p => some p
  | WindowOp.create self u :: ops, p =>
    match kdCreateWindow P p self u with
    | none => none
    | some (p1, _) => runWindowOps P ops p1
  | WindowOp.destroy self window :: ops, p =>
    match kdDestroyWindow p self window with
    | none => none
    | some (p1, _) => runWindowOps P ops p1

/-- Every live window is the one `__kd_window` refers to. -/
def OneWindow (p : Process) : Prop :=
  ∀ a, p.windows.read a ≠ none → a = p.__kd_window

/-- The example platform: allocators that never reuse an address, a
`pthread_create` that succeeds, display handle 500 and window handle 600. -/
def examplePlatform : Platform :=
  ⟨exampleHost, Heap.bump, Heap.bump, Heap.bump, Heap.bump, Heap.bump, 0, 500, 600⟩

/-- A process with two freshly initialised threads, 1 and 2, and nothing else. -/
def twoThreads : Process :=
  { nodes := Heap.empty
    events := Heap.empty
    threads := ⟨[some __kdThreadInit, some __kdThreadInit]⟩
    payloads := Heap.empty
    timers := Heap.empty
    windows := Heap.empty
    __kd_window := KD_NULL
    calls := []
    tick := 0 }

/-- The process `twoThreads` after thread 1 created the window (window 1). -/
def windowOfThread1 : Process :=
  ((kdCreateWindow examplePlatform twoThreads 1 KD_NULL).map Prod.fst).getD twoThreads

/-- The events in the queue of `thread`, head first. -/
def Process.queueOf (p : Process) (thread : Ptr) : Option (List Ptr) :=
  (p.threads.read thread).map (fun t => kdQueueContents p.nodes t.eventqueue)

/-- The kinds of the events in the queue of `thread`, head first. -/
def Process.kindsOf (p : Process) (thread : Ptr) : Option (List (Option Int)) :=
  (p.queueOf thread).map (fun L => L.map (fun e => (p.events.read e).map KDEvent.type))

/-! ### Threads and timers -/

/-- Create a joinable thread, `kdThreadCreate(KD_NULL, start_routine, arg)`,
called by `self`.  The context of the new thread is the one `__kdThreadInit`
builds; where the new thread starts is kept by the caller of this function. -/
def kdThreadCreate (P : Platform) (p : Process) (self : Ptr) : Option (Process × Ptr) :=
  let thread := P.mallocThread p.threads
  if thread = KD_NULL then
    -- `__kdThreadInit` and then `kdThreadCreate` set `KD_EAGAIN`
    (p.kdSetError self KD_EAGAIN).map (fun p1 => (p1, KD_NULL))
  else
    let p1 := { p with threads := p.threads.write thread __kdThreadInit }
    if P.pthread_create ≠ 0 then
      (Process.kdSetError { p1 with threads := p1.threads.free thread } self KD_EAGAIN).map
        (fun p2 => (p2, KD_NULL))
    else some (p1, thread)

/-- Release the context of a thread, `__kdThreadFree`: the last event, if any,
and the context itself (the queue record is part of the context; the nodes
still in the queue are not released). -/
def __kdThreadFree (p : Process) (thread : Ptr) : Option Process :=
  match p.threads.read thread with
  | none => none
  | some t =>
    some { p with
      events := if t.lastevent ≠ KD_NULL then p.events.free t.lastevent else p.events,
      threads := p.threads.free thread }

/-- Set a timer, `kdSetTimer(interval, periodic, eventuserptr)`, called by
`self`.  A failed `kdAssert(0)` ends the process: no result.  The worker
thread starts in `__kdTimerHandler` with the payload as its argument. -/
def kdSetTimer (P : Platform) (p : Process) (self : Ptr) (interval : Int) (periodic : Int)
    (eventuserptr : Ptr) : Option (Process × Ptr) :=
  if periodic ≠ KD_TIMER_ONESHOT ∧ periodic ≠ KD_TIMER_PERIODIC_AVERAGE ∧
      periodic ≠ KD_TIMER_PERIODIC_MINIMUM then none
  else
    let payload := P.mallocPayload p.payloads
    if payload = KD_NULL then (p.kdSetError self KD_ENOMEM).map (fun p1 => (p1, KD_NULL))
    else
      let p1 := { p with
        payloads := p.payloads.write payload ⟨interval, periodic, eventuserptr, self⟩ }
      let timer := P.mallocTimer p1.timers
      if timer = KD_NULL then
        (Process.kdSetError { p1 with payloads := p1.payloads.free payload } self KD_ENOMEM).map
          (fun p2 => (p2, KD_NULL))
      else
        match kdThreadCreate P p1 self with
        | none => none
        | some (p2, thread) =>
          if thread = KD_NULL then
            (Process.kdSetError { p2 with payloads := p2.payloads.free payload } self
              KD_ENOMEM).map (fun p3 => (p3, KD_NULL))
          else some ({ p2 with timers := p2.timers.write timer ⟨thread, self, payload⟩ }, timer)

/-- How far `kdCancelTimer` got before its `kdPostThreadEvent`: it returned
`r`, or it created the QUIT event `event`. -/
inductive CancelStage where
  | returned (r : Int)
  | created (event : Ptr)
deriving DecidableEq

/-- The first part of `kdCancelTimer(timer)`, called by `self`: the check of
`timer->originthr`, then `kdCreateEvent` and the assignment of the kind
`KD_EVENT_QUIT`. -/
def kdCancelTimer_begin (P : Platform) (p : Process) (self : Ptr) (timer : Ptr) :
    Option (Process × CancelStage) :=
  match p.timers.read timer with
  | none => none
  | some record =>
    if record.originthr ≠ self then
      (p.kdSetError self KD_EINVAL).map (fun p1 => (p1, CancelStage.returned (-1)))
    else
      match p.kdCreateEvent P self with
      | none => none
      | some (p1, event) =>
        match p1.events.modify event (fun e => { e with type := KD_EVENT_QUIT }) with
        | none => none
        | some events => some ({ p1 with events := events }, CancelStage.created event)

/-- The second part of `kdCancelTimer`: `kdPostThreadEvent(event, timer->thread)`. -/
def kdCancelTimer_post (P : Platform) (p : Process) (timer : Ptr) (event : Ptr) :
    Option Process :=
  match p.timers.read timer with
  | none => none
  | some record => (Process.kdPostThreadEvent P p event record.thread).map Prod.fst

/-- The last part of `kdCancelTimer`, once `pthread_join` in `kdThreadJoin` has
returned with success: `__kdThreadFree(timer->thread)`, `kdFree(timer->payload)`,
`kdFree(timer)` and `return 0`. -/
def kdCancelTimer_end (p : Process) (timer : Ptr) : Option (Process × Int) :=
  match p.timers.read timer with
  | none => none
  | some record =>
    match __kdThreadFree p record.thread with
    | none => none
    | some p1 =>
      some ({ p1 with payloads := p1.payloads.free record.payload,
                      timers := p1.timers.free timer }, 0)

/-! ### A timer worker and the thread that cancels the timer

The worker runs `__kdTimerHandler(arg)`; the other thread calls
`kdCancelTimer(timer)` once.  Every step is one access to shared state (a
`kdQueue*VEN` call under the queue mutex) together with the thread-local code
around it; the steps of `kdWaitEvent(-1)` in the worker are those of
`Sys.step`.  `pthread_join` of a joinable thread returns once that thread has
terminated: the join step is enabled only when the worker is `done`.  The
pump inside `kdWaitEvent` is the one modelled above; on the X11 host that is
the whole of `kdPumpEvents` as long as no window exists (`__kd_window` is
null), and no step of this system creates one. -/

/-- Where the worker stands in `__kdTimerHandler`: at the top of the loop; about
to call `kdPostThreadEvent(timerevent, payload->destination)`; inside
`kdWaitEvent(-1)` at the given point (`TPC.idle`: about to enter); returned. -/
inductive TimerPC where
  | sleep
  | post (timerevent : Ptr)
  | wait (pc : TPC)
  | done
deriving DecidableEq

/-- Where the cancelling thread stands: it has not called `kdCancelTimer`;
about to call `kdPostThreadEvent(event, timer->thread)`; in `kdThreadJoin`;
`kdCancelTimer` returned `r`. -/
inductive CancelPC where
  | ready
  | post (event : Ptr)
  | join
  | returned (r : Int)
deriving DecidableEq

/-- What is observed of a run: the worker posted `event` to the destination;
the worker called `kdWaitEvent`; `kdWaitEvent` returned `event` to the worker
(`type` is the kind the worker reads from it, `none` for a null event); the
worker returned from `__kdTimerHandler`; `kdCancelTimer` posted the QUIT event
`event`; `pthread_join` returned; `kdCancelTimer` returned `r`. -/
inductive TimerObs where
  | posted (event : Ptr)
  | wait
  | dequeued (event : Ptr) (type : Option Int)
  | exited
  | quit (event : Ptr)
  | joined
  | returned (r : Int)
deriving DecidableEq

/-- The state of the two threads. -/
structure TimerSys where
  proc : Process
  timer : Ptr
  arg : Ptr
  worker : Ptr
  caller : Ptr
  wpc : TimerPC
  cpc : CancelPC
  trace : List TimerObs
deriving DecidableEq

/-- A scheduling choice: the worker or the cancelling thread makes its next
step. -/
inductive TimerLabel where
  | worker
  | cancel
deriving DecidableEq

/-- The worker at the top of its loop: `kdThreadSleepVEN(payload->interval)`,
`kdCreateEvent`, and the assignments of the kind and the user pointer. -/
def workerSleep (P : Platform) (s : TimerSys) : Option TimerSys :=
  match s.proc.payloads.read s.arg with
  | none => none
  | some payload =>
    match s.proc.kdCreateEvent P s.worker with
    | none => none
    | some (p1, timerevent) =>
      match p1.events.modify timerevent
          (fun e => { e with type := KD_EVENT_TIMER, userptr := payload.eventuserptr }) with
      | none => none
      | some events =>
        some { s with proc := { p1 with events := events }, wpc := TimerPC.post timerevent }

/-- The worker posts: `kdPostThreadEvent(timerevent, payload->destination)`, then
the test of `payload->periodic`. -/
def workerPost (P : Platform) (s : TimerSys) (timerevent : Ptr) : Option TimerSys :=
  match s.proc.payloads.read s.arg with
  | none => none
  | some payload =>
    match Process.kdPostThreadEvent P s.proc timerevent payload.destination with
    | none => none
    | some (p1, _) =>
      if payload.periodic = KD_TIMER_ONESHOT then
        some { s with proc := p1, wpc := TimerPC.done,
                      trace := s.trace ++ [TimerObs.posted timerevent, TimerObs.exited] }
      else
        some { s with proc := p1, wpc := TimerPC.wait TPC.idle,
                      trace := s.trace ++ [TimerObs.posted timerevent] }

/-- The worker after `kdWaitEvent(-1)` returned `event`, in the state `w` of the
worker: `break` on a QUIT event, else `kdDefaultEvent`.  The result is where the
worker goes and what is observed. -/
def workerWaited (w : World) (event : Ptr) : Option (TimerPC × List TimerObs) :=
  if event ≠ KD_NULL then
    match w.events.read event with
    | none => none
    | some e =>
      if e.type = KD_EVENT_QUIT then
        some (TimerPC.done, [TimerObs.dequeued event (some e.type), TimerObs.exited])
      else
        match kdDefaultEvent w event with
        | none => none
        | some (_, true) =>
          some (TimerPC.done, [TimerObs.dequeued event (some e.type), TimerObs.exited])
        | some (_, false) => some (TimerPC.sleep, [TimerObs.dequeued event (some e.type)])
  else some (TimerPC.sleep, [TimerObs.dequeued KD_NULL none])

/-- The worker makes one step of `kdWaitEvent(-1)` from the point `pc`. -/
def workerWait (P : Platform) (s : TimerSys) (pc : TPC) : Option TimerSys :=
  match s.proc.world s.worker with
  | none => none
  | some w =>
    match Sys.step P.host ⟨w, pc, [], []⟩ (if pc = TPC.idle then Label.wait else Label.step) with
    | none => none
    | some s1 =>
      let called := if pc = TPC.idle then [TimerObs.wait] else []
      match s1.returns with
      | [] =>
        some { s with proc := s.proc.absorb s.worker s1.world, wpc := TimerPC.wait s1.pc,
                      trace := s.trace ++ called }
      | event :: _ =>
        match workerWaited s1.world event with
        | none => none
        | some (wpc, obs) =>
          some { s with proc := s.proc.absorb s.worker s1.world, wpc := wpc,
                        trace := s.trace ++ called ++ obs }

/-- One step of the system; a thread that cannot move leaves the state as it
is. -/
def TimerSys.step (P : Platform) (s : TimerSys) : TimerLabel → Option TimerSys
  | TimerLabel.worker =>
    match s.wpc with
    | TimerPC.sleep => workerSleep P s
    | TimerPC.post timerevent => workerPost P s timerevent
    | TimerPC.wait pc => workerWait P s pc
    | TimerPC.done => some s
  | TimerLabel.cancel =>
    match s.cpc with
    | CancelPC.ready =>
      match kdCancelTimer_begin P s.proc s.caller s.timer with
      | none => none
      | some (p1, CancelStage.returned r) =>
        some { s with proc := p1, cpc := CancelPC.returned r,
                      trace := s.trace ++ [TimerObs.returned r] }
      | some (p1, CancelStage.created event) =>
        some { s with proc := p1, cpc := CancelPC.post event }
    | CancelPC.post event =>
      match kdCancelTimer_post P s.proc s.timer event with
      | none => none
      | some p1 =>
        some { s with proc := p1, cpc := CancelPC.join, trace := s.trace ++ [TimerObs.quit event] }
    | CancelPC.join =>
      match s.proc.timers.read s.timer with
      | none => none
      | some record =>
        if record.thread ≠ s.worker then none
        else if s.wpc = TimerPC.done then
          match kdCancelTimer_end s.proc s.timer with
          | none => none
          | some (p1, r) =>
            some { s with proc := p1, cpc := CancelPC.returned r,
                          trace := s.trace ++ [TimerObs.joined, TimerObs.returned r] }
        else some s
    | CancelPC.returned _ => some s

/-- Run a schedule. -/
def TimerSys.run (P : Platform) : List TimerLabel → TimerSys → Option TimerSys
  | [], s => some s
  | l :: ls, s =>
    match s.step P l with
    | none => none
    | some s1 => TimerSys.run P ls s1

/-- The system right after `self` called `kdSetTimer(interval, periodic,
eventuserptr)` with success; `self` is the thread that will call
`kdCancelTimer`. -/
def TimerSys.start (P : Platform) (p : Process) (self : Ptr) (interval : Int) (periodic : Int)
    (eventuserptr : Ptr) : Option TimerSys :=
  match kdSetTimer P p self interval periodic eventuserptr with
  | none => none
  | some (p1, timer) =>
    match p1.timers.read timer with
    | none => none
    | some record =>
      some ⟨p1, timer, record.payload, record.thread, self, TimerPC.sleep, CancelPC.ready, []⟩

/-- The events the worker posted, in order. -/
def postedOf : List TimerObs → List Ptr
  | [] => []
  | TimerObs.posted event :: tr => event :: postedOf tr
  | _ :: tr => postedOf tr

/-- The worker dequeued a QUIT event, or `kdCancelTimer` returned. -/
def stopped : List TimerObs → Bool
  | [] => false
  | TimerObs.dequeued _ type :: tr => decide (type = some KD_EVENT_QUIT) || stopped tr
  | TimerObs.returned _ :: _ => true
  | _ :: tr => stopped tr

/-- No event is posted by the worker after it dequeued a QUIT event, nor
after `kdCancelTimer` returned. -/
def ordered : List TimerObs → Bool
  | [] => true
  | TimerObs.dequeued _ type :: tr =>
    if type = some KD_EVENT_QUIT then (postedOf tr).isEmpty else ordered tr
  | TimerObs.returned _ :: tr => (postedOf tr).isEmpty
  | _ :: tr => ordered tr

/-- The event the worker holds outside its queue, between the pop and the
push of the pump. -/
def heldOf : TimerPC → List Ptr
  | TimerPC.wait (TPC.pumpDispatch _ _ callbackevent) => [callbackevent]
  | _ => []

/-- What the worker itself did, in order. -/
def workerTrace (tr : List TimerObs) : List TimerObs :=
  tr.filter (fun o =>
    match o with
    | TimerObs.posted _ => true
    | TimerObs.wait => true
    | TimerObs.dequeued _ _ => true
    | TimerObs.exited => true
    | _ => false)

/-- The contexts of the two threads and the nodes of their queues. -/
structure TimerGhost where
  tc : KDThread
  tw : KDThread
  cellsC : List (Ptr × Ptr)
  cellsW : List (Ptr × Ptr)

/-- What holds of a one-shot timer at every point of a run. -/
def OneShotOK (s : TimerSys) : Prop :=
  match s.wpc with
  | TimerPC.sleep => workerTrace s.trace = []
  | TimerPC.post _ => workerTrace s.trace = []
  | TimerPC.wait _ => False
  | TimerPC.done => ∃ event, workerTrace s.trace = [TimerObs.posted event, TimerObs.exited]

/-- What holds of the worker at each point of its code: the event about to be
posted is a TIMER event with the user pointer of the timer, and the pump of
`kdWaitEvent` runs for a size snapshot of at most one. -/
def WorkerOK (u : Ptr) (s : TimerSys) : Prop :=
  match s.wpc with
  | TimerPC.post timerevent => kindAt s.proc.events timerevent = some (KD_EVENT_TIMER, u)
  | TimerPC.wait (TPC.pumpPop inWait rest) => inWait = true ∧ rest = 0
  | TimerPC.wait (TPC.pumpDispatch inWait rest _) => inWait = true ∧ rest = 0
  | _ => True

/-- What holds of the cancelling thread at each point of `kdCancelTimer`. -/
def CancelOK (s : TimerSys) : Prop :=
  match s.cpc with
  | CancelPC.ready => stopped s.trace = false
  | CancelPC.post event =>
    stopped s.trace = false ∧ kindAt s.proc.events event = some (KD_EVENT_QUIT, KD_NULL)
  | CancelPC.join => ∃ event, TimerObs.quit event ∈ s.trace
  | CancelPC.returned _ => False

/-- The invariant of the system while `kdCancelTimer` has not returned, for a
timer set with `(interval, mode, u)` by a thread whose queue held `L0`. -/
structure TimerLive (L0 : List Ptr) (interval mode : Int) (u : Ptr) (s : TimerSys)
    (g : TimerGhost) : Prop where
  ne : s.worker ≠ s.caller
  nowin : s.proc.__kd_window = KD_NULL
  hc : s.proc.threads.read s.caller = some g.tc
  hw : s.proc.threads.read s.worker = some g.tw
  hcb : g.tw.callbacks = []
  hle : g.tw.lastevent = KD_NULL
  qc : QueueCells s.proc.nodes g.tc.eventqueue g.cellsC
  qw : QueueCells s.proc.nodes g.tw.eventqueue g.cellsW
  disj : ∀ a ∈ g.cellsW.map Prod.fst, a ∉ g.cellsC.map Prod.fst
  vc : g.cellsC.map Prod.snd = L0 ++ postedOf s.trace
  kinds : ∀ event ∈ postedOf s.trace, kindAt s.proc.events event = some (KD_EVENT_TIMER, u)
  wqk : ∀ event ∈ g.cellsW.map Prod.snd ++ heldOf s.wpc,
    kindAt s.proc.events event = some (KD_EVENT_QUIT, KD_NULL)
  wql : (g.cellsW.map Prod.snd ++ heldOf s.wpc).length =
    if s.cpc = CancelPC.join ∧ stopped s.trace = false then 1 else 0
  pl : s.proc.payloads.read s.arg = some ⟨interval, mode, u, s.caller⟩
  tm : s.proc.timers.read s.timer = some ⟨s.worker, s.caller, s.arg⟩
  wok : WorkerOK u s
  cok : CancelOK s
  ord : ordered s.trace = true
  stop : stopped s.trace = true → s.wpc = TimerPC.done
  one : mode = KD_TIMER_ONESHOT → OneShotOK s

/-- The invariant of the system once `kdCancelTimer` has returned. -/
structure TimerDone (L0 : List Ptr) (mode : Int) (u : Ptr) (s : TimerSys) : Prop where
  cpc : s.cpc = CancelPC.returned 0
  nowin : s.proc.__kd_window = KD_NULL
  wpc : s.wpc = TimerPC.done
  qc : ∃ tc cellsC, s.proc.threads.read s.caller = some tc ∧
    QueueCells s.proc.nodes tc.eventqueue cellsC ∧ cellsC.map Prod.snd = L0 ++ postedOf s.trace
  kinds : ∀ event ∈ postedOf s.trace, kindAt s.proc.events event = some (KD_EVENT_TIMER, u)
  quit : ∃ event, TimerObs.quit event ∈ s.trace
  freed : s.proc.threads.read s.worker = none ∧ s.proc.timers.read s.timer = none ∧
    s.proc.payloads.read s.arg = none
  ord : ordered s.trace = true
  one : mode = KD_TIMER_ONESHOT → OneShotOK s

/-- The invariant of the system. -/
def TimerInv (L0 : List Ptr) (interval mode : Int) (u : Ptr) (s : TimerSys) : Prop :=
  (∃ g, TimerLive L0 interval mode u s g) ∨ TimerDone L0 mode u s

/-- The number of steps the worker needs at most to return once the QUIT
event is in its queue. -/
def workerDistance : TimerPC → Nat
  | TimerPC.sleep => 7
  | TimerPC.post _ => 6
  | TimerPC.wait TPC.idle => 5
  | TimerPC.wait (TPC.pumpPop _ _) => 4
  | TimerPC.wait (TPC.pumpDispatch _ _ _) => 3
  | TimerPC.wait TPC.waitSize => 2
  | TimerPC.wait TPC.waitPop => 1
  | TimerPC.done => 0

/-- A schedule that lets `kdCancelTimer` return from any point of a run: the
cancelling thread moves up to its join, the worker runs until it returns, and
the join completes. -/
def finishSchedule : List TimerLabel :=
  [TimerLabel.cancel, TimerLabel.cancel] ++ List.replicate 7 TimerLabel.worker ++
    [TimerLabel.cancel]

/-- What holds of the point the worker reaches by a step of `kdWaitEvent`: it
is not about to post, and the pump runs for a size snapshot of at most one. -/
def PumpOK : TimerPC → Prop
  | TimerPC.post _ => False
  | TimerPC.wait (TPC.pumpPop inWait rest) => inWait = true ∧ rest = 0
  | TimerPC.wait (TPC.pumpDispatch inWait rest _) => inWait = true ∧ rest = 0
  | _ => True

/-- Thread 1 of `twoThreads` sets a one-shot timer with interval 1000 and user
pointer 77; the worker is thread 3. -/
def oneshotExample : Option TimerSys :=
  TimerSys.start examplePlatform twoThreads 1 1000 KD_TIMER_ONESHOT 77

/-- Thread 1 of `twoThreads` sets a periodic timer with interval 1000 and user
pointer 77; the worker is thread 3. -/
def periodicExample : Option TimerSys :=
  TimerSys.start examplePlatform twoThreads 1 1000 KD_TIMER_PERIODIC_AVERAGE 77

/-- A schedule for `periodicExample`: the worker runs two rounds of its loop,
the creator calls `kdCancelTimer` and reaches its join, the worker runs a
third round in which it dequeues the QUIT event, and the join completes. -/
def cancelSchedule : List TimerLabel :=
  List.replicate 8 TimerLabel.worker ++ List.replicate 3 TimerLabel.cancel ++
    List.replicate 8 TimerLabel.worker ++ [TimerLabel.cancel, TimerLabel.worker]

/-! ### The last error of each thread -/

/-- Read the last error, `kdGetError`, called by the thread `self`:
`kdThreadSelf()->lasterror`. -/
def Process.kdGetError (p : Process) (self : Ptr) : Option Int :=
  (p.threads.read self).map KDThread.lasterror

/-! ### Detaching a thread (POSIX backend) -/

/-- The detach state a `pthread_attr_t` or a native thread holds. -/
inductive DetachState where
  | PTHREAD_CREATE_JOINABLE
  | PTHREAD_CREATE_DETACHED
deriving DecidableEq, Repr

/-- Modelled from the spec: `KD_THREAD_CREATE_JOINABLE` of `KD/kd.h`, which is
not among the sources; the value is the one of OpenKODE 1.0. -/
def KD_THREAD_CREATE_JOINABLE : Int := 0

/-- Modelled from the spec: `KD_THREAD_CREATE_DETACHED` of `KD/kd.h`, which is
not among the sources; the value is the one of OpenKODE 1.0. -/
def KD_THREAD_CREATE_DETACHED : Int := 1

/-- The record `struct KDThreadAttr` without the debug name. -/
structure KDThreadAttr where
  nativeattr : DetachState
  detachstate : Int
  stacksize : Nat
deriving DecidableEq, Repr

/-- The fields `nativethread` and `attr` of `struct KDThread`, the ones that
creating and detaching a thread use.  A native thread is named by its index
in the table of the host. -/
structure KDThreadNative where
  nativethread : Nat
  attr : Ptr
deriving DecidableEq, Repr

/-- The threads of a process on the POSIX backend, seen by one calling thread:
the attribute objects, the thread contexts, the detach state of every native
thread of the host, the native threads `pthread_detach` was called on, in
order, and the last error of the caller. -/
structure PosixThreads where
  attrs : Heap KDThreadAttr
  contexts : Heap KDThreadNative
  native : List DetachState
  detachCalls : List Nat
  lasterror : Int
deriving DecidableEq

/-- The host call `pthread_detach(thread)`: a joinable thread becomes detached
and the result is 0; for a thread that is already detached the result is
`EINVAL` (22), for no thread `ESRCH` (3). -/
def PosixThreads.pthread_detach (s : PosixThreads) (thread : Nat) : PosixThreads × Int :=
  let s1 := { s with detachCalls := s.detachCalls ++ [thread] }
  match s.native[thread]? with
  | some DetachState.PTHREAD_CREATE_JOINABLE =>
    ({ s1 with native := s.native.set thread DetachState.PTHREAD_CREATE_DETACHED }, 0)
  | some DetachState.PTHREAD_CREATE_DETACHED => (s1, 22)
  | none => (s1, 3)

/-- The host call `pthread_create(&nativethread, attr, ...)` when it succeeds:
the new native thread has the detach state of `attr`, joinable without one. -/
def PosixThreads.pthread_create (s : PosixThreads) (attr : Option DetachState) :
    PosixThreads × Nat :=
  ({ s with native := s.native ++ [attr.getD DetachState.PTHREAD_CREATE_JOINABLE] },
    s.native.length)

/-- Create an attribute object, `kdThreadAttrCreate`. -/
def PosixThreads.kdThreadAttrCreate (kdMalloc : Heap KDThreadAttr → Ptr) (s : PosixThreads) :
    PosixThreads × Ptr :=
  let attr := kdMalloc s.attrs
  if attr = KD_NULL then ({ s with lasterror := KD_ENOMEM }, KD_NULL)
  else
    let a : KDThreadAttr :=
      ⟨DetachState.PTHREAD_CREATE_JOINABLE, KD_THREAD_CREATE_JOINABLE, 100000⟩
    ({ s with attrs := s.attrs.write attr a }, attr)

/-- Set the detach state of an attribute object, `kdThreadAttrSetDetachState`.
Writing through a pointer that is not live is undefined: no result. -/
def PosixThreads.kdThreadAttrSetDetachState (s : PosixThreads) (attr : Ptr) (detachstate : Int) :
    Option (PosixThreads × Int) :=
  if detachstate = KD_THREAD_CREATE_JOINABLE then
    (s.attrs.modify attr (fun a =>
      { a with nativeattr := DetachState.PTHREAD_CREATE_JOINABLE, detachstate := detachstate })).map
      (fun h => ({ s with attrs := h }, 0))
  else if detachstate = KD_THREAD_CREATE_DETACHED then
    (s.attrs.modify attr (fun a =>
      { a with nativeattr := DetachState.PTHREAD_CREATE_DETACHED, detachstate := detachstate })).map
      (fun h => ({ s with attrs := h }, 0))
  else some ({ s with lasterror := KD_EINVAL }, -1)

/-- Detach a thread, `kdThreadDetach(thread)` under `KD_THREAD_POSIX`.
`pthread_attr_getdetachstate(&thread->attr->nativeattr, &detachstate)` reads
the attribute object of the thread: through a null or dangling `attr` the read
is undefined, no result; otherwise it stores the state and returns 0. -/
def PosixThreads.kdThreadDetach (s : PosixThreads) (thread : Ptr) : Option (PosixThreads × Int) :=
  match s.contexts.read thread with
  | none => none
  | some t =>
    match s.attrs.read t.attr with
    | none => none
    | some a =>
      let detachstate := a.nativeattr
      let error : Int := 0
      let r :=
        if error = 0 ∧ detachstate = DetachState.PTHREAD_CREATE_DETACHED then
          s.pthread_detach t.nativethread
        else (s, error)
      if r.2 ≠ 0 then some ({ r.1 with lasterror := KD_EINVAL }, -1)
      else some (r.1, 0)

/-- Create a thread, `kdThreadCreate(attr, start_routine, arg)` under
`KD_THREAD_POSIX`; `error` is the result of `pthread_create`.  The context is
the part of `__kdThreadInit` and of the assignments after it that detaching
uses; `__kdThreadFree` releases it. -/
def PosixThreads.kdThreadCreate (kdMalloc : Heap KDThreadNative → Ptr) (error : Int)
    (s : PosixThreads) (attr : Ptr) : Option (PosixThreads × Ptr) :=
  let thread := kdMalloc s.contexts
  if thread = KD_NULL then some ({ s with lasterror := KD_EAGAIN }, KD_NULL)
  else
    match (if attr ≠ KD_NULL then (s.attrs.read attr).map some else some none) with
    | none => none
    | some a =>
      if error ≠ 0 then some ({ s with lasterror := KD_EAGAIN }, KD_NULL)
      else
        let r := s.pthread_create (a.map KDThreadAttr.nativeattr)
        let s1 := { r.1 with contexts := r.1.contexts.write thread ⟨r.2, attr⟩ }
        if attr ≠ KD_NULL ∧ a.map KDThreadAttr.detachstate = some KD_THREAD_CREATE_DETACHED then
          (s1.kdThreadDetach thread).map
            (fun d => ({ d.1 with contexts := d.1.contexts.free thread }, KD_NULL))
        else some (s1, thread)

/-- No attribute objects, no threads. -/
def PosixThreads.init : PosixThreads := ⟨Heap.empty, Heap.empty, [], [], 0⟩

/-- One default attribute object (1), as `kdThreadAttrCreate` leaves it. -/
def joinableAttr : PosixThreads :=
  (PosixThreads.kdThreadAttrCreate Heap.bump PosixThreads.init).1

/-! ### Host errors and their translation -/

/-- Modelled from the spec: the error kind `KD_EACCES` of `KD/kd.h`, which is
not among the sources; ACCESS is the first kind of the list in section 7. -/
def KD_EACCES : Int := 1

/-- Modelled from the spec: the error kind `KD_EBADF` of `KD/kd.h`, which is
not among the sources; BAD_FILE is the seventh kind of the list in section 7. -/
def KD_EBADF : Int := 7

/-- Modelled from the spec: the error kind `KD_EBUSY` of `KD/kd.h`, which is
not among the sources; BUSY is the eighth kind of the list in section 7. -/
def KD_EBUSY : Int := 8

/-- Modelled from the spec: the error kind `KD_EEXIST` of `KD/kd.h`, which is
not among the sources; EXISTS is the thirteenth kind of the list in section 7. -/
def KD_EEXIST : Int := 13

/-- Modelled from the spec: the error kind `KD_EFBIG` of `KD/kd.h`, which is
not among the sources; FILE_TOO_LARGE is the fourteenth kind of the list in section 7. -/
def KD_EFBIG : Int := 14

/-- Modelled from the spec: the error kind `KD_EIO` of `KD/kd.h`, which is
not among the sources; IO is the eighteenth kind of the list in section 7. -/
def KD_EIO : Int := 18

/-- Modelled from the spec: the error kind `KD_EMFILE` of `KD/kd.h`, which is
not among the sources; MFILE is the twenty-second kind of the list in section 7. -/
def KD_EMFILE : Int := 22

/-- Modelled from the spec: the error kind `KD_ENAMETOOLONG` of `KD/kd.h`, which is
not among the sources; NAME_TOO_LONG is the twenty-third kind of the list in section 7. -/
def KD_ENAMETOOLONG : Int := 23

/-- Modelled from the spec: the error kind `KD_ENOENT` of `KD/kd.h`, which is
not among the sources; NOENT is the twenty-fourth kind of the list in section 7. -/
def KD_ENOENT : Int := 24

/-- Modelled from the spec: the error kind `KD_ENOSPC` of `KD/kd.h`, which is
not among the sources; NO_SPACE is the twenty-sixth kind of the list in section 7. -/
def KD_ENOSPC : Int := 26

/-- Modelled from the spec: the error kind `KD_EOVERFLOW` of `KD/kd.h`, which is
not among the sources; OVERFLOW is the thirty-second kind of the list in section 7. -/
def KD_EOVERFLOW : Int := 32

/-- Modelled from the spec: the error kind `KD_ETRY_AGAIN` of `KD/kd.h`, which
is not among the sources; RETRY is the last kind of the list in section 7 and
the kinds are numbered up to 37 (`KD errors are 1 to 37` in
`kdSetErrorPlatformVEN`). -/
def KD_ETRY_AGAIN : Int := 37

/-- The host error numbers of `errno.h` that `kdSetErrorPlatformVEN` names,
and every other value of `errno`. -/
inductive Errno where
  | EACCES | EROFS | EISDIR | EBADF | EBUSY | EEXIST | ENOTEMPTY | EFBIG | EINVAL | EIO
  | EMFILE | ENFILE | ENAMETOOLONG | ENOENT | ENOTDIR | ENOMEM | ENOSPC | EOVERFLOW
  | other (code : Nat)
deriving DecidableEq, Repr

/-- The `switch` of `kdSetErrorPlatformVEN` (the branch that is not `_WIN32`):
the kind a host error is translated to; the `default` label is `kdAssert(0)`,
which ends the process: no result. -/
def kdSetErrorPlatformVEN_switch : Errno → Option Int
  | Errno.EACCES | Errno.EROFS | Errno.EISDIR => some KD_EACCES
  | Errno.EBADF => some KD_EBADF
  | Errno.EBUSY => some KD_EBUSY
  | Errno.EEXIST | Errno.ENOTEMPTY => some KD_EEXIST
  | Errno.EFBIG => some KD_EFBIG
  | Errno.EINVAL => some KD_EINVAL
  | Errno.EIO => some KD_EIO
  | Errno.EMFILE | Errno.ENFILE => some KD_EMFILE
  | Errno.ENAMETOOLONG => some KD_ENAMETOOLONG
  | Errno.ENOENT | Errno.ENOTDIR => some KD_ENOENT
  | Errno.ENOMEM => some KD_ENOMEM
  | Errno.ENOSPC => some KD_ENOSPC
  | Errno.EOVERFLOW => some KD_EOVERFLOW
  | Errno.other _ => none

/-- The loop of `kdSetErrorPlatformVEN`,
`for(i = KD_EACCES; i <= KD_ETRY_AGAIN; i++) if(kderror == (allowed & i))`:
whether some `i` passes the test. -/
def kdSetErrorPlatformVEN_loop (kderror allowed : Int) : Bool :=
  (List.range (KD_ETRY_AGAIN - KD_EACCES + 1).toNat).any
    (fun j => decide (kderror = Int.land allowed (KD_EACCES + (j : Int))))

/-- Set the last error from a host error, `kdSetErrorPlatformVEN(error,
allowed)`.  Both `kdAssert(0)`, the one of the `switch` and the one after the
loop, end the process: no result. -/
def kdSetErrorPlatformVEN (w : World) (error : Errno) (allowed : Int) : Option World :=
  match kdSetErrorPlatformVEN_switch error with
  | none => none
  | some kderror =>
    if kdSetErrorPlatformVEN_loop kderror allowed then some (kdSetError w kderror)
    else none

/-- The value `a | b | ...` of the kinds of a list, the way the callers of
`kdSetErrorPlatformVEN` build `allowed`. -/
def allowedOf (S : List Int) : Int := S.foldl Int.lor 0

/-- Rename a file, `kdRename(src, dest)`; `retval` and `errno` are what the
host call `rename(src, dest)` returns and leaves in `errno`. -/
def kdRename (w : World) (retval : Int) (errno : Errno) : Option (World × Int) :=
  if retval = -1 then
    (kdSetErrorPlatformVEN w errno
      (allowedOf [KD_EACCES, KD_EBUSY, KD_EEXIST, KD_EINVAL, KD_EIO, KD_ENAMETOOLONG,
        KD_ENOENT, KD_ENOMEM])).map (fun w1 => (w1, -1))
  else some (w, 0)

/-! ### Sleeping -/

/-- The conversion `(KDint32)x` and the result of a 32-bit signed operation
whose exact value is `x`: the value modulo `2^32` in two's complement. -/
def toKDint32 (x : Int) : Int := (x + 2 ^ 31) % 2 ^ 32 - 2 ^ 31

/-- The `timespec` that `kdThreadSleepVEN(timeout)` hands to the host sleep
(`thrd_sleep` under `KD_THREAD_C11`, `nanosleep` under `KD_THREAD_POSIX`).
`/` and `%` of C truncate towards zero; `time_t` and `long` are 64 bits wide,
so only the `(KDint32)` casts and the two 32-bit operations of the line
`ts.tv_nsec = (KDint32)timeout - ((KDint32)ts.tv_sec * 1000000000)` reduce a
value. -/
def kdThreadSleepVEN (timeout : Int) : timespec :=
  let tv_sec :=
    if Int.tmod timeout 1000000000 = 0 then Int.tdiv timeout 1000000000
    else Int.tdiv (timeout - Int.tmod timeout 1000000000) 1000000000
  let tv_nsec :=
    toKDint32 (toKDint32 timeout - toKDint32 (toKDint32 tv_sec * 1000000000))
  ⟨tv_sec, tv_nsec⟩

/-- The calls of the host sleep that `kdWaitEvent(timeout)` makes, between
freeing the last event and `kdPumpEvents`: `kdThreadSleepVEN(timeout)` unless
`timeout` is `-1`. -/
def kdWaitEvent_sleep (timeout : Int) : List timespec :=
  if timeout ≠ -1 then [kdThreadSleepVEN timeout] else []

/-- The world `exampleTableWorld` with one live event (1) of kind 45 with a
null user pointer. -/
def exampleTableEvent : World :=
  { exampleTableWorld with events := ⟨[some ⟨0, 45, KD_NULL⟩]⟩ }

/-! ### Atomics -/

/-- The backends of the atomic operations, one per `KD_ATOMIC_*` macro. -/
inductive AtomicBackend where
  | KD_ATOMIC_C11
  | KD_ATOMIC_WIN32
  | KD_ATOMIC_BUILTIN
  | KD_ATOMIC_SYNC
  | KD_ATOMIC_MUTEX
deriving DecidableEq, Repr

/-- The record `struct KDAtomicIntVEN`, its `value` (the mutex of the
`KD_ATOMIC_MUTEX` backend is held for the whole operation). -/
structure KDAtomicIntVEN where
  value : Int
deriving DecidableEq, Repr

/-- The host operation `atomic_fetch_add` of C11: the object after the call and
the result, which is the value held before. -/
def atomic_fetch_add (object value : Int) : Int × Int := (toKDint32 (object + value), object)

/-- The host operation `atomic_fetch_sub` of C11. -/
def atomic_fetch_sub (object value : Int) : Int × Int := (toKDint32 (object - value), object)

/-- The host operation `_InterlockedExchangeAdd`: the result is the initial
value. -/
def _InterlockedExchangeAdd (object value : Int) : Int × Int :=
  (toKDint32 (object + value), object)

/-- The compiler builtin `__atomic_add_fetch`: the result is the value after
the addition. -/
def __atomic_add_fetch (object value : Int) : Int × Int :=
  (toKDint32 (object + value), toKDint32 (object + value))

/-- The compiler builtin `__atomic_sub_fetch`: the result is the value after
the subtraction. -/
def __atomic_sub_fetch (object value : Int) : Int × Int :=
  (toKDint32 (object - value), toKDint32 (object - value))

/-- The compiler builtin `__sync_fetch_and_add`: the result is the value held
before. -/
def __sync_fetch_and_add (object value : Int) : Int × Int :=
  (toKDint32 (object + value), object)

/-- The compiler builtin `__sync_fetch_and_sub`. -/
def __sync_fetch_and_sub (object value : Int) : Int × Int :=
  (toKDint32 (object - value), object)

/-- Add to an atomic integer, `kdAtomicIntFetchAddVEN(object, value)`, under
each backend: the object after the call and the result. -/
def kdAtomicIntFetchAddVEN (b : AtomicBackend) (object : KDAtomicIntVEN) (value : Int) :
    KDAtomicIntVEN × Int :=
  match b with
  | AtomicBackend.KD_ATOMIC_C11 =>
    let r := atomic_fetch_add object.value value
    (⟨r.1⟩, r.2)
  | AtomicBackend.KD_ATOMIC_WIN32 =>
    let r := _InterlockedExchangeAdd object.value value
    (⟨r.1⟩, r.2)
  | AtomicBackend.KD_ATOMIC_BUILTIN =>
    let r := __atomic_add_fetch object.value value
    (⟨r.1⟩, r.2)
  | AtomicBackend.KD_ATOMIC_SYNC =>
    let r := __sync_fetch_and_add object.value value
    (⟨r.1⟩, r.2)
  | AtomicBackend.KD_ATOMIC_MUTEX =>
    let retval := object.value
    (⟨toKDint32 (object.value + value)⟩, retval)

/-- Subtract from an atomic integer, `kdAtomicIntFetchSubVEN(object, value)`,
under each backend: the object after the call and the result. -/
def kdAtomicIntFetchSubVEN (b : AtomicBackend) (object : KDAtomicIntVEN) (value : Int) :
    KDAtomicIntVEN × Int :=
  match b with
  | AtomicBackend.KD_ATOMIC_C11 =>
    let r := atomic_fetch_sub object.value value
    (⟨r.1⟩, r.2)
  | AtomicBackend.KD_ATOMIC_WIN32 =>
    let r := _InterlockedExchangeAdd object.value (toKDint32 (-value))
    (⟨r.1⟩, r.2)
  | AtomicBackend.KD_ATOMIC_BUILTIN =>
    let r := __atomic_sub_fetch object.value value
    (⟨r.1⟩, r.2)
  | AtomicBackend.KD_ATOMIC_SYNC =>
    let r := __sync_fetch_and_sub object.value value
    (⟨r.1⟩, r.2)
  | AtomicBackend.KD_ATOMIC_MUTEX =>
    let retval := object.value
    (⟨toKDint32 (object.value - value)⟩, retval)

/-! ### Integers and their text -/

/-- Modelled from the spec: `KDINT_MAX` of `KD/kdplatform.h`, which is not
among the sources; `KDint` is a 32-bit integer. -/
def KDINT_MAX : Int := 2147483647

/-- Modelled from the spec: `KDINT_MIN` of `KD/kdplatform.h`, which is not
among the sources; `KDint` is a 32-bit integer. -/
def KDINT_MIN : Int := -2147483648

/-- Modelled from the spec: the error kind `KD_ERANGE` of `KD/kd.h`, which is
not among the sources; the value is the one of OpenKODE 1.0. -/
def KD_ERANGE : Int := 35

/-- The conversion `(KDuint8)c`. -/
def toKDuint8 (c : Int) : Int := c % 256

/-- The test `__kdIsalpha`. -/
def __kdIsalpha (c : Int) : Bool :=
  (decide (c ≥ 97) && decide (c ≤ 122)) || (decide (c ≥ 65) && decide (c ≤ 90))

/-- The test `__kdIsdigit`. -/
def __kdIsdigit (c : Int) : Bool := decide (c ≥ 48) && decide (c ≤ 57)

/-- The test `__kdIsspace`. -/
def __kdIsspace (c : Int) : Bool := (decide (c ≥ 9) && decide (c ≤ 13)) || decide (c = 32)

/-- The test `__kdIsupper`. -/
def __kdIsupper (c : Int) : Bool := decide (c ≥ 65) && decide (c ≤ 90)

/-- The length of a string, `kdStrlen`, taken by its contract: the number of
characters before the first NUL. -/
def kdStrlen (str : List Int) : Nat := (str.takeWhile (fun c => decide (c ≠ 0))).length

/-- The `do ... while((number /= base) > 0)` loop of `__kdItoa`: the characters
it stores, in the order it stores them.  `/` and `%` of C truncate towards
zero; a division by zero is undefined and running out of `fuel` is no result
either. -/
def __kdItoa_loop (base : Int) : Nat → Int → Option (List Int)
  | 0, _ => none
  | fuel + 1, number =>
    if base = 0 then none
    else
      let c := Int.tmod number base + 48
      let number1 := Int.tdiv number base
      if number1 > 0 then (__kdItoa_loop base fuel number1).map (fun r => c :: r)
      else some [c]

/-- The `for(i = 0, j = kdStrlen(buffer) - 1; i < j; i++, j--)` loop of
`__kdItoa`, which swaps `buffer[i]` and `buffer[j]`. -/
def __kdItoa_swap : Nat → List Int → Nat → Nat → List Int
  | 0, buffer, _, _ => buffer
  | fuel + 1, buffer, i, j =>
    if i < j then
      let temp := buffer.getD i 0
      let buffer1 := buffer.set i (buffer.getD j 0)
      __kdItoa_swap fuel (buffer1.set j temp) (i + 1) (j - 1)
    else buffer

/-- Write a number as text, `__kdItoa(buffer, buflen, number, base)`: the
characters stored from `buffer[0]` on, the final NUL included, and the result.
`-number` is taken modulo `2^32`.  Nothing bounds the stores by `buflen`; a
store past the end of the buffer is undefined: no result.  An empty text makes
`j` wrap around: no result. -/
def __kdItoa (buflen : Nat) (number : Int) (base : Int) : Option (List Int × Int) :=
  if buflen = 0 then some ([], -1)
  else
    let sign := number
    let number := if sign < 0 then toKDint32 (-number) else number
    match __kdItoa_loop base 64 number with
    | none => none
    | some digits =>
      let buffer := digits ++ (if sign < 0 then [45] else []) ++ [0]
      let size : Nat := buffer.length - 1
      if buflen < buffer.length ∨ kdStrlen buffer = 0 then none
      else some (__kdItoa_swap buffer.length buffer 0 (kdStrlen buffer - 1), Int.ofNat size)

/-- Write a `KDint` as decimal text, `kdLtostr(buffer, buflen, number)`. -/
def kdLtostr (buflen : Nat) (number : Int) : Option (List Int × Int) :=
  __kdItoa buflen number 10

/-- What `kdStrtol` returns: the value, the index `*endptr` is left at, and the
argument of `kdSetError` if it was called. -/
structure StrtolResult where
  value : Int
  endptr : Nat
  error : Option Int
deriving DecidableEq, Repr

/-- The loop `do { c = (KDuint8)*s++; } while(__kdIsspace(c))` of `kdStrtol`:
the character it stops at and `s`.  Reading past the end of the string is
undefined: no result. -/
def kdStrtol_skip (nptr : List Int) : Nat → Nat → Option (Int × Nat)
  | 0, _ => none
  | fuel + 1, s =>
    match nptr[s]? with
    | none => none
    | some ch =>
      let c := toKDuint8 ch
      if __kdIsspace c then kdStrtol_skip nptr fuel (s + 1) else some (c, s + 1)

/-- The conversion loop of `kdStrtol`, entered with the character `c` and the
index `s` of the next one: `acc`, `any`, `s` and the error when it breaks. -/
def kdStrtol_loop (nptr : List Int) (base : Int) (neg : Bool) (cutoff cutlim : Int) :
    Nat → Int → Int → Int → Nat → Option Int → Option (Int × Int × Nat × Option Int)
  | 0, _, _, _, _, _ => none
  | fuel + 1, acc, any, c, s, err =>
    let digit : Option Int :=
      if __kdIsdigit c then some (c - 48)
      else if __kdIsalpha c then some (c - (if __kdIsupper c then (65 : Int) - 10 else (97 : Int) - 10))
      else none
    match digit with
    | none => some (acc, any, s, err)
    | some c1 =>
      if c1 ≥ base then some (acc, any, s, err)
      else
        let st : Int × Int × Option Int :=
          if any < 0 then (acc, any, err)
          else if neg then
            if acc < cutoff ∨ (acc = cutoff ∧ c1 > cutlim) then (KDINT_MIN, -1, some KD_ERANGE)
            else (acc * base - c1, 1, err)
          else
            if acc > cutoff ∨ (acc = cutoff ∧ c1 > cutlim) then (KDINT_MAX, -1, some KD_ERANGE)
            else (acc * base + c1, 1, err)
        match nptr[s]? with
        | none => none
        | some ch =>
          kdStrtol_loop nptr base neg cutoff cutlim fuel st.1 st.2.1 (toKDuint8 ch) (s + 1) st.2.2

/-- Convert text to an integer, `kdStrtol(nptr, endptr, base)` with `endptr`
not null; `nptr` is the string, its NUL included. -/
def kdStrtol (nptr : List Int) (base : Int) : Option StrtolResult :=
  if base < 0 ∨ base = 1 ∨ base > 36 then some ⟨0, 0, some KD_EINVAL⟩
  else
    match kdStrtol_skip nptr (nptr.length + 1) 0 with
    | none => none
    | some (c0, s0) =>
      let signed : Option (Bool × Int × Nat) :=
        if c0 = 45 then (nptr[s0]?).map (fun ch => (true, ch, s0 + 1))
        else if c0 = 43 then (nptr[s0]?).map (fun ch => (false, ch, s0 + 1))
        else some (false, c0, s0)
      match signed with
      | none => none
      | some (neg, c1, s1) =>
        let hex : Option (Int × Nat × Int) :=
          if (base = 0 ∨ base = 16) ∧ c1 = 48 then
            match nptr[s1]? with
            | none => none
            | some x =>
              if x = 120 ∨ x = 88 then (nptr[s1 + 1]?).map (fun ch => (ch, s1 + 2, 16))
              else some (c1, s1, base)
          else some (c1, s1, base)
        match hex with
        | none => none
        | some (c, s, base1) =>
          let base2 := if base1 = 0 then (if c = 48 then 8 else 10) else base1
          let cutoff0 := if neg then KDINT_MIN else KDINT_MAX
          let cutlim0 := Int.tmod cutoff0 base2
          let cutoff1 := Int.tdiv cutoff0 base2
          let cutlim := if neg then -(if cutlim0 > 0 then cutlim0 - base2 else cutlim0) else cutlim0
          let cutoff := if neg ∧ cutlim0 > 0 then cutoff1 + 1 else cutoff1
          match kdStrtol_loop nptr base2 neg cutoff cutlim (nptr.length + 1) 0 0 c s none with
          | none => none
          | some (acc, any, s2, err) =>
            some ⟨toKDint32 acc, if any ≠ 0 then s2 - 1 else 0, err⟩

/-- The decimal digits of a natural number, most significant first; one digit
`0` for zero. -/
def decimalDigits (m : Nat) : List Nat :=
  if m = 0 then [0] else (Nat.digits 10 m).reverse

/-- The decimal text of an integer: a minus sign for a negative number, then
the digits of its absolute value, most significant first, as characters. -/
def decimalText (n : Int) : List Int :=
  (if n < 0 then [45] else []) ++ (decimalDigits n.natAbs).map (fun (d : Nat) => (d : Int) + 48)

/-! ### Broken-down time -/

/-- The record `KDTm`. -/
structure KDTm where
  tm_sec : Int
  tm_min : Int
  tm_hour : Int
  tm_mday : Int
  tm_mon : Int
  tm_year : Int
  tm_wday : Int
  tm_yday : Int
  tm_isdst : Int
deriving DecidableEq, Repr

/-- The test `__kdIsleap(year)`; `%` of C truncates towards zero. -/
def __kdIsleap (year : Int) : Bool :=
  decide (Int.tmod year 4 = 0) &&
    (decide (Int.tmod year 100 ≠ 0) || decide (Int.tmod year 400 = 0))

/-- The table `months[2][12]` of `kdGmtime_r`. -/
def kdGmtime_r_months : List (List Int) :=
  [[31, 28, 31, 30, 31, 30, 31, 31, 30, 31, 30, 31],
   [31, 29, 31, 30, 31, 30, 31, 31, 30, 31, 30, 31]]

/-- The loop `while(days >= (__kdIsleap(year) ? 366 : 365))` of `kdGmtime_r`:
`days` and `year` when it ends.  For `days >= 0` the year stays below
`1970 + days`, so neither `days -= ...` nor `year++` leaves the range of
`KDint32`. -/
def kdGmtime_r_year : Nat → Int → Int → Option (Int × Int)
  | 0, _, _ => none
  | fuel + 1, days, year =>
    if days ≥ (if __kdIsleap year then 366 else 365) then
      kdGmtime_r_year fuel (days - (if __kdIsleap year then 366 else 365)) (year + 1)
    else some (days, year)

/-- The loop `while(days >= months[__kdIsleap(year)][result->tm_mon])` of
`kdGmtime_r`: `days` and `tm_mon` when it ends.  Reading past the end of the
table is undefined: no result. -/
def kdGmtime_r_month (year : Int) : Nat → Int → Nat → Option (Int × Nat)
  | 0, _, _ => none
  | fuel + 1, days, tm_mon =>
    match (kdGmtime_r_months.getD (if __kdIsleap year then 1 else 0) [])[tm_mon]? with
    | none => none
    | some len =>
      if days ≥ len then kdGmtime_r_month year fuel (days - len) (tm_mon + 1)
      else some (days, tm_mon)

/-- Convert seconds since the epoch to broken-down time, `kdGmtime_r(timep,
result)`: the record stored in `*result`.  `/` and `%` of C truncate towards
zero; the `(KDint32)` casts and `days + 4` are taken modulo `2^32`.  The year
loop makes at most `days` iterations and the month loop at most 12. -/
def kdGmtime_r (timep : Int) : Option KDTm :=
  let secs_per_day : Int := 3600 * 24
  let days_in_secs := toKDint32 (Int.tmod timep secs_per_day)
  let days := toKDint32 (Int.tdiv timep secs_per_day)
  let tm_sec := Int.tmod days_in_secs 60
  let tm_min := Int.tdiv (Int.tmod days_in_secs 3600) 60
  let tm_hour := Int.tdiv days_in_secs 3600
  let tm_wday := Int.tmod (toKDint32 (days + 4)) 7
  match kdGmtime_r_year (days.toNat + 1) days 1970 with
  | none => none
  | some (tm_yday, year) =>
    match kdGmtime_r_month year 13 tm_yday 0 with
    | none => none
    | some (days2, tm_mon) =>
      some ⟨tm_sec, tm_min, tm_hour, days2 + 1, (tm_mon : Int), year - 1900, tm_wday,
        tm_yday, 0⟩

/-- Convert seconds since the epoch to local time, `kdLocaltime_r`: there is no
timezone support, it calls `kdGmtime_r`. -/
def kdLocaltime_r (timep : Int) : Option KDTm := kdGmtime_r timep

/-- The leap years of the Gregorian calendar. -/
def gregorianLeap (y : Int) : Bool :=
  decide (y % 4 = 0) && (decide (y % 100 ≠ 0) || decide (y % 400 = 0))

/-- The number of leap years of the proleptic Gregorian calendar among the
years `1 .. y - 1`. -/
def leapsBefore (y : Int) : Int := (y - 1) / 4 - (y - 1) / 100 + (y - 1) / 400

/-- The number of days from 1 January 1970 to 1 January of the year `y`. -/
def daysBeforeYear (y : Int) : Int := 365 * (y - 1970) + (leapsBefore y - leapsBefore 1970)

/-- The lengths of the months of the year `y`, January first. -/
def monthLengths (y : Int) : List Int :=
  [31, if gregorianLeap y then 29 else 28, 31, 30, 31, 30, 31, 31, 30, 31, 30, 31]

/-- The number of days of the year `y` before its month `m`, January being
month 0. -/
def daysBeforeMonth (y : Int) (m : Nat) : Int := ((monthLengths y).take m).sum

/-- The record `r` is the broken-down UTC time of `t` seconds since the epoch
in the proleptic Gregorian calendar: the time of day, the calendar date as
year, month (0 to 11) and day of the month (1 to the length of the month), the
zero-based day of the year, the weekday with 0 for Sunday (1 January 1970 was
a Thursday), and no daylight saving. -/
def GregorianUTC (t : Int) (r : KDTm) : Prop :=
  (0 ≤ r.tm_sec ∧ r.tm_sec < 60) ∧ (0 ≤ r.tm_min ∧ r.tm_min < 60) ∧
  (0 ≤ r.tm_hour ∧ r.tm_hour < 24) ∧
  r.tm_hour * 3600 + r.tm_min * 60 + r.tm_sec = t % 86400 ∧
  (0 ≤ r.tm_mon ∧ r.tm_mon ≤ 11) ∧
  (1 ≤ r.tm_mday ∧ r.tm_mday ≤ (monthLengths (r.tm_year + 1900)).getD r.tm_mon.toNat 0) ∧
  daysBeforeYear (r.tm_year + 1900) + daysBeforeMonth (r.tm_year + 1900) r.tm_mon.toNat +
    (r.tm_mday - 1) = t / 86400 ∧
  r.tm_yday = daysBeforeMonth (r.tm_year + 1900) r.tm_mon.toNat + (r.tm_mday - 1) ∧
  (0 ≤ r.tm_wday ∧ r.tm_wday < 7 ∧ (r.tm_wday - 4 - t / 86400) % 7 = 0) ∧
  r.tm_isdst = 0

/-! ### Producers and a consumer on one queue -/

/-- Modelled from the spec: the scenario of several producers and one consumer
on one shared queue, whose threads are not among the sources.  `todo` holds,
per producer, the values it has still to push with `kdQueuePushTailVEN`, in
order; `received` the values the consumer got from `kdQueuePopHeadVEN`, in
order; `pushed` is the log `(producer, value)` of the pushes in the order the
mutex of the queue admitted them. -/
structure ProdCons where
  nodes : NodeHeap
  queue : KDQueueVEN
  todo : List (List Ptr)
  pushed : List (Nat × Ptr)
  received : List Ptr
deriving DecidableEq

/-- Who makes the next call. -/
inductive ProdConsLabel where
  | producer (i : Nat)
  | consumer
deriving DecidableEq, Repr

/-- Modelled from the spec: one call of the scenario.  A producer that has
values left pushes the next one with `kdQueuePushTailVEN`, one that has none
has returned.  The consumer, as long as it has received fewer than `total`
values, calls `kdQueuePopHeadVEN` and keeps a result that is not null (null is
the result on the empty queue).  The calls are atomic: each takes the mutex of
the queue for all it does to the queue. -/
def ProdCons.step (kdMalloc : NodeHeap → Ptr) (total : Nat) (s : ProdCons) :
    ProdConsLabel → Option ProdCons
  | ProdConsLabel.producer i =>
    match s.todo.getD i [] with
    | [] => some s
    | v :: vs =>
      match kdQueuePushTailVEN kdMalloc s.nodes s.queue v with
      | none => none
      | some (m, q) => some ⟨m, q, s.todo.set i vs, s.pushed ++ [(i, v)], s.received⟩
  | ProdConsLabel.consumer =>
    if s.received.length < total then
      match kdQueuePopHeadVEN s.nodes s.queue with
      | none => none
      | some (m, q, v) =>
        some ⟨m, q, s.todo, s.pushed, if v ≠ KD_NULL then s.received ++ [v] else s.received⟩
    else some s

/-- Run a schedule of calls. -/
def ProdCons.run (kdMalloc : NodeHeap → Ptr) (total : Nat) :
    List ProdConsLabel → ProdCons → Option ProdCons
  | [], s => some s
  | l :: ls, s =>
    match s.step kdMalloc total l with
    | none => none
    | some s1 => ProdCons.run kdMalloc total ls s1

/-- The start: a freshly created queue, nothing pushed or received, producer
`i` about to push the values `vals[i]`. -/
def ProdCons.start (m : NodeHeap) (vals : List (List Ptr)) : ProdCons :=
  ⟨m, kdQueueCreateVEN, vals, [], []⟩

/-- A schedule that ends every run of `N` producers with at most `M` values
each: every producer makes `M` calls, then the consumer `N * M`. -/
def ProdCons.finish (N M : Nat) : List ProdConsLabel :=
  (List.range N).flatMap (fun i => List.replicate M (ProdConsLabel.producer i)) ++
    List.replicate (N * M) ProdConsLabel.consumer

/-- Two producers with the values 1, 2 and 3, 4. -/
def twoProducers : ProdCons := ProdCons.start Heap.empty [[1, 2], [3, 4]]

/-! ### `kdCreateWindow` called by two threads at once

`kdCreateWindow` reads `__kd_window` at kd.c:6482 and writes it at kd.c:6554
and takes no lock in between, so a call is two atomic steps for another
thread: the test, and the creation that ends with the store.  The read and
the store of the pointer are each taken as one access of the shared memory;
the other process-wide pointers of kd.c (`__kd_userptr`,
`__kd_androidwindow`, `__kd_androidinputqueue`, `__kd_androidactivity`) are
each declared with a mutex of their own and accessed under it, `__kd_window`
(kd.c:1180) has none. -/

/-- Where a call of `kdCreateWindow` stands: before the test of `__kd_window`
(kd.c:6482), past the test with no window seen, or returned with its result. -/
inductive CreateWindowPc where
  | test
  | create
  | returned (window : Ptr)
deriving DecidableEq

/-- One step of the call `kdCreateWindow(display, config, eventuserptr)` made by
`self`. At `test`: `if(__kd_window != KD_NULL)` with the `KD_EPERM` return
(kd.c:6482-6487). At `create`: the rest of the function (kd.c:6489-6555), from
`kdMalloc` to `__kd_window = window; return window;`. -/
def kdCreateWindow_step (P : Platform) (p : Process) (self : Ptr) (eventuserptr : Ptr) :
    CreateWindowPc → Option (Process × CreateWindowPc)
  | CreateWindowPc.test =>
    if p.__kd_window ≠ KD_NULL then
      (p.kdSetError self KD_EPERM).map (fun p1 => (p1, CreateWindowPc.returned KD_NULL))
    else some (p, CreateWindowPc.create)
  | CreateWindowPc.create =>
    let window := P.mallocWindow p.windows
    if window = KD_NULL then
      (p.kdSetError self KD_ENOMEM).map (fun p1 => (p1, CreateWindowPc.returned KD_NULL))
    else
      let record : KDWindow :=
        { nativewindow := P.XCreateSimpleWindow
          nativedisplay := P.XOpenDisplay
          format := 0
          eventuserptr := if eventuserptr = KD_NULL then window else eventuserptr
          originthr := self }
      some ({ p with windows := p.windows.write window record, __kd_window := window },
        CreateWindowPc.returned window)
  | CreateWindowPc.returned window => some (p, CreateWindowPc.returned window)

/-- Two calls of `kdCreateWindow` in flight: the shared process and where the
call of each thread stands. -/
structure CreateWindowRace where
  proc : Process
  pc1 : CreateWindowPc
  pc2 : CreateWindowPc
deriving DecidableEq

/-- The scheduler lets the first call (`true`) or the second call (`false`) take
its next step. The first call is made by thread `a` with user pointer `ua`,
the second by thread `b` with `ub`. -/
def CreateWindowRace.step (P : Platform) (a b ua ub : Ptr) (s : CreateWindowRace)
    (first : Bool) : Option CreateWindowRace :=
  if first then
    (kdCreateWindow_step P s.proc a ua s.pc1).map (fun r => { s with proc := r.1, pc1 := r.2 })
  else
    (kdCreateWindow_step P s.proc b ub s.pc2).map (fun r => { s with proc := r.1, pc2 := r.2 })

/-- Run the two calls under a schedule. -/
def CreateWindowRace.run (P : Platform) (a b ua ub : Ptr) :
    List Bool → CreateWindowRace → Option CreateWindowRace
  | [], s => some s
  | first :: sched, s =>
    match CreateWindowRace.step P a b ua ub s first with
    | none => none
    | some s1 => CreateWindowRace.run P a b ua ub sched s1

/-- Both calls about to start on the process `p`. -/
def CreateWindowRace.start (p : Process) : CreateWindowRace :=
  ⟨p, CreateWindowPc.test, CreateWindowPc.test⟩

/-! ## Theorems -/

/-! ### Heap -/

namespace Heap
variable {α : Type}

theorem read_null (h : Heap α) : h.read KD_NULL = none := rfl

theorem read_write_same (h : Heap α) (p : Ptr) (v : α) (hp : p ≠ KD_NULL) :
    (h.write p v).read p = some v := by
  cases p with
  | zero => exact absurd rfl hp
  | succ k =>
    simp only [write, read]
    rw [List.getD_eq_getElem?_getD, List.getElem?_set_self]
    · rfl
    · simp; omega

theorem read_write_ne (h : Heap α) (p q : Ptr) (v : α) (hq : q ≠ p) :
    (h.write p v).read q = h.read q := by
  cases p with
  | zero => rfl
  | succ k =>
    cases q with
    | zero => rfl
    | succ j =>
      have hjk : k ≠ j := fun e => hq (by rw [e])
      simp only [write, read]
      rw [List.getD_eq_getElem?_getD, List.getD_eq_getElem?_getD, List.getElem?_set_ne hjk]
      by_cases hj : j < h.cells.length
      · rw [List.getElem?_append_left hj]
      · rw [List.getElem?_append_right (by omega),
          List.getElem?_eq_none (by omega : h.cells.length ≤ j), List.getElem?_replicate]
        split <;> rfl

theorem read_write (h : Heap α) (p q : Ptr) (v : α) (hp : p ≠ KD_NULL) :
    (h.write p v).read q = if q = p then some v else h.read q := by
  by_cases hq : q = p
  · subst hq; simp [read_write_same h q v hp]
  · simp [hq, read_write_ne h p q v hq]

theorem read_free_same (h : Heap α) (p : Ptr) : (h.free p).read p = none := by
  cases p with
  | zero => rfl
  | succ k =>
    simp only [free, read]
    rw [List.getD_eq_getElem?_getD]
    by_cases hk : k < h.cells.length
    · rw [List.getElem?_set_self hk]; rfl
    · rw [List.getElem?_eq_none (by simp; omega)]; rfl

theorem read_free_ne (h : Heap α) (p q : Ptr) (hq : q ≠ p) :
    (h.free p).read q = h.read q := by
  cases p with
  | zero => rfl
  | succ k =>
    cases q with
    | zero => rfl
    | succ j =>
      have hjk : k ≠ j := fun e => hq (by rw [e])
      simp only [free, read]
      rw [List.getD_eq_getElem?_getD, List.getD_eq_getElem?_getD, List.getElem?_set_ne hjk]

theorem bump_ok : MallocOK (bump : Heap α → Ptr) := by
  intro m
  refine ⟨by simp [bump], ?_⟩
  simp only [bump, read]
  rw [List.getD_eq_getElem?_getD, List.getElem?_eq_none (le_refl _)]
  rfl

end Heap

/-! ### The linked queue represents a list -/

theorem headAddr_append_ne_nil (d : Ptr) (cs ds : List (Ptr × Ptr)) (h : cs ≠ []) :
    headAddr d (cs ++ ds) = headAddr d cs := by
  cases cs with
  | nil => exact absurd rfl h
  | cons c cs => rfl

theorem lastAddr_snoc (d : Ptr) (cs : List (Ptr × Ptr)) (c : Ptr × Ptr) :
    lastAddr d (cs ++ [c]) = c.1 := by
  induction cs generalizing d with
  | nil => rfl
  | cons x xs ih => exact ih x.1

theorem lastAddr_mem (d : Ptr) (cs : List (Ptr × Ptr)) (h : cs ≠ []) :
    lastAddr d cs ∈ cs.map Prod.fst := by
  induction cs generalizing d with
  | nil => exact absurd rfl h
  | cons x xs ih =>
    cases xs with
    | nil => simp [lastAddr]
    | cons y ys =>
      have := ih x.1 (by simp)
      simp only [lastAddr, List.map_cons, List.mem_cons] at this ⊢
      exact Or.inr this

theorem seg_live {m : NodeHeap} {p nx : Ptr} {cells : List (Ptr × Ptr)}
    (h : Seg m p cells nx) : ∀ c ∈ cells, ∃ n, m.read c.1 = some n := by
  induction cells generalizing p with
  | nil => intro c hc; cases hc
  | cons x xs ih =>
    intro c hc
    rcases List.mem_cons.1 hc with rfl | hc
    · exact ⟨_, h.1⟩
    · exact ih h.2 c hc

theorem seg_addr_ne_null {m : NodeHeap} {p nx : Ptr} {cells : List (Ptr × Ptr)}
    (h : Seg m p cells nx) : ∀ c ∈ cells, c.1 ≠ KD_NULL := by
  intro c hc h0
  obtain ⟨n, hn⟩ := seg_live h c hc
  rw [h0, Heap.read_null] at hn
  cases hn

theorem seg_congr {m m' : NodeHeap} {p nx : Ptr} {cells : List (Ptr × Ptr)}
    (hm : ∀ c ∈ cells, m'.read c.1 = m.read c.1) (h : Seg m p cells nx) :
    Seg m' p cells nx := by
  induction cells generalizing p with
  | nil => trivial
  | cons x xs ih =>
    refine ⟨?_, ih (fun c hc => hm c (List.mem_cons_of_mem _ hc)) h.2⟩
    rw [hm x (List.mem_cons_self _ _)]
    exact h.1

theorem seg_snoc {m m' : NodeHeap} {a v : Ptr} (cells : List (Ptr × Ptr)) (p : Ptr)
    (h : Seg m p cells KD_NULL) (hnd : (cells.map Prod.fst).Nodup)
    (hframe : ∀ c ∈ cells, c.1 ≠ lastAddr p cells → m'.read c.1 = m.read c.1)
    (hlast : cells ≠ [] → ∀ n, m.read (lastAddr p cells) = some n →
      m'.read (lastAddr p cells) = some { n with next := a })
    (hnew : m'.read a = some ⟨KD_NULL, lastAddr p cells, v⟩) :
    Seg m' p (cells ++ [(a, v)]) KD_NULL := by
  induction cells generalizing p with
  | nil => exact ⟨hnew, trivial⟩
  | cons x xs ih =>
    have hnd' : (xs.map Prod.fst).Nodup := (List.nodup_cons.1 hnd).2
    have hx : x.1 ∉ xs.map Prod.fst := (List.nodup_cons.1 hnd).1
    refine ⟨?_, ih x.1 h.2 hnd' (fun c hc => hframe c (List.mem_cons_of_mem _ hc)) ?_ hnew⟩
    · cases xs with
      | nil =>
        have := hlast (by simp) _ h.1
        simpa [lastAddr, headAddr] using this
      | cons y ys =>
        have hne : x.1 ≠ lastAddr x.1 (y :: ys) := by
          intro e
          exact hx (e ▸ lastAddr_mem x.1 (y :: ys) (by simp))
        rw [hframe x (List.mem_cons_self _ _) hne]
        exact h.1
    · intro hxs n hn
      exact hlast (by simp) n hn

theorem kdQueueCreateVEN_rep (m : NodeHeap) : QueueRep m kdQueueCreateVEN [] :=
  ⟨[], rfl, List.nodup_nil, trivial, rfl, rfl, rfl⟩

theorem queueRep_size {m : NodeHeap} {q : KDQueueVEN} {L : List Ptr} (h : QueueRep m q L) :
    kdQueueSizeVEN q = L.length := by
  obtain ⟨cells, hL, -, -, -, -, hs⟩ := h
  rw [kdQueueSizeVEN, hs, ← hL, List.length_map]

theorem queueRep_head_null_iff {m : NodeHeap} {q : KDQueueVEN} {L : List Ptr}
    (h : QueueRep m q L) : q.head = KD_NULL ↔ L = [] := by
  obtain ⟨cells, hL, -, hseg, hh, -, -⟩ := h
  cases cells with
  | nil => simp [← hL, hh, headAddr]
  | cons c cs =>
    have := seg_addr_ne_null hseg c (List.mem_cons_self _ _)
    simp [← hL, hh, headAddr, this]

theorem kdQueuePushTailVEN_rep {kdMalloc : NodeHeap → Ptr} (hM : MallocOK kdMalloc)
    {m : NodeHeap} {q : KDQueueVEN} {L : List Ptr} (h : QueueRep m q L) (v : Ptr) :
    ∃ m' q', kdQueuePushTailVEN kdMalloc m q v = some (m', q') ∧ QueueRep m' q' (L ++ [v]) := by
  obtain ⟨cells, hL, hnd, hseg, hh, ht, hs⟩ := h
  obtain ⟨ha0, hafree⟩ := hM m
  have hfresh : ∀ c ∈ cells, c.1 ≠ kdMalloc m := by
    intro c hc e
    obtain ⟨n, hn⟩ := seg_live hseg c hc
    rw [e, hafree] at hn
    cases hn
  have hnd' : ((cells ++ [(kdMalloc m, v)]).map Prod.fst).Nodup := by
    rw [List.map_append, List.nodup_append]
    refine ⟨hnd, by simp, ?_⟩
    intro x hx hx'
    obtain ⟨c, hc, rfl⟩ := List.mem_map.1 hx
    simp only [List.map_cons, List.map_nil, List.mem_singleton] at hx'
    exact hfresh c hc hx'
  have hL' : (cells ++ [(kdMalloc m, v)]).map Prod.snd = L ++ [v] := by
    simp [hL]
  by_cases hc : cells = []
  · subst hc
    have ht0 : q.tail = KD_NULL := ht
    have hh0 : q.head = KD_NULL := hh
    refine ⟨(m.write (kdMalloc m) ⟨KD_NULL, KD_NULL, v⟩).write (kdMalloc m) ⟨KD_NULL, KD_NULL, v⟩,
      ⟨kdMalloc m, kdMalloc m, q.size + 1⟩, ?_, _, hL', hnd', ?_, ?_, ?_, ?_⟩
    · simp only [kdQueuePushTailVEN, ha0, ht0, hh0, if_true, if_false, ne_eq, not_true_eq_false]
    · exact ⟨by simp [headAddr, Heap.read_write_same _ _ _ ha0], trivial⟩
    · simp [headAddr]
    · simp [lastAddr]
    · simp [hs]
  · have htmem : lastAddr KD_NULL cells ∈ cells.map Prod.fst := lastAddr_mem _ _ hc
    obtain ⟨ct, hct, hcte⟩ := List.mem_map.1 htmem
    have htne0 : q.tail ≠ KD_NULL := by
      rw [ht, ← hcte]; exact seg_addr_ne_null hseg ct hct
    have htnea : q.tail ≠ kdMalloc m := by
      rw [ht, ← hcte]; exact hfresh ct hct
    obtain ⟨n, hn⟩ := seg_live hseg ct hct
    rw [hcte, ← ht] at hn
    have hhne0 : q.head ≠ KD_NULL := by
      cases cells with
      | nil => exact absurd rfl hc
      | cons c cs => rw [hh]; exact seg_addr_ne_null hseg c (List.mem_cons_self _ _)
    have hread2 : ((m.write (kdMalloc m) ⟨KD_NULL, KD_NULL, v⟩).write (kdMalloc m)
        ⟨KD_NULL, q.tail, v⟩).read q.tail = some n := by
      rw [Heap.read_write_ne _ _ _ _ htnea, Heap.read_write_ne _ _ _ _ htnea, hn]
    refine ⟨((m.write (kdMalloc m) ⟨KD_NULL, KD_NULL, v⟩).write (kdMalloc m)
        ⟨KD_NULL, q.tail, v⟩).write q.tail { n with next := kdMalloc m },
      ⟨q.head, kdMalloc m, q.size + 1⟩, ?_, _, hL', hnd', ?_, ?_, ?_, ?_⟩
    · simp only [kdQueuePushTailVEN, ha0, htne0, hhne0, if_true, if_false, ne_eq,
        not_false_eq_true, Heap.modify, hread2]
    · apply seg_snoc cells KD_NULL hseg hnd
      · intro c hc hne
        rw [← ht] at hne
        rw [Heap.read_write_ne _ _ _ _ hne, Heap.read_write_ne _ _ _ _ (hfresh c hc),
          Heap.read_write_ne _ _ _ _ (hfresh c hc)]
      · intro _ n' hn'
        rw [← ht] at hn' ⊢
        rw [hn] at hn'
        cases hn'
        exact Heap.read_write_same _ _ _ htne0
      · rw [Heap.read_write_ne _ _ _ _ (Ne.symm htnea), Heap.read_write_same _ _ _ ha0, ht]
    · rw [headAddr_append_ne_nil _ _ _ hc]; exact hh
    · rw [lastAddr_snoc]
    · simp [hs]

theorem kdQueuePopHeadVEN_rep_nil {m : NodeHeap} {q : KDQueueVEN} (h : QueueRep m q []) :
    kdQueuePopHeadVEN m q = some (m, q, KD_NULL) := by
  have := (queueRep_head_null_iff h).2 rfl
  simp [kdQueuePopHeadVEN, this]

theorem kdQueuePopHeadVEN_rep_cons {m : NodeHeap} {q : KDQueueVEN} {v : Ptr} {L : List Ptr}
    (h : QueueRep m q (v :: L)) :
    ∃ m' q', kdQueuePopHeadVEN m q = some (m', q', v) ∧ QueueRep m' q' L := by
  obtain ⟨cells, hL, hnd, hseg, hh, ht, hs⟩ := h
  cases cells with
  | nil => simp at hL
  | cons c cs =>
    simp only [List.map_cons, List.cons.injEq] at hL
    obtain ⟨hv, hL⟩ := hL
    have hh' : q.head = c.1 := hh
    have hc0 : c.1 ≠ KD_NULL := seg_addr_ne_null hseg c (List.mem_cons_self _ _)
    have hhne : q.head ≠ KD_NULL := by rw [hh']; exact hc0
    have hcnot : c.1 ∉ cs.map Prod.fst := (List.nodup_cons.1 hnd).1
    have hnd' : (cs.map Prod.fst).Nodup := (List.nodup_cons.1 hnd).2
    cases cs with
    | nil =>
      have hrc : m.read q.head = some ⟨KD_NULL, KD_NULL, c.2⟩ := by
        rw [hh']; exact hseg.1
      have htail : q.tail = q.head := by rw [ht, hh']; rfl
      refine ⟨m.free q.head, ⟨KD_NULL, KD_NULL, q.size - 1⟩, ?_, [], hL, List.nodup_nil,
        trivial, rfl, rfl, ?_⟩
      · simp [kdQueuePopHeadVEN, hhne, hrc, htail, hv]
      · simp [hs]
    | cons d ds =>
      have hrc : m.read q.head = some ⟨d.1, KD_NULL, c.2⟩ := by
        rw [hh']; exact hseg.1
      have hd0 : d.1 ≠ KD_NULL := seg_addr_ne_null hseg.2 d (List.mem_cons_self _ _)
      have hdc : d.1 ≠ c.1 := by
        intro e; exact hcnot (by simp [e])
      have hrd : m.read d.1 = some ⟨headAddr KD_NULL ds, c.1, d.2⟩ := hseg.2.1
      have htne : q.tail ≠ q.head := by
        rw [ht, hh']
        intro e
        apply hcnot
        have := lastAddr_mem c.1 (d :: ds) (by simp)
        rw [show lastAddr KD_NULL (c :: d :: ds) = lastAddr c.1 (d :: ds) from rfl] at e
        rw [e] at this
        exact this
      have hrc1 : (m.write d.1 ⟨headAddr KD_NULL ds, KD_NULL, d.2⟩).read q.head =
          some ⟨d.1, KD_NULL, c.2⟩ := by
        rw [hh', Heap.read_write_ne _ _ _ _ (Ne.symm hdc)]; exact hseg.1
      refine ⟨(m.write d.1 ⟨headAddr KD_NULL ds, KD_NULL, d.2⟩).free q.head,
        ⟨d.1, q.tail, q.size - 1⟩, ?_, d :: ds, hL, hnd', ⟨?_, ?_⟩, rfl, ?_, ?_⟩
      · simp only [kdQueuePopHeadVEN, hhne, hrc, if_false, Heap.modify, hrd, hd0,
          ne_eq, not_false_eq_true, if_true, hrc1, htne, hv]
      · rw [hh', Heap.read_free_ne _ _ _ hdc, Heap.read_write_same _ _ _ hd0]
      · apply seg_congr _ hseg.2.2
        intro x hx
        have hxd : x.1 ≠ d.1 := by
          intro e
          exact (List.nodup_cons.1 hnd').1 (by rw [← e]; exact List.mem_map_of_mem _ hx)
        have hxc : x.1 ≠ c.1 := by
          intro e
          apply hcnot
          rw [← e]
          exact List.mem_map_of_mem _ (List.mem_cons_of_mem _ hx)
        rw [hh', Heap.read_free_ne _ _ _ hxc, Heap.read_write_ne _ _ _ _ hxd]
      · rw [ht]; rfl
      · simp [hs]

/-! ### Sequences of pushes and pops -/

theorem runQueueOps_append (kdMalloc : NodeHeap → Ptr) (ops1 ops2 : List QueueOp)
    (m : NodeHeap) (q : KDQueueVEN) :
    runQueueOps kdMalloc (ops1 ++ ops2) m q =
      match runQueueOps kdMalloc ops1 m q with
      | none => none
      | some (log1, m1, q1) =>
        match runQueueOps kdMalloc ops2 m1 q1 with
        | none => none
        | some (log2, r) => some (log1 ++ log2, r) := by
  induction ops1 generalizing m q with
  | nil =>
    rw [List.nil_append]
    simp only [runQueueOps]
    cases runQueueOps kdMalloc ops2 m q with
    | none => rfl
    | some r => rfl
  | cons op ops ih =>
    rw [List.cons_append]
    cases op with
    | push v =>
      simp only [runQueueOps]
      cases kdQueuePushTailVEN kdMalloc m q v with
      | none => rfl
      | some r => exact ih r.1 r.2
    | pop =>
      simp only [runQueueOps]
      cases kdQueuePopHeadVEN m q with
      | none => rfl
      | some r =>
        simp only []
        rw [ih r.1 r.2.1]
        cases runQueueOps kdMalloc ops r.1 r.2.1 with
        | none => rfl
        | some r1 =>
          simp only []
          cases runQueueOps kdMalloc ops2 r1.2.1 r1.2.2 with
          | none => rfl
          | some r2 => rfl

theorem runQueueOps_rep {kdMalloc : NodeHeap → Ptr} (hM : MallocOK kdMalloc)
    (ops : List QueueOp) (m : NodeHeap) (q : KDQueueVEN) (L : List Ptr)
    (h : QueueRep m q L) :
    ∃ log m' q', runQueueOps kdMalloc ops m q = some (log, m', q') ∧
      poppedValues log = (L ++ pushedValues ops).take (poppedValues log).length ∧
      QueueRep m' q' ((L ++ pushedValues ops).drop (poppedValues log).length) ∧
      ∀ o ∈ log, o.1 = false → o.2 = KD_NULL := by
  induction ops generalizing m q L with
  | nil =>
    exact ⟨[], m, q, rfl, by simp [poppedValues], by simpa [poppedValues, pushedValues] using h,
      by simp⟩
  | cons op ops ih =>
    cases op with
    | push v =>
      obtain ⟨m1, q1, hpush, hrep⟩ := kdQueuePushTailVEN_rep hM h v
      obtain ⟨log, m', q', hrun, hpop, hrep', hnull⟩ := ih m1 q1 (L ++ [v]) hrep
      refine ⟨log, m', q', ?_, ?_, ?_, hnull⟩
      · simp only [runQueueOps, hpush, hrun]
      · simpa [pushedValues] using hpop
      · simpa [pushedValues] using hrep'
    | pop =>
      cases L with
      | nil =>
        have hpopq := kdQueuePopHeadVEN_rep_nil h
        have hhead := (queueRep_head_null_iff h).2 rfl
        obtain ⟨log, m', q', hrun, hpop, hrep', hnull⟩ := ih m q [] h
        refine ⟨(false, KD_NULL) :: log, m', q', ?_, ?_, ?_, ?_⟩
        · simp only [runQueueOps, hpopq, hrun, hhead, ne_eq, not_true_eq_false, decide_False]
        · simpa [poppedValues, pushedValues] using hpop
        · simpa [poppedValues, pushedValues] using hrep'
        · intro o ho
          rcases List.mem_cons.1 ho with rfl | ho
          · intro _; rfl
          · exact hnull o ho
      | cons x L' =>
        obtain ⟨m1, q1, hpopq, hrep⟩ := kdQueuePopHeadVEN_rep_cons h
        have hhead : q.head ≠ KD_NULL := fun e => by
          have := (queueRep_head_null_iff h).1 e
          cases this
        obtain ⟨log, m', q', hrun, hpop, hrep', hnull⟩ := ih m1 q1 L' hrep
        refine ⟨(true, x) :: log, m', q', ?_, ?_, ?_, ?_⟩
        · simp only [runQueueOps, hpopq, hrun, hhead, ne_eq, not_false_eq_true, decide_True]
        · have : poppedValues ((true, x) :: log) = x :: poppedValues log := by
            simp [poppedValues]
          rw [this]
          simp only [pushedValues, List.length_cons, List.cons_append, List.take_succ_cons]
          rw [← hpop]
        · have : poppedValues ((true, x) :: log) = x :: poppedValues log := by
            simp [poppedValues]
          rw [this]
          simpa [pushedValues] using hrep'
        · intro o ho
          rcases List.mem_cons.1 ho with rfl | ho
          · intro hf; cases hf
          · exact hnull o ho

theorem runQueueOps_pushes {kdMalloc : NodeHeap → Ptr} (hM : MallocOK kdMalloc)
    (vs : List Ptr) (m : NodeHeap) (q : KDQueueVEN) (L : List Ptr) (h : QueueRep m q L) :
    ∃ m' q', runQueueOps kdMalloc (vs.map QueueOp.push) m q = some ([], m', q') ∧
      QueueRep m' q' (L ++ vs) := by
  induction vs generalizing m q L with
  | nil => exact ⟨m, q, rfl, by simpa using h⟩
  | cons v vs ih =>
    obtain ⟨m1, q1, hpush, hrep⟩ := kdQueuePushTailVEN_rep hM h v
    obtain ⟨m', q', hrun, hrep'⟩ := ih m1 q1 (L ++ [v]) hrep
    refine ⟨m', q', ?_, by simpa using hrep'⟩
    simp only [List.map_cons, runQueueOps, hpush, hrun]

theorem runQueueOps_pops (kdMalloc : NodeHeap → Ptr)
    (L : List Ptr) (m : NodeHeap) (q : KDQueueVEN) (h : QueueRep m q L) :
    ∃ m' q', runQueueOps kdMalloc (List.replicate L.length QueueOp.pop) m q =
        some (L.map (fun v => (true, v)), m', q') ∧ QueueRep m' q' [] := by
  induction L generalizing m q with
  | nil => exact ⟨m, q, rfl, h⟩
  | cons x L ih =>
    obtain ⟨m1, q1, hpopq, hrep⟩ := kdQueuePopHeadVEN_rep_cons h
    have hhead : q.head ≠ KD_NULL := fun e => by
      have := (queueRep_head_null_iff h).1 e
      cases this
    obtain ⟨m', q', hrun, hrep'⟩ := ih m1 q1 hrep
    refine ⟨m', q', ?_, hrep'⟩
    simp only [List.length_cons, List.replicate_succ, runQueueOps, hpopq, hrun, hhead, ne_eq,
      not_false_eq_true, decide_True, List.map_cons]

/-- C1: on a freshly created queue, every sequence of `kdQueuePushTailVEN` and
`kdQueuePopHeadVEN` calls runs without fault and the values returned by the
pops that found the queue non-empty are, in order, the first pushed values
(the k-th such pop returns the k-th pushed value), a pop on the empty queue
returning `KD_NULL`; and pushing `vs` and then popping `vs.length` times
returns exactly `vs` in order and leaves `kdQueueSizeVEN` at `0`. -/
theorem kdQueue_fifo (kdMalloc : NodeHeap → Ptr) (hM : MallocOK kdMalloc) (m : NodeHeap) :
    (∀ ops : List QueueOp, ∃ log m' q',
      runQueueOps kdMalloc ops m kdQueueCreateVEN = some (log, m', q') ∧
      poppedValues log <+: pushedValues ops ∧
      (∀ (k : Nat) (v : Ptr), (poppedValues log)[k]? = some v → (pushedValues ops)[k]? = some v) ∧
      (∀ o ∈ log, o.1 = false → o.2 = KD_NULL)) ∧
    (∀ vs : List Ptr, ∃ m' q',
      runQueueOps kdMalloc (vs.map QueueOp.push ++ List.replicate vs.length QueueOp.pop)
        m kdQueueCreateVEN = some (vs.map (fun v => (true, v)), m', q') ∧
      kdQueueSizeVEN q' = 0) := by
  constructor
  · intro ops
    obtain ⟨log, m', q', hrun, hpop, -, hnull⟩ :=
      runQueueOps_rep hM ops m kdQueueCreateVEN [] (kdQueueCreateVEN_rep m)
    have hpre : poppedValues log <+: pushedValues ops := by
      rw [hpop]
      simpa using List.take_prefix _ (pushedValues ops)
    refine ⟨log, m', q', hrun, hpre, ?_, hnull⟩
    intro k v hk
    obtain ⟨t, ht⟩ := hpre
    rw [← ht, List.getElem?_append_left]
    · exact hk
    · by_contra hlt
      rw [List.getElem?_eq_none (by omega)] at hk
      cases hk
  · intro vs
    obtain ⟨m1, q1, hrun1, hrep1⟩ :=
      runQueueOps_pushes hM vs m kdQueueCreateVEN [] (kdQueueCreateVEN_rep m)
    rw [List.nil_append] at hrep1
    obtain ⟨m', q', hrun2, hrep2⟩ := runQueueOps_pops kdMalloc vs m1 q1 hrep1
    refine ⟨m', q', ?_, by simpa using queueRep_size hrep2⟩
    rw [runQueueOps_append, hrun1]
    simp only [hrun2, List.nil_append]

/-- Instance of `kdQueue_fifo` for the allocator `Heap.bump` and the empty
heap, with one concrete run evaluated. -/
theorem kdQueue_fifo_witness :
    MallocOK (Heap.bump : NodeHeap → Ptr) ∧
    ((∀ ops : List QueueOp, ∃ log m' q',
      runQueueOps Heap.bump ops Heap.empty kdQueueCreateVEN = some (log, m', q') ∧
      poppedValues log <+: pushedValues ops ∧
      (∀ (k : Nat) (v : Ptr), (poppedValues log)[k]? = some v → (pushedValues ops)[k]? = some v) ∧
      (∀ o ∈ log, o.1 = false → o.2 = KD_NULL)) ∧
    (∀ vs : List Ptr, ∃ m' q',
      runQueueOps Heap.bump (vs.map QueueOp.push ++ List.replicate vs.length QueueOp.pop)
        Heap.empty kdQueueCreateVEN = some (vs.map (fun v => (true, v)), m', q') ∧
      kdQueueSizeVEN q' = 0)) ∧
    (runQueueOps Heap.bump
        [QueueOp.push 7, QueueOp.pop, QueueOp.pop, QueueOp.push 8, QueueOp.push 9, QueueOp.pop]
        Heap.empty kdQueueCreateVEN).map (fun r => (r.1, r.2.2)) =
      some ([(true, 7), (false, KD_NULL), (true, 8)], ⟨3, 3, 1⟩) :=
  ⟨Heap.bump_ok, kdQueue_fifo Heap.bump Heap.bump_ok Heap.empty, by decide⟩

/-! ### Event loop: single steps -/

theorem kindAt_eq_none {ev : Heap KDEvent} {p : Ptr} : kindAt ev p = none ↔ ev.read p = none := by
  simp [kindAt]

theorem kindAt_of_read {ev : Heap KDEvent} {p : Ptr} {e : KDEvent} (h : ev.read p = some e) :
    kindAt ev p = some (e.type, e.userptr) := by
  simp [kindAt, h]

theorem dispatchCall_congr {w w' : World} {p : Ptr}
    (hc : w'.thread.callbacks = w.thread.callbacks) (hk : kindAt w'.events p = kindAt w.events p) :
    dispatchCall w' p = dispatchCall w p := by
  simp only [dispatchCall, hc, hk]

theorem matched_congr {w w' : World} {p : Ptr}
    (hc : w'.thread.callbacks = w.thread.callbacks) (hk : kindAt w'.events p = kindAt w.events p) :
    matched w' p = matched w p := by
  simp only [matched, dispatchCall_congr hc hk]

theorem Frame.refl (w : World) : Frame w w := ⟨rfl, rfl, rfl⟩

theorem Frame.trans {w1 w2 w3 : World} (h12 : Frame w1 w2) (h23 : Frame w2 w3) : Frame w1 w3 :=
  ⟨h23.1.trans h12.1, h23.2.1.trans h12.2.1, h23.2.2.trans h12.2.2⟩

theorem execCallback_loop_eq (event : Ptr) (e : KDEvent) (cbs : List __KDCallback) (w : World)
    (he : w.events.read event = some e) :
    __kdExecCallback_loop event cbs w =
      some (match cbs.find? (callbackMatches e.type e.userptr) with
        | some cb => (kdFreeEvent { w with calls := w.calls ++ [(cb.func, event)] } event, true)
        | none => (w, false)) := by
  induction cbs with
  | nil => rfl
  | cons cb cbs ih =>
    simp only [__kdExecCallback_loop, he, List.find?_cons, callbackMatches]
    by_cases hf : cb.func = KD_NULL
    · simp [hf, ih]
    · by_cases hm : (cb.eventtype = e.type ∨ cb.eventtype = 0) ∧ cb.eventuserptr = e.userptr
      · have hm1 : (decide (cb.eventtype = e.type) || decide (cb.eventtype = 0)) = true := by
          simpa using hm.1
        simp [hf, hm, hm1]
      · have hm' : ((decide (cb.eventtype = e.type) || decide (cb.eventtype = 0)) &&
            decide (cb.eventuserptr = e.userptr)) = false := by
          simpa using hm
        simp only [hf, hm, hm', ne_eq, not_false_eq_true, if_true, if_false, decide_True,
          Bool.true_and, ih]

theorem execCallback_eq_ref (w : World) (event : Ptr) (e : KDEvent)
    (he : w.events.read event = some e) :
    __kdExecCallback w event = some (execCallbackRef w event e) := by
  rw [__kdExecCallback, execCallback_loop_eq event e _ w he]
  rfl

theorem kdPostThreadEvent_spec {H : Host} (hM : MallocOK H.kdMalloc) {w : World}
    {Q : List Ptr} {p : Ptr} {e : KDEvent}
    (hq : QueueRep w.nodes w.thread.eventqueue Q) (he : w.events.read p = some e) :
    ∃ w', kdPostThreadEvent H w p = some (w', 0) ∧
      QueueRep w'.nodes w'.thread.eventqueue (Q ++ [p]) ∧
      w'.calls = w.calls ∧ Frame w w' ∧
      (∀ q, kindAt w'.events q = kindAt w.events q) ∧
      (∀ q, q ≠ p → w'.events.read q = w.events.read q) ∧
      w'.events.read p = some { e with timestamp :=
        if e.timestamp = 0 then kdGetTimeUST (H.clock w.tick) else e.timestamp } := by
  have hp0 : p ≠ KD_NULL := by
    intro h0; rw [h0, Heap.read_null] at he; cases he
  obtain ⟨m', q', hpush, hrep⟩ := kdQueuePushTailVEN_rep hM hq p
  by_cases hts : e.timestamp = 0
  · refine ⟨⟨m', w.events.write p { e with timestamp := kdGetTimeUST (H.clock w.tick) },
      { w.thread with eventqueue := q' }, w.calls, w.tick + 1⟩, ?_, hrep, rfl, ⟨rfl, rfl, rfl⟩,
      ?_, ?_, ?_⟩
    · simp only [kdPostThreadEvent, he, hts, if_true, hpush]
    · intro q
      simp only [kindAt]
      by_cases hqp : q = p
      · subst hqp
        rw [Heap.read_write_same _ _ _ hp0, he]
        rfl
      · rw [Heap.read_write_ne _ _ _ _ hqp]
    · intro q hqp
      exact Heap.read_write_ne _ _ _ _ hqp
    · simp only [hts, if_true]
      exact Heap.read_write_same _ _ _ hp0
  · refine ⟨⟨m', w.events, { w.thread with eventqueue := q' }, w.calls, w.tick⟩, ?_, hrep, rfl,
      ⟨rfl, rfl, rfl⟩, ?_, ?_, ?_⟩
    · simp only [kdPostThreadEvent, he, hts, if_false, hpush]
    · intro q; rfl
    · intro q _; rfl
    · simp only [hts, if_false]
      exact he

/-! ### Event loop: the pump -/

theorem dispatchCall_of_read {w : World} {p : Ptr} {e : KDEvent}
    (he : w.events.read p = some e) :
    dispatchCall w p =
      (dispatchRef w.thread.callbacks e.type e.userptr).map (fun cb => (cb.func, p)) := by
  simp only [dispatchCall, kindAt_of_read he]

theorem execCallback_matched {w : World} {p : Ptr} {e : KDEvent} {cb : __KDCallback}
    (he : w.events.read p = some e)
    (hd : dispatchRef w.thread.callbacks e.type e.userptr = some cb) :
    ∃ w2, __kdExecCallback w p = some (w2, true) ∧ w2.nodes = w.nodes ∧
      w2.thread = w.thread ∧ w2.calls = w.calls ++ [(cb.func, p)] ∧
      w2.events = w.events.free p := by
  refine ⟨⟨w.nodes, w.events.free p, w.thread, w.calls ++ [(cb.func, p)], w.tick⟩, ?_,
    rfl, rfl, rfl, rfl⟩
  rw [execCallback_eq_ref w p e he]
  simp only [execCallbackRef, hd, kdFreeEvent]

theorem execCallback_unmatched {w : World} {p : Ptr} {e : KDEvent}
    (he : w.events.read p = some e)
    (hd : dispatchRef w.thread.callbacks e.type e.userptr = none) :
    __kdExecCallback w p = some (w, false) := by
  rw [execCallback_eq_ref w p e he]
  simp only [execCallbackRef, hd]

theorem kdPumpEvents_loop_spec {H : Host} (hM : MallocOK H.kdMalloc) (S : List Ptr) :
    ∀ (R : List Ptr) (w : World), WFW w (S ++ R) →
    ∃ w', kdPumpEvents_loop H S.length w = some w' ∧
      WFW w' (R ++ unmatchedEvents w S) ∧
      w'.calls = w.calls ++ dispatchedCalls w S ∧
      Frame w w' ∧
      (∀ q, (q ∈ S → matched w q = false) → kindAt w'.events q = kindAt w.events q) ∧
      (∀ q ∈ S, matched w q = true → w'.events.read q = none) := by
  induction S with
  | nil =>
    intro R w h
    exact ⟨w, rfl, by simpa [unmatchedEvents] using h, by simp [dispatchedCalls], Frame.refl w,
      fun q _ => rfl, by simp⟩
  | cons p S ih =>
    intro R w hwf
    obtain ⟨hrep, hnd, hlive⟩ := hwf
    rw [List.cons_append] at hrep hnd hlive
    obtain ⟨m1, q1, hpop, hrep1⟩ := kdQueuePopHeadVEN_rep_cons hrep
    obtain ⟨e, he⟩ := Option.ne_none_iff_exists'.1 (hlive p (List.mem_cons_self _ _))
    have hp0 : p ≠ KD_NULL := by
      intro h0; rw [h0, Heap.read_null] at he; cases he
    have hpnot : p ∉ S ++ R := (List.nodup_cons.1 hnd).1
    have hnd1 : (S ++ R).Nodup := (List.nodup_cons.1 hnd).2
    have hpS : p ∉ S := fun h => hpnot (List.mem_append_left _ h)
    have hdc := dispatchCall_of_read (w := w) he
    cases hd : dispatchRef w.thread.callbacks e.type e.userptr with
    | some cb =>
      have hmp : matched w p = true := by simp [matched, hdc, hd]
      obtain ⟨w2, hexec, hn2, ht2, hc2, he2⟩ := execCallback_matched
        (w := ⟨m1, w.events, ⟨q1, w.thread.lastevent, w.thread.lasterror, w.thread.callbacks⟩,
          w.calls, w.tick⟩) he hd
      simp only [] at hn2 ht2 hc2 he2
      have hwf2 : WFW w2 (S ++ R) := by
        refine ⟨by rw [hn2, ht2]; exact hrep1, hnd1, ?_⟩
        intro q hq
        have hqp : q ≠ p := fun h => hpnot (h ▸ hq)
        rw [he2, Heap.read_free_ne _ _ _ hqp]
        exact hlive q (List.mem_cons_of_mem _ hq)
      obtain ⟨w', hrun, hwf', hcalls, hframe, hkind, hfreed⟩ := ih R w2 hwf2
      have hcb2 : w2.thread.callbacks = w.thread.callbacks := by rw [ht2]
      have hk2 : ∀ q, q ≠ p → kindAt w2.events q = kindAt w.events q := by
        intro q hqp
        simp only [kindAt, he2, Heap.read_free_ne _ _ _ hqp]
      have hmc : ∀ q ∈ S, matched w2 q = matched w q := by
        intro q hq
        exact matched_congr hcb2 (hk2 q (fun h => hpS (h ▸ hq)))
      have hdcc : ∀ q ∈ S, dispatchCall w2 q = dispatchCall w q := by
        intro q hq
        exact dispatchCall_congr hcb2 (hk2 q (fun h => hpS (h ▸ hq)))
      refine ⟨w', ?_, ?_, ?_, ?_, ?_, ?_⟩
      · simp only [List.length_cons, kdPumpEvents_loop, hpop, hp0, ne_eq, not_false_eq_true,
          if_true, hexec, hrun]
      · have : unmatchedEvents w (p :: S) = unmatchedEvents w2 S := by
          simp only [unmatchedEvents, List.filter_cons, hmp, Bool.not_true, Bool.false_eq_true,
            if_false]
          apply List.filter_congr
          intro q hq
          rw [hmc q hq]
        rw [this]
        exact hwf'
      · rw [hcalls]
        have : dispatchedCalls w (p :: S) = (cb.func, p) :: dispatchedCalls w2 S := by
          simp only [dispatchedCalls, List.filterMap_cons, hdc, hd, Option.map_some']
          congr 1
          apply List.filterMap_congr
          intro q hq
          rw [hdcc q hq]
        rw [this, hc2]
        simp
      · exact ⟨hframe.1.trans hcb2, hframe.2.1.trans (by rw [ht2]),
          hframe.2.2.trans (by rw [ht2])⟩
      · intro q hq
        have hqp : q ≠ p := by
          intro h
          have := hq (h ▸ List.mem_cons_self _ _)
          rw [h, hmp] at this
          cases this
        rw [hkind q (fun hqS => by rw [hmc q hqS]; exact hq (List.mem_cons_of_mem _ hqS))]
        exact hk2 q hqp
      · intro q hq hmq
        rcases List.mem_cons.1 hq with rfl | hqS
        · have := hkind q (fun hqS => absurd hqS hpS)
          rw [← kindAt_eq_none, this, kindAt_eq_none, he2]
          exact Heap.read_free_same _ _
        · exact hfreed q hqS (by rw [hmc q hqS]; exact hmq)
    | none =>
      have hmp : matched w p = false := by simp [matched, hdc, hd]
      have hexec := execCallback_unmatched
        (w := ⟨m1, w.events, ⟨q1, w.thread.lastevent, w.thread.lasterror, w.thread.callbacks⟩,
          w.calls, w.tick⟩) he hd
      obtain ⟨w3, hpost, hrep3, hcalls3, hframe3, hkind3, hread3, hreadp3⟩ :=
        kdPostThreadEvent_spec (H := H) hM
          (w := ⟨m1, w.events, ⟨q1, w.thread.lastevent, w.thread.lasterror, w.thread.callbacks⟩,
            w.calls, w.tick⟩)
          (Q := S ++ R) (p := p) (e := e) hrep1 he
      have hwf3 : WFW w3 (S ++ (R ++ [p])) := by
        refine ⟨by simpa using hrep3, ?_, ?_⟩
        · rw [← List.append_assoc]
          exact List.nodup_append.2 ⟨hnd1, List.nodup_singleton p, by
            intro a ha ha'
            rw [List.mem_singleton] at ha'
            exact hpnot (ha' ▸ ha)⟩
        · intro q hq
          rw [← List.append_assoc] at hq
          by_cases hqp : q = p
          · rw [hqp, hreadp3]; simp
          · rw [hread3 q hqp]
            rcases List.mem_append.1 hq with hq | hq
            · exact hlive q (List.mem_cons_of_mem _ hq)
            · exact absurd (List.mem_singleton.1 hq) hqp
      obtain ⟨w', hrun, hwf', hcalls, hframe, hkind, hfreed⟩ := ih (R ++ [p]) w3 hwf3
      have hmc : ∀ q, matched w3 q = matched w q := fun q => matched_congr hframe3.1 (hkind3 q)
      have hdcc : ∀ q, dispatchCall w3 q = dispatchCall w q :=
        fun q => dispatchCall_congr hframe3.1 (hkind3 q)
      refine ⟨w', ?_, ?_, ?_, ?_, ?_, ?_⟩
      · simp only [List.length_cons, kdPumpEvents_loop, hpop, hp0, ne_eq, not_false_eq_true,
          if_true, hexec, kdPostEvent, hpost, hrun]
      · have : R ++ unmatchedEvents w (p :: S) = (R ++ [p]) ++ unmatchedEvents w3 S := by
          simp only [unmatchedEvents, List.filter_cons, hmp, Bool.not_false, if_true,
            List.append_assoc, List.singleton_append]
          congr 2
          apply List.filter_congr
          intro q _
          rw [hmc q]
        rw [this]
        exact hwf'
      · rw [hcalls, hcalls3]
        have : dispatchedCalls w (p :: S) = dispatchedCalls w3 S := by
          simp only [dispatchedCalls, List.filterMap_cons, hdc, hd, Option.map_none']
          apply List.filterMap_congr
          intro q _
          rw [hdcc q]
        rw [this]
      · exact Frame.trans hframe3 hframe
      · intro q hq
        rw [hkind q (fun hqS => by rw [hmc q]; exact hq (List.mem_cons_of_mem _ hqS))]
        exact hkind3 q
      · intro q hq hmq
        rcases List.mem_cons.1 hq with rfl | hqS
        · rw [hmp] at hmq; cases hmq
        · exact hfreed q hqS (by rw [hmc q]; exact hmq)

theorem unmatchedEvents_mem {w : World} {S : List Ptr} {q : Ptr} :
    q ∈ unmatchedEvents w S ↔ q ∈ S ∧ matched w q = false := by
  simp [unmatchedEvents]

theorem unmatchedEvents_sublist (w : World) (S : List Ptr) :
    (unmatchedEvents w S).Sublist S :=
  List.filter_sublist S

theorem unmatchedEvents_eq_self {w : World} {S : List Ptr}
    (h : ∀ q ∈ S, matched w q = false) : unmatchedEvents w S = S := by
  simp only [unmatchedEvents]
  rw [List.filter_eq_self]
  intro q hq
  simp [h q hq]

theorem dispatchedCalls_eq_nil {w : World} {S : List Ptr}
    (h : ∀ q ∈ S, matched w q = false) : dispatchedCalls w S = [] := by
  simp only [dispatchedCalls]
  rw [List.filterMap_eq_nil_iff]
  intro q hq
  have := h q hq
  simpa [matched] using this

theorem kdPumpEvents_spec {H : Host} (hM : MallocOK H.kdMalloc) {w : World} {Q : List Ptr}
    (h : WFW w Q) :
    ∃ w', kdPumpEvents H w = some (w', 0) ∧
      WFW w' (unmatchedEvents w Q) ∧
      w'.calls = w.calls ++ dispatchedCalls w Q ∧
      Frame w w' ∧
      (∀ q, (q ∈ Q → matched w q = false) → kindAt w'.events q = kindAt w.events q) ∧
      (∀ q ∈ Q, matched w q = true → w'.events.read q = none) := by
  have hsize : kdQueueSizeVEN w.thread.eventqueue = Q.length := queueRep_size h.1
  obtain ⟨w', hrun, hwf', rest⟩ :=
    kdPumpEvents_loop_spec hM Q [] w (by simpa using h)
  refine ⟨w', ?_, by simpa using hwf', rest⟩
  simp only [kdPumpEvents, hsize, hrun]

theorem kdWaitEvent_spec {H : Host} (hM : MallocOK H.kdMalloc) {w : World} {Q : List Ptr}
    (h : WFW w Q) (hl : w.thread.lastevent = KD_NULL) (timeout : Int) :
    ∃ w', kdWaitEvent H w timeout = some (w', (unmatchedEvents w Q).headD KD_NULL) ∧
      WFW w' (unmatchedEvents w Q).tail ∧
      w'.calls = w.calls ++ dispatchedCalls w Q ∧
      w'.thread.callbacks = w.thread.callbacks ∧
      w'.thread.lastevent = KD_NULL ∧
      w'.thread.lasterror =
        (if unmatchedEvents w Q = [] then KD_EAGAIN else w.thread.lasterror) ∧
      (∀ q, (q ∈ Q → matched w q = false) → kindAt w'.events q = kindAt w.events q) ∧
      (∀ q ∈ Q, matched w q = true → w'.events.read q = none) := by
  obtain ⟨w3, hpump, hwf3, hcalls, hframe, hkind, hfreed⟩ := kdPumpEvents_spec hM h
  have hsize : kdQueueSizeVEN w3.thread.eventqueue = (unmatchedEvents w Q).length :=
    queueRep_size hwf3.1
  have hite : (if timeout ≠ -1 then w else w) = w := by split <;> rfl
  cases hU : unmatchedEvents w Q with
  | nil =>
    rw [hU] at hwf3 hsize
    refine ⟨kdSetError w3 KD_EAGAIN, ?_, ?_, hcalls, hframe.1, ?_, ?_, hkind, hfreed⟩
    · simp only [kdWaitEvent, hl, ne_eq, not_true_eq_false, if_false, hite, hpump, hsize,
        List.length_nil, gt_iff_lt, lt_self_iff_false, List.headD_nil]
    · exact hwf3
    · exact hframe.2.1.trans hl
    · simp [kdSetError]
  | cons u U =>
    rw [hU] at hwf3 hsize
    obtain ⟨m1, q1, hpop, hrep1⟩ := kdQueuePopHeadVEN_rep_cons hwf3.1
    refine ⟨⟨m1, w3.events, ⟨q1, w3.thread.lastevent, w3.thread.lasterror,
      w3.thread.callbacks⟩, w3.calls, w3.tick⟩, ?_, ?_, hcalls, hframe.1, ?_, ?_, hkind, hfreed⟩
    · simp only [kdWaitEvent, hl, ne_eq, not_true_eq_false, if_false, hite, hpump, hsize,
        List.length_cons, gt_iff_lt, Nat.zero_lt_succ, if_true, hpop, List.headD_cons]
    · exact ⟨hrep1, (List.nodup_cons.1 hwf3.2.1).2,
        fun q hq => hwf3.2.2 q (List.mem_cons_of_mem _ hq)⟩
    · exact hframe.2.1.trans hl
    · simpa using hframe.2.2

theorem kdWaitEvents_unmatched {H : Host} (hM : MallocOK H.kdMalloc) (n : Nat) :
    ∀ (w : World) (Q : List Ptr), WFW w Q → w.thread.lastevent = KD_NULL →
    (∀ q ∈ Q, matched w q = false) →
    ∃ w', kdWaitEvents H n w =
        some (w', Q.take n ++ List.replicate (n - Q.length) KD_NULL) ∧
      WFW w' (Q.drop n) ∧
      w'.thread.lastevent = KD_NULL ∧
      w'.thread.callbacks = w.thread.callbacks ∧
      w'.calls = w.calls ∧
      (∀ q, kindAt w'.events q = kindAt w.events q) := by
  induction n with
  | zero =>
    intro w Q h hl _
    exact ⟨w, by simp [kdWaitEvents], by simpa using h, hl, rfl, rfl, fun _ => rfl⟩
  | succ n ih =>
    intro w Q h hl hun
    obtain ⟨w1, hwait, hwf1, hcalls1, hcb1, hl1, -, hkind1, -⟩ :=
      kdWaitEvent_spec (H := H) hM h hl (-1)
    rw [unmatchedEvents_eq_self hun] at hwait hwf1
    rw [dispatchedCalls_eq_nil hun, List.append_nil] at hcalls1
    have hun1 : ∀ q ∈ Q.tail, matched w1 q = false := by
      intro q hq
      have hqQ : q ∈ Q := List.mem_of_mem_tail hq
      rw [matched_congr hcb1 (hkind1 q (fun _ => hun q hqQ))]
      exact hun q hqQ
    obtain ⟨w', hrun, hwf', hl', hcb', hcalls', hkind'⟩ := ih w1 Q.tail hwf1 hl1 hun1
    refine ⟨w', ?_, ?_, hl', hcb'.trans hcb1, hcalls'.trans hcalls1, ?_⟩
    · simp only [kdWaitEvents, hwait, hrun]
      cases Q with
      | nil => simp [List.replicate_succ]
      | cons x xs => simp
    · cases Q with
      | nil => simpa using hwf'
      | cons x xs => simpa using hwf'
    · intro q
      rw [hkind' q]
      exact hkind1 q (fun hq => hun q hq)

/-! ### Posting and waiting -/

theorem kdPostThreadEvents_spec {H : Host} (hM : MallocOK H.kdMalloc) (es : List Ptr) :
    ∀ (w : World) (Q : List Ptr), WFW w Q → (Q ++ es).Nodup →
    (∀ e ∈ es, w.events.read e ≠ none) →
    ∃ w', kdPostThreadEvents H es w = some w' ∧ WFW w' (Q ++ es) ∧
      w'.calls = w.calls ∧ Frame w w' ∧
      (∀ q, kindAt w'.events q = kindAt w.events q) := by
  induction es with
  | nil =>
    intro w Q h _ _
    exact ⟨w, rfl, by simpa using h, rfl, Frame.refl w, fun _ => rfl⟩
  | cons e es ih =>
    intro w Q h hnd hlive
    obtain ⟨ev, hev⟩ := Option.ne_none_iff_exists'.1 (hlive e (List.mem_cons_self _ _))
    obtain ⟨w1, hpost, hrep1, hcalls1, hframe1, hkind1, hread1, hreadp1⟩ :=
      kdPostThreadEvent_spec (H := H) hM h.1 hev
    have hnd' : ((Q ++ [e]) ++ es).Nodup := by simpa using hnd
    have hwf1 : WFW w1 (Q ++ [e]) := by
      refine ⟨hrep1, (List.nodup_append.1 hnd').1, ?_⟩
      intro q hq
      by_cases hqe : q = e
      · rw [hqe, hreadp1]; simp
      · rw [hread1 q hqe]
        rcases List.mem_append.1 hq with hq | hq
        · exact h.2.2 q hq
        · exact absurd (List.mem_singleton.1 hq) hqe
    have hlive1 : ∀ x ∈ es, w1.events.read x ≠ none := by
      intro x hx
      have := hlive x (List.mem_cons_of_mem _ hx)
      intro hx1
      apply this
      rw [← kindAt_eq_none, ← hkind1 x, kindAt_eq_none]
      exact hx1
    obtain ⟨w', hrun, hwf', hcalls', hframe', hkind'⟩ := ih w1 (Q ++ [e]) hwf1 hnd' hlive1
    refine ⟨w', ?_, by simpa using hwf', hcalls'.trans hcalls1, Frame.trans hframe1 hframe', ?_⟩
    · simp only [kdPostThreadEvents, hpost, hrun]
    · intro q
      rw [hkind' q, hkind1 q]

/-- C2: on a thread `T` whose queue is empty, with no window and no concurrent
posts, if the distinct live events `es`, none matched by a callback of `T`,
are posted with `kdPostThreadEvent` in this order, then `es.length`
successive `kdWaitEvent(-1)` calls on `T` return exactly `es`, each event once
and in post order, with kind and user pointer unchanged; no callback is
invoked and the queue is empty afterwards. -/
theorem kdWaitEvent_returns_posted (H : Host) (hM : MallocOK H.kdMalloc) (w : World)
    (es : List Ptr) (hq : WFW w []) (hl : w.thread.lastevent = KD_NULL) (hnd : es.Nodup)
    (hlive : ∀ e ∈ es, w.events.read e ≠ none) (hun : ∀ e ∈ es, matched w e = false) :
    ∃ w1 w2, kdPostThreadEvents H es w = some w1 ∧
      kdWaitEvents H es.length w1 = some (w2, es) ∧
      (∀ e ∈ es, kindAt w2.events e = kindAt w.events e) ∧
      w2.calls = w.calls ∧ kdQueueSizeVEN w2.thread.eventqueue = 0 := by
  obtain ⟨w1, hpost, hwf1, hcalls1, hframe1, hkind1⟩ :=
    kdPostThreadEvents_spec (H := H) hM es w [] hq (by simpa using hnd) hlive
  rw [List.nil_append] at hwf1
  have hun1 : ∀ q ∈ es, matched w1 q = false := by
    intro q hq'
    rw [matched_congr hframe1.1 (hkind1 q)]
    exact hun q hq'
  obtain ⟨w2, hwait, hwf2, -, -, hcalls2, hkind2⟩ :=
    kdWaitEvents_unmatched (H := H) hM es.length w1 es hwf1 (hframe1.2.1.trans hl) hun1
  refine ⟨w1, w2, hpost, ?_, ?_, hcalls2.trans hcalls1, ?_⟩
  · simpa using hwait
  · intro e _
    rw [hkind2 e, hkind1 e]
  · have := queueRep_size hwf2.1
    simpa using this

/-- Instance of `kdWaitEvent_returns_posted`: three events posted to the
example thread come back from three waits in post order. -/
theorem kdWaitEvent_returns_posted_witness :
    MallocOK exampleHost.kdMalloc ∧ WFW exampleWorld [] ∧
    exampleWorld.thread.lastevent = KD_NULL ∧ [1, 3, 2].Nodup ∧
    (∀ e ∈ [1, 3, 2], exampleWorld.events.read e ≠ none) ∧
    (∀ e ∈ [1, 3, 2], matched exampleWorld e = false) ∧
    (∃ w1 w2, kdPostThreadEvents exampleHost [1, 3, 2] exampleWorld = some w1 ∧
      kdWaitEvents exampleHost [1, 3, 2].length w1 = some (w2, [1, 3, 2]) ∧
      (∀ e ∈ [1, 3, 2], kindAt w2.events e = kindAt exampleWorld.events e) ∧
      w2.calls = exampleWorld.calls ∧ kdQueueSizeVEN w2.thread.eventqueue = 0) ∧
    ((kdPostThreadEvents exampleHost [1, 3, 2] exampleWorld).bind
        (fun w1 => kdWaitEvents exampleHost 4 w1)).map Prod.snd = some [1, 3, 2, KD_NULL] :=
  ⟨Heap.bump_ok, ⟨kdQueueCreateVEN_rep _, List.nodup_nil, by simp⟩, rfl, by decide, by decide,
    by decide,
    kdWaitEvent_returns_posted exampleHost Heap.bump_ok exampleWorld [1, 3, 2]
      ⟨kdQueueCreateVEN_rep _, List.nodup_nil, by simp⟩ rfl (by decide) (by decide) (by decide),
    by decide⟩

/-! ### Dispatch -/

/-- C5: on a live event with content `e`, `__kdExecCallback` equals the
reference dispatch: if `cb` is the first entry in insertion order whose
function is not null and for which (`cb.eventtype = e.type` or
`cb.eventtype = 0`) and `cb.eventuserptr = e.userptr`, then exactly the call
`cb.func(event)` is made, the event is freed and the result is `1`; if no
entry satisfies this, no call is made, the world is unchanged and the result
is `0`. -/
theorem kdExecCallback_eq_reference (w : World) (event : Ptr) (e : KDEvent)
    (he : w.events.read event = some e) :
    __kdExecCallback w event = some (execCallbackRef w event e) ∧
    (∀ cb, dispatchRef w.thread.callbacks e.type e.userptr = some cb →
      (∃ pre post, w.thread.callbacks = pre ++ cb :: post ∧
        (∀ c ∈ pre, callbackMatches e.type e.userptr c = false) ∧
        cb.func ≠ KD_NULL ∧ (cb.eventtype = e.type ∨ cb.eventtype = 0) ∧
        cb.eventuserptr = e.userptr) ∧
      __kdExecCallback w event =
        some (⟨w.nodes, w.events.free event, w.thread, w.calls ++ [(cb.func, event)], w.tick⟩,
          true)) ∧
    (dispatchRef w.thread.callbacks e.type e.userptr = none →
      (∀ c ∈ w.thread.callbacks, ¬ (c.func ≠ KD_NULL ∧
        (c.eventtype = e.type ∨ c.eventtype = 0) ∧ c.eventuserptr = e.userptr)) ∧
      __kdExecCallback w event = some (w, false)) := by
  refine ⟨execCallback_eq_ref w event e he, ?_, ?_⟩
  · intro cb hcb
    refine ⟨?_, ?_⟩
    · have hm := List.find?_some hcb
      obtain ⟨pre, post, hsplit, hpre⟩ := (List.find?_eq_some.1 hcb).2
      refine ⟨pre, post, hsplit, ?_, ?_⟩
      · intro c hc
        simpa using hpre c hc
      · simpa [callbackMatches] using hm
    · rw [execCallback_eq_ref w event e he]
      simp only [execCallbackRef, hcb, kdFreeEvent]
  · intro hnone
    refine ⟨?_, execCallback_unmatched he hnone⟩
    intro c hc hmatch
    have := List.find?_eq_none.1 hnone c hc
    apply this
    simpa [callbackMatches] using hmatch

/-- Instance of `kdExecCallback_eq_reference`: the QUIT event at address 1 of
`exampleWorld2` skips the entry with a null function and goes to the
wildcard entry, the first that matches. -/
theorem kdExecCallback_eq_reference_witness :
    exampleWorld2.events.read 1 = some ⟨0, KD_EVENT_QUIT, KD_NULL⟩ ∧
    (__kdExecCallback exampleWorld2 1 =
        some (execCallbackRef exampleWorld2 1 ⟨0, KD_EVENT_QUIT, KD_NULL⟩) ∧
      (∀ cb, dispatchRef exampleWorld2.thread.callbacks KD_EVENT_QUIT KD_NULL = some cb →
        (∃ pre post, exampleWorld2.thread.callbacks = pre ++ cb :: post ∧
          (∀ c ∈ pre, callbackMatches KD_EVENT_QUIT KD_NULL c = false) ∧
          cb.func ≠ KD_NULL ∧ (cb.eventtype = KD_EVENT_QUIT ∨ cb.eventtype = 0) ∧
          cb.eventuserptr = KD_NULL) ∧
        __kdExecCallback exampleWorld2 1 =
          some (⟨exampleWorld2.nodes, exampleWorld2.events.free 1, exampleWorld2.thread,
            exampleWorld2.calls ++ [(cb.func, 1)], exampleWorld2.tick⟩, true)) ∧
      (dispatchRef exampleWorld2.thread.callbacks KD_EVENT_QUIT KD_NULL = none →
        (∀ c ∈ exampleWorld2.thread.callbacks, ¬ (c.func ≠ KD_NULL ∧
          (c.eventtype = KD_EVENT_QUIT ∨ c.eventtype = 0) ∧ c.eventuserptr = KD_NULL)) ∧
        __kdExecCallback exampleWorld2 1 = some (exampleWorld2, false))) ∧
    (__kdExecCallback exampleWorld2 1).map (fun r => (r.1.calls, r.1.events.read 1, r.2)) =
      some ([(200, 1)], none, true) ∧
    (__kdExecCallback exampleWorld2 2).map (fun r => (r.1.calls, r.1.events.read 2, r.2)) =
      some ([], some ⟨5, 7, 9⟩, false) :=
  ⟨rfl, kdExecCallback_eq_reference exampleWorld2 1 ⟨0, KD_EVENT_QUIT, KD_NULL⟩ rfl,
    by decide, by decide⟩

theorem dispatchedCalls_map_snd (w : World) (S : List Ptr) :
    (dispatchedCalls w S).map Prod.snd = S.filter (fun p => matched w p) := by
  induction S with
  | nil => rfl
  | cons p S ih =>
    simp only [dispatchedCalls, List.filterMap_cons, List.filter_cons, matched] at ih ⊢
    cases hd : dispatchCall w p with
    | none => simpa using ih
    | some c =>
      have hc : c.2 = p := by
        simp only [dispatchCall] at hd
        cases hk : kindAt w.events p with
        | none => rw [hk] at hd; cases hd
        | some k =>
          rw [hk] at hd
          simp only [Option.map_eq_some'] at hd
          obtain ⟨cb, -, rfl⟩ := hd
          rfl
      simp [ih, hc]

/-- C8: for every well-formed queue content `Q` of the calling thread (no
window, no concurrent post, handlers that only get logged), `kdPumpEvents`
returns `0`; the calls it makes are those of the callback-matched events of
`Q`, one call per matched event, in the order of `Q`, each to the function of
the first matching entry; afterwards the queue holds exactly the unmatched
events of `Q` in their original order and the matched events are freed.  The
loop runs as many iterations as the size snapshot: run with the snapshot
`S.length` on a queue `S ++ R`, it dispatches the events of `S` only and
leaves `R` in the queue, ahead of the unmatched events of `S`. -/
theorem kdPumpEvents_dispatch (H : Host) (hM : MallocOK H.kdMalloc) (w : World)
    (Q : List Ptr) (h : WFW w Q) :
    (∃ w', kdPumpEvents H w = some (w', 0) ∧
      w'.calls = w.calls ++ dispatchedCalls w Q ∧
      (dispatchedCalls w Q).map Prod.snd = Q.filter (fun p => matched w p) ∧
      WFW w' (Q.filter (fun p => !matched w p)) ∧
      (∀ q ∈ Q, matched w q = true → w'.events.read q = none)) ∧
    (∀ S R : List Ptr, Q = S ++ R →
      ∃ w', kdPumpEvents_loop H S.length w = some w' ∧
        w'.calls = w.calls ++ dispatchedCalls w S ∧
        WFW w' (R ++ S.filter (fun p => !matched w p))) := by
  constructor
  · obtain ⟨w', hpump, hwf', hcalls, -, -, hfreed⟩ := kdPumpEvents_spec (H := H) hM h
    exact ⟨w', hpump, hcalls, dispatchedCalls_map_snd w Q, hwf', hfreed⟩
  · intro S R hQ
    subst hQ
    obtain ⟨w', hrun, hwf', hcalls, -⟩ := kdPumpEvents_loop_spec hM S R w h
    exact ⟨w', hrun, hcalls, hwf'⟩

/-- Instance of `kdPumpEvents_dispatch` on the queue `[1, 2, 3]` of
`exampleQueued`: event 1 (QUIT) goes to the wildcard handler 200 and is freed,
events 2 and 3 stay in the queue in this order; with the size snapshot 0 the
matched event 1 is not dispatched. -/
theorem kdPumpEvents_dispatch_witness :
    MallocOK exampleHost.kdMalloc ∧ WFW exampleQueued [1, 2, 3] ∧
    ((∃ w', kdPumpEvents exampleHost exampleQueued = some (w', 0) ∧
      w'.calls = exampleQueued.calls ++ dispatchedCalls exampleQueued [1, 2, 3] ∧
      (dispatchedCalls exampleQueued [1, 2, 3]).map Prod.snd =
        [1, 2, 3].filter (fun p => matched exampleQueued p) ∧
      WFW w' ([1, 2, 3].filter (fun p => !matched exampleQueued p)) ∧
      (∀ q ∈ [1, 2, 3], matched exampleQueued q = true → w'.events.read q = none)) ∧
    (∀ S R : List Ptr, [1, 2, 3] = S ++ R →
      ∃ w', kdPumpEvents_loop exampleHost S.length exampleQueued = some w' ∧
        w'.calls = exampleQueued.calls ++ dispatchedCalls exampleQueued S ∧
        WFW w' (R ++ S.filter (fun p => !matched exampleQueued p)))) ∧
    dispatchedCalls exampleQueued [1, 2, 3] = [(200, 1)] ∧
    [1, 2, 3].filter (fun p => !matched exampleQueued p) = [2, 3] ∧
    (kdPumpEvents exampleHost exampleQueued).map
        (fun r => (r.1.calls, r.1.thread.eventqueue.size, r.1.events.read 1, r.2)) =
      some ([(200, 1)], 2, none, 0) ∧
    (kdPumpEvents_loop exampleHost 0 exampleQueued).map
        (fun w => (w.calls, w.thread.eventqueue.size)) = some ([], 3) :=
  ⟨Heap.bump_ok,
    ⟨⟨[(1, 1), (2, 2), (3, 3)], rfl, by decide, ⟨rfl, rfl, rfl, trivial⟩, rfl, rfl, rfl⟩,
      by decide, by decide⟩,
    kdPumpEvents_dispatch exampleHost Heap.bump_ok exampleQueued [1, 2, 3]
      ⟨⟨[(1, 1), (2, 2), (3, 3)], rfl, by decide, ⟨rfl, rfl, rfl, trivial⟩, rfl, rfl, rfl⟩,
        by decide, by decide⟩,
    by decide, by decide, by decide, by decide⟩

/-! ### Waiting -/

/-- C9: `kdWaitEvent` on a thread whose event queue is empty (size `0`; no
window, so no host events) returns `KD_NULL`, sets the last error of the
thread to `KD_EAGAIN` and leaves the queue as it was, hence empty; this holds
for `kdWaitEvent(-1)` and for every other timeout. -/
theorem kdWaitEvent_empty (H : Host) (w : World) (timeout : Int)
    (hs : kdQueueSizeVEN w.thread.eventqueue = 0) :
    ∃ w', kdWaitEvent H w timeout = some (w', KD_NULL) ∧
      kdGetError w' = KD_EAGAIN ∧
      w'.thread.eventqueue = w.thread.eventqueue ∧ w'.nodes = w.nodes ∧
      kdQueueSizeVEN w'.thread.eventqueue = 0 ∧ w'.calls = w.calls := by
  by_cases hl : w.thread.lastevent = KD_NULL
  · refine ⟨kdSetError w KD_EAGAIN, ?_, rfl, rfl, rfl, hs, rfl⟩
    simp [kdWaitEvent, hl, kdPumpEvents, hs, kdPumpEvents_loop]
  · refine ⟨kdSetError (kdFreeEvent w w.thread.lastevent) KD_EAGAIN, ?_, rfl, rfl, rfl, hs, rfl⟩
    have hs' : kdQueueSizeVEN (kdFreeEvent w w.thread.lastevent).thread.eventqueue = 0 := hs
    simp [kdWaitEvent, hl, kdPumpEvents, hs', kdPumpEvents_loop]

/-- Instance of `kdWaitEvent_empty` on a freshly initialised thread. -/
theorem kdWaitEvent_empty_witness :
    kdQueueSizeVEN World.init.thread.eventqueue = 0 ∧
    (∃ w', kdWaitEvent exampleHost World.init (-1) = some (w', KD_NULL) ∧
      kdGetError w' = KD_EAGAIN ∧
      w'.thread.eventqueue = World.init.thread.eventqueue ∧ w'.nodes = World.init.nodes ∧
      kdQueueSizeVEN w'.thread.eventqueue = 0 ∧ w'.calls = World.init.calls) ∧
    (kdWaitEvent exampleHost World.init (-1)).map
        (fun r => (r.2, r.1.thread.lasterror, r.1.thread.eventqueue)) =
      some (KD_NULL, 5, ⟨KD_NULL, KD_NULL, 0⟩) :=
  ⟨rfl, kdWaitEvent_empty exampleHost World.init (-1) rfl, by decide⟩

/-- C10, the code at the failing input: with events 1, 2, 3 queued on the
example thread, `kdWaitEvent(-1)` returns event 1 but the `lastevent` field of
the thread is still null, and after the next `kdWaitEvent(-1)` (which returns
event 2) event 1 is still allocated: it was never stored, so it is never
freed. -/
theorem kdWaitEvent_lastevent_not_stored :
    (kdWaitEvent exampleHost
        ((kdPostThreadEvents exampleHost [1, 2, 3] exampleWorld).getD exampleWorld) (-1)).map
      (fun r => (r.2, r.1.thread.lastevent)) = some (1, KD_NULL) ∧
    ((kdWaitEvent exampleHost
        ((kdPostThreadEvents exampleHost [1, 2, 3] exampleWorld).getD exampleWorld) (-1)).bind
      (fun r => kdWaitEvent exampleHost r.1 (-1))).map
      (fun r => (r.2, r.1.thread.lastevent, r.1.events.read 1)) =
        some (2, KD_NULL, some ⟨1000, KD_EVENT_QUIT, KD_NULL⟩) := by
  constructor <;> decide

/-! ### Registered callbacks consume their events -/

theorem matched_of_registration {w : World} {p : Ptr} {cb : __KDCallback}
    (hcb : cb ∈ w.thread.callbacks) (hf : cb.func ≠ KD_NULL)
    (hk : kindAt w.events p = some (cb.eventtype, cb.eventuserptr)) :
    matched w p = true := by
  simp only [matched, dispatchCall, hk, Option.isSome_map', dispatchRef]
  rw [List.find?_isSome]
  exact ⟨cb, hcb, by simp [callbackMatches, hf]⟩

theorem dispatchedCalls_func_ne_null {w : World} {S : List Ptr} {c : Ptr × Ptr}
    (hc : c ∈ dispatchedCalls w S) : c.1 ≠ KD_NULL := by
  simp only [dispatchedCalls, List.mem_filterMap] at hc
  obtain ⟨p, -, hp⟩ := hc
  simp only [dispatchCall] at hp
  cases hk : kindAt w.events p with
  | none => rw [hk] at hp; cases hp
  | some k =>
    rw [hk] at hp
    simp only [Option.map_eq_some'] at hp
    obtain ⟨cb, hfind, rfl⟩ := hp
    have := List.find?_some hfind
    simp only [callbackMatches, Bool.and_eq_true, decide_eq_true_eq] at this
    exact this.1

/-- C4: if the callback table of `T` has an entry with a non-null function
for kind `K` and user pointer `U`, then `kdPumpEvents` on `T` passes every
queued event of kind `K` with user pointer `U` to a (non-null) callback
exactly once, frees it and removes it from the queue, and none of any number
of later `kdWaitEvent(-1)` calls on `T` returns it. -/
theorem kdPumpEvents_consumes_registered (H : Host) (hM : MallocOK H.kdMalloc) (w : World)
    (Q : List Ptr) (h : WFW w Q) (hl : w.thread.lastevent = KD_NULL)
    (K : Int) (U : Ptr) (cb : __KDCallback) (hcb : cb ∈ w.thread.callbacks)
    (hf : cb.func ≠ KD_NULL) (hK : cb.eventtype = K) (hU : cb.eventuserptr = U) :
    ∃ w' Q' new, kdPumpEvents H w = some (w', 0) ∧ WFW w' Q' ∧ w'.calls = w.calls ++ new ∧
      ∀ p ∈ Q, kindAt w.events p = some (K, U) →
        (new.map Prod.snd).count p = 1 ∧ (∀ c ∈ new, c.1 ≠ KD_NULL) ∧
        p ∉ Q' ∧ w'.events.read p = none ∧
        ∀ n, ∃ w'' rets, kdWaitEvents H n w' = some (w'', rets) ∧ p ∉ rets := by
  obtain ⟨w', hpump, hwf', hcalls, hframe, hkind, hfreed⟩ := kdPumpEvents_spec (H := H) hM h
  refine ⟨w', unmatchedEvents w Q, dispatchedCalls w Q, hpump, hwf', hcalls, ?_⟩
  intro p hp hk
  have hm : matched w p = true :=
    matched_of_registration hcb hf (by rw [hk, hK, hU])
  have hpU : p ∉ unmatchedEvents w Q := by
    intro hin
    rw [unmatchedEvents_mem] at hin
    rw [hm] at hin
    cases hin.2
  have hp0 : p ≠ KD_NULL := by
    intro h0
    have := h.2.2 p hp
    rw [h0, Heap.read_null] at this
    exact this rfl
  refine ⟨?_, fun c hc => dispatchedCalls_func_ne_null hc, hpU, hfreed p hp hm, ?_⟩
  · rw [dispatchedCalls_map_snd]
    exact List.count_eq_one_of_mem (h.2.1.filter _) (List.mem_filter.2 ⟨hp, by simpa using hm⟩)
  · intro n
    have hun : ∀ q ∈ unmatchedEvents w Q, matched w' q = false := by
      intro q hq
      rw [unmatchedEvents_mem] at hq
      rw [matched_congr hframe.1 (hkind q (fun _ => hq.2))]
      exact hq.2
    obtain ⟨w'', hwait, -⟩ :=
      kdWaitEvents_unmatched (H := H) hM n w' _ hwf' (hframe.2.1.trans hl) hun
    refine ⟨w'', _, hwait, ?_⟩
    intro hin
    rcases List.mem_append.1 hin with hin | hin
    · exact hpU (List.mem_of_mem_take hin)
    · exact hp0 (List.eq_of_mem_replicate hin)

/-- Instance of `kdPumpEvents_consumes_registered` for the entry
`(300, KD_EVENT_QUIT, null)` of `exampleQueued` and its queue `[1, 2, 3]`, and
the scenario of the overview example evaluated: the handler installed for
`(KD_EVENT_QUIT, null)` ran on the posted QUIT event and `kdWaitEvent(-1)`
returned null. -/
theorem kdPumpEvents_consumes_registered_witness :
    MallocOK exampleHost.kdMalloc ∧ WFW exampleQueued [1, 2, 3] ∧
    exampleQueued.thread.lastevent = KD_NULL ∧
    (⟨300, KD_EVENT_QUIT, KD_NULL⟩ : __KDCallback) ∈ exampleQueued.thread.callbacks ∧
    (∃ w' Q' new, kdPumpEvents exampleHost exampleQueued = some (w', 0) ∧ WFW w' Q' ∧
      w'.calls = exampleQueued.calls ++ new ∧
      ∀ p ∈ [1, 2, 3], kindAt exampleQueued.events p = some (KD_EVENT_QUIT, KD_NULL) →
        (new.map Prod.snd).count p = 1 ∧ (∀ c ∈ new, c.1 ≠ KD_NULL) ∧
        p ∉ Q' ∧ w'.events.read p = none ∧
        ∀ n, ∃ w'' rets, kdWaitEvents exampleHost n w' = some (w'', rets) ∧ p ∉ rets) ∧
    kindAt exampleQueued.events 1 = some (KD_EVENT_QUIT, KD_NULL) ∧
    quitScenario = some ([(100, 1)], KD_NULL) :=
  ⟨Heap.bump_ok,
    ⟨⟨[(1, 1), (2, 2), (3, 3)], rfl, by decide, ⟨rfl, rfl, rfl, trivial⟩, rfl, rfl, rfl⟩,
      by decide, by decide⟩,
    rfl, by decide,
    kdPumpEvents_consumes_registered exampleHost Heap.bump_ok exampleQueued [1, 2, 3]
      ⟨⟨[(1, 1), (2, 2), (3, 3)], rfl, by decide, ⟨rfl, rfl, rfl, trivial⟩, rfl, rfl, rfl⟩,
        by decide, by decide⟩
      rfl KD_EVENT_QUIT KD_NULL ⟨300, KD_EVENT_QUIT, KD_NULL⟩ (by decide) (by decide) rfl rfl,
    by decide, by decide⟩

/-! ### The callback table -/

theorem kdInstallCallback_loop_eq_none {func : Ptr} {K : Int} {U : Ptr}
    {cbs : List __KDCallback} :
    kdInstallCallback_loop func K U cbs = none ↔ ∀ c ∈ cbs, keyMatches K U c = false := by
  induction cbs with
  | nil => simp [kdInstallCallback_loop]
  | cons cb cbs ih =>
    simp only [kdInstallCallback_loop, List.mem_cons, forall_eq_or_imp]
    by_cases hm : (cb.eventtype = K ∨ cb.eventtype = 0) ∧ cb.eventuserptr = U
    · have : keyMatches K U cb = true := by simpa [keyMatches] using hm
      simp [hm, this]
    · have : keyMatches K U cb = false := by simpa [keyMatches] using hm
      simp [hm, this, ih]

theorem kdInstallCallback_loop_keys {func : Ptr} {K : Int} {U : Ptr}
    {cbs r : List __KDCallback} (h : kdInstallCallback_loop func K U cbs = some r) :
    r.map (fun c => (c.eventtype, c.eventuserptr)) =
      cbs.map (fun c => (c.eventtype, c.eventuserptr)) := by
  induction cbs generalizing r with
  | nil => simp [kdInstallCallback_loop] at h
  | cons cb cbs ih =>
    simp only [kdInstallCallback_loop] at h
    by_cases hm : (cb.eventtype = K ∨ cb.eventtype = 0) ∧ cb.eventuserptr = U
    · simp only [hm, and_self, if_true, Option.some.injEq] at h
      subst h
      simp [hm.2]
    · simp only [hm, if_false, Option.map_eq_some'] at h
      obtain ⟨r', hr', rfl⟩ := h
      simp [ih hr']

theorem tableInv_of_keys {cbs r : List __KDCallback}
    (hk : r.map (fun c => (c.eventtype, c.eventuserptr)) =
      cbs.map (fun c => (c.eventtype, c.eventuserptr))) (h : TableInv cbs) : TableInv r := by
  have key : ∀ l : List __KDCallback, TableInv l ↔
      (l.map (fun c => (c.eventtype, c.eventuserptr))).Pairwise
        (fun a b => ((decide (a.1 = b.1) || decide (a.1 = 0)) && decide (a.2 = b.2)) = false) := by
    intro l
    rw [List.pairwise_map]
    rfl
  rw [key] at h ⊢
  rw [hk]
  exact h

theorem installCallback_inv {cbs cbs1 : List __KDCallback} {func : Ptr} {K : Int} {U : Ptr}
    (hi : installCallback cbs func K U = some cbs1) (h : TableInv cbs) : TableInv cbs1 := by
  simp only [installCallback] at hi
  cases hl : kdInstallCallback_loop func K U cbs with
  | some r =>
    rw [hl] at hi
    cases hi
    exact tableInv_of_keys (kdInstallCallback_loop_keys hl) h
  | none =>
    rw [hl] at hi
    simp only at hi
    split at hi
    · cases hi
      simp only [TableInv]
      rw [List.pairwise_append]
      refine ⟨h, List.pairwise_singleton _ _, ?_⟩
      intro a ha b hb
      rw [List.mem_singleton] at hb
      subst hb
      exact kdInstallCallback_loop_eq_none.1 hl a ha
    · cases hi

theorem reachableTable_inv {cbs : List __KDCallback} (h : ReachableTable cbs) : TableInv cbs := by
  induction h with
  | init => exact List.Pairwise.nil
  | install cbs cbs1 func K U _ hi ih => exact installCallback_inv hi ih

/-- A `kdInstallCallback` call that returns keeps the number of entries or
stores the first entry of an empty table. -/
theorem installCallback_length {cbs cbs1 : List __KDCallback} {func : Ptr} {K : Int} {U : Ptr}
    (hi : installCallback cbs func K U = some cbs1) :
    cbs1.length = cbs.length ∨ (cbs = [] ∧ cbs1 = [⟨func, K, U⟩]) := by
  simp only [installCallback] at hi
  cases hl : kdInstallCallback_loop func K U cbs with
  | some r =>
    rw [hl] at hi
    cases hi
    left
    have := congrArg List.length (kdInstallCallback_loop_keys hl)
    simpa using this
  | none =>
    rw [hl] at hi
    simp only at hi
    split at hi
    · rename_i hlt
      cases hi
      right
      have h0 : cbs = [] := List.length_eq_zero.1 (by simp only [callbacksCapacity] at hlt; omega)
      subst h0
      exact ⟨rfl, rfl⟩
    · cases hi

/-- A reachable table fits the array: it has at most one entry. -/
theorem reachableTable_length {cbs : List __KDCallback} (h : ReachableTable cbs) :
    cbs.length ≤ callbacksCapacity := by
  induction h with
  | init => exact Nat.zero_le _
  | install cbs cbs1 func K U _ hi ih =>
    rcases installCallback_length hi with h1 | ⟨-, h1⟩
    · rw [h1]; exact ih
    · rw [h1]; exact Nat.le_refl _

theorem installCallback_at {g : Ptr} {K : Int} {U : Ptr} :
    ∀ (cbs : List __KDCallback) (i : Nat) (hi : i < cbs.length), TableInv cbs →
    cbs[i].eventtype = K → cbs[i].eventuserptr = U →
    installCallback cbs g K U = some (cbs.set i { cbs[i] with func := g }) := by
  intro cbs
  induction cbs with
  | nil => intro i hi; cases hi
  | cons cb cbs ih =>
    intro i hi hinv hK hU
    cases i with
    | zero =>
      simp only [List.getElem_cons_zero] at hK hU
      simp [installCallback, kdInstallCallback_loop, hK, hU]
    | succ j =>
      simp only [List.getElem_cons_succ] at hK hU
      have hj : j < cbs.length := by simpa using hi
      have hinv' : TableInv cbs := (List.pairwise_cons.1 hinv).2
      have hno : keyMatches K U cb = false := by
        have := (List.pairwise_cons.1 hinv).1 cbs[j] (List.getElem_mem _)
        rw [hK, hU] at this
        exact this
      have hno' : ¬ ((cb.eventtype = K ∨ cb.eventtype = 0) ∧ cb.eventuserptr = U) := by
        simpa [keyMatches] using hno
      have hrec := ih j hj hinv' hK hU
      simp only [installCallback] at hrec ⊢
      simp only [kdInstallCallback_loop, hno', if_false, List.getElem_cons_succ, List.set_cons_succ]
      cases hl : kdInstallCallback_loop g K U cbs with
      | some r =>
        rw [hl] at hrec
        simp only [Option.some.injEq] at hrec
        simp only [Option.map_some', hrec]
      | none =>
        exfalso
        have := kdInstallCallback_loop_eq_none.1 hl cbs[j] (List.getElem_mem _)
        simp [keyMatches, hK, hU] at this

/-- C6: for every callback table reachable from the empty table by
`kdInstallCallback` calls that has an entry (at index `i`) with kind `K` and
user pointer `U`, `kdInstallCallback(g, K, U)` returns, its result is `0`, it
leaves the number of entries unchanged, sets the function of that entry to `g`
and changes nothing else: no other entry, and neither kind nor user pointer of
entry `i`.  The reachable tables are the ones that fit the array `callbacks`
as `__kdThreadInit` allocates it. -/
theorem kdInstallCallback_replaces (w : World) (hr : ReachableTable w.thread.callbacks)
    (g : Ptr) (K : Int) (U : Ptr) (i : Nat) (hi : i < w.thread.callbacks.length)
    (hK : w.thread.callbacks[i].eventtype = K) (hU : w.thread.callbacks[i].eventuserptr = U) :
    ∃ w1, kdInstallCallback w g K U = some (w1, 0) ∧
      w1.thread.callbacks.length = w.thread.callbacks.length ∧
      w1.thread.callbacks[i]? = some ⟨g, K, U⟩ ∧
      (∀ j, j ≠ i → w1.thread.callbacks[j]? = w.thread.callbacks[j]?) ∧
      w1 = { w with thread := { w.thread with
          callbacks := w.thread.callbacks.set i ⟨g, K, U⟩ } } ∧
      ReachableTable w1.thread.callbacks := by
  have hset := installCallback_at (g := g) w.thread.callbacks i hi (reachableTable_inv hr) hK hU
  have hentry : ({ w.thread.callbacks[i] with func := g } : __KDCallback) = ⟨g, K, U⟩ := by
    rw [← hK, ← hU]
  rw [hentry] at hset
  refine ⟨⟨w.nodes, w.events, { w.thread with callbacks := w.thread.callbacks.set i ⟨g, K, U⟩ },
    w.calls, w.tick⟩, ?_, ?_, ?_, ?_, rfl, ?_⟩
  · simp only [kdInstallCallback, hset, Option.map_some']
  · exact List.length_set _ _ _
  · exact List.getElem?_set_self hi
  · intro j hj
    exact List.getElem?_set_ne (Ne.symm hj)
  · exact ReachableTable.install _ _ g K U hr hset

/-- Instance of `kdInstallCallback_replaces`: in the table
`[(100, QUIT, null)]`, reached by one install in the empty table, installing
`300` for `(QUIT, null)` rewrites entry 0 and nothing else. -/
theorem kdInstallCallback_replaces_witness :
    ReachableTable exampleTableWorld.thread.callbacks ∧
    exampleTableWorld.thread.callbacks = [⟨100, KD_EVENT_QUIT, KD_NULL⟩] ∧
    (∃ w1, kdInstallCallback exampleTableWorld 300 KD_EVENT_QUIT KD_NULL = some (w1, 0) ∧
      w1.thread.callbacks.length = exampleTableWorld.thread.callbacks.length ∧
      w1.thread.callbacks[0]? = some ⟨300, KD_EVENT_QUIT, KD_NULL⟩ ∧
      (∀ j, j ≠ 0 → w1.thread.callbacks[j]? = exampleTableWorld.thread.callbacks[j]?) ∧
      w1 = { exampleTableWorld with
        thread := { exampleTableWorld.thread with
          callbacks := exampleTableWorld.thread.callbacks.set
              0 ⟨300, KD_EVENT_QUIT, KD_NULL⟩ } } ∧
      ReachableTable w1.thread.callbacks) ∧
    (kdInstallCallback exampleTableWorld 300 KD_EVENT_QUIT KD_NULL).map
        (fun r => r.1.thread.callbacks) = some [⟨300, KD_EVENT_QUIT, KD_NULL⟩] :=
  ⟨ReachableTable.install [] _ 100 KD_EVENT_QUIT KD_NULL ReachableTable.init rfl,
    rfl,
    kdInstallCallback_replaces
      exampleTableWorld
      (ReachableTable.install [] _ 100 KD_EVENT_QUIT KD_NULL ReachableTable.init rfl)
      300 KD_EVENT_QUIT KD_NULL 0 (by decide) rfl rfl,
    by decide⟩

/-! ### Removing a registration -/

theorem callbackMatches_eq (K : Int) (U : Ptr) (cb : __KDCallback) :
    callbackMatches K U cb = (decide (cb.func ≠ KD_NULL) && keyMatches K U cb) := rfl

theorem installCallback_cons_of_match {cb : __KDCallback} {K : Int} {U : Ptr}
    (cbs : List __KDCallback) (g : Ptr) (h : keyMatches K U cb = true) :
    installCallback (cb :: cbs) g K U = some ({ cb with func := g } :: cbs) := by
  have h' : (cb.eventtype = K ∨ cb.eventtype = 0) ∧ cb.eventuserptr = U := by
    simpa [keyMatches] using h
  simp only [installCallback, kdInstallCallback_loop, h', and_self, if_true]

/-- On a table that is not empty `kdInstallCallback` returns exactly when its
loop finds an entry. -/
theorem installCallback_of_ne_nil {cbs : List __KDCallback} (hne : cbs ≠ []) (g : Ptr)
    (K : Int) (U : Ptr) : installCallback cbs g K U = kdInstallCallback_loop g K U cbs := by
  have hlen : ¬ (cbs.length < callbacksCapacity) := by
    have := List.length_pos.2 hne
    simp only [callbacksCapacity]; omega
  simp only [installCallback]
  cases kdInstallCallback_loop g K U cbs with
  | none => simp only [if_neg hlen]
  | some r => rfl

theorem kdInstallCallback_loop_get {g : Ptr} {K : Int} {U : Ptr} :
    ∀ {cbs r : List __KDCallback}, kdInstallCallback_loop g K U cbs = some r →
    ∀ j, r[j]? = if j = registrationSlot cbs K U then
      (cbs[j]?).map (fun c => { c with func := g }) else cbs[j]?
  | [], r, h, _ => by simp [kdInstallCallback_loop] at h
  | cb :: cbs, r, h, j => by
    simp only [kdInstallCallback_loop] at h
    by_cases hm : (cb.eventtype = K ∨ cb.eventtype = 0) ∧ cb.eventuserptr = U
    · have hk : keyMatches K U cb = true := by simpa [keyMatches] using hm
      simp only [hm, and_self, if_true, Option.some.injEq] at h
      subst h
      simp only [registrationSlot, List.findIdx_cons, hk, cond_true]
      cases j with
      | zero => simp [hm.2]
      | succ j => simp
    · have hk : keyMatches K U cb = false := by simpa [keyMatches] using hm
      simp only [hm, if_false, Option.map_eq_some'] at h
      obtain ⟨r', hr', rfl⟩ := h
      have ih := kdInstallCallback_loop_get hr'
      simp only [registrationSlot, List.findIdx_cons, hk, cond_false]
      cases j with
      | zero => simp
      | succ j =>
        simp only [List.getElem?_cons_succ, add_left_inj]
        exact ih j

theorem installCallback_has_key {cbs cbs1 : List __KDCallback} {g : Ptr} {K : Int} {U : Ptr}
    (h : installCallback cbs g K U = some cbs1) : ∃ c ∈ cbs1, keyMatches K U c = true := by
  simp only [installCallback] at h
  cases hl : kdInstallCallback_loop g K U cbs with
  | some r =>
    rw [hl] at h
    cases h
    have hsome : ∃ c ∈ cbs, keyMatches K U c = true := by
      by_contra hc
      have : kdInstallCallback_loop g K U cbs = none :=
        kdInstallCallback_loop_eq_none.2 (fun c hcm => by
          cases hk : keyMatches K U c with
          | false => rfl
          | true => exact absurd ⟨c, hcm, hk⟩ hc)
      rw [this] at hl
      cases hl
    obtain ⟨c, hc, hk⟩ := hsome
    have hmem : (c.eventtype, c.eventuserptr) ∈
        cbs.map (fun c => (c.eventtype, c.eventuserptr)) := List.mem_map_of_mem _ hc
    rw [← kdInstallCallback_loop_keys hl] at hmem
    obtain ⟨c', hc', hkey⟩ := List.mem_map.1 hmem
    refine ⟨c', hc', ?_⟩
    simp only [Prod.mk.injEq] at hkey
    simp only [keyMatches, hkey.1, hkey.2] at hk ⊢
    exact hk
  | none =>
    rw [hl] at h
    simp only at h
    split at h
    · cases h
      exact ⟨⟨g, K, U⟩, by simp, by simp [keyMatches]⟩
    · cases h

/-- After a `kdInstallCallback(f, K, U)` that returned,
`kdInstallCallback(g, K, U)` returns too: it writes the function of the first
entry passing the test of the loop and nothing else. -/
theorem installCallback_again {cbs1 : List __KDCallback} {K : Int} {U : Ptr}
    (hkey : ∃ c ∈ cbs1, keyMatches K U c = true) (g : Ptr) :
    ∃ cbs2, installCallback cbs1 g K U = some cbs2 ∧
      ∀ j, cbs2[j]? = if j = registrationSlot cbs1 K U then
        (cbs1[j]?).map (fun c => { c with func := g }) else cbs1[j]? := by
  have hne : cbs1 ≠ [] := by
    obtain ⟨c, hc, -⟩ := hkey
    exact List.ne_nil_of_mem hc
  cases hl : kdInstallCallback_loop g K U cbs1 with
  | none =>
    obtain ⟨c, hc, hk⟩ := hkey
    have := kdInstallCallback_loop_eq_none.1 hl c hc
    rw [hk] at this
    cases this
  | some r =>
    refine ⟨r, ?_, kdInstallCallback_loop_get hl⟩
    rw [installCallback_of_ne_nil hne, hl]

/-- C7, amended: after `kdInstallCallback(f, K, U)` (a call that returns)
followed by `kdInstallCallback(null, K, U)`, the second call returns and the
entry the registration lives in has a null function, so the registration is
removed: if no other entry of the table matches kind `K` with user pointer `U`,
then no entry does, and `kdPumpEvents` consumes no queued event `p` of kind `K`
with user pointer `U`: no call is made for it and it stays allocated and in the
queue, which holds the unmatched events in their order.  The `kdWaitEvent(-1)`
calls that follow return those events in that order, so `p` is returned by the
call number `k + 1`, where `k` is the number of unmatched events ahead of `p`:
by the next call exactly when `p` is the first of them. -/
theorem kdInstallCallback_null_removes (H : Host) (hM : MallocOK H.kdMalloc) (w : World)
    (Q : List Ptr) (h : WFW w Q) (hl : w.thread.lastevent = KD_NULL) (f : Ptr) (K : Int)
    (U : Ptr) (w1 : World) (hi1 : kdInstallCallback w f K U = some (w1, 0))
    (hoth : ∀ (j : Nat) (hj : j < w1.thread.callbacks.length),
      j ≠ registrationSlot w1.thread.callbacks K U →
      callbackMatches K U w1.thread.callbacks[j] = false) :
    ∃ w2, kdInstallCallback w1 KD_NULL K U = some (w2, 0) ∧
      dispatchRef w2.thread.callbacks K U = none ∧
      ∃ w3, kdPumpEvents H w2 = some (w3, 0) ∧ WFW w3 (unmatchedEvents w2 Q) ∧
        w3.calls = w.calls ++ w3.calls.drop w.calls.length ∧
        (∃ w4, kdWaitEvent H w3 (-1) = some (w4, (unmatchedEvents w2 Q).headD KD_NULL)) ∧
        ∀ p ∈ Q, kindAt w.events p = some (K, U) →
          p ∈ unmatchedEvents w2 Q ∧ w3.events.read p ≠ none ∧
          (∀ c ∈ w3.calls.drop w.calls.length, c.2 ≠ p) ∧
          (unmatchedEvents w2 Q)[(unmatchedEvents w2 Q).indexOf p]? = some p ∧
          (∀ i, i < (unmatchedEvents w2 Q).indexOf p → (unmatchedEvents w2 Q)[i]? ≠ some p) ∧
          ∃ w4, kdWaitEvents H ((unmatchedEvents w2 Q).indexOf p + 1) w3 =
            some (w4, (unmatchedEvents w2 Q).take ((unmatchedEvents w2 Q).indexOf p + 1)) := by
  -- the state after the first call
  simp only [kdInstallCallback, Option.map_eq_some', Prod.mk.injEq, and_true] at hi1
  obtain ⟨cbs1, hinst1, hw1⟩ := hi1
  have hcb1 : w1.thread.callbacks = cbs1 := by rw [← hw1]
  obtain ⟨cbs2, hinst2, hget2⟩ := installCallback_again (installCallback_has_key hinst1) KD_NULL
  rw [← hcb1] at hinst2 hget2
  have hlen2 : cbs2.length = w1.thread.callbacks.length := by
    apply Nat.le_antisymm
    · by_contra hc
      have h1 := hget2 w1.thread.callbacks.length
      rw [List.getElem?_eq_none (Nat.le_refl _)] at h1
      have h2 : cbs2[w1.thread.callbacks.length]? = none := by
        rw [h1]; split <;> rfl
      rw [List.getElem?_eq_none_iff] at h2
      omega
    · by_contra hc
      have h1 := hget2 cbs2.length
      rw [List.getElem?_eq_none (Nat.le_refl _)] at h1
      have hlt : cbs2.length < w1.thread.callbacks.length := by omega
      rw [List.getElem?_eq_getElem hlt] at h1
      split at h1 <;> cases h1
  refine ⟨⟨w1.nodes, w1.events, { w1.thread with callbacks := cbs2 }, w1.calls, w1.tick⟩, ?_, ?_,
    ?_⟩
  · simp only [kdInstallCallback, hinst2, Option.map_some']
  · show dispatchRef cbs2 K U = none
    simp only [dispatchRef]
    rw [List.find?_eq_none]
    intro c hc
    obtain ⟨j, hj, hjc⟩ := List.mem_iff_getElem.1 hc
    have hjc' : cbs2[j]? = some c := by rw [List.getElem?_eq_getElem hj, hjc]
    have hj1 : j < w1.thread.callbacks.length := by rw [← hlen2]; exact hj
    rw [hget2 j, List.getElem?_eq_getElem hj1] at hjc'
    by_cases hjs : j = registrationSlot w1.thread.callbacks K U
    · rw [if_pos hjs] at hjc'
      simp only [Option.map_some', Option.some.injEq] at hjc'
      rw [← hjc']
      simp [callbackMatches]
    · rw [if_neg hjs] at hjc'
      simp only [Option.some.injEq] at hjc'
      have := hoth j hj1 hjs
      rw [hjc'] at this
      simp [this]
  · have hnone : dispatchRef cbs2 K U = none := by
      simp only [dispatchRef]
      rw [List.find?_eq_none]
      intro c hc
      obtain ⟨j, hj, hjc⟩ := List.mem_iff_getElem.1 hc
      have hjc' : cbs2[j]? = some c := by rw [List.getElem?_eq_getElem hj, hjc]
      have hj1 : j < w1.thread.callbacks.length := by rw [← hlen2]; exact hj
      rw [hget2 j, List.getElem?_eq_getElem hj1] at hjc'
      by_cases hjs : j = registrationSlot w1.thread.callbacks K U
      · rw [if_pos hjs] at hjc'
        simp only [Option.map_some', Option.some.injEq] at hjc'
        rw [← hjc']
        simp [callbackMatches]
      · rw [if_neg hjs] at hjc'
        simp only [Option.some.injEq] at hjc'
        have := hoth j hj1 hjs
        rw [hjc'] at this
        simp [this]
    generalize hw2 : (⟨w1.nodes, w1.events, { w1.thread with callbacks := cbs2 }, w1.calls,
      w1.tick⟩ : World) = w2
    have hcb2 : w2.thread.callbacks = cbs2 := by rw [← hw2]
    have hev2 : w2.events = w.events := by rw [← hw2, ← hw1]
    have hwf2 : WFW w2 Q := by rw [← hw2, ← hw1]; exact h
    have hl2 : w2.thread.lastevent = KD_NULL := by rw [← hw2, ← hw1]; exact hl
    have hcalls2 : w2.calls = w.calls := by rw [← hw2, ← hw1]
    have hun : ∀ p, kindAt w.events p = some (K, U) → matched w2 p = false := by
      intro p hk
      simp [matched, dispatchCall, hev2, hk, hcb2, hnone]
    obtain ⟨w3, hpump, hwf3, hcalls3, hframe3, hkind3, -⟩ := kdPumpEvents_spec (H := H) hM hwf2
    have hl3 : w3.thread.lastevent = KD_NULL := hframe3.2.1.trans hl2
    have hm3 : ∀ q ∈ unmatchedEvents w2 Q, matched w3 q = false := by
      intro q hq
      have hq' := unmatchedEvents_mem.1 hq
      rw [matched_congr hframe3.1 (hkind3 q (fun _ => hq'.2))]
      exact hq'.2
    obtain ⟨w4, hwait, -⟩ := kdWaitEvent_spec (H := H) hM hwf3 hl3 (-1)
    rw [unmatchedEvents_eq_self hm3] at hwait
    refine ⟨w3, hpump, hwf3, ?_, ⟨w4, hwait⟩, ?_⟩
    · rw [hcalls3, hcalls2]
      simp
    · intro p hp hk
      have hmp := hun p hk
      have hmem : p ∈ unmatchedEvents w2 Q := unmatchedEvents_mem.2 ⟨hp, hmp⟩
      have hidx : (unmatchedEvents w2 Q).indexOf p < (unmatchedEvents w2 Q).length :=
        List.indexOf_lt_length.2 hmem
      have hnd : (unmatchedEvents w2 Q).Nodup := hwf3.2.1
      refine ⟨hmem, ?_, ?_, ?_, ?_, ?_⟩
      · intro hdead
        have := hkind3 p (fun _ => hmp)
        rw [kindAt_eq_none.2 hdead, hev2, hk] at this
        cases this
      · intro c hc hcp
        rw [hcalls3, hcalls2] at hc
        simp only [List.drop_left'] at hc
        have hin : c.2 ∈ (dispatchedCalls w2 Q).map Prod.snd := List.mem_map_of_mem _ hc
        rw [dispatchedCalls_map_snd, hcp, List.mem_filter, hmp] at hin
        cases hin.2
      · rw [List.getElem?_eq_getElem hidx, List.getElem_indexOf hidx]
      · intro i hi hip
        have hil : i < (unmatchedEvents w2 Q).length := by omega
        rw [List.getElem?_eq_getElem hil] at hip
        have := List.indexOf_getElem hnd i hil
        rw [Option.some.inj hip] at this
        omega
      · obtain ⟨w5, hwaits, -⟩ := kdWaitEvents_unmatched (H := H) hM
          ((unmatchedEvents w2 Q).indexOf p + 1) w3 (unmatchedEvents w2 Q) hwf3 hl3 hm3
        refine ⟨w5, ?_⟩
        rw [hwaits]
        have : (unmatchedEvents w2 Q).indexOf p + 1 - (unmatchedEvents w2 Q).length = 0 := by
          omega
        rw [this]
        simp

/-- Instance of `kdInstallCallback_null_removes` on the queue `[2, 1]` of
`exampleQueued2`: a handler installed for `(KD_EVENT_QUIT, null)` in the empty
table and removed again leaves the QUIT event 1 in the queue, behind the
event 2, and the second `kdWaitEvent(-1)` returns it. -/
theorem kdInstallCallback_null_removes_witness :
    ∃ w2, kdInstallCallback
        { exampleQueued2 with thread := { exampleQueued2.thread with
            callbacks := [⟨500, KD_EVENT_QUIT, KD_NULL⟩] } } KD_NULL KD_EVENT_QUIT KD_NULL =
        some (w2, 0) ∧
      dispatchRef w2.thread.callbacks KD_EVENT_QUIT KD_NULL = none ∧
      ∃ w3, kdPumpEvents exampleHost w2 = some (w3, 0) ∧
        WFW w3 (unmatchedEvents w2 [2, 1]) ∧
        w3.calls = exampleQueued2.calls ++ w3.calls.drop exampleQueued2.calls.length ∧
        (∃ w4, kdWaitEvent exampleHost w3 (-1) =
          some (w4, (unmatchedEvents w2 [2, 1]).headD KD_NULL)) ∧
        ∀ p ∈ [2, 1], kindAt exampleQueued2.events p = some (KD_EVENT_QUIT, KD_NULL) →
          p ∈ unmatchedEvents w2 [2, 1] ∧ w3.events.read p ≠ none ∧
          (∀ c ∈ w3.calls.drop exampleQueued2.calls.length, c.2 ≠ p) ∧
          (unmatchedEvents w2 [2, 1])[(unmatchedEvents w2 [2, 1]).indexOf p]? = some p ∧
          (∀ i, i < (unmatchedEvents w2 [2, 1]).indexOf p →
            (unmatchedEvents w2 [2, 1])[i]? ≠ some p) ∧
          ∃ w4, kdWaitEvents exampleHost ((unmatchedEvents w2 [2, 1]).indexOf p + 1) w3 =
            some (w4, (unmatchedEvents w2 [2, 1]).take
              ((unmatchedEvents w2 [2, 1]).indexOf p + 1)) :=
  kdInstallCallback_null_removes exampleHost Heap.bump_ok exampleQueued2 [2, 1]
    ⟨⟨[(1, 2), (2, 1)], rfl, by decide, ⟨rfl, rfl, trivial⟩, rfl, rfl, rfl⟩,
      by decide, by decide⟩
    rfl 500 KD_EVENT_QUIT KD_NULL
    { exampleQueued2 with thread := { exampleQueued2.thread with
        callbacks := [⟨500, KD_EVENT_QUIT, KD_NULL⟩] } }
    (by decide) (by decide)

/-- C7, the counterexample: on a new thread the events 2 (kind 7) and 1
(`KD_EVENT_QUIT`, null user pointer) are queued in this order, and
`kdInstallCallback(500, KD_EVENT_QUIT, null)` is followed by
`kdInstallCallback(null, KD_EVENT_QUIT, null)`.  The table then is the one
entry `(null, KD_EVENT_QUIT, null)`, no entry matches event 1, and
`kdPumpEvents` makes no call and leaves the queue `[2, 1]`; but the next
`kdWaitEvent(-1)` returns event 2, not event 1, which the one after it
returns. -/
theorem kdInstallCallback_null_not_next :
    kindAt exampleQueued2.events 1 = some (KD_EVENT_QUIT, KD_NULL) ∧
    exampleQueued2.thread.callbacks = [] ∧
    kdQueueContents exampleQueued2.nodes exampleQueued2.thread.eventqueue = [2, 1] ∧
    exampleRemoved.map (fun w => w.thread.callbacks) =
      some [⟨KD_NULL, KD_EVENT_QUIT, KD_NULL⟩] ∧
    (exampleRemoved.bind (kdPumpEvents exampleHost)).map
        (fun r => (r.1.calls, kdQueueContents r.1.nodes r.1.thread.eventqueue, r.2)) =
      some ([], [2, 1], 0) ∧
    ((exampleRemoved.bind (kdPumpEvents exampleHost)).bind
        (fun r => kdWaitEvent exampleHost r.1 (-1))).map Prod.snd = some 2 ∧
    (((exampleRemoved.bind (kdPumpEvents exampleHost)).bind
        (fun r => kdWaitEvent exampleHost r.1 (-1))).bind
        (fun r => kdWaitEvent exampleHost r.1 (-1))).map Prod.snd = some 1 := by
  refine ⟨by decide, by decide, by decide, by decide, by decide, by decide, by decide⟩

/-! ### Interleavings -/

/-- C3, the claim as stated fails: event 1 is posted before event 2 by one
thread, neither is matched by a callback, the second post lands while the
pump of `T` is between popping event 1 and re-posting it, and the two
`kdWaitEvent` calls of `T` return event 2 and then event 1. -/
theorem kdWaitEvent_order_race :
    (Sys.run exampleHost raceSchedule raceInit).map (fun s => (s.returns, s.pending)) =
      some ([2, 1], []) ∧
    matched exampleWorld 1 = false ∧ matched exampleWorld 2 = false ∧
    ¬ (∀ s, Sys.run exampleHost raceSchedule raceInit = some s → NotBefore 1 2 s.returns) := by
  refine ⟨by decide, by decide, by decide, ?_⟩
  intro h
  have hrun : ∃ s, Sys.run exampleHost raceSchedule raceInit = some s ∧ s.returns = [2, 1] := by
    decide
  obtain ⟨s, hs, hr⟩ := hrun
  have := h s hs
  rw [hr] at this
  exact this (by decide)

theorem queueWalk_seg {m : NodeHeap} {nx : Ptr} (cells : List (Ptr × Ptr)) (p : Ptr)
    (h : Seg m p cells nx) :
    queueWalk m cells.length (headAddr nx cells) = cells.map Prod.snd := by
  induction cells generalizing p with
  | nil => rfl
  | cons c cs ih =>
    have h1 : m.read c.1 = some ⟨headAddr nx cs, p, c.2⟩ := h.1
    show queueWalk m (cs.length + 1) c.1 = c.2 :: cs.map Prod.snd
    simp only [queueWalk, h1]
    rw [ih c.1 h.2]

theorem kdQueueContents_of_rep {m : NodeHeap} {q : KDQueueVEN} {L : List Ptr}
    (h : QueueRep m q L) : kdQueueContents m q = L := by
  obtain ⟨cells, hL, -, hseg, hh, -, hs⟩ := h
  rw [kdQueueContents, hs, hh, queueWalk_seg cells KD_NULL hseg, hL]

theorem occurrences_append (A B : Ptr) (xs ys : List Ptr) :
    occurrences A B (xs ++ ys) = occurrences A B xs ++ occurrences A B ys := by
  simp [occurrences]

theorem occurrences_cons_other {A B x : Ptr} (hA : x ≠ A) (hB : x ≠ B) (xs : List Ptr) :
    occurrences A B (x :: xs) = occurrences A B xs := by
  simp [occurrences, List.filter_cons, hA, hB]

theorem occurrences_cons_A (A B : Ptr) (xs : List Ptr) :
    occurrences A B (A :: xs) = A :: occurrences A B xs := by
  simp [occurrences, List.filter_cons]

theorem occurrences_cons_B (A B : Ptr) (xs : List Ptr) :
    occurrences A B (B :: xs) = B :: occurrences A B xs := by
  simp [occurrences, List.filter_cons]

theorem occurrences_remove {A B x : Ptr} (hA : x ≠ A) (hB : x ≠ B) (xs ys : List Ptr) :
    occurrences A B (xs ++ x :: ys) = occurrences A B (xs ++ ys) := by
  rw [occurrences_append, occurrences_append, occurrences_cons_other hA hB]

theorem occurrences_head_of_mem {A B : Ptr} {xs : List Ptr} (hB : B ∉ xs) (hA : A ∈ xs) :
    (occurrences A B xs).head? = some A := by
  induction xs with
  | nil => cases hA
  | cons x xs ih =>
    by_cases hxA : x = A
    · subst hxA
      rw [occurrences_cons_A]; rfl
    · have hxB : x ≠ B := fun e => hB (e ▸ List.mem_cons_self _ _)
      rw [occurrences_cons_other hxA hxB]
      exact ih (fun h => hB (List.mem_cons_of_mem _ h))
        ((List.mem_cons.1 hA).resolve_left (fun e => hxA e.symm))

theorem occurrences_eq_nil {A B : Ptr} {xs : List Ptr} (hA : A ∉ xs) (hB : B ∉ xs) :
    occurrences A B xs = [] := by
  simp only [occurrences, List.filter_eq_nil_iff]
  intro x hx
  have h1 : x ≠ A := fun e => hA (e ▸ hx)
  have h2 : x ≠ B := fun e => hB (e ▸ hx)
  simp [h1, h2]

theorem notBefore_iff {A B : Ptr} (hAB : A ≠ B) (l : List Ptr) :
    NotBefore A B l ↔ (occurrences A B l).head? ≠ some B := by
  induction l with
  | nil => simp [NotBefore, occurrences]
  | cons x l ih =>
    by_cases hxA : x = A
    · subst hxA
      rw [occurrences_cons_A]
      simp [NotBefore, List.takeWhile_cons, hAB]
    · by_cases hxB : x = B
      · subst hxB
        rw [occurrences_cons_B]
        simp [NotBefore, List.takeWhile_cons, hxA]
      · rw [occurrences_cons_other hxA hxB, ← ih]
        have htw : List.takeWhile (fun r => decide (r ≠ A)) (x :: l) =
            x :: List.takeWhile (fun r => decide (r ≠ A)) l := by
          simp [List.takeWhile_cons, hxA]
        simp only [NotBefore, htw, List.mem_cons, not_or]
        constructor
        · intro h; exact h.2
        · intro h; exact ⟨fun e => hxB e.symm, h⟩

theorem histInv_notBefore {A B : Ptr} (hAB : A ≠ B) {pending rets rest : List Ptr}
    (h : HistInv A B pending (rets ++ rest)) : NotBefore A B rets := by
  rw [notBefore_iff hAB]
  intro hhead
  apply h.order
  rw [occurrences_append]
  cases ho : occurrences A B rets with
  | nil => rw [ho] at hhead; cases hhead
  | cons y ys => rw [ho] at hhead; simpa using hhead

theorem histInv_remove {A B x : Ptr} (hA : x ≠ A) (hB : x ≠ B) {pending xs ys : List Ptr}
    (h : HistInv A B pending (xs ++ x :: ys)) : HistInv A B pending (xs ++ ys) := by
  refine ⟨h.pend, ?_, ?_, ?_⟩
  · intro e he hin
    apply h.fresh e he
    rcases List.mem_append.1 hin with hin | hin
    · exact List.mem_append_left _ hin
    · exact List.mem_append_right _ (List.mem_cons_of_mem _ hin)
  · intro hAp
    have := h.posted hAp
    rcases List.mem_append.1 this with hin | hin
    · exact List.mem_append_left _ hin
    · rcases List.mem_cons.1 hin with e | hin
      · exact absurd e.symm hA
      · exact List.mem_append_right _ hin
  · rw [← occurrences_remove hA hB]
    exact h.order

theorem histInv_insert {A B x : Ptr} (hA : x ≠ A) (hB : x ≠ B) {pending xs ys : List Ptr}
    (h : HistInv A B pending (xs ++ ys)) : HistInv A B pending (xs ++ x :: ys) := by
  have hpx : x ∉ pending := by
    rcases h.pend with hp | hp | hp <;> rw [hp] <;> simp [hA, hB]
  refine ⟨h.pend, ?_, ?_, ?_⟩
  · intro e he hin
    apply h.fresh e he
    rcases List.mem_append.1 hin with hin | hin
    · exact List.mem_append_left _ hin
    · rcases List.mem_cons.1 hin with e' | hin
      · exact absurd (e' ▸ he) hpx
      · exact List.mem_append_right _ hin
  · intro hAp
    have := h.posted hAp
    rcases List.mem_append.1 this with hin | hin
    · exact List.mem_append_left _ hin
    · exact List.mem_append_right _ (List.mem_cons_of_mem _ hin)
  · rw [occurrences_remove hA hB]
    exact h.order

theorem histInv_post {A B e : Ptr} (hAB : A ≠ B) {es xs ys : List Ptr}
    (h : HistInv A B (e :: es) (xs ++ ys)) (hguard : es = [] → A ∉ ys) :
    HistInv A B es (xs ++ e :: ys) := by
  have hfe := h.fresh e (List.mem_cons_self _ _)
  rcases h.pend with hp | hp | hp
  · -- the poster posts `A`
    simp only [List.cons.injEq] at hp
    obtain ⟨rfl, rfl⟩ := hp
    have hfB := h.fresh B (by simp)
    refine ⟨Or.inr (Or.inl rfl), ?_, fun _ => by simp, ?_⟩
    · intro x hx hin
      rw [List.mem_singleton] at hx
      subst hx
      rcases List.mem_append.1 hin with hin | hin
      · exact hfB (List.mem_append_left _ hin)
      · rcases List.mem_cons.1 hin with e' | hin
        · exact hAB e'.symm
        · exact hfB (List.mem_append_right _ hin)
    · have hxs : occurrences e B xs = [] :=
        occurrences_eq_nil (fun h1 => hfe (List.mem_append_left _ h1))
          (fun h1 => hfB (List.mem_append_left _ h1))
      rw [occurrences_append, hxs, occurrences_cons_A]
      simp [hAB]
  · -- the poster posts `B`
    simp only [List.cons.injEq] at hp
    obtain ⟨rfl, rfl⟩ := hp
    have hAys := hguard rfl
    have hAp : A ∉ [e] := by simp [hAB]
    have hAin := h.posted hAp
    have hAxs : A ∈ xs := (List.mem_append.1 hAin).resolve_right hAys
    refine ⟨Or.inr (Or.inr rfl), by simp, fun _ => List.mem_append_left _ hAxs, ?_⟩
    rw [occurrences_append]
    have hhead := occurrences_head_of_mem (A := A) (B := e)
      (fun h1 => hfe (List.mem_append_left _ h1)) hAxs
    cases ho : occurrences A e xs with
    | nil => rw [ho] at hhead; cases hhead
    | cons y ys' =>
      rw [ho] at hhead
      simp only [List.head?_cons, Option.some.injEq] at hhead
      simp [hhead, hAB]
  · cases hp

theorem mem_take_or_drop {x : Ptr} (Q : List Ptr) (k : Nat) :
    x ∈ Q ↔ x ∈ Q.take k ∨ x ∈ Q.drop k := by
  conv_lhs => rw [← List.take_append_drop k Q]
  exact List.mem_append

theorem mem_history {x : Ptr} (s : Sys) (Q : List Ptr) :
    x ∈ history s Q ↔ x ∈ s.returns ∨ x ∈ heldEvent s.pc ∨ x ∈ Q := by
  simp only [history, List.mem_append, mem_take_or_drop Q (windowSize s.pc)]
  tauto

theorem pumpNext_window (b : Bool) (n : Nat) : windowSize (pumpNext b n) = n := by
  cases n with
  | zero => cases b <;> rfl
  | succ n => rfl

theorem pumpNext_held (b : Bool) (n : Nat) : heldEvent (pumpNext b n) = [] := by
  cases n with
  | zero => cases b <;> rfl
  | succ n => rfl

theorem pumpNext_ne_waitPop (b : Bool) (n : Nat) : pumpNext b n ≠ TPC.waitPop := by
  cases n with
  | zero => cases b <;> simp [pumpNext]
  | succ n => simp [pumpNext]

theorem pumpWindow_eq {s : Sys} {Q : List Ptr} (h : WFW s.world Q) :
    pumpWindow s = heldEvent s.pc ++ Q.take (windowSize s.pc) := by
  have hc := kdQueueContents_of_rep h.1
  obtain ⟨w, pc, pending, returns⟩ := s
  cases pc <;> simp [pumpWindow, heldEvent, windowSize] <;> exact congrArg _ hc

theorem read_ne_none_of_kindAt {ev ev' : Heap KDEvent} {p : Ptr}
    (hk : kindAt ev' p = kindAt ev p) (h : ev.read p ≠ none) : ev'.read p ≠ none := by
  intro h'
  apply h
  rw [← kindAt_eq_none, ← hk, kindAt_eq_none]
  exact h'

theorem histInv_pending_live {A B : Ptr} {s : Sys} {Q : List Ptr} (hw : WorldInv A B s Q)
    {hist : List Ptr} (hh : HistInv A B s.pending hist) :
    ∀ e ∈ s.pending, s.world.events.read e ≠ none := by
  intro e he
  rcases hh.pend with hp | hp | hp <;> rw [hp] at he
  · rcases List.mem_cons.1 he with rfl | he
    · exact hw.liveA
    · rw [List.mem_singleton] at he; subst he; exact hw.liveB
  · rw [List.mem_singleton] at he; subst he; exact hw.liveB
  · cases he

theorem raceInv_post {H : Host} (hM : MallocOK H.kdMalloc) {A B : Ptr} {s : Sys} {Q : List Ptr}
    (hw : WorldInv A B s Q) (hh : HistInv A B s.pending (history s Q))
    (hg : s.pending.length = 1 → A ∉ pumpWindow s) :
    ∃ s' Q', s.step H Label.post = some s' ∧ WorldInv A B s' Q' ∧
      HistInv A B s'.pending (history s' Q') := by
  obtain ⟨w, pc, pending, returns⟩ := s
  cases pending with
  | nil => exact ⟨_, Q, rfl, hw, hh⟩
  | cons e es =>
    have hlive := histInv_pending_live hw hh e (List.mem_cons_self _ _)
    obtain ⟨ev, hev⟩ := Option.ne_none_iff_exists'.1 hlive
    have hfe := hh.fresh e (List.mem_cons_self _ _)
    rw [mem_history] at hfe
    simp only [not_or] at hfe
    obtain ⟨hw_wf, hw_last, hw_held, hw_win, hw_wp, hw_lA, hw_lB, hw_uA, hw_uB, hw_ne⟩ := hw
    simp only [] at hw_wf hw_last hw_held hw_win hw_wp hw_lA hw_lB hw_uA hw_uB hfe hlive hev
    obtain ⟨w', hpost, hrep', hcalls', hframe', hkind', hread', hreadp'⟩ :=
      kdPostThreadEvent_spec (H := H) hM hw_wf.1 hev
    refine ⟨⟨w', pc, es, returns⟩, Q ++ [e], ?_, ?_, ?_⟩
    · simp only [Sys.step, hpost]
    · refine ⟨⟨hrep', ?_, ?_⟩, hframe'.2.1.trans hw_last, ?_, ?_, ?_, ?_, ?_, ?_, ?_, hw_ne⟩
      · exact List.nodup_append.2 ⟨hw_wf.2.1, List.nodup_singleton e, by
          intro a ha ha'
          rw [List.mem_singleton] at ha'
          exact hfe.2.2 (ha' ▸ ha)⟩
      · intro q hq
        rcases List.mem_append.1 hq with hq | hq
        · exact read_ne_none_of_kindAt (hkind' q) (hw_wf.2.2 q hq)
        · rw [List.mem_singleton] at hq
          rw [hq, hreadp']; simp
      · intro x hx
        refine ⟨?_, read_ne_none_of_kindAt (hkind' x) (hw_held x hx).2⟩
        intro hin
        rcases List.mem_append.1 hin with hin | hin
        · exact (hw_held x hx).1 hin
        · rw [List.mem_singleton] at hin
          exact hfe.2.1 (hin ▸ hx)
      · simp only [List.length_append, List.length_singleton]
        exact Nat.le_succ_of_le hw_win
      · intro _; simp
      · exact read_ne_none_of_kindAt (hkind' A) hw_lA
      · exact read_ne_none_of_kindAt (hkind' B) hw_lB
      · show matched w' A = false
        rw [matched_congr hframe'.1 (hkind' A)]; exact hw_uA
      · show matched w' B = false
        rw [matched_congr hframe'.1 (hkind' B)]; exact hw_uB
    · have hhist : history ⟨w', pc, es, returns⟩ (Q ++ [e]) =
          (returns ++ Q.drop (windowSize pc)) ++ e :: (heldEvent pc ++ Q.take (windowSize pc)) := by
        simp only [history, List.drop_append_of_le_length hw_win,
          List.take_append_of_le_length hw_win, List.append_assoc, List.singleton_append]
      have hhist0 : history ⟨w, pc, e :: es, returns⟩ Q =
          (returns ++ Q.drop (windowSize pc)) ++ (heldEvent pc ++ Q.take (windowSize pc)) := by
        simp only [history, List.append_assoc]
      rw [hhist0] at hh
      rw [hhist]
      apply histInv_post hw_ne hh
      intro hes
      have := hg (by simp [hes])
      rw [pumpWindow_eq (s := ⟨w, pc, e :: es, returns⟩) hw_wf] at this
      exact this

theorem raceInv_enter {A B : Ptr} {w : World} {pending returns Q : List Ptr} (b : Bool)
    (hw : WorldInv A B ⟨w, TPC.idle, pending, returns⟩ Q)
    (hh : HistInv A B pending (history ⟨w, TPC.idle, pending, returns⟩ Q)) :
    WorldInv A B ⟨w, pumpNext b (kdQueueSizeVEN w.thread.eventqueue), pending, returns⟩ Q ∧
    HistInv A B pending
      (history ⟨w, pumpNext b (kdQueueSizeVEN w.thread.eventqueue), pending, returns⟩ Q) := by
  have hsize : kdQueueSizeVEN w.thread.eventqueue = Q.length := queueRep_size hw.wf.1
  rw [hsize]
  refine ⟨⟨hw.wf, hw.lastevent, ?_, ?_, ?_, hw.liveA, hw.liveB, hw.unA, hw.unB, hw.ne⟩, ?_⟩
  · intro e he
    simp only [pumpNext_held] at he
    cases he
  · simp only [pumpNext_window]
    exact le_refl _
  · intro h
    exact absurd h (pumpNext_ne_waitPop _ _)
  · have h1 : history ⟨w, pumpNext b Q.length, pending, returns⟩ Q = returns ++ Q := by
      simp [history, pumpNext_window, pumpNext_held]
    have h0 : history ⟨w, TPC.idle, pending, returns⟩ Q = returns ++ Q := by
      simp [history, windowSize, heldEvent]
    rw [h1, ← h0]
    exact hh

theorem raceInv_pump {H : Host} {A B : Ptr} {s : Sys} {Q : List Ptr}
    (hw : WorldInv A B s Q) (hh : HistInv A B s.pending (history s Q)) :
    ∃ s' Q', s.step H Label.pump = some s' ∧ WorldInv A B s' Q' ∧
      HistInv A B s'.pending (history s' Q') := by
  obtain ⟨w, pc, pending, returns⟩ := s
  cases pc with
  | idle =>
    obtain ⟨h1, h2⟩ := raceInv_enter false hw hh
    exact ⟨_, Q, rfl, h1, h2⟩
  | pumpPop b rest => exact ⟨_, Q, rfl, hw, hh⟩
  | pumpDispatch b rest ev => exact ⟨_, Q, rfl, hw, hh⟩
  | waitSize => exact ⟨_, Q, rfl, hw, hh⟩
  | waitPop => exact ⟨_, Q, rfl, hw, hh⟩

theorem raceInv_wait {H : Host} {A B : Ptr} {s : Sys} {Q : List Ptr}
    (hw : WorldInv A B s Q) (hh : HistInv A B s.pending (history s Q)) :
    ∃ s' Q', s.step H Label.wait = some s' ∧ WorldInv A B s' Q' ∧
      HistInv A B s'.pending (history s' Q') := by
  obtain ⟨w, pc, pending, returns⟩ := s
  cases pc with
  | idle =>
    obtain ⟨h1, h2⟩ := raceInv_enter true hw hh
    have hl : w.thread.lastevent = KD_NULL := hw.lastevent
    refine ⟨_, Q, ?_, h1, h2⟩
    simp only [Sys.step, hl, ne_eq, not_true_eq_false, if_false]
  | pumpPop b rest => exact ⟨_, Q, rfl, hw, hh⟩
  | pumpDispatch b rest ev => exact ⟨_, Q, rfl, hw, hh⟩
  | waitSize => exact ⟨_, Q, rfl, hw, hh⟩
  | waitPop => exact ⟨_, Q, rfl, hw, hh⟩

theorem raceInv_pumpPop {H : Host} {A B : Ptr} {w : World} {pending returns Q : List Ptr}
    {b : Bool} {rest : Nat}
    (hw : WorldInv A B ⟨w, TPC.pumpPop b rest, pending, returns⟩ Q)
    (hh : HistInv A B pending (history ⟨w, TPC.pumpPop b rest, pending, returns⟩ Q)) :
    ∃ s' Q', Sys.step H ⟨w, TPC.pumpPop b rest, pending, returns⟩ Label.step = some s' ∧
      WorldInv A B s' Q' ∧ HistInv A B s'.pending (history s' Q') := by
  obtain ⟨hw_wf, hw_last, hw_held, hw_win, hw_wp, hw_lA, hw_lB, hw_uA, hw_uB, hw_ne⟩ := hw
  simp only [windowSize] at hw_win
  simp only [] at hw_wf hw_last hw_lA hw_lB hw_uA hw_uB
  cases Q with
  | nil => simp at hw_win
  | cons x Q' =>
    obtain ⟨m1, q1, hpop, hrep1⟩ := kdQueuePopHeadVEN_rep_cons hw_wf.1
    have hxlive : w.events.read x ≠ none := hw_wf.2.2 x (List.mem_cons_self _ _)
    have hx0 : x ≠ KD_NULL := by
      intro h0; rw [h0, Heap.read_null] at hxlive; exact hxlive rfl
    have hxQ : x ∉ Q' := (List.nodup_cons.1 hw_wf.2.1).1
    refine ⟨⟨⟨m1, w.events, ⟨q1, w.thread.lastevent, w.thread.lasterror, w.thread.callbacks⟩,
      w.calls, w.tick⟩, TPC.pumpDispatch b rest x, pending, returns⟩, Q', ?_, ?_, ?_⟩
    · simp only [Sys.step, hpop, hx0, ne_eq, not_false_eq_true, if_true]
    · refine ⟨⟨hrep1, (List.nodup_cons.1 hw_wf.2.1).2,
        fun q hq => hw_wf.2.2 q (List.mem_cons_of_mem _ hq)⟩, hw_last, ?_, ?_, ?_, hw_lA, hw_lB,
        hw_uA, hw_uB, hw_ne⟩
      · intro e he
        simp only [heldEvent, List.mem_singleton] at he
        subst he
        exact ⟨hxQ, hxlive⟩
      · simp only [windowSize]
        simpa using hw_win
      · intro h; cases h
    · have h1 : history ⟨⟨m1, w.events, ⟨q1, w.thread.lastevent, w.thread.lasterror,
          w.thread.callbacks⟩, w.calls, w.tick⟩, TPC.pumpDispatch b rest x, pending, returns⟩ Q' =
          history ⟨w, TPC.pumpPop b rest, pending, returns⟩ (x :: Q') := by
        simp [history, windowSize, heldEvent]
      rw [h1]
      exact hh

theorem raceInv_waitSize {H : Host} {A B : Ptr} {w : World} {pending returns Q : List Ptr}
    (hw : WorldInv A B ⟨w, TPC.waitSize, pending, returns⟩ Q)
    (hh : HistInv A B pending (history ⟨w, TPC.waitSize, pending, returns⟩ Q)) :
    ∃ s' Q', Sys.step H ⟨w, TPC.waitSize, pending, returns⟩ Label.step = some s' ∧
      WorldInv A B s' Q' ∧ HistInv A B s'.pending (history s' Q') := by
  have hsize : kdQueueSizeVEN w.thread.eventqueue = Q.length := queueRep_size hw.wf.1
  obtain ⟨hw_wf, hw_last, hw_held, hw_win, hw_wp, hw_lA, hw_lB, hw_uA, hw_uB, hw_ne⟩ := hw
  simp only [] at hw_wf hw_last hw_lA hw_lB hw_uA hw_uB
  cases Q with
  | nil =>
    refine ⟨⟨kdSetError w KD_EAGAIN, TPC.idle, pending, returns ++ [KD_NULL]⟩, [], ?_, ?_, ?_⟩
    · simp [Sys.step, hsize]
    · exact ⟨hw_wf, hw_last, by simp [heldEvent], by simp [windowSize], by simp, hw_lA, hw_lB,
        hw_uA, hw_uB, hw_ne⟩
    · have hA0 : KD_NULL ≠ A := by
        intro h0; rw [← h0, Heap.read_null] at hw_lA; exact hw_lA rfl
      have hB0 : KD_NULL ≠ B := by
        intro h0; rw [← h0, Heap.read_null] at hw_lB; exact hw_lB rfl
      have h0 : history ⟨w, TPC.waitSize, pending, returns⟩ [] = returns ++ [] := by
        simp [history, windowSize, heldEvent]
      have h1 : history ⟨kdSetError w KD_EAGAIN, TPC.idle, pending, returns ++ [KD_NULL]⟩ [] =
          returns ++ KD_NULL :: [] := by
        simp [history, windowSize, heldEvent]
      rw [h0] at hh
      rw [h1]
      exact histInv_insert hA0 hB0 hh
  | cons x Q' =>
    refine ⟨⟨w, TPC.waitPop, pending, returns⟩, x :: Q', ?_, ?_, ?_⟩
    · simp [Sys.step, hsize]
    · exact ⟨hw_wf, hw_last, by simp [heldEvent], by simp [windowSize], by simp, hw_lA, hw_lB,
        hw_uA, hw_uB, hw_ne⟩
    · exact hh

theorem raceInv_waitPop {H : Host} {A B : Ptr} {w : World} {pending returns Q : List Ptr}
    (hw : WorldInv A B ⟨w, TPC.waitPop, pending, returns⟩ Q)
    (hh : HistInv A B pending (history ⟨w, TPC.waitPop, pending, returns⟩ Q)) :
    ∃ s' Q', Sys.step H ⟨w, TPC.waitPop, pending, returns⟩ Label.step = some s' ∧
      WorldInv A B s' Q' ∧ HistInv A B s'.pending (history s' Q') := by
  obtain ⟨hw_wf, hw_last, hw_held, hw_win, hw_wp, hw_lA, hw_lB, hw_uA, hw_uB, hw_ne⟩ := hw
  simp only [] at hw_wf hw_last hw_lA hw_lB hw_uA hw_uB
  cases Q with
  | nil => exact absurd rfl (hw_wp rfl)
  | cons x Q' =>
    obtain ⟨m1, q1, hpop, hrep1⟩ := kdQueuePopHeadVEN_rep_cons hw_wf.1
    refine ⟨⟨⟨m1, w.events, ⟨q1, w.thread.lastevent, w.thread.lasterror, w.thread.callbacks⟩,
      w.calls, w.tick⟩, TPC.idle, pending, returns ++ [x]⟩, Q', ?_, ?_, ?_⟩
    · simp only [Sys.step, hpop]
    · exact ⟨⟨hrep1, (List.nodup_cons.1 hw_wf.2.1).2,
        fun q hq => hw_wf.2.2 q (List.mem_cons_of_mem _ hq)⟩, hw_last, by simp [heldEvent],
        by simp [windowSize], by simp, hw_lA, hw_lB, hw_uA, hw_uB, hw_ne⟩
    · have h1 : history ⟨⟨m1, w.events, ⟨q1, w.thread.lastevent, w.thread.lasterror,
          w.thread.callbacks⟩, w.calls, w.tick⟩, TPC.idle, pending, returns ++ [x]⟩ Q' =
          history ⟨w, TPC.waitPop, pending, returns⟩ (x :: Q') := by
        simp [history, windowSize, heldEvent]
      rw [h1]
      exact hh

theorem raceInv_pumpDispatch {H : Host} (hM : MallocOK H.kdMalloc) {A B : Ptr} {w : World}
    {pending returns Q : List Ptr} {b : Bool} {rest : Nat} {x : Ptr}
    (hw : WorldInv A B ⟨w, TPC.pumpDispatch b rest x, pending, returns⟩ Q)
    (hh : HistInv A B pending (history ⟨w, TPC.pumpDispatch b rest x, pending, returns⟩ Q)) :
    ∃ s' Q', Sys.step H ⟨w, TPC.pumpDispatch b rest x, pending, returns⟩ Label.step = some s' ∧
      WorldInv A B s' Q' ∧ HistInv A B s'.pending (history s' Q') := by
  obtain ⟨hw_wf, hw_last, hw_held, hw_win, hw_wp, hw_lA, hw_lB, hw_uA, hw_uB, hw_ne⟩ := hw
  simp only [windowSize] at hw_win
  simp only [] at hw_wf hw_last hw_lA hw_lB hw_uA hw_uB
  obtain ⟨hxQ, hxlive⟩ := hw_held x (by simp [heldEvent])
  simp only [] at hxlive
  obtain ⟨e, he⟩ := Option.ne_none_iff_exists'.1 hxlive
  have hdc := dispatchCall_of_read (w := w) he
  have hhist0 : history ⟨w, TPC.pumpDispatch b rest x, pending, returns⟩ Q =
      (returns ++ Q.drop rest) ++ x :: Q.take rest := by
    simp [history, windowSize, heldEvent]
  rw [hhist0] at hh
  cases hd : dispatchRef w.thread.callbacks e.type e.userptr with
  | some cb =>
    have hmx : matched w x = true := by simp [matched, hdc, hd]
    have hxA : x ≠ A := by
      intro h; rw [h, hw_uA] at hmx; cases hmx
    have hxB : x ≠ B := by
      intro h; rw [h, hw_uB] at hmx; cases hmx
    obtain ⟨w2, hexec, hn2, ht2, hc2, he2⟩ := execCallback_matched he hd
    have hk2 : ∀ q, q ≠ x → kindAt w2.events q = kindAt w.events q := by
      intro q hqx
      simp only [kindAt, he2, Heap.read_free_ne _ _ _ hqx]
    have hcb2 : w2.thread.callbacks = w.thread.callbacks := by rw [ht2]
    refine ⟨⟨w2, pumpNext b rest, pending, returns⟩, Q, ?_, ?_, ?_⟩
    · simp only [Sys.step, hexec]
    · refine ⟨⟨by rw [hn2, ht2]; exact hw_wf.1, hw_wf.2.1, ?_⟩, by rw [ht2]; exact hw_last, ?_,
        ?_, ?_, ?_, ?_, ?_, ?_, hw_ne⟩
      · intro q hq
        have hqx : q ≠ x := fun h => hxQ (h ▸ hq)
        exact read_ne_none_of_kindAt (hk2 q hqx) (hw_wf.2.2 q hq)
      · intro q hq
        simp only [pumpNext_held] at hq
        cases hq
      · simp only [pumpNext_window]
        exact hw_win
      · intro h
        exact absurd h (pumpNext_ne_waitPop _ _)
      · exact read_ne_none_of_kindAt (hk2 A (Ne.symm hxA)) hw_lA
      · exact read_ne_none_of_kindAt (hk2 B (Ne.symm hxB)) hw_lB
      · show matched w2 A = false
        rw [matched_congr hcb2 (hk2 A (Ne.symm hxA))]; exact hw_uA
      · show matched w2 B = false
        rw [matched_congr hcb2 (hk2 B (Ne.symm hxB))]; exact hw_uB
    · have h1 : history ⟨w2, pumpNext b rest, pending, returns⟩ Q =
          (returns ++ Q.drop rest) ++ Q.take rest := by
        simp [history, pumpNext_window, pumpNext_held]
      rw [h1]
      exact histInv_remove hxA hxB hh
  | none =>
    have hexec := execCallback_unmatched he hd
    obtain ⟨w3, hpost, hrep3, hcalls3, hframe3, hkind3, hread3, hreadp3⟩ :=
      kdPostThreadEvent_spec (H := H) hM hw_wf.1 he
    refine ⟨⟨w3, pumpNext b rest, pending, returns⟩, Q ++ [x], ?_, ?_, ?_⟩
    · simp only [Sys.step, hexec, kdPostEvent, hpost]
    · refine ⟨⟨hrep3, ?_, ?_⟩, hframe3.2.1.trans hw_last, ?_, ?_, ?_, ?_, ?_, ?_, ?_, hw_ne⟩
      · exact List.nodup_append.2 ⟨hw_wf.2.1, List.nodup_singleton x, by
          intro a ha ha'
          rw [List.mem_singleton] at ha'
          exact hxQ (ha' ▸ ha)⟩
      · intro q hq
        rcases List.mem_append.1 hq with hq | hq
        · exact read_ne_none_of_kindAt (hkind3 q) (hw_wf.2.2 q hq)
        · rw [List.mem_singleton] at hq
          rw [hq, hreadp3]; simp
      · intro q hq
        simp only [pumpNext_held] at hq
        cases hq
      · simp only [pumpNext_window, List.length_append, List.length_singleton]
        exact Nat.le_succ_of_le hw_win
      · intro h
        exact absurd h (pumpNext_ne_waitPop _ _)
      · exact read_ne_none_of_kindAt (hkind3 A) hw_lA
      · exact read_ne_none_of_kindAt (hkind3 B) hw_lB
      · show matched w3 A = false
        rw [matched_congr hframe3.1 (hkind3 A)]; exact hw_uA
      · show matched w3 B = false
        rw [matched_congr hframe3.1 (hkind3 B)]; exact hw_uB
    · have h1 : history ⟨w3, pumpNext b rest, pending, returns⟩ (Q ++ [x]) =
          (returns ++ Q.drop rest) ++ x :: Q.take rest := by
        simp only [history, pumpNext_window, pumpNext_held,
          List.drop_append_of_le_length hw_win, List.take_append_of_le_length hw_win,
          List.append_assoc, List.singleton_append, List.nil_append]
      rw [h1]
      exact hh

theorem raceInv_step {H : Host} (hM : MallocOK H.kdMalloc) {A B : Ptr} {s : Sys} {Q : List Ptr}
    (hw : WorldInv A B s Q) (hh : HistInv A B s.pending (history s Q)) (l : Label)
    (hg : l = Label.post → s.pending.length = 1 → A ∉ pumpWindow s) :
    ∃ s' Q', s.step H l = some s' ∧ WorldInv A B s' Q' ∧
      HistInv A B s'.pending (history s' Q') := by
  cases l with
  | post => exact raceInv_post hM hw hh (hg rfl)
  | pump => exact raceInv_pump hw hh
  | wait => exact raceInv_wait hw hh
  | step =>
    obtain ⟨w, pc, pending, returns⟩ := s
    cases pc with
    | idle => exact ⟨_, Q, rfl, hw, hh⟩
    | pumpPop b rest => exact raceInv_pumpPop hw hh
    | pumpDispatch b rest ev => exact raceInv_pumpDispatch hM hw hh
    | waitSize => exact raceInv_waitSize hw hh
    | waitPop => exact raceInv_waitPop hw hh

theorem raceInv_run {H : Host} (hM : MallocOK H.kdMalloc) {A B : Ptr} (sched : List Label) :
    ∀ (s : Sys) (Q : List Ptr), WorldInv A B s Q → HistInv A B s.pending (history s Q) →
    admissible H A sched s = true →
    ∃ s' Q', Sys.run H sched s = some s' ∧ WorldInv A B s' Q' ∧
      HistInv A B s'.pending (history s' Q') := by
  induction sched with
  | nil => intro s Q hw hh _; exact ⟨s, Q, rfl, hw, hh⟩
  | cons l ls ih =>
    intro s Q hw hh hadm
    simp only [admissible, Bool.and_eq_true, Bool.not_eq_true', Bool.and_eq_false_iff,
      decide_eq_false_iff_not, decide_eq_true_eq] at hadm
    obtain ⟨s1, Q1, hstep, hw1, hh1⟩ := raceInv_step hM hw hh l (by
      intro hl hp
      rcases hadm.1 with (h | h) | h
      · exact absurd hl h
      · exact absurd hp h
      · exact h)
    have hadm1 : admissible H A ls s1 = true := by
      have := hadm.2
      rw [hstep] at this
      exact this
    obtain ⟨s', Q', hrun, hw', hh'⟩ := ih s1 Q1 hw1 hh1 hadm1
    exact ⟨s', Q', by simp only [Sys.run, hstep, hrun], hw', hh'⟩

/-- C3 (amended): let one thread post `A` and then `B` to `T`, two distinct
live events that no callback of `T` matches, while `T` calls `kdPumpEvents`
and `kdWaitEvent` in any order, every `kdQueue*VEN` call being one atomic
step.  In every interleaving in which `B` is not posted while `A` is in the
window of a running pump of `T` (snapshotted by the pump and not yet
re-posted), the run never faults and the `kdWaitEvent` calls of `T` do not
return `B` before `A`. -/
theorem kdWaitEvent_order_guarded (H : Host) (hM : MallocOK H.kdMalloc) (w : World)
    (Q : List Ptr) (A B : Ptr) (hwf : WFW w Q) (hl : w.thread.lastevent = KD_NULL)
    (hAB : A ≠ B) (hA : w.events.read A ≠ none) (hB : w.events.read B ≠ none)
    (hAQ : A ∉ Q) (hBQ : B ∉ Q) (hmA : matched w A = false) (hmB : matched w B = false)
    (sched : List Label) (hadm : admissible H A sched ⟨w, TPC.idle, [A, B], []⟩ = true) :
    ∃ s, Sys.run H sched ⟨w, TPC.idle, [A, B], []⟩ = some s ∧ NotBefore A B s.returns := by
  have hw0 : WorldInv A B ⟨w, TPC.idle, [A, B], []⟩ Q :=
    ⟨hwf, hl, by simp [heldEvent], by simp [windowSize], by simp, hA, hB, hmA, hmB, hAB⟩
  have hhist0 : history ⟨w, TPC.idle, [A, B], []⟩ Q = Q := by
    simp [history, windowSize, heldEvent]
  have hh0 : HistInv A B [A, B] (history ⟨w, TPC.idle, [A, B], []⟩ Q) := by
    rw [hhist0]
    refine ⟨Or.inl rfl, ?_, ?_, ?_⟩
    · intro e he
      rcases List.mem_cons.1 he with rfl | he
      · exact hAQ
      · rw [List.mem_singleton] at he; subst he; exact hBQ
    · intro h; exact absurd (List.mem_cons_self _ _) h
    · rw [occurrences_eq_nil hAQ hBQ]
      simp
  obtain ⟨s', Q', hrun, hw', hh'⟩ := raceInv_run hM sched _ Q hw0 hh0 hadm
  refine ⟨s', hrun, ?_⟩
  have hh'' : HistInv A B s'.pending (s'.returns ++ (Q'.drop (windowSize s'.pc) ++
      (heldEvent s'.pc ++ Q'.take (windowSize s'.pc)))) := hh'
  exact histInv_notBefore hAB hh''

/-- Instance of `kdWaitEvent_order_guarded`: with event 3 in the queue, `T`
takes the size snapshot of a pump, events 1 and 2 are posted while the pump
runs, and the two `kdWaitEvent` calls return 1 and then 2; the schedule of
the race is not admissible. -/
theorem kdWaitEvent_order_guarded_witness :
    MallocOK exampleHost.kdMalloc ∧ WFW orderedInit.world [3] ∧
    orderedInit.world.thread.lastevent = KD_NULL ∧ (1 : Ptr) ≠ 2 ∧
    orderedInit.world.events.read 1 ≠ none ∧ orderedInit.world.events.read 2 ≠ none ∧
    (1 : Ptr) ∉ [3] ∧ (2 : Ptr) ∉ [3] ∧
    matched orderedInit.world 1 = false ∧ matched orderedInit.world 2 = false ∧
    admissible exampleHost 1 orderedSchedule ⟨orderedInit.world, TPC.idle, [1, 2], []⟩ = true ∧
    (∃ s, Sys.run exampleHost orderedSchedule ⟨orderedInit.world, TPC.idle, [1, 2], []⟩ =
      some s ∧ NotBefore 1 2 s.returns) ∧
    (Sys.run exampleHost orderedSchedule orderedInit).map (fun s => s.returns) = some [1, 2] ∧
    admissible exampleHost 1 raceSchedule raceInit = false :=
  ⟨Heap.bump_ok,
    ⟨⟨[(1, 3)], rfl, by decide, ⟨rfl, trivial⟩, rfl, rfl, rfl⟩, by decide, by decide⟩,
    rfl, by decide, by decide, by decide, by decide, by decide, by decide, by decide, by decide,
    kdWaitEvent_order_guarded exampleHost Heap.bump_ok orderedInit.world [3] 1 2
      ⟨⟨[(1, 3)], rfl, by decide, ⟨rfl, trivial⟩, rfl, rfl, rfl⟩, by decide, by decide⟩
      rfl (by decide) (by decide) (by decide) (by decide) (by decide) (by decide) (by decide)
      orderedSchedule (by decide),
    by decide, by decide⟩

/-! ### The atomic steps of `T` make up `kdPumpEvents` and `kdWaitEvent` -/

theorem run_step_cons (H : Host) (k : Nat) (s s1 : Sys) (h : s.step H Label.step = some s1) :
    Sys.run H (List.replicate (k + 1) Label.step) s = Sys.run H (List.replicate k Label.step) s1 := by
  simp only [List.replicate_succ, Sys.run, h]

theorem pumpLoop_steps (H : Host) (b : Bool) (p r : List Ptr) (n : Nat) :
    ∀ w w' : World, kdPumpEvents_loop H n w = some w' →
    ∃ k, Sys.run H (List.replicate k Label.step) ⟨w, pumpNext b n, p, r⟩ =
      some ⟨w', pumpNext b 0, p, r⟩ := by
  induction n with
  | zero =>
    intro w w' h
    simp only [kdPumpEvents_loop, Option.some.injEq] at h
    subst h
    exact ⟨0, rfl⟩
  | succ n ih =>
    intro w w' h
    simp only [kdPumpEvents_loop] at h
    cases hpop : kdQueuePopHeadVEN w.nodes w.thread.eventqueue with
    | none => rw [hpop] at h; cases h
    | some res =>
      obtain ⟨m, q, ev⟩ := res
      rw [hpop] at h
      simp only [] at h
      by_cases hev : ev = KD_NULL
      · simp only [hev, ne_eq, not_true_eq_false, if_false] at h
        obtain ⟨k, hk⟩ := ih _ w' h
        refine ⟨k + 1, ?_⟩
        rw [run_step_cons H k _ _ (by
          simp only [pumpNext, Sys.step, hpop, hev, ne_eq, not_true_eq_false, if_false]; rfl)]
        exact hk
      · simp only [hev, ne_eq, not_false_eq_true, if_true] at h
        cases hexec : __kdExecCallback
            ⟨m, w.events, ⟨q, w.thread.lastevent, w.thread.lasterror, w.thread.callbacks⟩,
              w.calls, w.tick⟩ ev with
        | none => rw [hexec] at h; cases h
        | some res2 =>
          obtain ⟨w2, consumed⟩ := res2
          rw [hexec] at h
          cases consumed with
          | true =>
            simp only [] at h
            obtain ⟨k, hk⟩ := ih w2 w' h
            refine ⟨k + 2, ?_⟩
            rw [run_step_cons H (k + 1) _ _ (by
              simp only [pumpNext, Sys.step, hpop, hev, ne_eq, not_false_eq_true, if_true]; rfl)]
            rw [run_step_cons H k _ _ (by simp only [Sys.step, hexec]; rfl)]
            exact hk
          | false =>
            simp only [] at h
            cases hpost : kdPostEvent H w2 ev with
            | none => rw [hpost] at h; cases h
            | some res3 =>
              obtain ⟨w3, ret⟩ := res3
              rw [hpost] at h
              simp only [] at h
              obtain ⟨k, hk⟩ := ih w3 w' h
              refine ⟨k + 2, ?_⟩
              rw [run_step_cons H (k + 1) _ _ (by
                simp only [pumpNext, Sys.step, hpop, hev, ne_eq, not_false_eq_true, if_true]
                rfl)]
              rw [run_step_cons H k _ _ (by simp only [Sys.step, hexec, hpost]; rfl)]
              exact hk

theorem run_cons (H : Host) (l : Label) (ls : List Label) (s s1 : Sys)
    (h : s.step H l = some s1) : Sys.run H (l :: ls) s = Sys.run H ls s1 := by
  simp only [Sys.run, h]

theorem run_append (H : Host) (l1 l2 : List Label) (s s1 : Sys)
    (h : Sys.run H l1 s = some s1) : Sys.run H (l1 ++ l2) s = Sys.run H l2 s1 := by
  induction l1 generalizing s with
  | nil =>
    simp only [Sys.run, Option.some.injEq] at h
    subst h; rfl
  | cons l ls ih =>
    simp only [Sys.run, List.cons_append] at h ⊢
    cases hs : s.step H l with
    | none => rw [hs] at h; cases h
    | some s2 =>
      rw [hs] at h
      exact ih s2 h

/-- The calls of `T` in the interleaved system are the functions of the
sequential model cut into atomic steps: run without interruption, a pump
reaches the world `kdPumpEvents` computes and a wait returns what
`kdWaitEvent` returns. -/
theorem steps_refine_calls (H : Host) (w w' : World) (p r : List Ptr) :
    (∀ ret, kdPumpEvents H w = some (w', ret) →
      ∃ k, Sys.run H (Label.pump :: List.replicate k Label.step) ⟨w, TPC.idle, p, r⟩ =
        some ⟨w', TPC.idle, p, r⟩) ∧
    (∀ timeout ev, kdWaitEvent H w timeout = some (w', ev) →
      ∃ k, Sys.run H (Label.wait :: List.replicate k Label.step) ⟨w, TPC.idle, p, r⟩ =
        some ⟨w', TPC.idle, p, r ++ [ev]⟩) := by
  constructor
  · intro ret h
    simp only [kdPumpEvents] at h
    cases hloop : kdPumpEvents_loop H (kdQueueSizeVEN w.thread.eventqueue) w with
    | none => rw [hloop] at h; cases h
    | some w1 =>
      rw [hloop] at h
      simp only [Option.some.injEq, Prod.mk.injEq] at h
      obtain ⟨rfl, -⟩ := h
      obtain ⟨k, hk⟩ := pumpLoop_steps H false p r _ w w1 hloop
      exact ⟨k, by simpa [Sys.run, Sys.step, pumpNext] using hk⟩
  · intro timeout ev h
    simp only [kdWaitEvent] at h
    have hite : ∀ x : World, (if timeout ≠ -1 then x else x) = x := by
      intro x; split <;> rfl
    rw [hite] at h
    generalize hw1 : (if w.thread.lastevent ≠ KD_NULL then kdFreeEvent w w.thread.lastevent
      else w) = w1 at h
    simp only [kdPumpEvents] at h
    cases hloop : kdPumpEvents_loop H (kdQueueSizeVEN w1.thread.eventqueue) w1 with
    | none => rw [hloop] at h; cases h
    | some w3 =>
      rw [hloop] at h
      simp only [] at h
      obtain ⟨k, hk⟩ := pumpLoop_steps H true p r _ w1 w3 hloop
      have hstart : Sys.step H ⟨w, TPC.idle, p, r⟩ Label.wait =
          some ⟨w1, pumpNext true (kdQueueSizeVEN w1.thread.eventqueue), p, r⟩ := by
        simp only [Sys.step, hw1]
      by_cases hs : kdQueueSizeVEN w3.thread.eventqueue > 0
      · simp only [hs, if_true] at h
        cases hpop : kdQueuePopHeadVEN w3.nodes w3.thread.eventqueue with
        | none => rw [hpop] at h; cases h
        | some res =>
          obtain ⟨m, q, le⟩ := res
          rw [hpop] at h
          simp only [Option.some.injEq, Prod.mk.injEq] at h
          obtain ⟨rfl, rfl⟩ := h
          refine ⟨k + 2, ?_⟩
          rw [show List.replicate (k + 2) Label.step =
            List.replicate k Label.step ++ [Label.step, Label.step] by
              rw [show k + 2 = k + (1 + 1) from rfl, List.replicate_add]; rfl]
          rw [run_cons H _ _ _ _ hstart, run_append H _ _ _ _ hk]
          simp [Sys.run, Sys.step, pumpNext, hs, hpop]
      · simp only [hs, if_false, Option.some.injEq, Prod.mk.injEq] at h
        obtain ⟨rfl, rfl⟩ := h
        refine ⟨k + 1, ?_⟩
        rw [List.replicate_succ', run_cons H _ _ _ _ hstart, run_append H _ _ _ _ hk]
        simp [Sys.run, Sys.step, pumpNext, hs]

/-! ### Default event handling -/

theorem kdDefaultEvent_eq (w : World) (event : Ptr) (e : KDEvent)
    (he : w.events.read event = some e) :
    kdDefaultEvent w event = some (w, decide (e.type = KD_EVENT_QUIT)) := by
  have h0 : event ≠ KD_NULL := by
    intro h; rw [h, Heap.read_null] at he; cases he
  by_cases hq : e.type = KD_EVENT_QUIT <;> simp [kdDefaultEvent, h0, he, hq]

theorem test_func_spec {H : Host} (hM : MallocOK H.kdMalloc) (q : Ptr) (post : List Ptr)
    (pre : List Ptr) :
    ∀ (w : World), WFW w (pre ++ q :: post) → w.thread.lastevent = KD_NULL →
    (∀ p ∈ pre ++ q :: post, matched w p = false) →
    (∀ p ∈ pre, ∀ e, w.events.read p = some e → e.type ≠ KD_EVENT_QUIT) →
    (∀ e, w.events.read q = some e → e.type = KD_EVENT_QUIT) →
    ∀ k, ∃ w', test_func H (k + (pre.length + 1)) w = some (w', pre ++ [q], ThreadEnd.exited) ∧
      WFW w' post ∧ w'.calls = w.calls := by
  induction pre with
  | nil =>
    intro w hwf hl hun _ hq k
    obtain ⟨w1, hwait, hwf1, hcalls1, hcb1, hl1, -, hkind1, -⟩ :=
      kdWaitEvent_spec (H := H) hM hwf hl 0
    rw [unmatchedEvents_eq_self hun] at hwait hwf1
    rw [dispatchedCalls_eq_nil hun, List.append_nil] at hcalls1
    simp only [List.nil_append, List.headD_cons, List.tail_cons] at hwait hwf1
    have hlive : w.events.read q ≠ none := hwf.2.2 q (by simp)
    have hq0 : q ≠ KD_NULL := by
      intro h; rw [h, Heap.read_null] at hlive; exact hlive rfl
    have hk := hkind1 q (fun hq' => hun q hq')
    obtain ⟨e, he⟩ := Option.ne_none_iff_exists'.1 hlive
    obtain ⟨e1, he1⟩ := Option.ne_none_iff_exists'.1 (read_ne_none_of_kindAt hk hlive)
    have hty : e1.type = KD_EVENT_QUIT := by
      rw [kindAt_of_read he, kindAt_of_read he1] at hk
      simp only [Option.some.injEq, Prod.mk.injEq] at hk
      rw [hk.1]; exact hq e he
    refine ⟨w1, ?_, hwf1, hcalls1⟩
    simp only [List.length_nil, Nat.zero_add, test_func, hwait, hq0, ne_eq, not_false_eq_true,
      if_true, he1, kdDefaultEvent_eq w1 q e1 he1, hty, decide_True, List.nil_append]
  | cons p pre ih =>
    intro w hwf hl hun hpre hq k
    rw [List.cons_append] at hwf hun
    obtain ⟨w1, hwait, hwf1, hcalls1, hcb1, hl1, -, hkind1, -⟩ :=
      kdWaitEvent_spec (H := H) hM hwf hl 0
    rw [unmatchedEvents_eq_self hun] at hwait hwf1
    rw [dispatchedCalls_eq_nil hun, List.append_nil] at hcalls1
    simp only [List.headD_cons, List.tail_cons] at hwait hwf1
    have hlive : w.events.read p ≠ none := hwf.2.2 p (by simp)
    have hp0 : p ≠ KD_NULL := by
      intro h; rw [h, Heap.read_null] at hlive; exact hlive rfl
    have hkall : ∀ x, kindAt w1.events x = kindAt w.events x :=
      fun x => hkind1 x (fun hx => hun x hx)
    obtain ⟨e, he⟩ := Option.ne_none_iff_exists'.1 hlive
    obtain ⟨e1, he1⟩ := Option.ne_none_iff_exists'.1 (read_ne_none_of_kindAt (hkall p) hlive)
    have hty : e1.type ≠ KD_EVENT_QUIT := by
      have hk := hkall p
      rw [kindAt_of_read he, kindAt_of_read he1] at hk
      simp only [Option.some.injEq, Prod.mk.injEq] at hk
      rw [hk.1]; exact hpre p (by simp) e he
    have htype : ∀ x e0 e0', w.events.read x = some e0 → w1.events.read x = some e0' →
        e0'.type = e0.type := by
      intro x e0 e0' h0 h0'
      have hk := hkall x
      rw [kindAt_of_read h0, kindAt_of_read h0'] at hk
      simp only [Option.some.injEq, Prod.mk.injEq] at hk
      exact hk.1
    have hlive1 : ∀ x, w1.events.read x ≠ none → w.events.read x ≠ none := by
      intro x hx hx0
      apply hx
      rw [← kindAt_eq_none, hkall x, kindAt_eq_none]
      exact hx0
    obtain ⟨w', hrun, hwf', hcalls'⟩ := ih w1 hwf1 hl1
      (fun x hx => by
        rw [matched_congr hcb1 (hkall x)]
        exact hun x (List.mem_cons_of_mem _ hx))
      (fun x hx e0' h0' => by
        obtain ⟨e0, h0⟩ := Option.ne_none_iff_exists'.1 (hlive1 x (by rw [h0']; simp))
        rw [htype x e0 e0' h0 h0']
        exact hpre x (List.mem_cons_of_mem _ hx) e0 h0)
      (fun e0' h0' => by
        obtain ⟨e0, h0⟩ := Option.ne_none_iff_exists'.1 (hlive1 q (by rw [h0']; simp))
        rw [htype q e0 e0' h0 h0']
        exact hq e0 h0)
      k
    refine ⟨w', ?_, hwf', hcalls'.trans hcalls1⟩
    have hfuel : k + ((p :: pre).length + 1) = (k + (pre.length + 1)) + 1 := by
      simp only [List.length_cons]; omega
    rw [hfuel, test_func]
    simp only [hwait, hp0, ne_eq, not_false_eq_true, if_true, he1,
      kdDefaultEvent_eq w1 p e1 he1, hty, decide_False, Bool.false_eq_true, if_false, hrun,
      List.cons_append]

theorem test_func_first {H : Host} (hM : MallocOK H.kdMalloc) {w : World} {Q : List Ptr}
    (q : Ptr) (post pre : List Ptr) (hwf : WFW w Q) (hl : w.thread.lastevent = KD_NULL)
    (hU : unmatchedEvents w Q = pre ++ q :: post)
    (hpre : ∀ p ∈ pre, ∀ e, w.events.read p = some e → e.type ≠ KD_EVENT_QUIT)
    (hq : ∀ e, w.events.read q = some e → e.type = KD_EVENT_QUIT) (k : Nat) :
    ∃ w', test_func H (k + (pre.length + 1)) w = some (w', pre ++ [q], ThreadEnd.exited) ∧
      WFW w' post ∧ w'.calls = w.calls ++ dispatchedCalls w Q := by
  obtain ⟨w1, hwait, hwf1, hcalls1, hcb1, hl1, -, hkind1, -⟩ :=
    kdWaitEvent_spec (H := H) hM hwf hl 0
  have hunU : ∀ x ∈ pre ++ q :: post, x ∈ Q ∧ matched w x = false := by
    intro x hx
    rw [← hU] at hx
    exact unmatchedEvents_mem.1 hx
  have hkU : ∀ x ∈ pre ++ q :: post, kindAt w1.events x = kindAt w.events x :=
    fun x hx => hkind1 x (fun _ => (hunU x hx).2)
  have hliveU : ∀ x ∈ pre ++ q :: post, w.events.read x ≠ none :=
    fun x hx => hwf.2.2 x (hunU x hx).1
  have htype : ∀ x ∈ pre ++ q :: post, ∀ e0', w1.events.read x = some e0' →
      ∃ e0, w.events.read x = some e0 ∧ e0'.type = e0.type := by
    intro x hx e0' h0'
    obtain ⟨e0, h0⟩ := Option.ne_none_iff_exists'.1 (hliveU x hx)
    have hk := hkU x hx
    rw [kindAt_of_read h0, kindAt_of_read h0'] at hk
    simp only [Option.some.injEq, Prod.mk.injEq] at hk
    exact ⟨e0, h0, hk.1⟩
  rw [hU] at hwait hwf1
  cases pre with
  | nil =>
    simp only [List.nil_append, List.headD_cons, List.tail_cons] at hwait hwf1
    have hq0 : q ≠ KD_NULL := by
      intro h
      have := hliveU q (by simp)
      rw [h, Heap.read_null] at this
      exact this rfl
    obtain ⟨e1, he1⟩ := Option.ne_none_iff_exists'.1
      (read_ne_none_of_kindAt (hkU q (by simp)) (hliveU q (by simp)))
    obtain ⟨e0, h0, hty⟩ := htype q (by simp) e1 he1
    have hty' : e1.type = KD_EVENT_QUIT := by rw [hty]; exact hq e0 h0
    refine ⟨w1, ?_, hwf1, hcalls1⟩
    simp only [List.length_nil, Nat.zero_add, test_func, hwait, hq0, ne_eq, not_false_eq_true,
      if_true, he1, kdDefaultEvent_eq w1 q e1 he1, hty', decide_True, List.nil_append]
  | cons p pre =>
    simp only [List.cons_append, List.headD_cons, List.tail_cons] at hwait hwf1
    have hp0 : p ≠ KD_NULL := by
      intro h
      have := hliveU p (by simp)
      rw [h, Heap.read_null] at this
      exact this rfl
    obtain ⟨e1, he1⟩ := Option.ne_none_iff_exists'.1
      (read_ne_none_of_kindAt (hkU p (by simp)) (hliveU p (by simp)))
    obtain ⟨e0, h0, hty⟩ := htype p (by simp) e1 he1
    have hty' : e1.type ≠ KD_EVENT_QUIT := by rw [hty]; exact hpre p (by simp) e0 h0
    obtain ⟨w', hrun, hwf', hcalls'⟩ := test_func_spec hM q post pre w1 hwf1 hl1
      (fun x hx => by
        have hx' : x ∈ (p :: pre) ++ q :: post := List.mem_cons_of_mem _ hx
        rw [matched_congr hcb1 (hkU x hx')]
        exact (hunU x hx').2)
      (fun x hx e0' h0' => by
        have hx' : x ∈ (p :: pre) ++ q :: post :=
          List.mem_append_left _ (List.mem_cons_of_mem _ hx)
        obtain ⟨e00, h00, hty0⟩ := htype x hx' e0' h0'
        rw [hty0]
        exact hpre x (List.mem_cons_of_mem _ hx) e00 h00)
      (fun e0' h0' => by
        obtain ⟨e00, h00, hty0⟩ := htype q (by simp) e0' h0'
        rw [hty0]
        exact hq e00 h00)
      k
    refine ⟨w', ?_, hwf', hcalls'.trans hcalls1⟩
    have hfuel : k + ((p :: pre).length + 1) = (k + (pre.length + 1)) + 1 := by
      simp only [List.length_cons]; omega
    rw [hfuel, test_func]
    simp only [hwait, hp0, ne_eq, not_false_eq_true, if_true, he1,
      kdDefaultEvent_eq w1 p e1 he1, hty', decide_False, Bool.false_eq_true, if_false, hrun,
      List.cons_append]

/-- C11: `kdDefaultEvent(event)` calls `kdThreadExit`, terminating the calling
thread, if and only if `event` is not null and its kind is `KD_EVENT_QUIT`;
for a null event and for a live event of any other kind it returns, and in
no case does it change the state.  Hence the worker of the event loop test,
looping on `kdWaitEvent(0)` and `kdDefaultEvent`, dequeues the events that
`kdWaitEvent` hands out ahead of the first QUIT event (those of its queue no
callback consumes), then that QUIT event, and exits on it, whatever fuel is
left; the events behind the QUIT event stay queued. -/
theorem kdDefaultEvent_quit (H : Host) (hM : MallocOK H.kdMalloc) (w : World) :
    kdDefaultEvent w KD_NULL = some (w, false) ∧
    (∀ event e, w.events.read event = some e →
      ∃ exited, kdDefaultEvent w event = some (w, exited) ∧
        (exited = true ↔ event ≠ KD_NULL ∧ e.type = KD_EVENT_QUIT)) ∧
    (∀ (Q pre : List Ptr) (q : Ptr) (post : List Ptr), WFW w Q →
      w.thread.lastevent = KD_NULL →
      unmatchedEvents w Q = pre ++ q :: post →
      (∀ p ∈ pre, ∀ e, w.events.read p = some e → e.type ≠ KD_EVENT_QUIT) →
      (∀ e, w.events.read q = some e → e.type = KD_EVENT_QUIT) →
      ∀ k, ∃ w', test_func H (k + (pre.length + 1)) w =
          some (w', pre ++ [q], ThreadEnd.exited) ∧ WFW w' post ∧
        w'.calls = w.calls ++ dispatchedCalls w Q) := by
  refine ⟨rfl, ?_, ?_⟩
  · intro event e he
    have h0 : event ≠ KD_NULL := by
      intro h; rw [h, Heap.read_null] at he; cases he
    exact ⟨decide (e.type = KD_EVENT_QUIT), kdDefaultEvent_eq w event e he, by simp [h0]⟩
  · intro Q pre q post hwf hl hU hpre hq k
    exact test_func_first hM q post pre hwf hl hU hpre hq k

/-- Witness for C11 on `exampleWorker`: the worker dequeues event 1 (kind 7),
then the QUIT event 2, and exits on it; event 3 stays queued. -/
theorem kdDefaultEvent_quit_witness :
    MallocOK exampleHost.kdMalloc ∧
    (kdDefaultEvent exampleWorker KD_NULL = some (exampleWorker, false) ∧
    (∀ event e, exampleWorker.events.read event = some e →
      ∃ exited, kdDefaultEvent exampleWorker event = some (exampleWorker, exited) ∧
        (exited = true ↔ event ≠ KD_NULL ∧ e.type = KD_EVENT_QUIT)) ∧
    (∀ (Q pre : List Ptr) (q : Ptr) (post : List Ptr), WFW exampleWorker Q →
      exampleWorker.thread.lastevent = KD_NULL →
      unmatchedEvents exampleWorker Q = pre ++ q :: post →
      (∀ p ∈ pre, ∀ e, exampleWorker.events.read p = some e → e.type ≠ KD_EVENT_QUIT) →
      (∀ e, exampleWorker.events.read q = some e → e.type = KD_EVENT_QUIT) →
      ∀ k, ∃ w', test_func exampleHost (k + (pre.length + 1)) exampleWorker =
          some (w', pre ++ [q], ThreadEnd.exited) ∧ WFW w' post ∧
        w'.calls = exampleWorker.calls ++ dispatchedCalls exampleWorker Q)) ∧
    WFW exampleWorker [1, 2, 3] ∧
    unmatchedEvents exampleWorker [1, 2, 3] = [1] ++ 2 :: [3] ∧
    (kdDefaultEvent exampleWorker 1).map Prod.snd = some false ∧
    (kdDefaultEvent exampleWorker 2).map Prod.snd = some true ∧
    (test_func exampleHost 2 exampleWorker).map (fun r => (r.2, r.1.thread.eventqueue.size)) =
      some (([1, 2], ThreadEnd.exited), 1) ∧
    (test_func exampleHost 5 exampleWorker).map (fun r => (r.2, r.1.thread.eventqueue.size)) =
      some (([1, 2], ThreadEnd.exited), 1) :=
  ⟨Heap.bump_ok, kdDefaultEvent_quit exampleHost Heap.bump_ok exampleWorker,
    ⟨⟨[(1, 1), (2, 2), (3, 3)], rfl, by decide, ⟨rfl, rfl, rfl, trivial⟩, rfl, rfl, rfl⟩,
      by decide, by decide⟩,
    by decide, by decide, by decide, by decide, by decide⟩

/-! ### The queue as a double-ended sequence -/

theorem seg_append_singleton {m : NodeHeap} {nx : Ptr} (c : Ptr × Ptr) (cs : List (Ptr × Ptr))
    (p : Ptr) :
    Seg m p (cs ++ [c]) nx ↔
      Seg m p cs c.1 ∧ m.read c.1 = some ⟨nx, lastAddr p cs, c.2⟩ := by
  induction cs generalizing p with
  | nil => simp [Seg, headAddr, lastAddr]
  | cons x xs ih =>
    have hhead : headAddr nx (xs ++ [c]) = headAddr c.1 xs := by
      cases xs <;> rfl
    show (m.read x.1 = some ⟨headAddr nx (xs ++ [c]), p, x.2⟩ ∧ Seg m x.1 (xs ++ [c]) nx) ↔
      (m.read x.1 = some ⟨headAddr c.1 xs, p, x.2⟩ ∧ Seg m x.1 xs c.1) ∧
        m.read c.1 = some ⟨nx, lastAddr x.1 xs, c.2⟩
    rw [ih x.1, hhead, and_assoc]

theorem seg_relink {m m' : NodeHeap} {nx nx' : Ptr} (cells : List (Ptr × Ptr)) (p : Ptr)
    (h : Seg m p cells nx) (hnd : (cells.map Prod.fst).Nodup)
    (hframe : ∀ c ∈ cells, c.1 ≠ lastAddr p cells → m'.read c.1 = m.read c.1)
    (hlast : cells ≠ [] → ∀ n, m.read (lastAddr p cells) = some n →
      m'.read (lastAddr p cells) = some { n with next := nx' }) :
    Seg m' p cells nx' := by
  induction cells generalizing p with
  | nil => trivial
  | cons x xs ih =>
    have hnd' : (xs.map Prod.fst).Nodup := (List.nodup_cons.1 hnd).2
    have hx : x.1 ∉ xs.map Prod.fst := (List.nodup_cons.1 hnd).1
    refine ⟨?_, ih x.1 h.2 hnd' (fun c hc => hframe c (List.mem_cons_of_mem _ hc)) ?_⟩
    · cases xs with
      | nil =>
        have := hlast (by simp) _ h.1
        simpa [lastAddr, headAddr] using this
      | cons y ys =>
        have hne : x.1 ≠ lastAddr x.1 (y :: ys) := by
          intro e
          exact hx (e ▸ lastAddr_mem x.1 (y :: ys) (by simp))
        rw [hframe x (List.mem_cons_self _ _) hne]
        exact h.1
    · intro hxs n hn
      exact hlast (by simp) n hn

theorem queueNodes_seg {m : NodeHeap} {nx : Ptr} (cells : List (Ptr × Ptr)) (p : Ptr)
    (h : Seg m p cells nx) :
    queueNodes m cells.length (headAddr nx cells) = cells.map Prod.fst := by
  induction cells generalizing p with
  | nil => rfl
  | cons c cs ih =>
    have h1 : m.read c.1 = some ⟨headAddr nx cs, p, c.2⟩ := h.1
    show queueNodes m (cs.length + 1) c.1 = c.1 :: cs.map Prod.fst
    simp only [queueNodes, h1]
    rw [ih c.1 h.2]

theorem seg_prev_mem {m : NodeHeap} {nx : Ptr} (cells : List (Ptr × Ptr)) (p : Ptr)
    (h : Seg m p cells nx) (c : Ptr × Ptr) (hc : c ∈ cells) (n : __KDQueueNode)
    (hn : m.read c.1 = some n) :
    (n.prev = p ∧ c.1 = headAddr nx cells) ∨ n.prev ∈ cells.map Prod.fst := by
  induction cells generalizing p with
  | nil => cases hc
  | cons x xs ih =>
    rcases List.mem_cons.1 hc with rfl | hc
    · left
      have h1 := h.1
      rw [hn] at h1
      cases h1
      exact ⟨rfl, rfl⟩
    · right
      rcases ih x.1 h.2 hc with ⟨h1, -⟩ | h1
      · rw [h1]; simp
      · exact List.mem_cons_of_mem _ h1

theorem seg_links {m : NodeHeap} {nx : Ptr} (cells : List (Ptr × Ptr)) (p : Ptr)
    (h : Seg m p cells nx) (hnd : (cells.map Prod.fst).Nodup) :
    ∀ c ∈ cells, ∀ n, m.read c.1 = some n →
      (n.next ≠ nx → ∃ n', m.read n.next = some n' ∧ n'.prev = c.1) ∧
      (n.prev ≠ p → ∃ n', m.read n.prev = some n' ∧ n'.next = c.1) := by
  induction cells generalizing p with
  | nil => intro c hc; cases hc
  | cons x xs ih =>
    have hnd' : (xs.map Prod.fst).Nodup := (List.nodup_cons.1 hnd).2
    have hx : x.1 ∉ xs.map Prod.fst := (List.nodup_cons.1 hnd).1
    intro c hc n hn
    rcases List.mem_cons.1 hc with rfl | hc
    · have h1 := h.1
      rw [hn] at h1
      cases h1
      refine ⟨?_, fun hp => absurd rfl hp⟩
      intro hnext
      cases xs with
      | nil => exact absurd rfl hnext
      | cons y ys => exact ⟨_, h.2.1, rfl⟩
    · obtain ⟨hnx, hpv⟩ := ih x.1 h.2 hnd' c hc n hn
      refine ⟨hnx, ?_⟩
      intro _
      by_cases hpx : n.prev = x.1
      · rcases seg_prev_mem xs x.1 h.2 c hc n hn with ⟨-, h2⟩ | h2
        · exact ⟨_, hpx ▸ h.1, h2.symm⟩
        · rw [hpx] at h2
          exact absurd h2 hx
      · exact hpv hpx

theorem kdQueuePushHeadVEN_rep {kdMalloc : NodeHeap → Ptr} (hM : MallocOK kdMalloc)
    {m : NodeHeap} {q : KDQueueVEN} {L : List Ptr} (h : QueueRep m q L) (v : Ptr) :
    ∃ m' q', kdQueuePushHeadVEN kdMalloc m q v = some (m', q') ∧ QueueRep m' q' (v :: L) := by
  obtain ⟨cells, hL, hnd, hseg, hh, ht, hs⟩ := h
  obtain ⟨ha0, hafree⟩ := hM m
  have hfresh : ∀ c ∈ cells, c.1 ≠ kdMalloc m := by
    intro c hc e
    obtain ⟨n, hn⟩ := seg_live hseg c hc
    rw [e, hafree] at hn
    cases hn
  have hnd' : (((kdMalloc m, v) :: cells).map Prod.fst).Nodup := by
    rw [List.map_cons, List.nodup_cons]
    refine ⟨?_, hnd⟩
    intro hx
    obtain ⟨c, hc, he⟩ := List.mem_map.1 hx
    exact hfresh c hc he
  have hL' : ((kdMalloc m, v) :: cells).map Prod.snd = v :: L := by
    simp [hL]
  cases cells with
  | nil =>
    have ht0 : q.tail = KD_NULL := ht
    have hh0 : q.head = KD_NULL := hh
    refine ⟨(m.write (kdMalloc m) ⟨KD_NULL, KD_NULL, v⟩).write (kdMalloc m) ⟨q.head, KD_NULL, v⟩,
      ⟨kdMalloc m, kdMalloc m, q.size + 1⟩, ?_, _, hL', hnd', ?_, rfl, rfl, ?_⟩
    · simp only [kdQueuePushHeadVEN, ha0, ht0, hh0, if_true, if_false, ne_eq, not_true_eq_false]
    · exact ⟨by rw [hh0]; simp [headAddr, Heap.read_write_same _ _ _ ha0], trivial⟩
    · simp [hs]
  | cons c cs =>
    have hh' : q.head = c.1 := hh
    have hc0 : c.1 ≠ KD_NULL := seg_addr_ne_null hseg c (List.mem_cons_self _ _)
    have hca : c.1 ≠ kdMalloc m := hfresh c (List.mem_cons_self _ _)
    have hcnot : c.1 ∉ cs.map Prod.fst := (List.nodup_cons.1 hnd).1
    have hrc : m.read c.1 = some ⟨headAddr KD_NULL cs, KD_NULL, c.2⟩ := hseg.1
    have htne0 : q.tail ≠ KD_NULL := by
      obtain ⟨ct, hct, hcte⟩ := List.mem_map.1 (lastAddr_mem KD_NULL (c :: cs) (by simp))
      rw [ht, ← hcte]
      exact seg_addr_ne_null hseg ct hct
    have hread2 : ((m.write (kdMalloc m) ⟨KD_NULL, KD_NULL, v⟩).write (kdMalloc m)
        ⟨c.1, KD_NULL, v⟩).read c.1 = some ⟨headAddr KD_NULL cs, KD_NULL, c.2⟩ := by
      rw [Heap.read_write_ne _ _ _ _ hca, Heap.read_write_ne _ _ _ _ hca, hrc]
    refine ⟨((m.write (kdMalloc m) ⟨KD_NULL, KD_NULL, v⟩).write (kdMalloc m)
        ⟨c.1, KD_NULL, v⟩).write c.1 ⟨headAddr KD_NULL cs, kdMalloc m, c.2⟩,
      ⟨kdMalloc m, q.tail, q.size + 1⟩, ?_, _, hL', hnd', ⟨?_, ?_, ?_⟩, rfl, ?_, ?_⟩
    · simp only [kdQueuePushHeadVEN, ha0, htne0, hh', hc0, if_true, if_false, ne_eq,
        not_false_eq_true, Heap.modify, hread2]
    · rw [Heap.read_write_ne _ _ _ _ (Ne.symm hca), Heap.read_write_same _ _ _ ha0]
      rfl
    · exact Heap.read_write_same _ _ _ hc0
    · apply seg_congr _ hseg.2
      intro x hx
      have hxc : x.1 ≠ c.1 := by
        intro e
        exact hcnot (by rw [← e]; exact List.mem_map_of_mem _ hx)
      have hxa : x.1 ≠ kdMalloc m := hfresh x (List.mem_cons_of_mem _ hx)
      rw [Heap.read_write_ne _ _ _ _ hxc, Heap.read_write_ne _ _ _ _ hxa,
        Heap.read_write_ne _ _ _ _ hxa]
    · rw [ht]; rfl
    · simp [hs]

theorem kdQueuePopTailVEN_rep_nil {m : NodeHeap} {q : KDQueueVEN} (h : QueueRep m q []) :
    kdQueuePopTailVEN m q = some (m, q, KD_NULL) := by
  have := (queueRep_head_null_iff h).2 rfl
  simp [kdQueuePopTailVEN, this]

theorem kdQueuePopTailVEN_rep_snoc {m : NodeHeap} {q : KDQueueVEN} {v : Ptr} {L : List Ptr}
    (h : QueueRep m q (L ++ [v])) :
    ∃ m' q', kdQueuePopTailVEN m q = some (m', q', v) ∧ QueueRep m' q' L := by
  obtain ⟨cells, hL, hnd, hseg, hh, ht, hs⟩ := h
  rcases List.eq_nil_or_concat cells with rfl | ⟨cs, c, rfl⟩
  · simp at hL
  · rw [List.concat_eq_append] at hL hnd hseg hh ht hs
    rw [List.map_append] at hL hnd
    obtain ⟨hL, hv⟩ := List.append_inj' hL rfl
    simp only [List.map_cons, List.map_nil, List.cons.injEq, and_true] at hv
    obtain ⟨hseg1, hrc⟩ := (seg_append_singleton c cs KD_NULL).1 hseg
    rw [lastAddr_snoc] at ht
    have hndcs : (cs.map Prod.fst).Nodup := (List.nodup_append.1 hnd).1
    have hcnot : c.1 ∉ cs.map Prod.fst := by
      intro hx
      exact (List.nodup_append.1 hnd).2.2 hx (by simp)
    have hc0 : c.1 ≠ KD_NULL := seg_addr_ne_null hseg c (by simp)
    have hsz : q.size - 1 = cs.length := by simp [hs]
    by_cases hcs : cs = []
    · subst hcs
      have hh' : q.head = c.1 := hh
      have hhne : q.head ≠ KD_NULL := by rw [hh']; exact hc0
      have hrc' : m.read c.1 = some ⟨KD_NULL, KD_NULL, c.2⟩ := hrc
      refine ⟨m.free q.tail, ⟨KD_NULL, KD_NULL, q.size - 1⟩, ?_, [], hL, List.nodup_nil,
        trivial, rfl, rfl, hsz⟩
      simp [kdQueuePopTailVEN, hc0, hrc', hh', ht, hv]
    · have htmem : lastAddr KD_NULL cs ∈ cs.map Prod.fst := lastAddr_mem _ _ hcs
      obtain ⟨ct, hct, hcte⟩ := List.mem_map.1 htmem
      have ht0 : lastAddr KD_NULL cs ≠ KD_NULL := by
        rw [← hcte]; exact seg_addr_ne_null hseg1 ct hct
      have htc : lastAddr KD_NULL cs ≠ c.1 := by
        intro e; exact hcnot (e ▸ htmem)
      obtain ⟨nt, hnt⟩ := seg_live hseg1 ct hct
      rw [hcte] at hnt
      have hh' : q.head = headAddr KD_NULL cs := by
        rw [hh, headAddr_append_ne_nil _ _ _ hcs]
      have hhmem : q.head ∈ cs.map Prod.fst := by
        rw [hh']
        cases cs with
        | nil => exact absurd rfl hcs
        | cons d ds => simp [headAddr]
      have hhne : q.head ≠ KD_NULL := by
        obtain ⟨ch, hch, hche⟩ := List.mem_map.1 hhmem
        rw [← hche]; exact seg_addr_ne_null hseg1 ch hch
      have hhc : q.head ≠ q.tail := by
        rw [ht]
        intro e; exact hcnot (e ▸ hhmem)
      have hrc' : m.read q.tail = some ⟨KD_NULL, lastAddr KD_NULL cs, c.2⟩ := by
        rw [ht]; exact hrc
      have hrc1 : (m.write (lastAddr KD_NULL cs) { nt with next := KD_NULL }).read q.tail =
          some ⟨KD_NULL, lastAddr KD_NULL cs, c.2⟩ := by
        rw [ht, Heap.read_write_ne _ _ _ _ (Ne.symm htc)]; exact hrc
      refine ⟨(m.write (lastAddr KD_NULL cs) { nt with next := KD_NULL }).free q.tail,
        ⟨q.head, lastAddr KD_NULL cs, q.size - 1⟩, ?_, cs, hL, hndcs, ?_, hh', rfl, hsz⟩
      · simp only [kdQueuePopTailVEN, hhne, hrc', if_false, Heap.modify, hnt, ht0,
          ne_eq, not_false_eq_true, if_true, hrc1, hhc, hv]
      · apply seg_relink cs KD_NULL hseg1 hndcs
        · intro x hx hne
          have hxc : x.1 ≠ c.1 := by
            intro e
            exact hcnot (by rw [← e]; exact List.mem_map_of_mem _ hx)
          rw [ht, Heap.read_free_ne _ _ _ hxc, Heap.read_write_ne _ _ _ _ hne]
        · intro _ n hn
          rw [hnt] at hn
          cases hn
          rw [ht, Heap.read_free_ne _ _ _ htc, Heap.read_write_same _ _ _ ht0]

theorem queueRep_tail_null_iff {m : NodeHeap} {q : KDQueueVEN} {L : List Ptr}
    (h : QueueRep m q L) : q.tail = KD_NULL ↔ L = [] := by
  obtain ⟨cells, hL, -, hseg, -, ht, -⟩ := h
  cases cells with
  | nil => simp [← hL, ht, lastAddr]
  | cons c cs =>
    obtain ⟨ct, hct, hcte⟩ := List.mem_map.1 (lastAddr_mem KD_NULL (c :: cs) (by simp))
    have := seg_addr_ne_null hseg ct hct
    rw [hcte, ← ht] at this
    simp [← hL, this]

theorem queueRep_inv {m : NodeHeap} {q : KDQueueVEN} {L : List Ptr} (h : QueueRep m q L) :
    QueueInv m q L := by
  refine ⟨by simpa [kdQueueSizeVEN] using queueRep_size h, queueRep_head_null_iff h,
    queueRep_tail_null_iff h, ?_, ?_, kdQueueContents_of_rep h⟩
  · obtain ⟨cells, hL, -, hseg, hh, ht, -⟩ := h
    intro hne
    rcases List.eq_nil_or_concat cells with rfl | ⟨ds, d, hcells⟩
    · exact absurd hL.symm hne
    · rw [List.concat_eq_append] at hcells
      cases cells with
      | nil => exact absurd hL.symm hne
      | cons c cs =>
        have hseg' := hseg
        rw [hcells] at hseg' ht
        rw [lastAddr_snoc] at ht
        have hh' : q.head = c.1 := hh
        have h1 : m.read c.1 = some ⟨headAddr KD_NULL cs, KD_NULL, c.2⟩ := hseg.1
        have h2 := ((seg_append_singleton d ds KD_NULL).1 hseg').2
        rw [← hh'] at h1
        rw [← ht] at h2
        exact ⟨_, _, h1, rfl, h2, rfl⟩
  · obtain ⟨cells, -, hnd, hseg, hh, -, hs⟩ := h
    intro a ha n hn
    rw [hs, hh, queueNodes_seg cells KD_NULL hseg] at ha
    obtain ⟨c, hc, rfl⟩ := List.mem_map.1 ha
    exact seg_links cells KD_NULL hseg hnd c hc n hn

theorem kdQueueApply_rep {kdMalloc : NodeHeap → Ptr} (hM : MallocOK kdMalloc)
    {m : NodeHeap} {q : KDQueueVEN} {L : List Ptr} (h : QueueRep m q L) (op : DequeOp) :
    ∃ m' q', kdQueueApply kdMalloc m q op = some (m', q', (dequeApply L op).2) ∧
      QueueRep m' q' (dequeApply L op).1 := by
  cases op with
  | pushHead v =>
    obtain ⟨m', q', hop, hrep⟩ := kdQueuePushHeadVEN_rep hM h v
    exact ⟨m', q', by simp [kdQueueApply, hop, dequeApply], hrep⟩
  | pushTail v =>
    obtain ⟨m', q', hop, hrep⟩ := kdQueuePushTailVEN_rep hM h v
    exact ⟨m', q', by simp [kdQueueApply, hop, dequeApply], hrep⟩
  | popHead =>
    cases L with
    | nil => exact ⟨m, q, by simp [kdQueueApply, kdQueuePopHeadVEN_rep_nil h, dequeApply], h⟩
    | cons v L =>
      obtain ⟨m', q', hop, hrep⟩ := kdQueuePopHeadVEN_rep_cons h
      exact ⟨m', q', by simp [kdQueueApply, hop, dequeApply], hrep⟩
  | popTail =>
    rcases List.eq_nil_or_concat L with rfl | ⟨L', v, rfl⟩
    · exact ⟨m, q, by simp [kdQueueApply, kdQueuePopTailVEN_rep_nil h, dequeApply], h⟩
    · rw [List.concat_eq_append] at h ⊢
      obtain ⟨m', q', hop, hrep⟩ := kdQueuePopTailVEN_rep_snoc h
      exact ⟨m', q', by simp [kdQueueApply, hop, dequeApply], by simpa [dequeApply] using hrep⟩
  | size => exact ⟨m, q, by simp [kdQueueApply, dequeApply, queueRep_size h], h⟩

theorem kdQueueRun_rep {kdMalloc : NodeHeap → Ptr} (hM : MallocOK kdMalloc) (ops : List DequeOp) :
    ∀ (m : NodeHeap) (q : KDQueueVEN) (L : List Ptr), QueueRep m q L →
    ∃ m' q', kdQueueRun kdMalloc ops m q = some ((dequeRun ops L).1, m', q') ∧
      QueueRep m' q' (dequeRun ops L).2 := by
  induction ops with
  | nil => intro m q L h; exact ⟨m, q, rfl, h⟩
  | cons op ops ih =>
    intro m q L h
    obtain ⟨m1, q1, hop, hrep1⟩ := kdQueueApply_rep hM h op
    obtain ⟨m', q', hrun, hrep'⟩ := ih m1 q1 _ hrep1
    exact ⟨m', q', by simp only [kdQueueRun, hop, hrun, dequeRun], hrep'⟩

/-- C12: the linked queue refines a double-ended sequence.  Whenever the nodes
of `queue` represent the sequence `L` (the representation `QueueRep`), the
invariant of the specification holds (`size` is the length of `L`, `head` is
null iff `tail` is null iff `L` is empty, the head has no predecessor and the
tail no successor, `next` and `prev` are mutually inverse, the values along
`next` are `L`), and every operation runs without fault and preserves the
representation: `kdQueuePushHeadVEN` yields `v :: L`, `kdQueuePushTailVEN`
yields `L ++ [v]`, `kdQueuePopHeadVEN` returns the first element and yields
the rest, `kdQueuePopTailVEN` returns the last element and yields `L` without
it, the pops on the empty queue return null and change nothing, and
`kdQueueSizeVEN` returns the length of `L`; so every sequence of calls returns
what the same calls return on the sequence. -/
theorem kdQueue_refines_deque (kdMalloc : NodeHeap → Ptr) (hM : MallocOK kdMalloc)
    (m : NodeHeap) (queue : KDQueueVEN) (L : List Ptr) (h : QueueRep m queue L) :
    QueueInv m queue L ∧
    (∀ v, ∃ m' q', kdQueuePushHeadVEN kdMalloc m queue v = some (m', q') ∧
      QueueRep m' q' (v :: L) ∧ QueueInv m' q' (v :: L)) ∧
    (∀ v, ∃ m' q', kdQueuePushTailVEN kdMalloc m queue v = some (m', q') ∧
      QueueRep m' q' (L ++ [v]) ∧ QueueInv m' q' (L ++ [v])) ∧
    (∃ m' q', kdQueuePopHeadVEN m queue = some (m', q', L.headD KD_NULL) ∧
      QueueRep m' q' L.tail ∧ QueueInv m' q' L.tail) ∧
    (∃ m' q', kdQueuePopTailVEN m queue = some (m', q', L.getLastD KD_NULL) ∧
      QueueRep m' q' L.dropLast ∧ QueueInv m' q' L.dropLast) ∧
    (L = [] → kdQueuePopHeadVEN m queue = some (m, queue, KD_NULL) ∧
      kdQueuePopTailVEN m queue = some (m, queue, KD_NULL)) ∧
    kdQueueSizeVEN queue = L.length ∧
    (∀ ops : List DequeOp, ∃ m' q',
      kdQueueRun kdMalloc ops m queue = some ((dequeRun ops L).1, m', q') ∧
      QueueRep m' q' (dequeRun ops L).2 ∧ QueueInv m' q' (dequeRun ops L).2) := by
  refine ⟨queueRep_inv h, ?_, ?_, ?_, ?_, ?_, queueRep_size h, ?_⟩
  · intro v
    obtain ⟨m', q', hop, hrep⟩ := kdQueuePushHeadVEN_rep hM h v
    exact ⟨m', q', hop, hrep, queueRep_inv hrep⟩
  · intro v
    obtain ⟨m', q', hop, hrep⟩ := kdQueuePushTailVEN_rep hM h v
    exact ⟨m', q', hop, hrep, queueRep_inv hrep⟩
  · obtain ⟨m', q', hop, hrep⟩ := kdQueueApply_rep hM h DequeOp.popHead
    exact ⟨m', q', hop, hrep, queueRep_inv hrep⟩
  · obtain ⟨m', q', hop, hrep⟩ := kdQueueApply_rep hM h DequeOp.popTail
    exact ⟨m', q', hop, hrep, queueRep_inv hrep⟩
  · intro hL
    subst hL
    exact ⟨kdQueuePopHeadVEN_rep_nil h, kdQueuePopTailVEN_rep_nil h⟩
  · intro ops
    obtain ⟨m', q', hrun, hrep⟩ := kdQueueRun_rep hM ops m queue L h
    exact ⟨m', q', hrun, hrep, queueRep_inv hrep⟩

/-- Instance of `kdQueue_refines_deque` for the allocator `Heap.bump` and a
freshly created queue, with one run of all five operations evaluated. -/
theorem kdQueue_refines_deque_witness :
    MallocOK (Heap.bump : NodeHeap → Ptr) ∧ QueueRep Heap.empty kdQueueCreateVEN [] ∧
    (∀ ops : List DequeOp, ∃ m' q',
      kdQueueRun Heap.bump ops Heap.empty kdQueueCreateVEN = some ((dequeRun ops []).1, m', q') ∧
      QueueRep m' q' (dequeRun ops []).2 ∧ QueueInv m' q' (dequeRun ops []).2) ∧
    (kdQueueRun Heap.bump
        [DequeOp.pushTail 7, DequeOp.pushHead 8, DequeOp.pushTail 9, DequeOp.size,
          DequeOp.popTail, DequeOp.popHead, DequeOp.popTail, DequeOp.popTail, DequeOp.size]
        Heap.empty kdQueueCreateVEN).map (fun r => (r.1, r.2.2)) =
      some ([0, 0, 0, 3, 9, 8, 7, 0, 0], ⟨KD_NULL, KD_NULL, 0⟩) ∧
    dequeRun
        [DequeOp.pushTail 7, DequeOp.pushHead 8, DequeOp.pushTail 9, DequeOp.size,
          DequeOp.popTail, DequeOp.popHead, DequeOp.popTail, DequeOp.popTail, DequeOp.size] [] =
      ([0, 0, 0, 3, 9, 8, 7, 0, 0], []) :=
  ⟨Heap.bump_ok, kdQueueCreateVEN_rep Heap.empty,
    (kdQueue_refines_deque Heap.bump Heap.bump_ok Heap.empty kdQueueCreateVEN []
      (kdQueueCreateVEN_rep Heap.empty)).2.2.2.2.2.2.2,
    by decide, by decide⟩

/-! ### Timestamps -/

/-- C13, the code at the failing input: for the clock reading 1 s 5 ns
`kdGetTimeUST` returns 5, not the 1000000005 ns of the reading (on every
reading it returns the `tv_nsec` field alone); and when the clock reads
0 s 999999999 ns and then 1 s 0 ns, which is not a step backwards, two events
posted one after the other with timestamp `0` are stamped 999999999 and `0`:
the later post carries the smaller timestamp. -/
theorem kdGetTimeUST_drops_seconds :
    kdGetTimeUST ⟨1, 5⟩ = 5 ∧ nanoseconds ⟨1, 5⟩ = 1000000005 ∧
    (∀ ts : timespec, kdGetTimeUST ts = ts.tv_nsec) ∧
    nanoseconds (secondBoundaryHost.clock 0) ≤ nanoseconds (secondBoundaryHost.clock 1) ∧
    stampedAcrossSecond = some (some 999999999, some 0) := by
  refine ⟨rfl, by decide, fun _ => rfl, by decide, by decide⟩

/-! ### Several queues in one heap -/

theorem queueCells_rep {m : NodeHeap} {q : KDQueueVEN} {cells : List (Ptr × Ptr)}
    (h : QueueCells m q cells) : QueueRep m q (cells.map Prod.snd) :=
  ⟨cells, rfl, h.1, h.2.1, h.2.2.1, h.2.2.2.1, h.2.2.2.2⟩

theorem queueRep_cells {m : NodeHeap} {q : KDQueueVEN} {L : List Ptr} (h : QueueRep m q L) :
    ∃ cells, QueueCells m q cells ∧ cells.map Prod.snd = L := by
  obtain ⟨cells, hL, hnd, hseg, hh, ht, hs⟩ := h
  exact ⟨cells, ⟨hnd, hseg, hh, ht, hs⟩, hL⟩

theorem queueCells_frame {m m' : NodeHeap} {q : KDQueueVEN} {cells : List (Ptr × Ptr)}
    (h : QueueCells m q cells) (hf : ∀ c ∈ cells, m'.read c.1 = m.read c.1) :
    QueueCells m' q cells :=
  ⟨h.1, seg_congr hf h.2.1, h.2.2.1, h.2.2.2.1, h.2.2.2.2⟩

theorem queueCells_live {m : NodeHeap} {q : KDQueueVEN} {cells : List (Ptr × Ptr)}
    (h : QueueCells m q cells) {a : Ptr} (ha : a ∈ cells.map Prod.fst) : m.read a ≠ none := by
  obtain ⟨c, hc, rfl⟩ := List.mem_map.1 ha
  obtain ⟨n, hn⟩ := seg_live h.2.1 c hc
  rw [hn]; simp

theorem kdQueueCreateVEN_cells (m : NodeHeap) : QueueCells m kdQueueCreateVEN [] :=
  ⟨List.nodup_nil, trivial, rfl, rfl, rfl⟩

theorem kdQueuePushTailVEN_cells {kdMalloc : NodeHeap → Ptr} (hM : MallocOK kdMalloc)
    {m : NodeHeap} {q : KDQueueVEN} {cells : List (Ptr × Ptr)} (h : QueueCells m q cells)
    (v : Ptr) :
    ∃ m' q', kdQueuePushTailVEN kdMalloc m q v = some (m', q') ∧
      QueueCells m' q' (cells ++ [(kdMalloc m, v)]) ∧
      ∀ a, a ≠ kdMalloc m → a ∉ cells.map Prod.fst → m'.read a = m.read a := by
  obtain ⟨hnd, hseg, hh, ht, hs⟩ := h
  obtain ⟨ha0, hafree⟩ := hM m
  have hfresh : ∀ c ∈ cells, c.1 ≠ kdMalloc m := by
    intro c hc e
    obtain ⟨n, hn⟩ := seg_live hseg c hc
    rw [e, hafree] at hn
    cases hn
  have hnd' : ((cells ++ [(kdMalloc m, v)]).map Prod.fst).Nodup := by
    rw [List.map_append, List.nodup_append]
    refine ⟨hnd, by simp, ?_⟩
    intro x hx hx'
    obtain ⟨c, hc, rfl⟩ := List.mem_map.1 hx
    simp only [List.map_cons, List.map_nil, List.mem_singleton] at hx'
    exact hfresh c hc hx'
  by_cases hc : cells = []
  · subst hc
    have ht0 : q.tail = KD_NULL := ht
    have hh0 : q.head = KD_NULL := hh
    refine ⟨(m.write (kdMalloc m) ⟨KD_NULL, KD_NULL, v⟩).write (kdMalloc m) ⟨KD_NULL, KD_NULL, v⟩,
      ⟨kdMalloc m, kdMalloc m, q.size + 1⟩, ?_, ⟨hnd', ?_, ?_, ?_, ?_⟩, ?_⟩
    · simp only [kdQueuePushTailVEN, ha0, ht0, hh0, if_true, if_false, ne_eq, not_true_eq_false]
    · exact ⟨by simp [headAddr, Heap.read_write_same _ _ _ ha0], trivial⟩
    · simp [headAddr]
    · simp [lastAddr]
    · simp [hs]
    · intro a haa _
      rw [Heap.read_write_ne _ _ _ _ haa, Heap.read_write_ne _ _ _ _ haa]
  · have htmem : lastAddr KD_NULL cells ∈ cells.map Prod.fst := lastAddr_mem _ _ hc
    obtain ⟨ct, hct, hcte⟩ := List.mem_map.1 htmem
    have htne0 : q.tail ≠ KD_NULL := by
      rw [ht, ← hcte]; exact seg_addr_ne_null hseg ct hct
    have htnea : q.tail ≠ kdMalloc m := by
      rw [ht, ← hcte]; exact hfresh ct hct
    obtain ⟨n, hn⟩ := seg_live hseg ct hct
    rw [hcte, ← ht] at hn
    have hhne0 : q.head ≠ KD_NULL := by
      cases cells with
      | nil => exact absurd rfl hc
      | cons c cs => rw [hh]; exact seg_addr_ne_null hseg c (List.mem_cons_self _ _)
    have hread2 : ((m.write (kdMalloc m) ⟨KD_NULL, KD_NULL, v⟩).write (kdMalloc m)
        ⟨KD_NULL, q.tail, v⟩).read q.tail = some n := by
      rw [Heap.read_write_ne _ _ _ _ htnea, Heap.read_write_ne _ _ _ _ htnea, hn]
    refine ⟨((m.write (kdMalloc m) ⟨KD_NULL, KD_NULL, v⟩).write (kdMalloc m)
        ⟨KD_NULL, q.tail, v⟩).write q.tail { n with next := kdMalloc m },
      ⟨q.head, kdMalloc m, q.size + 1⟩, ?_, ⟨hnd', ?_, ?_, ?_, ?_⟩, ?_⟩
    · simp only [kdQueuePushTailVEN, ha0, htne0, hhne0, if_true, if_false, ne_eq,
        not_false_eq_true, Heap.modify, hread2]
    · apply seg_snoc cells KD_NULL hseg hnd
      · intro c hc hne
        rw [← ht] at hne
        rw [Heap.read_write_ne _ _ _ _ hne, Heap.read_write_ne _ _ _ _ (hfresh c hc),
          Heap.read_write_ne _ _ _ _ (hfresh c hc)]
      · intro _ n' hn'
        rw [← ht] at hn' ⊢
        rw [hn] at hn'
        cases hn'
        exact Heap.read_write_same _ _ _ htne0
      · rw [Heap.read_write_ne _ _ _ _ (Ne.symm htnea), Heap.read_write_same _ _ _ ha0, ht]
    · rw [headAddr_append_ne_nil _ _ _ hc]; exact hh
    · rw [lastAddr_snoc]
    · simp [hs]
    · intro a haa hacells
      have hat : a ≠ q.tail := by
        intro e; rw [e, ht] at hacells; exact hacells htmem
      rw [Heap.read_write_ne _ _ _ _ hat, Heap.read_write_ne _ _ _ _ haa,
        Heap.read_write_ne _ _ _ _ haa]

theorem kdQueuePopHeadVEN_cells_nil {m : NodeHeap} {q : KDQueueVEN} (h : QueueCells m q []) :
    kdQueuePopHeadVEN m q = some (m, q, KD_NULL) :=
  kdQueuePopHeadVEN_rep_nil (queueCells_rep h)

theorem kdQueuePopHeadVEN_cells {m : NodeHeap} {q : KDQueueVEN} {c : Ptr × Ptr}
    {cs : List (Ptr × Ptr)} (h : QueueCells m q (c :: cs)) :
    ∃ m' q', kdQueuePopHeadVEN m q = some (m', q', c.2) ∧ QueueCells m' q' cs ∧
      ∀ a, a ∉ (c :: cs).map Prod.fst → m'.read a = m.read a := by
  obtain ⟨hnd, hseg, hh, ht, hs⟩ := h
  have hh' : q.head = c.1 := hh
  have hc0 : c.1 ≠ KD_NULL := seg_addr_ne_null hseg c (List.mem_cons_self _ _)
  have hhne : q.head ≠ KD_NULL := by rw [hh']; exact hc0
  have hcnot : c.1 ∉ cs.map Prod.fst := (List.nodup_cons.1 hnd).1
  have hnd' : (cs.map Prod.fst).Nodup := (List.nodup_cons.1 hnd).2
  cases cs with
  | nil =>
    have hrc : m.read q.head = some ⟨KD_NULL, KD_NULL, c.2⟩ := by
      rw [hh']; exact hseg.1
    have htail : q.tail = q.head := by rw [ht, hh']; rfl
    refine ⟨m.free q.head, ⟨KD_NULL, KD_NULL, q.size - 1⟩, ?_,
      ⟨List.nodup_nil, trivial, rfl, rfl, ?_⟩, ?_⟩
    · simp [kdQueuePopHeadVEN, hhne, hrc, htail]
    · simp [hs]
    · intro a ha
      have hac : a ≠ c.1 := by
        intro e; exact ha (by simp [e])
      rw [hh', Heap.read_free_ne _ _ _ hac]
  | cons d ds =>
    have hrc : m.read q.head = some ⟨d.1, KD_NULL, c.2⟩ := by
      rw [hh']; exact hseg.1
    have hd0 : d.1 ≠ KD_NULL := seg_addr_ne_null hseg.2 d (List.mem_cons_self _ _)
    have hdc : d.1 ≠ c.1 := by
      intro e; exact hcnot (by simp [e])
    have hrd : m.read d.1 = some ⟨headAddr KD_NULL ds, c.1, d.2⟩ := hseg.2.1
    have htne : q.tail ≠ q.head := by
      rw [ht, hh']
      intro e
      apply hcnot
      have := lastAddr_mem c.1 (d :: ds) (by simp)
      rw [show lastAddr KD_NULL (c :: d :: ds) = lastAddr c.1 (d :: ds) from rfl] at e
      rw [e] at this
      exact this
    have hrc1 : (m.write d.1 ⟨headAddr KD_NULL ds, KD_NULL, d.2⟩).read q.head =
        some ⟨d.1, KD_NULL, c.2⟩ := by
      rw [hh', Heap.read_write_ne _ _ _ _ (Ne.symm hdc)]; exact hseg.1
    refine ⟨(m.write d.1 ⟨headAddr KD_NULL ds, KD_NULL, d.2⟩).free q.head,
      ⟨d.1, q.tail, q.size - 1⟩, ?_, ⟨hnd', ⟨?_, ?_⟩, rfl, ?_, ?_⟩, ?_⟩
    · simp only [kdQueuePopHeadVEN, hhne, hrc, if_false, Heap.modify, hrd, hd0,
        ne_eq, not_false_eq_true, if_true, hrc1, htne]
    · rw [hh', Heap.read_free_ne _ _ _ hdc, Heap.read_write_same _ _ _ hd0]
    · apply seg_congr _ hseg.2.2
      intro x hx
      have hxd : x.1 ≠ d.1 := by
        intro e
        exact (List.nodup_cons.1 hnd').1 (by rw [← e]; exact List.mem_map_of_mem _ hx)
      have hxc : x.1 ≠ c.1 := by
        intro e
        apply hcnot
        rw [← e]
        exact List.mem_map_of_mem _ (List.mem_cons_of_mem _ hx)
      rw [hh', Heap.read_free_ne _ _ _ hxc, Heap.read_write_ne _ _ _ _ hxd]
    · rw [ht]; rfl
    · simp [hs]
    · intro a ha
      have hac : a ≠ c.1 := by
        intro e; exact ha (by simp [e])
      have had : a ≠ d.1 := by
        intro e; exact ha (by simp [e])
      rw [hh', Heap.read_free_ne _ _ _ hac, Heap.read_write_ne _ _ _ _ had]

/-! ### Windowing -/

theorem Process.kdSetError_eq {p : Process} {self : Ptr} {t : KDThread}
    (ht : p.threads.read self = some t) (error : Int) :
    p.kdSetError self error =
      some { p with threads := p.threads.write self { t with lasterror := error } } := by
  simp [Process.kdSetError, Heap.modify, ht]

theorem kdCreateWindow_fresh {P : Platform} (hP : PlatformOK P) {p : Process}
    (h0 : p.__kd_window = KD_NULL) (self u : Ptr) :
    kdCreateWindow P p self u =
      some ({ p with
        windows := p.windows.write (P.mallocWindow p.windows)
          ⟨P.XCreateSimpleWindow, P.XOpenDisplay, 0,
            if u = KD_NULL then P.mallocWindow p.windows else u, self⟩,
        __kd_window := P.mallocWindow p.windows }, P.mallocWindow p.windows) := by
  have hne := (hP.2.2.2.2.2.1 p.windows).1
  simp [kdCreateWindow, h0, hne]

theorem oneWindow_step {P : Platform} (hP : PlatformOK P) {p : Process} (h : OneWindow p)
    (op : WindowOp) {p' : Process} (hrun : runWindowOps P [op] p = some p') : OneWindow p' := by
  cases op with
  | create self u =>
    by_cases h0 : p.__kd_window = KD_NULL
    · simp only [runWindowOps, kdCreateWindow_fresh hP h0, Option.some.injEq] at hrun
      subst hrun
      intro a ha
      by_contra hne
      have ha' : p.windows.read a ≠ none := by
        simpa [Heap.read_write_ne _ _ _ _ hne] using ha
      have := h a ha'
      rw [h0] at this
      rw [this, Heap.read_null] at ha'
      exact ha' rfl
    · simp only [runWindowOps, kdCreateWindow, h0, ne_eq, not_false_eq_true, if_true] at hrun
      cases hs : p.kdSetError self KD_EPERM with
      | none => simp [hs] at hrun
      | some p1 =>
        simp only [hs, Option.map_some', Option.some.injEq] at hrun
        subst hrun
        simp only [Process.kdSetError, Option.map_eq_some'] at hs
        obtain ⟨ts, -, rfl⟩ := hs
        exact h
  | destroy self window =>
    simp only [runWindowOps, kdDestroyWindow] at hrun
    cases hr : p.windows.read window with
    | none => simp [hr] at hrun
    | some record =>
      simp only [hr] at hrun
      by_cases ho : record.originthr = self
      · simp only [ho, ne_eq, not_true_eq_false, if_false, Option.some.injEq] at hrun
        subst hrun
        intro a ha
        exfalso
        apply ha
        have hw : window = p.__kd_window := h window (by rw [hr]; simp)
        by_cases haw : a = window
        · subst haw
          by_cases hz : a = KD_NULL
          · rw [hz]; exact Heap.read_null _
          · exact Heap.read_free_same _ _
        · have hdead : p.windows.read a = none := by
            by_contra hlive
            exact haw ((h a hlive).trans hw.symm)
          show (p.windows.free window).read a = none
          rw [Heap.read_free_ne _ _ _ haw]
          exact hdead
      · simp only [ho, ne_eq, not_false_eq_true, if_true] at hrun
        cases hs : p.kdSetError self KD_EINVAL with
        | none => simp [hs] at hrun
        | some p1 =>
          simp only [hs, Option.map_some', Option.some.injEq] at hrun
          subst hrun
          simp only [Process.kdSetError, Option.map_eq_some'] at hs
          obtain ⟨ts, -, rfl⟩ := hs
          exact h

theorem runWindowOps_cons (P : Platform) (op : WindowOp) (ops : List WindowOp) (p : Process) :
    runWindowOps P (op :: ops) p = (runWindowOps P [op] p).bind (runWindowOps P ops) := by
  cases op with
  | create self u =>
    cases h : kdCreateWindow P p self u with
    | none => simp [runWindowOps, h]
    | some r => simp [runWindowOps, h]
  | destroy self window =>
    cases h : kdDestroyWindow p self window with
    | none => simp [runWindowOps, h]
    | some r => simp [runWindowOps, h]

theorem oneWindow_run {P : Platform} (hP : PlatformOK P) (ops : List WindowOp) :
    ∀ p p', OneWindow p → runWindowOps P ops p = some p' → OneWindow p' := by
  induction ops with
  | nil =>
    intro p p' h hrun
    simp only [runWindowOps, Option.some.injEq] at hrun
    exact hrun ▸ h
  | cons op ops ih =>
    intro p p' h hrun
    rw [runWindowOps_cons] at hrun
    cases h1 : runWindowOps P [op] p with
    | none => simp [h1] at hrun
    | some p1 =>
      rw [h1] at hrun
      exact ih p1 p' (oneWindow_step hP h op h1) hrun

/-- Window calls that do not overlap (each `kdCreateWindow` runs from its
test of `__kd_window` to its return with no step of another thread in
between, see `kdCreateWindow_step_atomic`): while a window exists
(`__kd_window` is not null), `kdCreateWindow` returns null and sets the last
error of the caller to `KD_EPERM`, leaving the window heap and `__kd_window` as
they were; so from a state in which every live window is the one
`__kd_window` refers to, any sequence of `kdCreateWindow` and
`kdDestroyWindow` calls made one after the other leaves at most one live
window; and after a `kdDestroyWindow` that returned `0` a `kdCreateWindow` by
any thread succeeds again with a new window owned by that thread. -/
theorem kdCreateWindow_single (P : Platform) (hP : PlatformOK P) (p : Process)
    (h1 : OneWindow p) :
    (∀ self u t, p.__kd_window ≠ KD_NULL → p.threads.read self = some t →
      kdCreateWindow P p self u =
        some ({ p with threads := p.threads.write self { t with lasterror := KD_EPERM } },
          KD_NULL)) ∧
    (∀ ops p', runWindowOps P ops p = some p' →
      OneWindow p' ∧
      ∀ a b, p'.windows.read a ≠ none → p'.windows.read b ≠ none → a = b) ∧
    (∀ self window p1, kdDestroyWindow p self window = some (p1, 0) →
      p1.__kd_window = KD_NULL ∧ p1.windows.read window = none ∧
      ∀ self2 u, ∃ p2 window2, kdCreateWindow P p1 self2 u = some (p2, window2) ∧
        window2 ≠ KD_NULL ∧ p2.__kd_window = window2 ∧
        ∃ record, p2.windows.read window2 = some record ∧ record.originthr = self2) := by
  refine ⟨?_, ?_, ?_⟩
  · intro self u t h0 ht
    simp [kdCreateWindow, h0, Process.kdSetError_eq ht]
  · intro ops p' hrun
    have h := oneWindow_run hP ops p p' h1 hrun
    exact ⟨h, fun a b ha hb => (h a ha).trans (h b hb).symm⟩
  · intro self window p1 hd
    simp only [kdDestroyWindow] at hd
    cases hr : p.windows.read window with
    | none => simp [hr] at hd
    | some record =>
      simp only [hr] at hd
      by_cases ho : record.originthr = self
      · simp only [ho, ne_eq, not_true_eq_false, if_false, Option.some.injEq,
          Prod.mk.injEq, and_true] at hd
        subst hd
        have hw0 : window ≠ KD_NULL := by
          intro h; rw [h, Heap.read_null] at hr; cases hr
        refine ⟨rfl, Heap.read_free_same _ _, ?_⟩
        intro self2 u
        have hne := (hP.2.2.2.2.2.1 (p.windows.free window)).1
        refine ⟨_, _, kdCreateWindow_fresh hP rfl self2 u, hne, rfl, _,
          Heap.read_write_same _ _ _ hne, rfl⟩
      · simp only [ho, ne_eq, not_false_eq_true, if_true] at hd
        cases hs : p.kdSetError self KD_EINVAL with
        | none => simp [hs] at hd
        | some p2 => simp [hs] at hd

/-- Instance of `kdCreateWindow_single` on the example platform, with the
scenario evaluated: thread 1 creates the window (window 1); a second create by
thread 2 returns null with `KD_EPERM` and changes neither the window nor
`__kd_window`; after thread 1 destroyed the window, thread 2 creates window 2. -/
theorem kdCreateWindow_single_witness :
    PlatformOK examplePlatform ∧ OneWindow windowOfThread1 ∧
    ((∀ self u t, windowOfThread1.__kd_window ≠ KD_NULL →
        windowOfThread1.threads.read self = some t →
        kdCreateWindow examplePlatform windowOfThread1 self u =
          some ({ windowOfThread1 with
            threads := windowOfThread1.threads.write self { t with lasterror := KD_EPERM } },
            KD_NULL)) ∧
      (∀ ops p', runWindowOps examplePlatform ops windowOfThread1 = some p' →
        OneWindow p' ∧
        ∀ a b, p'.windows.read a ≠ none → p'.windows.read b ≠ none → a = b) ∧
      (∀ self window p1, kdDestroyWindow windowOfThread1 self window = some (p1, 0) →
        p1.__kd_window = KD_NULL ∧ p1.windows.read window = none ∧
        ∀ self2 u, ∃ p2 window2, kdCreateWindow examplePlatform p1 self2 u = some (p2, window2) ∧
          window2 ≠ KD_NULL ∧ p2.__kd_window = window2 ∧
          ∃ record, p2.windows.read window2 = some record ∧ record.originthr = self2)) ∧
    windowOfThread1.__kd_window = 1 ∧
    windowOfThread1.windows.read 1 = some ⟨600, 500, 0, 1, 1⟩ ∧
    (kdCreateWindow examplePlatform windowOfThread1 2 KD_NULL).map
        (fun r => (r.2, (r.1.threads.read 2).map KDThread.lasterror, r.1.__kd_window,
          r.1.windows)) =
      some (KD_NULL, some KD_EPERM, 1, windowOfThread1.windows) ∧
    ((kdDestroyWindow windowOfThread1 1 1).bind
        (fun r => kdCreateWindow examplePlatform r.1 2 KD_NULL)).map
        (fun r => (r.2, r.1.__kd_window, r.1.windows.read 1, r.1.windows.read 2)) =
      some (2, 2, none, some ⟨600, 500, 0, 2, 2⟩) := by
  have hP : PlatformOK examplePlatform :=
    ⟨Heap.bump_ok, Heap.bump_ok, Heap.bump_ok, Heap.bump_ok, Heap.bump_ok, Heap.bump_ok, rfl⟩
  have h1 : OneWindow windowOfThread1 :=
    oneWindow_run hP [WindowOp.create 1 KD_NULL] twoThreads windowOfThread1
      (fun a ha => absurd (by cases a <;> rfl) ha) (by decide)
  exact ⟨hP, h1, kdCreateWindow_single examplePlatform hP windowOfThread1 h1,
    by decide, by decide, by decide, by decide⟩

/-- C18: `kdDestroyWindow(window)` called by a thread other than
`window->originthr` returns `-1` and sets the last error of the caller to
`KD_EINVAL`; the window is not freed and `__kd_window` is unchanged, so it
still refers to the window if it did before. -/
theorem kdDestroyWindow_foreign (p : Process) (self window : Ptr) (record : KDWindow)
    (t : KDThread) (hw : p.windows.read window = some record)
    (ho : record.originthr ≠ self) (ht : p.threads.read self = some t) :
    ∃ p', kdDestroyWindow p self window = some (p', -1) ∧
      p' = { p with threads := p.threads.write self { t with lasterror := KD_EINVAL } } ∧
      (p'.threads.read self).map KDThread.lasterror = some KD_EINVAL ∧
      p'.windows.read window = some record ∧ p'.__kd_window = p.__kd_window := by
  have hs0 : self ≠ KD_NULL := by
    intro h; rw [h, Heap.read_null] at ht; cases ht
  refine ⟨_, ?_, rfl, ?_, hw, rfl⟩
  · simp [kdDestroyWindow, hw, ho, Process.kdSetError_eq ht]
  · simp [Heap.read_write_same _ _ _ hs0]

/-- Instance of `kdDestroyWindow_foreign`: thread 2 tries to destroy the
window of thread 1. -/
theorem kdDestroyWindow_foreign_witness :
    windowOfThread1.windows.read 1 = some ⟨600, 500, 0, 1, 1⟩ ∧
    (∃ p', kdDestroyWindow windowOfThread1 2 1 = some (p', -1) ∧
      p' = { windowOfThread1 with
        threads := windowOfThread1.threads.write 2 { __kdThreadInit with lasterror := KD_EINVAL } } ∧
      (p'.threads.read 2).map KDThread.lasterror = some KD_EINVAL ∧
      p'.windows.read 1 = some ⟨600, 500, 0, 1, 1⟩ ∧
      p'.__kd_window = windowOfThread1.__kd_window) ∧
    (kdDestroyWindow windowOfThread1 2 1).map
        (fun r => (r.2, r.1.__kd_window, r.1.windows.read 1)) =
      some (-1, 1, some ⟨600, 500, 0, 1, 1⟩) ∧
    (kdDestroyWindow windowOfThread1 1 1).map
        (fun r => (r.2, r.1.__kd_window, r.1.windows.read 1)) = some (0, KD_NULL, none) :=
  ⟨by decide,
    kdDestroyWindow_foreign windowOfThread1 2 1 ⟨600, 500, 0, 1, 1⟩ __kdThreadInit
      (by decide) (by decide) (by decide),
    by decide, by decide⟩

/-- C19, the code at the failing input: thread 1 created the window (its
`originthr` is 1) and thread 2 calls `kdRealizeWindow`: the call returns `0`,
stores the native handle 600 through the out parameter and sets no error; the
state is unchanged, the last error of thread 2 still being `0`. -/
theorem kdRealizeWindow_no_origin_check :
    (windowOfThread1.windows.read 1).map KDWindow.originthr = some 1 ∧
    kdRealizeWindow windowOfThread1 2 1 = some (windowOfThread1, 0, some 600) ∧
    (windowOfThread1.threads.read 2).map KDThread.lasterror = some 0 ∧
    (kdDestroyWindow windowOfThread1 2 1).map
        (fun r => (r.2, (r.1.threads.read 2).map KDThread.lasterror)) =
      some (-1, some KD_EINVAL) := by
  refine ⟨by decide, by decide, by decide, by decide⟩

/-! ### Posting to a thread of the process -/

theorem kdPostThreadEvent_cells {H : Host} (hM : MallocOK H.kdMalloc) {w : World}
    {cells : List (Ptr × Ptr)} {event : Ptr} {e : KDEvent}
    (hc : QueueCells w.nodes w.thread.eventqueue cells) (he : w.events.read event = some e) :
    ∃ m' q', kdPostThreadEvent H w event =
        some (⟨m',
          if e.timestamp = 0 then
            w.events.write event { e with timestamp := kdGetTimeUST (H.clock w.tick) }
          else w.events,
          { w.thread with eventqueue := q' }, w.calls,
          if e.timestamp = 0 then w.tick + 1 else w.tick⟩, 0) ∧
      QueueCells m' q' (cells ++ [(H.kdMalloc w.nodes, event)]) ∧
      ∀ a, a ≠ H.kdMalloc w.nodes → a ∉ cells.map Prod.fst → m'.read a = w.nodes.read a := by
  obtain ⟨m', q', hpush, hcells, hframe⟩ := kdQueuePushTailVEN_cells hM hc event
  refine ⟨m', q', ?_, hcells, hframe⟩
  by_cases hz : e.timestamp = 0
  · simp only [kdPostThreadEvent, he, hz, if_true, hpush]
  · simp only [kdPostThreadEvent, he, hz, if_false, hpush]

theorem Process.kdPostThreadEvent_frame {P : Platform} (hM : MallocOK P.host.kdMalloc)
    {p : Process} {event thread : Ptr} {t : KDThread} {cells : List (Ptr × Ptr)} {e : KDEvent}
    (ht : p.threads.read thread = some t) (hc : QueueCells p.nodes t.eventqueue cells)
    (he : p.events.read event = some e) :
    ∃ m' q', Process.kdPostThreadEvent P p event thread =
        some ({ p with
          nodes := m',
          events :=
            if e.timestamp = 0 then
              p.events.write event { e with timestamp := kdGetTimeUST (P.host.clock p.tick) }
            else p.events,
          threads := p.threads.write thread { t with eventqueue := q' },
          tick := if e.timestamp = 0 then p.tick + 1 else p.tick }, 0) ∧
      QueueCells m' q' (cells ++ [(P.host.kdMalloc p.nodes, event)]) ∧
      ∀ a, a ≠ P.host.kdMalloc p.nodes → a ∉ cells.map Prod.fst →
        m'.read a = p.nodes.read a := by
  obtain ⟨m', q', hpost, hcells, hframe⟩ :=
    KD.kdPostThreadEvent_cells (H := P.host) (w := ⟨p.nodes, p.events, t, p.calls, p.tick⟩) hM hc he
  refine ⟨m', q', ?_, hcells, hframe⟩
  simp only [Process.kdPostThreadEvent, Process.world, ht, Option.map_some', hpost,
    Process.absorb]

theorem queueCells_other {m m' : NodeHeap} {q : KDQueueVEN} {cells own : List (Ptr × Ptr)}
    {fresh : Ptr} (h : QueueCells m q cells) (hfresh : m.read fresh = none)
    (hdisj : ∀ a ∈ cells.map Prod.fst, a ∉ own.map Prod.fst)
    (hframe : ∀ a, a ≠ fresh → a ∉ own.map Prod.fst → m'.read a = m.read a) :
    QueueCells m' q cells := by
  apply queueCells_frame h
  intro c hc
  have hmem : c.1 ∈ cells.map Prod.fst := List.mem_map_of_mem _ hc
  apply hframe c.1 _ (hdisj c.1 hmem)
  intro e
  exact queueCells_live h hmem (e ▸ hfresh)

theorem Process.queueOf_cells {p : Process} {thread : Ptr} {t : KDThread}
    {cells : List (Ptr × Ptr)} (ht : p.threads.read thread = some t)
    (hc : QueueCells p.nodes t.eventqueue cells) :
    p.queueOf thread = some (cells.map Prod.snd) := by
  simp only [Process.queueOf, ht, Option.map_some', kdQueueContents_of_rep (queueCells_rep hc)]

theorem kdSetWindowProperty_post_spec {P : Platform} (hP : PlatformOK P) {p : Process}
    {self window : Ptr} {t : KDThread} {cells : List (Ptr × Ptr)}
    (hw : p.windows.read window ≠ none) (ht : p.threads.read self = some t)
    (hc : QueueCells p.nodes t.eventqueue cells) :
    ∃ p', kdSetWindowProperty_post P p self window = some (p', 0) ∧
      p'.events.read (P.mallocEvent p.events) =
        some ⟨kdGetTimeUST (P.host.clock p.tick), KD_EVENT_WINDOWPROPERTY_CHANGE, KD_NULL⟩ ∧
      (∃ q', p'.threads.read self = some { t with eventqueue := q' } ∧
        QueueCells p'.nodes q' (cells ++ [(P.host.kdMalloc p.nodes, P.mallocEvent p.events)])) ∧
      (∀ other, other ≠ self → p'.threads.read other = p.threads.read other) ∧
      (∀ a, a ≠ P.host.kdMalloc p.nodes → a ∉ cells.map Prod.fst →
        p'.nodes.read a = p.nodes.read a) ∧
      p'.windows = p.windows ∧ p'.__kd_window = p.__kd_window := by
  obtain ⟨rec, hrec⟩ := Option.ne_none_iff_exists'.1 hw
  have hs0 : self ≠ KD_NULL := by
    intro h; rw [h, Heap.read_null] at ht; cases ht
  have he0 := (hP.2.1 p.events).1
  obtain ⟨m', q', hpost, hcells, hframe⟩ :=
    Process.kdPostThreadEvent_frame (P := P)
      (p := ⟨p.nodes, (p.events.write (P.mallocEvent p.events) ⟨0, -1, KD_NULL⟩).write
        (P.mallocEvent p.events) ⟨0, KD_EVENT_WINDOWPROPERTY_CHANGE, KD_NULL⟩, p.threads,
        p.payloads, p.timers, p.windows, p.__kd_window, p.calls, p.tick⟩)
      (e := ⟨0, KD_EVENT_WINDOWPROPERTY_CHANGE, KD_NULL⟩) hP.1 ht hc
      (Heap.read_write_same _ _ _ he0)
  refine ⟨⟨m', ((p.events.write (P.mallocEvent p.events) ⟨0, -1, KD_NULL⟩).write
      (P.mallocEvent p.events) ⟨0, KD_EVENT_WINDOWPROPERTY_CHANGE, KD_NULL⟩).write
      (P.mallocEvent p.events)
      ⟨kdGetTimeUST (P.host.clock p.tick), KD_EVENT_WINDOWPROPERTY_CHANGE, KD_NULL⟩,
    p.threads.write self { t with eventqueue := q' }, p.payloads, p.timers, p.windows,
    p.__kd_window, p.calls, p.tick + 1⟩, ?_, ?_, ⟨q', ?_, hcells⟩, ?_, hframe, rfl, rfl⟩
  · simp only [kdSetWindowProperty_post, hrec, Process.kdCreateEvent, he0, if_false, Heap.modify,
      Heap.read_write_same _ _ _ he0, hpost]
    rfl
  · simp [Heap.read_write_same _ _ _ he0]
  · simp [Heap.read_write_same _ _ _ hs0]
  · intro other ho
    simp [Heap.read_write_ne _ _ _ _ ho]

/-- C20 as claimed fails: thread 1 created the window and thread 2 calls
`kdSetWindowPropertyiv(window, KD_WINDOWPROPERTY_SIZE, ..)`, respectively
`kdSetWindowPropertycv(window, KD_WINDOWPROPERTY_CAPTION, ..)`.  The call
returns `0`, the queue of the creating thread 1 stays empty, and the one
`KD_EVENT_WINDOWPROPERTY_CHANGE` event is in the queue of the caller, thread 2. -/
theorem kdSetWindowProperty_not_to_creator :
    (windowOfThread1.windows.read 1).map KDWindow.originthr = some 1 ∧
    windowOfThread1.queueOf 1 = some [] ∧ windowOfThread1.queueOf 2 = some [] ∧
    (kdSetWindowPropertyiv examplePlatform windowOfThread1 2 1 KD_WINDOWPROPERTY_SIZE).map
        Prod.snd = some 0 ∧
    (kdSetWindowPropertyiv examplePlatform windowOfThread1 2 1 KD_WINDOWPROPERTY_SIZE).bind
        (fun r => r.1.queueOf 1) = some [] ∧
    (kdSetWindowPropertyiv examplePlatform windowOfThread1 2 1 KD_WINDOWPROPERTY_SIZE).bind
        (fun r => r.1.queueOf 2) = some [1] ∧
    (kdSetWindowPropertyiv examplePlatform windowOfThread1 2 1 KD_WINDOWPROPERTY_SIZE).bind
        (fun r => r.1.kindsOf 2) = some [some KD_EVENT_WINDOWPROPERTY_CHANGE] ∧
    kdSetWindowPropertycv examplePlatform windowOfThread1 2 1 KD_WINDOWPROPERTY_CAPTION =
      kdSetWindowPropertyiv examplePlatform windowOfThread1 2 1 KD_WINDOWPROPERTY_SIZE := by
  refine ⟨by decide, by decide, by decide, by decide, by decide, by decide, by decide, rfl⟩

/-- C20, amended: on the X11 host, `kdSetWindowPropertyiv(window,
KD_WINDOWPROPERTY_SIZE, ..)` and `kdSetWindowPropertycv(window,
KD_WINDOWPROPERTY_CAPTION, ..)` on a live window return `0` and append exactly
one new event, of kind `KD_EVENT_WINDOWPROPERTY_CHANGE`, to the queue of the
calling thread `self`; the context and the queue of every other thread,
the creator of the window included when it is not the caller, are unchanged,
as are the window and `__kd_window`. -/
theorem kdSetWindowProperty_posts_to_self (P : Platform) (hP : PlatformOK P) (p : Process)
    (self window : Ptr) (t : KDThread) (cells : List (Ptr × Ptr))
    (hw : p.windows.read window ≠ none) (ht : p.threads.read self = some t)
    (hc : QueueCells p.nodes t.eventqueue cells) :
    ∃ p' event, kdSetWindowPropertyiv P p self window KD_WINDOWPROPERTY_SIZE = some (p', 0) ∧
      kdSetWindowPropertycv P p self window KD_WINDOWPROPERTY_CAPTION = some (p', 0) ∧
      p.events.read event = none ∧
      (∃ stamp, p'.events.read event = some ⟨stamp, KD_EVENT_WINDOWPROPERTY_CHANGE, KD_NULL⟩) ∧
      p'.queueOf self = some (cells.map Prod.snd ++ [event]) ∧
      (∀ other t2 cells2, other ≠ self → p.threads.read other = some t2 →
        QueueCells p.nodes t2.eventqueue cells2 →
        (∀ a ∈ cells2.map Prod.fst, a ∉ cells.map Prod.fst) →
        p'.threads.read other = some t2 ∧ QueueCells p'.nodes t2.eventqueue cells2 ∧
        p'.queueOf other = p.queueOf other) ∧
      p'.windows = p.windows ∧ p'.__kd_window = p.__kd_window := by
  obtain ⟨p', hrun, hev, ⟨q', hself, hcells⟩, hothers, hframe, hwin, hslot⟩ :=
    kdSetWindowProperty_post_spec hP hw ht hc
  refine ⟨p', P.mallocEvent p.events, ?_, ?_, (hP.2.1 p.events).2, ⟨_, hev⟩, ?_, ?_, hwin, hslot⟩
  · simp only [kdSetWindowPropertyiv, if_true, hrun]
  · simp only [kdSetWindowPropertycv, if_true, hrun]
  · rw [Process.queueOf_cells hself hcells]
    simp
  · intro other t2 cells2 hne ht2 hc2 hdisj
    have ht2' : p'.threads.read other = some t2 := by rw [hothers other hne, ht2]
    have hc2' : QueueCells p'.nodes t2.eventqueue cells2 :=
      queueCells_other hc2 (hP.1 p.nodes).2 hdisj hframe
    exact ⟨ht2', hc2', by
      rw [Process.queueOf_cells ht2' hc2', Process.queueOf_cells ht2 hc2]⟩

/-- Instance of `kdSetWindowProperty_posts_to_self`: thread 2 sets the size of
the window created by thread 1. -/
theorem kdSetWindowProperty_posts_to_self_witness :
    PlatformOK examplePlatform ∧ windowOfThread1.windows.read 1 ≠ none ∧
    windowOfThread1.threads.read 2 = some __kdThreadInit ∧
    QueueCells windowOfThread1.nodes __kdThreadInit.eventqueue [] ∧
    (∃ p' event,
      kdSetWindowPropertyiv examplePlatform windowOfThread1 2 1 KD_WINDOWPROPERTY_SIZE =
        some (p', 0) ∧
      kdSetWindowPropertycv examplePlatform windowOfThread1 2 1 KD_WINDOWPROPERTY_CAPTION =
        some (p', 0) ∧
      windowOfThread1.events.read event = none ∧
      (∃ stamp, p'.events.read event = some ⟨stamp, KD_EVENT_WINDOWPROPERTY_CHANGE, KD_NULL⟩) ∧
      p'.queueOf 2 = some (([] : List (Ptr × Ptr)).map Prod.snd ++ [event]) ∧
      (∀ other t2 cells2, other ≠ 2 → windowOfThread1.threads.read other = some t2 →
        QueueCells windowOfThread1.nodes t2.eventqueue cells2 →
        (∀ a ∈ cells2.map Prod.fst, a ∉ ([] : List (Ptr × Ptr)).map Prod.fst) →
        p'.threads.read other = some t2 ∧ QueueCells p'.nodes t2.eventqueue cells2 ∧
        p'.queueOf other = windowOfThread1.queueOf other) ∧
      p'.windows = windowOfThread1.windows ∧ p'.__kd_window = windowOfThread1.__kd_window) :=
  ⟨⟨Heap.bump_ok, Heap.bump_ok, Heap.bump_ok, Heap.bump_ok, Heap.bump_ok, Heap.bump_ok, rfl⟩,
    by decide, by decide, kdQueueCreateVEN_cells _,
    kdSetWindowProperty_posts_to_self examplePlatform
      ⟨Heap.bump_ok, Heap.bump_ok, Heap.bump_ok, Heap.bump_ok, Heap.bump_ok, Heap.bump_ok, rfl⟩
      windowOfThread1 2 1 __kdThreadInit [] (by decide) (by decide) (kdQueueCreateVEN_cells _)⟩

/-! ### Timers: traces and events -/

theorem postedOf_append (tr tr' : List TimerObs) :
    postedOf (tr ++ tr') = postedOf tr ++ postedOf tr' := by
  induction tr with
  | nil => rfl
  | cons x tr ih => cases x <;> simp [postedOf, ih]

theorem stopped_append (tr tr' : List TimerObs) :
    stopped (tr ++ tr') = (stopped tr || stopped tr') := by
  induction tr with
  | nil => simp [stopped]
  | cons x tr ih => cases x <;> simp [stopped, ih, Bool.or_assoc]

theorem isEmpty_append_eq (xs ys : List Ptr) :
    (xs ++ ys).isEmpty = (xs.isEmpty && ys.isEmpty) := by
  cases xs <;> simp

theorem ordered_append (tr tr' : List TimerObs) :
    ordered (tr ++ tr') =
      (ordered tr && (if stopped tr then (postedOf tr').isEmpty else ordered tr')) := by
  induction tr with
  | nil => simp [ordered, stopped]
  | cons x tr ih =>
    cases x with
    | dequeued event type =>
      by_cases h : type = some KD_EVENT_QUIT
      · simp [ordered, stopped, h, postedOf_append, isEmpty_append_eq]
      · simp [ordered, stopped, h, ih]
    | returned r => simp [ordered, stopped, postedOf_append, isEmpty_append_eq]
    | posted event => simp [ordered, stopped, ih]
    | wait => simp [ordered, stopped, ih]
    | exited => simp [ordered, stopped, ih]
    | quit event => simp [ordered, stopped, ih]
    | joined => simp [ordered, stopped, ih]

theorem workerTrace_append (tr tr' : List TimerObs) :
    workerTrace (tr ++ tr') = workerTrace tr ++ workerTrace tr' := by
  simp [workerTrace]

theorem postedOf_workerTrace (tr : List TimerObs) : postedOf (workerTrace tr) = postedOf tr := by
  induction tr with
  | nil => rfl
  | cons x tr ih =>
    cases x <;> simp [workerTrace, postedOf, List.filter_cons] <;> exact ih

theorem kindAt_write_ne {ev : Heap KDEvent} {a b : Ptr} (x : KDEvent) (h : b ≠ a) :
    kindAt (ev.write a x) b = kindAt ev b := by
  simp [kindAt, Heap.read_write_ne _ _ _ _ h]

theorem kindAt_write_same {ev : Heap KDEvent} {a : Ptr} (x : KDEvent) (h : a ≠ KD_NULL) :
    kindAt (ev.write a x) a = some (x.type, x.userptr) := by
  simp [kindAt, Heap.read_write_same _ _ _ h]

theorem kindAt_write_fresh {ev : Heap KDEvent} {a b : Ptr} (x : KDEvent) {k : Int × Ptr}
    (hfresh : ev.read a = none) (hb : kindAt ev b = some k) :
    kindAt (ev.write a x) b = some k := by
  rw [kindAt_write_ne x, hb]
  intro e
  rw [e, kindAt, hfresh] at hb
  cases hb

theorem kindAt_stamp {ev : Heap KDEvent} {a : Ptr} {e : KDEvent} (he : ev.read a = some e)
    (t : Int) (b : Ptr) : kindAt (ev.write a { e with timestamp := t }) b = kindAt ev b := by
  by_cases h : b = a
  · subst h
    have h0 : b ≠ KD_NULL := by
      intro h; rw [h, Heap.read_null] at he; cases he
    rw [kindAt_write_same _ h0, kindAt_of_read he]
  · exact kindAt_write_ne _ h

theorem kindAt_posted {ev : Heap KDEvent} {a : Ptr} {e : KDEvent} (he : ev.read a = some e)
    (t : Int) (b : Ptr) :
    kindAt (if e.timestamp = 0 then ev.write a { e with timestamp := t } else ev) b =
      kindAt ev b := by
  split
  · exact kindAt_stamp he t b
  · rfl

theorem read_of_kindAt {ev : Heap KDEvent} {a : Ptr} {k : Int × Ptr} (h : kindAt ev a = some k) :
    ∃ e, ev.read a = some e ∧ e.type = k.1 ∧ e.userptr = k.2 := by
  cases hr : ev.read a with
  | none => simp [kindAt, hr] at h
  | some e =>
    refine ⟨e, rfl, ?_⟩
    simp only [kindAt, hr, Option.map_some', Option.some.injEq] at h
    rw [← h]
    exact ⟨rfl, rfl⟩

/-! ### Timers: the steps preserve the invariant -/

theorem Process.kdCreateEvent_ok {P : Platform} (hP : PlatformOK P) (p : Process) (self : Ptr) :
    p.kdCreateEvent P self =
      some ({ p with events := p.events.write (P.mallocEvent p.events) ⟨0, -1, KD_NULL⟩ },
        P.mallocEvent p.events) := by
  simp [Process.kdCreateEvent, (hP.2.1 p.events).1]

theorem cancelOK_of_events {s s' : TimerSys} (h : CancelOK s) (hcpc : s'.cpc = s.cpc)
    (hstop : stopped s'.trace = true → stopped s.trace = true ∨ s.cpc = CancelPC.join)
    (htr : ∀ x ∈ s.trace, x ∈ s'.trace)
    (hev : ∀ a k, kindAt s.proc.events a = some k → kindAt s'.proc.events a = some k) :
    CancelOK s' := by
  unfold CancelOK at h ⊢
  rw [hcpc]
  cases hc : s.cpc with
  | ready =>
    rw [hc] at h
    cases hs : stopped s'.trace with
    | false => rfl
    | true =>
      rcases hstop hs with h1 | h1
      · rw [h1] at h; cases h
      · rw [hc] at h1; cases h1
  | post event =>
    rw [hc] at h
    refine ⟨?_, hev _ _ h.2⟩
    cases hs : stopped s'.trace with
    | false => rfl
    | true =>
      rcases hstop hs with h1 | h1
      · rw [h1] at h; cases h.1
      · rw [hc] at h1; cases h1
  | join =>
    rw [hc] at h
    obtain ⟨event, hmem⟩ := h
    exact ⟨event, htr _ hmem⟩
  | returned r => simp [hc] at h

theorem workerSleep_live {P : Platform} (hP : PlatformOK P) {L0 : List Ptr}
    {interval mode : Int} {u : Ptr} {s : TimerSys} {g : TimerGhost}
    (h : TimerLive L0 interval mode u s g) (hpc : s.wpc = TimerPC.sleep) :
    ∃ s', workerSleep P s = some s' ∧ TimerLive L0 interval mode u s' g ∧
      s'.wpc = TimerPC.post (P.mallocEvent s.proc.events) ∧ s'.cpc = s.cpc ∧
      s'.trace = s.trace := by
  have he0 := (hP.2.1 s.proc.events).1
  have hfresh := (hP.2.1 s.proc.events).2
  have hev : ∀ a k, kindAt s.proc.events a = some k →
      kindAt ((s.proc.events.write (P.mallocEvent s.proc.events) ⟨0, -1, KD_NULL⟩).write
        (P.mallocEvent s.proc.events) ⟨0, KD_EVENT_TIMER, u⟩) a = some k := by
    intro a k hk
    have hne : a ≠ P.mallocEvent s.proc.events := by
      intro e
      rw [e, kindAt, hfresh] at hk
      cases hk
    rw [kindAt_write_ne _ hne, kindAt_write_ne _ hne, hk]
  have hheld : heldOf s.wpc = [] := by rw [hpc]; rfl
  refine ⟨⟨⟨s.proc.nodes,
      (s.proc.events.write (P.mallocEvent s.proc.events) ⟨0, -1, KD_NULL⟩).write
        (P.mallocEvent s.proc.events) ⟨0, KD_EVENT_TIMER, u⟩,
      s.proc.threads, s.proc.payloads, s.proc.timers, s.proc.windows, s.proc.__kd_window,
      s.proc.calls, s.proc.tick⟩, s.timer, s.arg, s.worker, s.caller,
      TimerPC.post (P.mallocEvent s.proc.events), s.cpc, s.trace⟩, ?_, ?_, rfl, rfl, rfl⟩
  · simp only [workerSleep, h.pl, Process.kdCreateEvent_ok hP, Heap.modify,
      Heap.read_write_same _ _ _ he0]
  · exact
      { ne := h.ne, nowin := h.nowin, hc := h.hc, hw := h.hw, hcb := h.hcb, hle := h.hle
        qc := h.qc, qw := h.qw
        disj := h.disj, vc := h.vc
        kinds := fun event hmem => hev _ _ (h.kinds event hmem)
        wqk := fun event hmem => hev _ _ (h.wqk event (by
          rw [hheld]
          simpa [heldOf] using hmem))
        wql := by
          have := h.wql
          rw [hheld] at this
          simpa [heldOf] using this
        pl := h.pl, tm := h.tm
        wok := kindAt_write_same _ he0
        cok := cancelOK_of_events h.cok rfl (fun hs => Or.inl hs) (fun _ hx => hx) hev
        ord := h.ord
        stop := fun hs => by
          have := h.stop hs
          rw [hpc] at this
          cases this
        one := fun hm => by
          have := h.one hm
          simp only [OneShotOK, hpc] at this
          exact this }

theorem workerPost_live {P : Platform} (hP : PlatformOK P) {L0 : List Ptr}
    {interval mode : Int} {u : Ptr} {s : TimerSys} {g : TimerGhost} {timerevent : Ptr}
    (h : TimerLive L0 interval mode u s g) (hpc : s.wpc = TimerPC.post timerevent) :
    ∃ s' g', workerPost P s timerevent = some s' ∧ TimerLive L0 interval mode u s' g' ∧
      s'.wpc = (if mode = KD_TIMER_ONESHOT then TimerPC.done else TimerPC.wait TPC.idle) ∧
      s'.cpc = s.cpc ∧ stopped s'.trace = stopped s.trace := by
  have hk : kindAt s.proc.events timerevent = some (KD_EVENT_TIMER, u) := by
    have := h.wok
    simpa only [WorkerOK, hpc] using this
  obtain ⟨e, he, -, -⟩ := read_of_kindAt hk
  obtain ⟨m', q', hpost, hcells, hframe⟩ :=
    Process.kdPostThreadEvent_frame (P := P) hP.1 h.hc h.qc he
  have hc0 : s.caller ≠ KD_NULL := by
    intro h0
    have := h.hc
    rw [h0, Heap.read_null] at this
    cases this
  have hfresh := (hP.1 s.proc.nodes).2
  have hheld : heldOf s.wpc = [] := by rw [hpc]; rfl
  have hnostop : stopped s.trace = false := by
    cases hs : stopped s.trace with
    | false => rfl
    | true =>
      have := h.stop hs
      rw [hpc] at this
      cases this
  have hstop' : ∀ obs, stopped obs = false → stopped (s.trace ++ obs) = stopped s.trace := by
    intro obs ho
    rw [stopped_append, ho, Bool.or_false]
  have hall : ∀ (wpc' : TimerPC) (obs : List TimerObs), heldOf wpc' = [] → stopped obs = false →
      postedOf obs = [timerevent] → ordered obs = true →
      (wpc' = TimerPC.done ∨ wpc' = TimerPC.wait TPC.idle) →
      (stopped s.trace = true → wpc' = TimerPC.done) →
      (mode = KD_TIMER_ONESHOT →
        wpc' = TimerPC.done ∧ workerTrace obs = [TimerObs.posted timerevent, TimerObs.exited]) →
      TimerLive L0 interval mode u
        ⟨⟨m', if e.timestamp = 0 then
            s.proc.events.write timerevent
              { e with timestamp := kdGetTimeUST (P.host.clock s.proc.tick) }
          else s.proc.events,
          s.proc.threads.write s.caller { g.tc with eventqueue := q' }, s.proc.payloads,
          s.proc.timers, s.proc.windows, s.proc.__kd_window, s.proc.calls,
          if e.timestamp = 0 then s.proc.tick + 1 else s.proc.tick⟩,
          s.timer, s.arg, s.worker, s.caller, wpc', s.cpc, s.trace ++ obs⟩
        ⟨{ g.tc with eventqueue := q' }, g.tw,
          g.cellsC ++ [(P.host.kdMalloc s.proc.nodes, timerevent)], g.cellsW⟩ := by
    intro wpc' obs hheld' hso hpo hoo hwpc' hstopped hone
    have hev : ∀ a, kindAt (if e.timestamp = 0 then
            s.proc.events.write timerevent
              { e with timestamp := kdGetTimeUST (P.host.clock s.proc.tick) }
          else s.proc.events) a = kindAt s.proc.events a := kindAt_posted he _
    exact
      { ne := h.ne
        nowin := h.nowin
        hc := Heap.read_write_same _ _ _ hc0
        hw := by
          show (s.proc.threads.write s.caller _).read s.worker = some g.tw
          rw [Heap.read_write_ne _ _ _ _ h.ne]
          exact h.hw
        hcb := h.hcb, hle := h.hle
        qc := hcells
        qw := queueCells_other h.qw hfresh h.disj hframe
        disj := by
          intro a ha
          simp only [List.map_append, List.map_cons, List.map_nil, List.mem_append,
            List.mem_singleton, not_or]
          refine ⟨h.disj a ha, ?_⟩
          intro ea
          exact queueCells_live h.qw ha (ea ▸ hfresh)
        vc := by
          simp only [List.map_append, List.map_cons, List.map_nil, postedOf_append, hpo, h.vc,
            List.append_assoc]
        kinds := by
          intro event hmem
          show kindAt _ event = _
          rw [hev]
          simp only [postedOf_append, hpo, List.mem_append, List.mem_singleton] at hmem
          rcases hmem with hmem | rfl
          · exact h.kinds event hmem
          · exact hk
        wqk := by
          intro event hmem
          show kindAt _ event = _
          rw [hev]
          apply h.wqk
          rw [hheld]
          simpa [hheld'] using hmem
        wql := by
          have := h.wql
          rw [hheld] at this
          show (g.cellsW.map Prod.snd ++ heldOf wpc').length = _
          rw [hheld', this]
          show _ = if s.cpc = CancelPC.join ∧ stopped (s.trace ++ obs) = false then 1 else 0
          rw [hstop' obs hso]
        pl := h.pl, tm := h.tm
        wok := by
          rcases hwpc' with rfl | rfl <;> trivial
        cok := cancelOK_of_events h.cok rfl
          (fun hs => Or.inl (by rw [← hstop' obs hso]; exact hs))
          (fun x hx => List.mem_append_left _ hx) (fun a k hka => by
            show kindAt _ a = _
            rw [hev]; exact hka)
        ord := by
          show ordered (s.trace ++ obs) = true
          rw [ordered_append, h.ord, hnostop]
          simpa using hoo
        stop := by
          intro hs
          apply hstopped
          rw [← hstop' obs hso]
          exact hs
        one := by
          intro hm
          obtain ⟨hd, hwt⟩ := hone hm
          have hold := h.one hm
          simp only [OneShotOK, hpc] at hold
          subst hd
          show ∃ event, workerTrace (s.trace ++ obs) = _
          exact ⟨timerevent, by rw [workerTrace_append, hold, hwt]; rfl⟩ }
  have hpl := h.pl
  by_cases hm : mode = KD_TIMER_ONESHOT
  · refine ⟨_, _, ?_, hall TimerPC.done [TimerObs.posted timerevent, TimerObs.exited] rfl rfl rfl
      rfl (Or.inl rfl) (fun _ => rfl) (fun _ => ⟨rfl, rfl⟩), ?_, rfl, hstop' _ rfl⟩
    · simp only [workerPost, hpl, hpost, hm, if_true]
    · simp only [hm, if_true]
  · refine ⟨_, _, ?_, hall (TimerPC.wait TPC.idle) [TimerObs.posted timerevent] rfl rfl rfl
      rfl (Or.inr rfl) (fun hs => by rw [hnostop] at hs; cases hs) (fun hm' => absurd hm' hm),
      ?_, rfl, hstop' _ rfl⟩
    · simp only [workerPost, hpl, hpost, hm, if_false]
    · simp only [hm, if_false]

theorem timerLive_absorb {L0 : List Ptr} {interval mode : Int} {u : Ptr} {s : TimerSys}
    {g : TimerGhost} (h : TimerLive L0 interval mode u s g) {pc : TPC}
    (hpc : s.wpc = TimerPC.wait pc) (w' : World) (cellsW' : List (Ptr × Ptr)) (wpc' : TimerPC)
    (obs : List TimerObs)
    (hcb : w'.thread.callbacks = []) (hle : w'.thread.lastevent = KD_NULL)
    (hqw : QueueCells w'.nodes w'.thread.eventqueue cellsW')
    (hqc : QueueCells w'.nodes g.tc.eventqueue g.cellsC)
    (hdisj : ∀ a ∈ cellsW'.map Prod.fst, a ∉ g.cellsC.map Prod.fst)
    (hev : ∀ a, kindAt w'.events a = kindAt s.proc.events a)
    (hwq : ∀ event ∈ cellsW'.map Prod.snd ++ heldOf wpc',
      event ∈ g.cellsW.map Prod.snd ++ heldOf s.wpc)
    (hlen : (cellsW'.map Prod.snd ++ heldOf wpc').length =
      if s.cpc = CancelPC.join ∧ stopped obs = false then 1 else 0)
    (hpo : postedOf obs = []) (hoo : ordered obs = true)
    (hwok : PumpOK wpc')
    (hcok : stopped obs = true → s.cpc = CancelPC.join)
    (hstop : stopped obs = true → wpc' = TimerPC.done) :
    TimerLive L0 interval mode u
      ⟨s.proc.absorb s.worker w', s.timer, s.arg, s.worker, s.caller, wpc', s.cpc,
        s.trace ++ obs⟩
      ⟨g.tc, w'.thread, g.cellsC, cellsW'⟩ := by
  have hw0 : s.worker ≠ KD_NULL := by
    intro h0
    have := h.hw
    rw [h0, Heap.read_null] at this
    cases this
  have hnostop : stopped s.trace = false := by
    cases hs : stopped s.trace with
    | false => rfl
    | true =>
      have := h.stop hs
      rw [hpc] at this
      cases this
  have hstopeq : stopped (s.trace ++ obs) = stopped obs := by
    rw [stopped_append, hnostop, Bool.false_or]
  exact
    { ne := h.ne
      nowin := h.nowin
      hc := by
        show (s.proc.threads.write s.worker _).read s.caller = some g.tc
        rw [Heap.read_write_ne _ _ _ _ (Ne.symm h.ne)]
        exact h.hc
      hw := Heap.read_write_same _ _ _ hw0
      hcb := hcb, hle := hle, qc := hqc, qw := hqw, disj := hdisj
      vc := by
        show g.cellsC.map Prod.snd = L0 ++ postedOf (s.trace ++ obs)
        rw [postedOf_append, hpo, List.append_nil]
        exact h.vc
      kinds := by
        intro event hmem
        show kindAt w'.events event = _
        rw [hev]
        apply h.kinds
        have hmem' : event ∈ postedOf (s.trace ++ obs) := hmem
        rw [postedOf_append, hpo, List.append_nil] at hmem'
        exact hmem'
      wqk := by
        intro event hmem
        show kindAt w'.events event = _
        rw [hev]
        exact h.wqk event (hwq event hmem)
      wql := by
        show (cellsW'.map Prod.snd ++ heldOf wpc').length =
          if s.cpc = CancelPC.join ∧ stopped (s.trace ++ obs) = false then 1 else 0
        rw [hstopeq]
        exact hlen
      pl := h.pl, tm := h.tm
      wok := by
        cases wpc' with
        | sleep => exact trivial
        | post e => exact absurd hwok id
        | wait pc' =>
          cases pc' with
          | idle => exact trivial
          | pumpPop a b => exact hwok
          | pumpDispatch a b c => exact hwok
          | waitSize => exact trivial
          | waitPop => exact trivial
        | done => exact trivial
      cok := cancelOK_of_events h.cok rfl
        (fun hs => Or.inr (hcok (by rw [← hstopeq]; exact hs)))
        (fun x hx => List.mem_append_left _ hx) (fun a k hka => by
          show kindAt w'.events a = _
          rw [hev]; exact hka)
      ord := by
        show ordered (s.trace ++ obs) = true
        rw [ordered_append, h.ord, hnostop]
        simpa using hoo
      stop := by
        intro hs
        apply hstop
        rw [← hstopeq]
        exact hs
      one := by
        intro hm
        have := h.one hm
        simp only [OneShotOK, hpc] at this }

theorem timerLive_nostop {L0 : List Ptr} {interval mode : Int} {u : Ptr} {s : TimerSys}
    {g : TimerGhost} (h : TimerLive L0 interval mode u s g) (hpc : s.wpc ≠ TimerPC.done) :
    stopped s.trace = false := by
  cases hs : stopped s.trace with
  | false => rfl
  | true => exact absurd (h.stop hs) hpc

theorem workerWait_idle_live {P : Platform} {L0 : List Ptr}
    {interval mode : Int} {u : Ptr} {s : TimerSys} {g : TimerGhost}
    (h : TimerLive L0 interval mode u s g) (hpc : s.wpc = TimerPC.wait TPC.idle) :
    ∃ s' g', workerWait P s TPC.idle = some s' ∧ TimerLive L0 interval mode u s' g' ∧
      s'.wpc = TimerPC.wait (pumpNext true g.cellsW.length) ∧ s'.cpc = s.cpc ∧
      stopped s'.trace = stopped s.trace ∧ g.cellsW.length ≤ 1 ∧
      (s.cpc = CancelPC.join → g.cellsW.length = 1) := by
  have hns := timerLive_nostop h (by rw [hpc]; intro hx; cases hx)
  have hsize : kdQueueSizeVEN g.tw.eventqueue = g.cellsW.length := h.qw.2.2.2.2
  have hlen := h.wql
  rw [hpc, hns] at hlen
  simp only [heldOf, List.append_nil, List.length_map, and_true] at hlen
  have hle1 : g.cellsW.length ≤ 1 := by
    rw [hlen]; split <;> omega
  have hwok : PumpOK (TimerPC.wait (pumpNext true g.cellsW.length)) := by
    rcases Nat.le_one_iff_eq_zero_or_eq_one.1 hle1 with h0 | h1
    · rw [h0]; exact trivial
    · rw [h1]; exact ⟨rfl, rfl⟩
  have hheld : heldOf (TimerPC.wait (pumpNext true g.cellsW.length)) = [] := by
    rcases Nat.le_one_iff_eq_zero_or_eq_one.1 hle1 with h0 | h1
    · rw [h0]; rfl
    · rw [h1]; rfl
  refine ⟨_, _, ?_,
    timerLive_absorb h hpc ⟨s.proc.nodes, s.proc.events, g.tw, s.proc.calls, s.proc.tick⟩
      g.cellsW (TimerPC.wait (pumpNext true g.cellsW.length)) [TimerObs.wait]
      h.hcb h.hle h.qw h.qc h.disj (fun _ => rfl) ?_ ?_ rfl rfl hwok
      (fun hs => by cases hs) (fun hs => by cases hs),
    rfl, rfl, ?_, hle1, ?_⟩
  · simp only [workerWait, Process.world, h.hw, Option.map_some', if_true, Sys.step, h.hle,
      ne_eq, not_true_eq_false, if_false, hsize]
  · intro event hmem
    rw [hheld] at hmem
    rw [hpc]
    exact hmem
  · rw [hheld]
    simp only [List.append_nil, List.length_map]
    rw [hlen]
    simp [stopped]
  · show stopped (s.trace ++ [TimerObs.wait]) = stopped s.trace
    rw [stopped_append]
    simp [stopped]
  · intro hj
    rw [hlen, if_pos hj]

theorem queueCells_swap_disj {cellsC cellsW : List (Ptr × Ptr)}
    (h : ∀ a ∈ cellsW.map Prod.fst, a ∉ cellsC.map Prod.fst) :
    ∀ a ∈ cellsC.map Prod.fst, a ∉ cellsW.map Prod.fst :=
  fun a ha hw => h a hw ha

theorem workerWait_pumpPop_live {P : Platform} {L0 : List Ptr}
    {interval mode : Int} {u : Ptr} {s : TimerSys} {g : TimerGhost} {inWait : Bool} {rest : Nat}
    (h : TimerLive L0 interval mode u s g)
    (hpc : s.wpc = TimerPC.wait (TPC.pumpPop inWait rest)) :
    ∃ s' g', workerWait P s (TPC.pumpPop inWait rest) = some s' ∧
      TimerLive L0 interval mode u s' g' ∧ s'.cpc = s.cpc ∧
      stopped s'.trace = stopped s.trace ∧ workerDistance s'.wpc < workerDistance s.wpc := by
  have hns := timerLive_nostop h (by rw [hpc]; intro hx; cases hx)
  have hwok := h.wok
  simp only [WorkerOK, hpc] at hwok
  obtain ⟨rfl, rfl⟩ := hwok
  have hlen := h.wql
  rw [hpc, hns] at hlen
  simp only [heldOf, List.append_nil, List.length_map, and_true] at hlen
  have hcells : ∃ cells, g.cellsW = cells := ⟨_, rfl⟩
  obtain ⟨cells, hcellsW⟩ := hcells
  have hqw := h.qw
  rw [hcellsW] at hqw hlen
  cases cells with
  | nil =>
    have hpop := kdQueuePopHeadVEN_cells_nil hqw
    refine ⟨_, _, ?_,
      timerLive_absorb h hpc
        ⟨s.proc.nodes, s.proc.events,
          { g.tw with eventqueue := g.tw.eventqueue }, s.proc.calls, s.proc.tick⟩
        g.cellsW (TimerPC.wait TPC.waitSize) []
        h.hcb h.hle h.qw h.qc h.disj (fun _ => rfl) ?_ ?_ rfl rfl trivial
        (fun hs => by cases hs) (fun hs => by cases hs),
      rfl, ?_, ?_⟩
    · simp only [workerWait, Process.world, h.hw, Option.map_some', Sys.step, hpop, ne_eq,
        not_true_eq_false, if_false, pumpNext, if_true, reduceCtorEq, List.append_nil]
    · intro event hmem
      rw [hpc]
      exact hmem
    · rw [hcellsW]
      simpa [heldOf, stopped] using hlen
    · show stopped (s.trace ++ []) = stopped s.trace
      rw [List.append_nil]
    · rw [hpc]
      show 2 < 4
      omega
  | cons c cs =>
    obtain ⟨m', q', hpop, hcells', hframe⟩ := kdQueuePopHeadVEN_cells hqw
    have hck : kindAt s.proc.events c.2 = some (KD_EVENT_QUIT, KD_NULL) :=
      h.wqk c.2 (by rw [hcellsW]; simp)
    have hc0 : c.2 ≠ KD_NULL := by
      intro h0
      rw [h0, kindAt, Heap.read_null] at hck
      cases hck
    have hdisj' := queueCells_swap_disj h.disj
    rw [hcellsW] at hdisj'
    refine ⟨_, _, ?_,
      timerLive_absorb h hpc
        ⟨m', s.proc.events, { g.tw with eventqueue := q' }, s.proc.calls, s.proc.tick⟩
        cs (TimerPC.wait (TPC.pumpDispatch true 0 c.2)) []
        h.hcb h.hle hcells'
        (queueCells_frame h.qc (fun x hx => hframe x.1 (hdisj' x.1 (List.mem_map_of_mem _ hx))))
        ?_ (fun _ => rfl) ?_ ?_ rfl rfl ⟨rfl, rfl⟩
        (fun hs => by cases hs) (fun hs => by cases hs),
      rfl, ?_, ?_⟩
    · simp only [workerWait, Process.world, h.hw, Option.map_some', Sys.step, hpop, ne_eq, hc0,
        not_false_eq_true, if_true, if_false, reduceCtorEq, List.append_nil]
    · intro a ha
      apply h.disj a
      rw [hcellsW]
      simp only [List.map_cons, List.mem_cons]
      exact Or.inr ha
    · intro event hmem
      rw [hpc, hcellsW]
      simp only [heldOf, List.map_cons, List.mem_append, List.mem_singleton, List.mem_cons,
        List.append_nil] at hmem ⊢
      rcases hmem with hmem | hmem
      · exact Or.inr hmem
      · rcases hmem with hmem | hmem
        · exact Or.inl hmem
        · cases hmem
    · simp only [heldOf, List.length_append, List.length_map, List.length_singleton, stopped,
        and_true]
      simpa using hlen
    · show stopped (s.trace ++ []) = stopped s.trace
      rw [List.append_nil]
    · rw [hpc]
      show 3 < 4
      omega

theorem workerWait_pumpDispatch_live {P : Platform} (hP : PlatformOK P) {L0 : List Ptr}
    {interval mode : Int} {u : Ptr} {s : TimerSys} {g : TimerGhost} {inWait : Bool} {rest : Nat}
    {callbackevent : Ptr} (h : TimerLive L0 interval mode u s g)
    (hpc : s.wpc = TimerPC.wait (TPC.pumpDispatch inWait rest callbackevent)) :
    ∃ s' g', workerWait P s (TPC.pumpDispatch inWait rest callbackevent) = some s' ∧
      TimerLive L0 interval mode u s' g' ∧ s'.cpc = s.cpc ∧
      stopped s'.trace = stopped s.trace ∧ workerDistance s'.wpc < workerDistance s.wpc := by
  have hns := timerLive_nostop h (by rw [hpc]; intro hx; cases hx)
  have hwok := h.wok
  simp only [WorkerOK, hpc] at hwok
  obtain ⟨rfl, rfl⟩ := hwok
  have hlen := h.wql
  rw [hpc, hns] at hlen
  simp only [heldOf, List.length_append, List.length_map, List.length_singleton,
    and_true] at hlen
  have hk : kindAt s.proc.events callbackevent = some (KD_EVENT_QUIT, KD_NULL) :=
    h.wqk callbackevent (by rw [hpc]; simp [heldOf])
  obtain ⟨e, he, -, -⟩ := read_of_kindAt hk
  obtain ⟨m', q', hpost, hcells, hframe⟩ :=
    kdPostThreadEvent_cells (H := P.host)
      (w := ⟨s.proc.nodes, s.proc.events, g.tw, s.proc.calls, s.proc.tick⟩) hP.1 h.qw he
  have hfresh := (hP.1 s.proc.nodes).2
  have hexec : __kdExecCallback
      ⟨s.proc.nodes, s.proc.events, g.tw, s.proc.calls, s.proc.tick⟩ callbackevent =
      some (⟨s.proc.nodes, s.proc.events, g.tw, s.proc.calls, s.proc.tick⟩, false) := by
    simp only [__kdExecCallback, h.hcb, __kdExecCallback_loop]
  refine ⟨_, _, ?_,
    timerLive_absorb h hpc
      ⟨m', if e.timestamp = 0 then
          s.proc.events.write callbackevent
            { e with timestamp := kdGetTimeUST (P.host.clock s.proc.tick) }
        else s.proc.events,
        { g.tw with eventqueue := q' }, s.proc.calls,
        if e.timestamp = 0 then s.proc.tick + 1 else s.proc.tick⟩
      (g.cellsW ++ [(P.host.kdMalloc s.proc.nodes, callbackevent)]) (TimerPC.wait TPC.waitSize) []
      h.hcb h.hle hcells
      (queueCells_other h.qc hfresh (queueCells_swap_disj h.disj) hframe)
      ?_ (kindAt_posted he _) ?_ ?_ rfl rfl trivial
      (fun hs => by cases hs) (fun hs => by cases hs),
    rfl, ?_, ?_⟩
  · simp only [workerWait, Process.world, h.hw, Option.map_some', Sys.step, hexec, kdPostEvent,
      hpost, pumpNext, if_true, if_false, reduceCtorEq, List.append_nil]
  · intro a ha
    simp only [List.map_append, List.map_cons, List.map_nil, List.mem_append,
      List.mem_singleton] at ha
    rcases ha with ha | rfl
    · exact h.disj a ha
    · intro hc
      exact queueCells_live h.qc hc hfresh
  · intro event hmem
    rw [hpc]
    simpa [heldOf] using hmem
  · simp only [heldOf, List.map_append, List.map_cons, List.map_nil, List.append_nil,
      List.length_append, List.length_map, List.length_singleton, stopped, and_true]
    exact hlen
  · show stopped (s.trace ++ []) = stopped s.trace
    rw [List.append_nil]
  · rw [hpc]
    show 2 < 3
    omega

theorem workerWait_waitSize_live {P : Platform} {L0 : List Ptr}
    {interval mode : Int} {u : Ptr} {s : TimerSys} {g : TimerGhost}
    (h : TimerLive L0 interval mode u s g) (hpc : s.wpc = TimerPC.wait TPC.waitSize) :
    ∃ s' g', workerWait P s TPC.waitSize = some s' ∧
      TimerLive L0 interval mode u s' g' ∧ s'.cpc = s.cpc ∧
      stopped s'.trace = stopped s.trace ∧
      (s.cpc = CancelPC.join → workerDistance s'.wpc < workerDistance s.wpc) := by
  have hns := timerLive_nostop h (by rw [hpc]; intro hx; cases hx)
  have hsize : kdQueueSizeVEN g.tw.eventqueue = g.cellsW.length := h.qw.2.2.2.2
  have hlen := h.wql
  rw [hpc, hns] at hlen
  simp only [heldOf, List.append_nil, List.length_map, and_true] at hlen
  by_cases hpos : g.cellsW.length > 0
  · refine ⟨_, _, ?_,
      timerLive_absorb h hpc ⟨s.proc.nodes, s.proc.events, g.tw, s.proc.calls, s.proc.tick⟩
        g.cellsW (TimerPC.wait TPC.waitPop) []
        h.hcb h.hle h.qw h.qc h.disj (fun _ => rfl) ?_ ?_ rfl rfl trivial
        (fun hs => by cases hs) (fun hs => by cases hs),
      rfl, ?_, ?_⟩
    · simp only [workerWait, Process.world, h.hw, Option.map_some', Sys.step, hsize, hpos,
        if_true, if_false, reduceCtorEq, List.append_nil]
    · intro event hmem
      rw [hpc]
      exact hmem
    · simpa [heldOf, stopped] using hlen
    · show stopped (s.trace ++ []) = stopped s.trace
      rw [List.append_nil]
    · intro _
      rw [hpc]
      show 1 < 2
      omega
  · have hz : g.cellsW.length = 0 := by omega
    have hnj : s.cpc ≠ CancelPC.join := by
      intro hj
      rw [if_pos hj] at hlen
      omega
    refine ⟨_, _, ?_,
      timerLive_absorb h hpc
        (kdSetError ⟨s.proc.nodes, s.proc.events, g.tw, s.proc.calls, s.proc.tick⟩ KD_EAGAIN)
        g.cellsW TimerPC.sleep [TimerObs.dequeued KD_NULL none]
        h.hcb h.hle h.qw h.qc h.disj (fun _ => rfl) ?_ ?_ rfl rfl trivial
        (fun hs => by simp [stopped] at hs) (fun hs => by simp [stopped] at hs),
      rfl, ?_, ?_⟩
    · simp only [workerWait, Process.world, h.hw, Option.map_some', Sys.step, hsize, hpos,
        if_true, if_false, reduceCtorEq, List.append_nil, List.nil_append, workerWaited, ne_eq,
        not_true_eq_false]
    · intro event hmem
      rw [hpc]
      exact hmem
    · simp only [heldOf, List.append_nil, List.length_map, stopped, hz]
      simp [hnj]
    · show stopped (s.trace ++ [TimerObs.dequeued KD_NULL none]) = stopped s.trace
      rw [stopped_append]
      simp [stopped]
    · intro hj
      exact absurd hj hnj

theorem workerWait_waitPop_live {P : Platform} {L0 : List Ptr}
    {interval mode : Int} {u : Ptr} {s : TimerSys} {g : TimerGhost}
    (h : TimerLive L0 interval mode u s g) (hpc : s.wpc = TimerPC.wait TPC.waitPop) :
    ∃ s' g', workerWait P s TPC.waitPop = some s' ∧
      TimerLive L0 interval mode u s' g' ∧ s'.cpc = s.cpc ∧
      (s.cpc = CancelPC.join → workerDistance s'.wpc < workerDistance s.wpc) := by
  have hns := timerLive_nostop h (by rw [hpc]; intro hx; cases hx)
  have hlen := h.wql
  rw [hpc, hns] at hlen
  simp only [heldOf, List.append_nil, List.length_map, and_true] at hlen
  have hcells : ∃ cells, g.cellsW = cells := ⟨_, rfl⟩
  obtain ⟨cells, hcellsW⟩ := hcells
  have hqw := h.qw
  rw [hcellsW] at hqw hlen
  cases cells with
  | nil =>
    have hpop := kdQueuePopHeadVEN_cells_nil hqw
    have hnj : s.cpc ≠ CancelPC.join := by
      intro hj
      rw [if_pos hj] at hlen
      cases hlen
    refine ⟨_, _, ?_,
      timerLive_absorb h hpc
        ⟨s.proc.nodes, s.proc.events,
          { g.tw with eventqueue := g.tw.eventqueue }, s.proc.calls, s.proc.tick⟩
        g.cellsW TimerPC.sleep [TimerObs.dequeued KD_NULL none]
        h.hcb h.hle h.qw h.qc h.disj (fun _ => rfl) ?_ ?_ rfl rfl trivial
        (fun hs => by simp [stopped] at hs) (fun hs => by simp [stopped] at hs),
      rfl, ?_⟩
    · simp only [workerWait, Process.world, h.hw, Option.map_some', Sys.step, hpop,
        if_true, if_false, reduceCtorEq, List.append_nil, List.nil_append, workerWaited, ne_eq,
        not_true_eq_false]
    · intro event hmem
      rw [hpc]
      exact hmem
    · rw [hcellsW]
      simp only [heldOf, List.append_nil, List.length_map, stopped, List.length_nil]
      simp [hnj]
    · intro hj
      exact absurd hj hnj
  | cons c cs =>
    obtain ⟨m', q', hpop, hcells', hframe⟩ := kdQueuePopHeadVEN_cells hqw
    have hck : kindAt s.proc.events c.2 = some (KD_EVENT_QUIT, KD_NULL) :=
      h.wqk c.2 (by rw [hcellsW]; simp)
    obtain ⟨e, he, hty, -⟩ := read_of_kindAt hck
    have hty' : e.type = KD_EVENT_QUIT := hty
    have hc0 : c.2 ≠ KD_NULL := by
      intro h0
      rw [h0, kindAt, Heap.read_null] at hck
      cases hck
    have hj : s.cpc = CancelPC.join := by
      by_contra hnj
      simp [hnj] at hlen
    have hcs : cs = [] := by
      rw [if_pos hj] at hlen
      simp only [List.length_cons] at hlen
      exact List.length_eq_zero.1 (by omega)
    have hdisj' := queueCells_swap_disj h.disj
    rw [hcellsW] at hdisj'
    refine ⟨_, _, ?_,
      timerLive_absorb h hpc
        ⟨m', s.proc.events, { g.tw with eventqueue := q' }, s.proc.calls, s.proc.tick⟩
        cs TimerPC.done [TimerObs.dequeued c.2 (some e.type), TimerObs.exited]
        h.hcb h.hle hcells'
        (queueCells_frame h.qc (fun x hx => hframe x.1 (hdisj' x.1 (List.mem_map_of_mem _ hx))))
        ?_ (fun _ => rfl) ?_ ?_ rfl ?_ trivial
        (fun _ => hj) (fun _ => rfl),
      rfl, ?_⟩
    · simp only [workerWait, Process.world, h.hw, Option.map_some', Sys.step, hpop,
        if_true, if_false, reduceCtorEq, List.append_nil, List.nil_append, workerWaited, ne_eq,
        hc0, not_false_eq_true, he, hty']
    · intro a ha
      rw [hcs] at ha
      cases ha
    · intro event hmem
      rw [hcs] at hmem
      simp [heldOf] at hmem
    · rw [hcs]
      simp [heldOf, stopped, hty']
    · simp [ordered, hty', postedOf]
    · intro _
      rw [hpc]
      show 0 < 1
      omega

theorem workerOK_of_events {u : Ptr} {s s' : TimerSys} (h : WorkerOK u s)
    (hwpc : s'.wpc = s.wpc)
    (hev : ∀ a k, kindAt s.proc.events a = some k → kindAt s'.proc.events a = some k) :
    WorkerOK u s' := by
  unfold WorkerOK at h ⊢
  rw [hwpc]
  cases hc : s.wpc with
  | sleep => trivial
  | post e =>
    rw [hc] at h
    exact hev _ _ h
  | wait pc =>
    rw [hc] at h
    cases pc with
    | idle => trivial
    | pumpPop a b => exact h
    | pumpDispatch a b c => exact h
    | waitSize => trivial
    | waitPop => trivial
  | done => trivial

theorem oneShotOK_of_trace {s s' : TimerSys} (h : OneShotOK s) (hwpc : s'.wpc = s.wpc)
    (htr : workerTrace s'.trace = workerTrace s.trace) : OneShotOK s' := by
  unfold OneShotOK at h ⊢
  rw [hwpc, htr]
  exact h

theorem cancelReady_live {P : Platform} (hP : PlatformOK P) {L0 : List Ptr}
    {interval mode : Int} {u : Ptr} {s : TimerSys} {g : TimerGhost}
    (h : TimerLive L0 interval mode u s g) (hpc : s.cpc = CancelPC.ready) :
    ∃ s', s.step P TimerLabel.cancel = some s' ∧ TimerLive L0 interval mode u s' g ∧
      s'.wpc = s.wpc ∧ (∃ event, s'.cpc = CancelPC.post event) := by
  have he0 := (hP.2.1 s.proc.events).1
  have hfresh := (hP.2.1 s.proc.events).2
  have hev : ∀ a k, kindAt s.proc.events a = some k →
      kindAt ((s.proc.events.write (P.mallocEvent s.proc.events) ⟨0, -1, KD_NULL⟩).write
        (P.mallocEvent s.proc.events) ⟨0, KD_EVENT_QUIT, KD_NULL⟩) a = some k := by
    intro a k hk
    have hne : a ≠ P.mallocEvent s.proc.events := by
      intro e
      rw [e, kindAt, hfresh] at hk
      cases hk
    rw [kindAt_write_ne _ hne, kindAt_write_ne _ hne, hk]
  have hcok := h.cok
  simp only [CancelOK, hpc] at hcok
  refine ⟨⟨⟨s.proc.nodes,
      (s.proc.events.write (P.mallocEvent s.proc.events) ⟨0, -1, KD_NULL⟩).write
        (P.mallocEvent s.proc.events) ⟨0, KD_EVENT_QUIT, KD_NULL⟩,
      s.proc.threads, s.proc.payloads, s.proc.timers, s.proc.windows, s.proc.__kd_window,
      s.proc.calls, s.proc.tick⟩, s.timer, s.arg, s.worker, s.caller,
      s.wpc, CancelPC.post (P.mallocEvent s.proc.events), s.trace⟩, ?_, ?_, rfl, _, rfl⟩
  · simp only [TimerSys.step, hpc, kdCancelTimer_begin, h.tm, ne_eq, not_true_eq_false, if_false,
      Process.kdCreateEvent_ok hP, Heap.modify, Heap.read_write_same _ _ _ he0]
  · exact
      { ne := h.ne, nowin := h.nowin, hc := h.hc, hw := h.hw, hcb := h.hcb, hle := h.hle
        qc := h.qc, qw := h.qw
        disj := h.disj, vc := h.vc
        kinds := fun event hmem => hev _ _ (h.kinds event hmem)
        wqk := fun event hmem => hev _ _ (h.wqk event hmem)
        wql := by
          have := h.wql
          rw [hpc] at this
          simpa using this
        pl := h.pl, tm := h.tm
        wok := workerOK_of_events h.wok rfl hev
        cok := ⟨hcok, kindAt_write_same _ he0⟩
        ord := h.ord
        stop := h.stop
        one := fun hm => oneShotOK_of_trace (h.one hm) rfl rfl }

theorem cancelPost_live {P : Platform} (hP : PlatformOK P) {L0 : List Ptr}
    {interval mode : Int} {u : Ptr} {s : TimerSys} {g : TimerGhost} {event : Ptr}
    (h : TimerLive L0 interval mode u s g) (hpc : s.cpc = CancelPC.post event) :
    ∃ s' g', s.step P TimerLabel.cancel = some s' ∧ TimerLive L0 interval mode u s' g' ∧
      s'.wpc = s.wpc ∧ s'.cpc = CancelPC.join := by
  have hcok := h.cok
  simp only [CancelOK, hpc] at hcok
  obtain ⟨hns, hk⟩ := hcok
  obtain ⟨e, he, -, -⟩ := read_of_kindAt hk
  obtain ⟨m', q', hpost, hcells, hframe⟩ :=
    Process.kdPostThreadEvent_frame (P := P) hP.1 h.hw h.qw he
  have hw0 : s.worker ≠ KD_NULL := by
    intro h0
    have := h.hw
    rw [h0, Heap.read_null] at this
    cases this
  have hfresh := (hP.1 s.proc.nodes).2
  have hev : ∀ a, kindAt (if e.timestamp = 0 then
          s.proc.events.write event
            { e with timestamp := kdGetTimeUST (P.host.clock s.proc.tick) }
        else s.proc.events) a = kindAt s.proc.events a := kindAt_posted he _
  have hstop' : stopped (s.trace ++ [TimerObs.quit event]) = stopped s.trace := by
    rw [stopped_append]
    simp [stopped]
  have hlen := h.wql
  rw [hpc] at hlen
  simp only [reduceCtorEq, false_and, if_false] at hlen
  refine ⟨⟨⟨m', if e.timestamp = 0 then
          s.proc.events.write event
            { e with timestamp := kdGetTimeUST (P.host.clock s.proc.tick) }
        else s.proc.events,
        s.proc.threads.write s.worker { g.tw with eventqueue := q' }, s.proc.payloads,
        s.proc.timers, s.proc.windows, s.proc.__kd_window, s.proc.calls,
        if e.timestamp = 0 then s.proc.tick + 1 else s.proc.tick⟩,
      s.timer, s.arg, s.worker, s.caller, s.wpc, CancelPC.join,
      s.trace ++ [TimerObs.quit event]⟩,
    ⟨g.tc, { g.tw with eventqueue := q' }, g.cellsC,
      g.cellsW ++ [(P.host.kdMalloc s.proc.nodes, event)]⟩, ?_, ?_, rfl, rfl⟩
  · simp only [TimerSys.step, hpc, kdCancelTimer_post, h.tm, hpost, Option.map_some']
  · exact
      { ne := h.ne
        nowin := h.nowin
        hc := by
          show (s.proc.threads.write s.worker _).read s.caller = some g.tc
          rw [Heap.read_write_ne _ _ _ _ (Ne.symm h.ne)]
          exact h.hc
        hw := Heap.read_write_same _ _ _ hw0
        hcb := h.hcb, hle := h.hle
        qc := queueCells_other h.qc hfresh (queueCells_swap_disj h.disj) hframe
        qw := hcells
        disj := by
          intro a ha
          simp only [List.map_append, List.map_cons, List.map_nil, List.mem_append,
            List.mem_singleton] at ha
          rcases ha with ha | rfl
          · exact h.disj a ha
          · intro hc
            exact queueCells_live h.qc hc hfresh
        vc := by
          show g.cellsC.map Prod.snd = L0 ++ postedOf (s.trace ++ [TimerObs.quit event])
          rw [postedOf_append]
          simpa [postedOf] using h.vc
        kinds := by
          intro ev hmem
          show kindAt _ ev = _
          rw [hev]
          apply h.kinds
          have hmem' : ev ∈ postedOf (s.trace ++ [TimerObs.quit event]) := hmem
          rw [postedOf_append] at hmem'
          simpa [postedOf] using hmem'
        wqk := by
          intro ev hmem
          show kindAt _ ev = _
          rw [hev]
          have hmem' : ev ∈ (g.cellsW ++ [(P.host.kdMalloc s.proc.nodes, event)]).map Prod.snd ++
              heldOf s.wpc := hmem
          simp only [List.map_append, List.map_cons, List.map_nil, List.mem_append,
            List.mem_singleton] at hmem'
          rcases hmem' with (hm | rfl) | hm
          · exact h.wqk ev (List.mem_append_left _ hm)
          · exact hk
          · exact h.wqk ev (List.mem_append_right _ hm)
        wql := by
          show ((g.cellsW ++ [(P.host.kdMalloc s.proc.nodes, event)]).map Prod.snd ++
              heldOf s.wpc).length =
            if CancelPC.join = CancelPC.join ∧ stopped (s.trace ++ [TimerObs.quit event]) = false
            then 1 else 0
          rw [hstop', hns]
          simp only [List.map_append, List.map_cons, List.map_nil, List.length_append,
            List.length_map, List.length_singleton, and_self, if_true] at hlen ⊢
          omega
        pl := h.pl, tm := h.tm
        wok := workerOK_of_events h.wok rfl (fun a k hka => by
          show kindAt _ a = _
          rw [hev]; exact hka)
        cok := ⟨event, by simp⟩
        ord := by
          show ordered (s.trace ++ [TimerObs.quit event]) = true
          rw [ordered_append, h.ord, hns]
          simp [ordered]
        stop := by
          intro hs
          apply h.stop
          rw [← hstop']
          exact hs
        one := fun hm => oneShotOK_of_trace (h.one hm) rfl (by
          show workerTrace (s.trace ++ [TimerObs.quit event]) = workerTrace s.trace
          rw [workerTrace_append]
          simp [workerTrace]) }

theorem cancelJoin_live {P : Platform} {L0 : List Ptr}
    {interval mode : Int} {u : Ptr} {s : TimerSys} {g : TimerGhost}
    (h : TimerLive L0 interval mode u s g) (hpc : s.cpc = CancelPC.join) :
    (s.wpc ≠ TimerPC.done → s.step P TimerLabel.cancel = some s) ∧
    (s.wpc = TimerPC.done →
      ∃ s', s.step P TimerLabel.cancel = some s' ∧ TimerDone L0 mode u s') := by
  constructor
  · intro hw
    simp only [TimerSys.step, hpc, h.tm, ne_eq, not_true_eq_false, if_false, hw]
  · intro hw
    have hns : stopped s.trace = true ∨ stopped s.trace = false := by
      cases stopped s.trace <;> simp
    have hcok := h.cok
    simp only [CancelOK, hpc] at hcok
    obtain ⟨q, hq⟩ := hcok
    refine ⟨⟨⟨s.proc.nodes, s.proc.events, s.proc.threads.free s.worker,
        s.proc.payloads.free s.arg, s.proc.timers.free s.timer, s.proc.windows,
        s.proc.__kd_window, s.proc.calls, s.proc.tick⟩,
      s.timer, s.arg, s.worker, s.caller, s.wpc, CancelPC.returned 0,
      s.trace ++ [TimerObs.joined, TimerObs.returned 0]⟩, ?_, ?_⟩
    · simp only [TimerSys.step, hpc, h.tm, ne_eq, not_true_eq_false, if_false, hw, if_true,
        kdCancelTimer_end, __kdThreadFree, h.hw, h.hle]
    · exact
        { cpc := rfl
          nowin := h.nowin
          wpc := hw
          qc := ⟨g.tc, g.cellsC, by
              show (s.proc.threads.free s.worker).read s.caller = some g.tc
              rw [Heap.read_free_ne _ _ _ (Ne.symm h.ne)]
              exact h.hc, h.qc, by
              show g.cellsC.map Prod.snd =
                L0 ++ postedOf (s.trace ++ [TimerObs.joined, TimerObs.returned 0])
              rw [postedOf_append]
              simpa [postedOf] using h.vc⟩
          kinds := by
            intro ev hmem
            apply h.kinds
            have hmem' : ev ∈ postedOf (s.trace ++ [TimerObs.joined, TimerObs.returned 0]) :=
              hmem
            rw [postedOf_append] at hmem'
            simpa [postedOf] using hmem'
          quit := ⟨q, List.mem_append_left _ hq⟩
          freed := ⟨Heap.read_free_same _ _, Heap.read_free_same _ _, Heap.read_free_same _ _⟩
          ord := by
            show ordered (s.trace ++ [TimerObs.joined, TimerObs.returned 0]) = true
            rw [ordered_append, h.ord]
            rcases hns with hs | hs <;> simp [hs, ordered, postedOf]
          one := fun hm => oneShotOK_of_trace (h.one hm) rfl (by
            show workerTrace (s.trace ++ [TimerObs.joined, TimerObs.returned 0]) =
              workerTrace s.trace
            rw [workerTrace_append]
            simp [workerTrace]) }

theorem timerDone_step {P : Platform} {L0 : List Ptr} {mode : Int} {u : Ptr} {s : TimerSys}
    (h : TimerDone L0 mode u s) (l : TimerLabel) : s.step P l = some s := by
  cases l with
  | worker => simp only [TimerSys.step, h.wpc]
  | cancel => simp only [TimerSys.step, h.cpc]

theorem timerLive_worker_step {P : Platform} (hP : PlatformOK P) {L0 : List Ptr}
    {interval mode : Int} {u : Ptr} {s : TimerSys} {g : TimerGhost}
    (h : TimerLive L0 interval mode u s g) :
    ∃ s' g', s.step P TimerLabel.worker = some s' ∧ TimerLive L0 interval mode u s' g' ∧
      s'.cpc = s.cpc ∧
      (s.cpc = CancelPC.join → s.wpc ≠ TimerPC.done →
        workerDistance s'.wpc < workerDistance s.wpc) ∧
      (mode = KD_TIMER_ONESHOT → s.wpc ≠ TimerPC.done →
        (s.wpc = TimerPC.sleep ∧ ∃ event, s'.wpc = TimerPC.post event) ∨
        s'.wpc = TimerPC.done) := by
  cases hpc : s.wpc with
  | sleep =>
    obtain ⟨s', hstep, hlive, hwpc, hcpc, -⟩ := workerSleep_live hP h hpc
    refine ⟨s', g, by simp only [TimerSys.step, hpc, hstep], hlive, hcpc, ?_, ?_⟩
    · intro _ _
      rw [hwpc]
      show 6 < 7
      omega
    · intro _ _
      exact Or.inl ⟨rfl, _, hwpc⟩
  | post timerevent =>
    obtain ⟨s', g', hstep, hlive, hwpc, hcpc, -⟩ := workerPost_live hP h hpc
    refine ⟨s', g', by simp only [TimerSys.step, hpc, hstep], hlive, hcpc, ?_, ?_⟩
    · intro _ _
      rw [hwpc]
      split
      · show 0 < 6
        omega
      · show 5 < 6
        omega
    · intro hm _
      rw [hwpc, if_pos hm]
      exact Or.inr rfl
  | wait pc =>
    have hnone : mode ≠ KD_TIMER_ONESHOT := by
      intro hm
      have := h.one hm
      simp only [OneShotOK, hpc] at this
    cases pc with
    | idle =>
      obtain ⟨s', g', hstep, hlive, hwpc, hcpc, -, hle1, hj⟩ := workerWait_idle_live (P := P) h hpc
      refine ⟨s', g', by simp only [TimerSys.step, hpc, hstep], hlive, hcpc, ?_,
        fun hm => absurd hm hnone⟩
      intro hjoin _
      rw [hwpc, hj hjoin]
      show 4 < 5
      omega
    | pumpPop inWait rest =>
      obtain ⟨s', g', hstep, hlive, hcpc, -, hd⟩ := workerWait_pumpPop_live (P := P) h hpc
      refine ⟨s', g', by simp only [TimerSys.step, hpc, hstep], hlive, hcpc, ?_,
        fun hm => absurd hm hnone⟩
      intro _ _
      rw [← hpc]
      exact hd
    | pumpDispatch inWait rest callbackevent =>
      obtain ⟨s', g', hstep, hlive, hcpc, -, hd⟩ := workerWait_pumpDispatch_live hP h hpc
      refine ⟨s', g', by simp only [TimerSys.step, hpc, hstep], hlive, hcpc, ?_,
        fun hm => absurd hm hnone⟩
      intro _ _
      rw [← hpc]
      exact hd
    | waitSize =>
      obtain ⟨s', g', hstep, hlive, hcpc, -, hd⟩ := workerWait_waitSize_live (P := P) h hpc
      refine ⟨s', g', by simp only [TimerSys.step, hpc, hstep], hlive, hcpc, ?_,
        fun hm => absurd hm hnone⟩
      intro hj _
      rw [← hpc]
      exact hd hj
    | waitPop =>
      obtain ⟨s', g', hstep, hlive, hcpc, hd⟩ := workerWait_waitPop_live (P := P) h hpc
      refine ⟨s', g', by simp only [TimerSys.step, hpc, hstep], hlive, hcpc, ?_,
        fun hm => absurd hm hnone⟩
      intro hj _
      rw [← hpc]
      exact hd hj
  | done =>
    refine ⟨s, g, by simp only [TimerSys.step, hpc], h, rfl, ?_, ?_⟩
    · intro _ hne
      exact absurd rfl hne
    · intro _ hne
      exact absurd rfl hne

theorem timerInv_step {P : Platform} (hP : PlatformOK P) {L0 : List Ptr}
    {interval mode : Int} {u : Ptr} {s : TimerSys} (h : TimerInv L0 interval mode u s)
    (l : TimerLabel) : ∃ s', s.step P l = some s' ∧ TimerInv L0 interval mode u s' := by
  rcases h with ⟨g, h⟩ | h
  · cases l with
    | worker =>
      obtain ⟨s', g', hstep, hlive, -⟩ := timerLive_worker_step hP h
      exact ⟨s', hstep, Or.inl ⟨g', hlive⟩⟩
    | cancel =>
      cases hpc : s.cpc with
      | ready =>
        obtain ⟨s', hstep, hlive, -⟩ := cancelReady_live hP h hpc
        exact ⟨s', hstep, Or.inl ⟨g, hlive⟩⟩
      | post event =>
        obtain ⟨s', g', hstep, hlive, -⟩ := cancelPost_live hP h hpc
        exact ⟨s', hstep, Or.inl ⟨g', hlive⟩⟩
      | join =>
        by_cases hw : s.wpc = TimerPC.done
        · obtain ⟨s', hstep, hdone⟩ := (cancelJoin_live (P := P) h hpc).2 hw
          exact ⟨s', hstep, Or.inr hdone⟩
        · exact ⟨s, (cancelJoin_live (P := P) h hpc).1 hw, Or.inl ⟨g, h⟩⟩
      | returned r =>
        have := h.cok
        simp only [CancelOK, hpc] at this
  · exact ⟨s, timerDone_step h l, Or.inr h⟩

theorem timerInv_run {P : Platform} (hP : PlatformOK P) {L0 : List Ptr}
    {interval mode : Int} {u : Ptr} (sched : List TimerLabel) :
    ∀ s, TimerInv L0 interval mode u s →
      ∃ s', TimerSys.run P sched s = some s' ∧ TimerInv L0 interval mode u s' := by
  induction sched with
  | nil => intro s h; exact ⟨s, rfl, h⟩
  | cons l ls ih =>
    intro s h
    obtain ⟨s1, hstep, h1⟩ := timerInv_step hP h l
    obtain ⟨s', hrun, h'⟩ := ih s1 h1
    exact ⟨s', by simp only [TimerSys.run, hstep, hrun], h'⟩

theorem TimerSys.runTimer_append (P : Platform) (ls1 ls2 : List TimerLabel) :
    ∀ s, TimerSys.run P (ls1 ++ ls2) s = (TimerSys.run P ls1 s).bind (TimerSys.run P ls2) := by
  induction ls1 with
  | nil => intro s; rfl
  | cons l ls ih =>
    intro s
    cases hstep : s.step P l with
    | none => simp [TimerSys.run, hstep]
    | some s1 => simp [TimerSys.run, hstep, ih s1]

theorem timerDone_run {P : Platform} {L0 : List Ptr} {mode : Int} {u : Ptr} {s : TimerSys}
    (h : TimerDone L0 mode u s) (sched : List TimerLabel) : TimerSys.run P sched s = some s := by
  induction sched with
  | nil => rfl
  | cons l ls ih => simp only [TimerSys.run, timerDone_step h l, ih]

theorem timerLive_cancel_twice {P : Platform} (hP : PlatformOK P) {L0 : List Ptr}
    {interval mode : Int} {u : Ptr} {s : TimerSys} (h : TimerInv L0 interval mode u s) :
    ∃ s', TimerSys.run P [TimerLabel.cancel, TimerLabel.cancel] s = some s' ∧
      (TimerDone L0 mode u s' ∨
        ∃ g, TimerLive L0 interval mode u s' g ∧ s'.cpc = CancelPC.join) := by
  have hjoin : ∀ (s1 : TimerSys) (g1 : TimerGhost), TimerLive L0 interval mode u s1 g1 →
      s1.cpc = CancelPC.join →
      ∃ s', s1.step P TimerLabel.cancel = some s' ∧
        (TimerDone L0 mode u s' ∨
          ∃ g, TimerLive L0 interval mode u s' g ∧ s'.cpc = CancelPC.join) := by
    intro s1 g1 h1 hpc
    by_cases hw : s1.wpc = TimerPC.done
    · obtain ⟨s', hstep, hdone⟩ := (cancelJoin_live (P := P) h1 hpc).2 hw
      exact ⟨s', hstep, Or.inl hdone⟩
    · exact ⟨s1, (cancelJoin_live (P := P) h1 hpc).1 hw, Or.inr ⟨g1, h1, hpc⟩⟩
  have hnext : ∀ (s1 : TimerSys), (TimerDone L0 mode u s1 ∨
        ∃ g, TimerLive L0 interval mode u s1 g ∧ s1.cpc = CancelPC.join) →
      ∃ s', s1.step P TimerLabel.cancel = some s' ∧
        (TimerDone L0 mode u s' ∨
          ∃ g, TimerLive L0 interval mode u s' g ∧ s'.cpc = CancelPC.join) := by
    intro s1 h1
    rcases h1 with h1 | ⟨g1, h1, hpc⟩
    · exact ⟨s1, timerDone_step h1 _, Or.inl h1⟩
    · exact hjoin s1 g1 h1 hpc
  rcases h with ⟨g, h⟩ | h
  · cases hpc : s.cpc with
    | ready =>
      obtain ⟨s1, hstep1, hlive1, -, event, hpc1⟩ := cancelReady_live hP h hpc
      obtain ⟨s2, g2, hstep2, hlive2, -, hpc2⟩ := cancelPost_live hP hlive1 hpc1
      exact ⟨s2, by simp only [TimerSys.run, hstep1, hstep2], Or.inr ⟨g2, hlive2, hpc2⟩⟩
    | post event =>
      obtain ⟨s1, g1, hstep1, hlive1, -, hpc1⟩ := cancelPost_live hP h hpc
      obtain ⟨s2, hstep2, h2⟩ := hjoin s1 g1 hlive1 hpc1
      exact ⟨s2, by simp only [TimerSys.run, hstep1, hstep2], h2⟩
    | join =>
      obtain ⟨s1, hstep1, h1⟩ := hjoin s g h hpc
      obtain ⟨s2, hstep2, h2⟩ := hnext s1 h1
      exact ⟨s2, by simp only [TimerSys.run, hstep1, hstep2], h2⟩
    | returned r =>
      have := h.cok
      simp only [CancelOK, hpc] at this
  · exact ⟨s, timerDone_run h _, Or.inl h⟩

theorem timerLive_worker_finishes {P : Platform} (hP : PlatformOK P) {L0 : List Ptr}
    {interval mode : Int} {u : Ptr} (n : Nat) :
    ∀ (s : TimerSys) (g : TimerGhost), TimerLive L0 interval mode u s g →
      s.cpc = CancelPC.join → workerDistance s.wpc ≤ n →
      ∃ s' g', TimerSys.run P (List.replicate n TimerLabel.worker) s = some s' ∧
        TimerLive L0 interval mode u s' g' ∧ s'.cpc = CancelPC.join ∧
        s'.wpc = TimerPC.done := by
  induction n with
  | zero =>
    intro s g h hpc hd
    refine ⟨s, g, rfl, h, hpc, ?_⟩
    cases hw : s.wpc with
    | done => rfl
    | sleep => rw [hw] at hd; simp [workerDistance] at hd
    | post e => rw [hw] at hd; simp [workerDistance] at hd
    | wait pc => cases pc <;> (rw [hw] at hd; simp [workerDistance] at hd)
  | succ n ih =>
    intro s g h hpc hd
    obtain ⟨s1, g1, hstep, hlive1, hcpc1, hprog, -⟩ := timerLive_worker_step hP h
    have hd1 : workerDistance s1.wpc ≤ n := by
      by_cases hw : s.wpc = TimerPC.done
      · have hstep' : s.step P TimerLabel.worker = some s := by
          simp only [TimerSys.step, hw]
        rw [hstep'] at hstep
        cases hstep
        rw [hw]
        exact Nat.zero_le _
      · have := hprog hpc hw
        omega
    obtain ⟨s', g', hrun, hlive', hcpc', hwpc'⟩ := ih s1 g1 hlive1 (hcpc1.trans hpc) hd1
    exact ⟨s', g', by simp only [List.replicate_succ, TimerSys.run, hstep, hrun], hlive', hcpc',
      hwpc'⟩

theorem workerDistance_le (pc : TimerPC) : workerDistance pc ≤ 7 := by
  cases pc with
  | sleep => exact Nat.le_refl _
  | post e => show 6 ≤ 7; omega
  | wait pc => cases pc <;> simp [workerDistance]
  | done => show 0 ≤ 7; omega

theorem timerInv_finish {P : Platform} (hP : PlatformOK P) {L0 : List Ptr}
    {interval mode : Int} {u : Ptr} {s : TimerSys} (h : TimerInv L0 interval mode u s) :
    ∃ s', TimerSys.run P finishSchedule s = some s' ∧ TimerDone L0 mode u s' := by
  obtain ⟨s1, hrun1, h1⟩ := timerLive_cancel_twice hP h
  rcases h1 with h1 | ⟨g1, h1, hpc1⟩
  · refine ⟨s1, ?_, h1⟩
    rw [finishSchedule, TimerSys.runTimer_append, TimerSys.runTimer_append, hrun1, Option.some_bind,
      timerDone_run h1, Option.some_bind, timerDone_run h1]
  · obtain ⟨s2, g2, hrun2, h2, hpc2, hw2⟩ :=
      timerLive_worker_finishes hP 7 s1 g1 h1 hpc1 (workerDistance_le _)
    obtain ⟨s3, hstep3, h3⟩ := (cancelJoin_live (P := P) h2 hpc2).2 hw2
    refine ⟨s3, ?_, h3⟩
    rw [finishSchedule, TimerSys.runTimer_append, TimerSys.runTimer_append, hrun1, Option.some_bind,
      hrun2, Option.some_bind]
    simp only [TimerSys.run, hstep3]

/-! ### Timers: from `kdSetTimer` on -/

theorem timerSys_start {P : Platform} (hP : PlatformOK P) {p : Process} {self : Ptr}
    {tc : KDThread} {cells : List (Ptr × Ptr)} (hwin : p.__kd_window = KD_NULL)
    (ht : p.threads.read self = some tc)
    (hq : QueueCells p.nodes tc.eventqueue cells) (interval mode : Int) (u : Ptr)
    (hmode : mode = KD_TIMER_ONESHOT ∨ mode = KD_TIMER_PERIODIC_AVERAGE ∨
      mode = KD_TIMER_PERIODIC_MINIMUM) :
    ∃ s0 g, TimerSys.start P p self interval mode u = some s0 ∧
      kdSetTimer P p self interval mode u = some (s0.proc, s0.timer) ∧ s0.timer ≠ KD_NULL ∧
      TimerLive (cells.map Prod.snd) interval mode u s0 g ∧
      s0.wpc = TimerPC.sleep ∧ s0.cpc = CancelPC.ready ∧ s0.trace = [] ∧ s0.caller = self := by
  obtain ⟨-, -, hMt, hMp, hMtm, -, hcreate⟩ := hP
  have hpl0 := (hMp p.payloads).1
  have htm0 := (hMtm p.timers).1
  have hth0 := (hMt p.threads).1
  have hthfresh := (hMt p.threads).2
  have hvalid : ¬ (mode ≠ KD_TIMER_ONESHOT ∧ mode ≠ KD_TIMER_PERIODIC_AVERAGE ∧
      mode ≠ KD_TIMER_PERIODIC_MINIMUM) := by
    rintro ⟨h1, h2, h3⟩
    rcases hmode with h | h | h
    · exact h1 h
    · exact h2 h
    · exact h3 h
  have hne : P.mallocThread p.threads ≠ self := by
    intro e
    rw [e, ht] at hthfresh
    cases hthfresh
  have hset : kdSetTimer P p self interval mode u =
      some (⟨p.nodes, p.events, p.threads.write (P.mallocThread p.threads) __kdThreadInit,
        p.payloads.write (P.mallocPayload p.payloads) ⟨interval, mode, u, self⟩,
        p.timers.write (P.mallocTimer p.timers)
          ⟨P.mallocThread p.threads, self, P.mallocPayload p.payloads⟩,
        p.windows, p.__kd_window, p.calls, p.tick⟩, P.mallocTimer p.timers) := by
    simp only [kdSetTimer, hvalid, if_false, hpl0, htm0, kdThreadCreate, hth0, hcreate, ne_eq,
      not_true_eq_false]
  refine ⟨⟨⟨p.nodes, p.events, p.threads.write (P.mallocThread p.threads) __kdThreadInit,
        p.payloads.write (P.mallocPayload p.payloads) ⟨interval, mode, u, self⟩,
        p.timers.write (P.mallocTimer p.timers)
          ⟨P.mallocThread p.threads, self, P.mallocPayload p.payloads⟩,
        p.windows, p.__kd_window, p.calls, p.tick⟩,
      P.mallocTimer p.timers, P.mallocPayload p.payloads, P.mallocThread p.threads, self,
      TimerPC.sleep, CancelPC.ready, []⟩,
    ⟨tc, __kdThreadInit, cells, []⟩, ?_, hset, htm0, ?_, rfl, rfl, rfl, rfl⟩
  · simp only [TimerSys.start, hset, Heap.read_write_same _ _ _ htm0]
  · exact
      { ne := hne
        nowin := hwin
        hc := by
          show (p.threads.write _ _).read self = some tc
          rw [Heap.read_write_ne _ _ _ _ (Ne.symm hne)]
          exact ht
        hw := Heap.read_write_same _ _ _ hth0
        hcb := rfl, hle := rfl
        qc := hq
        qw := kdQueueCreateVEN_cells _
        disj := by intro a ha; cases ha
        vc := by simp [postedOf]
        kinds := by intro event hmem; cases hmem
        wqk := by intro event hmem; cases hmem
        wql := by simp [heldOf]
        pl := Heap.read_write_same _ _ _ hpl0
        tm := Heap.read_write_same _ _ _ htm0
        wok := trivial
        cok := rfl
        ord := rfl
        stop := by intro hs; cases hs
        one := fun _ => rfl }

theorem timerInv_queue {L0 : List Ptr} {interval mode : Int} {u : Ptr} {s : TimerSys}
    (h : TimerInv L0 interval mode u s) :
    s.proc.queueOf s.caller = some (L0 ++ postedOf s.trace) ∧
    (∀ event ∈ postedOf s.trace, kindAt s.proc.events event = some (KD_EVENT_TIMER, u)) ∧
    ordered s.trace = true ∧ (stopped s.trace = true → s.wpc = TimerPC.done) ∧
    (mode = KD_TIMER_ONESHOT → OneShotOK s) ∧ s.proc.__kd_window = KD_NULL ∧
    (∀ r, s.cpc = CancelPC.returned r →
      r = 0 ∧ s.wpc = TimerPC.done ∧ (∃ q, TimerObs.quit q ∈ s.trace) ∧
      s.proc.threads.read s.worker = none ∧ s.proc.timers.read s.timer = none ∧
      s.proc.payloads.read s.arg = none) := by
  rcases h with ⟨g, h⟩ | h
  · refine ⟨?_, h.kinds, h.ord, h.stop, h.one, h.nowin, ?_⟩
    · rw [Process.queueOf_cells h.hc h.qc, h.vc]
    · intro r hr
      have := h.cok
      simp only [CancelOK, hr] at this
  · obtain ⟨tc, cellsC, hc, hqc, hvc⟩ := h.qc
    refine ⟨?_, h.kinds, h.ord, fun _ => h.wpc, h.one, h.nowin, ?_⟩
    · rw [Process.queueOf_cells hc hqc, hvc]
    · intro r hr
      rw [h.cpc] at hr
      cases hr
      exact ⟨rfl, h.wpc, h.quit, h.freed⟩

theorem TimerSys.step_caller {P : Platform} {s s' : TimerSys} {l : TimerLabel}
    (h : s.step P l = some s') : s'.caller = s.caller := by
  cases l with
  | worker =>
    simp only [TimerSys.step] at h
    split at h
    · simp only [workerSleep] at h
      repeat' split at h
      all_goals (cases h; try rfl)
    · simp only [workerPost] at h
      repeat' split at h
      all_goals (cases h; try rfl)
    · simp only [workerWait] at h
      repeat' split at h
      all_goals (cases h; try rfl)
    · simp only [Option.some.injEq] at h
      rw [← h]
  | cancel =>
    simp only [TimerSys.step] at h
    repeat' split at h
    all_goals (cases h; try rfl)

theorem TimerSys.run_caller {P : Platform} (ls : List TimerLabel) :
    ∀ (s s' : TimerSys), TimerSys.run P ls s = some s' → s'.caller = s.caller := by
  induction ls with
  | nil => intro s s' h; cases h; rfl
  | cons l ls ih =>
    intro s s' h
    simp only [TimerSys.run] at h
    cases hstep : s.step P l with
    | none => simp [hstep] at h
    | some s1 =>
      rw [hstep] at h
      rw [ih s1 s' h, TimerSys.step_caller hstep]

theorem oneshot_two_steps {P : Platform} (hP : PlatformOK P) {L0 : List Ptr}
    {interval : Int} {u : Ptr} {s : TimerSys}
    (h : TimerInv L0 interval KD_TIMER_ONESHOT u s) :
    ∃ s', TimerSys.run P [TimerLabel.worker, TimerLabel.worker] s = some s' ∧
      s'.wpc = TimerPC.done := by
  have hdone : ∀ s1 : TimerSys, s1.wpc = TimerPC.done →
      s1.step P TimerLabel.worker = some s1 := by
    intro s1 hw
    simp only [TimerSys.step, hw]
  rcases h with ⟨g, h⟩ | h
  · obtain ⟨s1, g1, hstep1, hlive1, -, -, hone1⟩ := timerLive_worker_step hP h
    obtain ⟨s2, g2, hstep2, hlive2, -, -, hone2⟩ := timerLive_worker_step hP hlive1
    refine ⟨s2, by simp only [TimerSys.run, hstep1, hstep2], ?_⟩
    have h1 : s1.wpc = TimerPC.done ∨ ∃ event, s1.wpc = TimerPC.post event := by
      by_cases hw : s.wpc = TimerPC.done
      · rw [hdone s hw] at hstep1
        cases hstep1
        exact Or.inl hw
      · rcases hone1 rfl hw with ⟨-, hp⟩ | hd
        · exact Or.inr hp
        · exact Or.inl hd
    rcases h1 with hd | ⟨event, hp⟩
    · rw [hdone s1 hd] at hstep2
      cases hstep2
      exact hd
    · rcases hone2 rfl (by rw [hp]; intro hx; cases hx) with ⟨hs, -⟩ | hd
      · rw [hp] at hs
        cases hs
      · exact hd
  · exact ⟨s, timerDone_run h _, h.wpc⟩

/-- C14: a timer created with `kdSetTimer(interval, KD_TIMER_ONESHOT, u)` by a
thread with a well-formed queue, no window existing, starts a worker which,
under every schedule
of the worker and of a `kdCancelTimer` call by the creator, runs without
fault and has either done nothing yet or posted exactly one event and
returned; the worker never calls `kdWaitEvent`; the queue of the creating
thread is its former content followed by the posted event, which is of kind
`KD_EVENT_TIMER` with user pointer `u`; and from every point of a run two
steps of the worker suffice for it to have posted and returned. -/
theorem kdSetTimer_oneshot (P : Platform) (hP : PlatformOK P) (p : Process) (self : Ptr)
    (tc : KDThread) (cells : List (Ptr × Ptr)) (interval : Int) (u : Ptr)
    (hwin : p.__kd_window = KD_NULL) (ht : p.threads.read self = some tc)
    (hq : QueueCells p.nodes tc.eventqueue cells) :
    ∃ s0, TimerSys.start P p self interval KD_TIMER_ONESHOT u = some s0 ∧
      s0.wpc = TimerPC.sleep ∧ s0.trace = [] ∧
      ∀ sched, ∃ s, TimerSys.run P sched s0 = some s ∧ s.proc.__kd_window = KD_NULL ∧
        s.proc.queueOf self = some (cells.map Prod.snd ++ postedOf s.trace) ∧
        (∀ event ∈ postedOf s.trace,
          kindAt s.proc.events event = some (KD_EVENT_TIMER, u)) ∧
        ((s.wpc ≠ TimerPC.done ∧ workerTrace s.trace = [] ∧ postedOf s.trace = []) ∨
          (s.wpc = TimerPC.done ∧ ∃ event,
            workerTrace s.trace = [TimerObs.posted event, TimerObs.exited] ∧
            postedOf s.trace = [event])) ∧
        (∀ pc, s.wpc ≠ TimerPC.wait pc) ∧ TimerObs.wait ∉ s.trace ∧
        ∃ s', TimerSys.run P [TimerLabel.worker, TimerLabel.worker] s = some s' ∧
          s'.wpc = TimerPC.done := by
  obtain ⟨s0, g, hstart, -, -, hlive, hw0, -, htr0, hcaller⟩ :=
    timerSys_start hP hwin ht hq interval KD_TIMER_ONESHOT u (Or.inl rfl)
  refine ⟨s0, hstart, hw0, htr0, ?_⟩
  intro sched
  obtain ⟨s, hrun, hinv⟩ := timerInv_run hP sched s0 (Or.inl ⟨g, hlive⟩)
  have hcs : s.caller = self := by
    rw [TimerSys.run_caller sched s0 s hrun, hcaller]
  obtain ⟨hqueue, hkinds, -, -, hone, hnowin, -⟩ := timerInv_queue hinv
  have hone' := hone rfl
  rw [hcs] at hqueue
  refine ⟨s, hrun, hnowin, hqueue, hkinds, ?_, ?_, ?_, oneshot_two_steps hP hinv⟩
  · unfold OneShotOK at hone'
    cases hw : s.wpc with
    | sleep =>
      rw [hw] at hone'
      have hpo : postedOf s.trace = [] := by
        rw [← postedOf_workerTrace, hone']; rfl
      exact Or.inl ⟨(by intro hx; cases hx), hone', hpo⟩
    | post e =>
      rw [hw] at hone'
      have hpo : postedOf s.trace = [] := by
        rw [← postedOf_workerTrace, hone']; rfl
      exact Or.inl ⟨(by intro hx; cases hx), hone', hpo⟩
    | wait pc =>
      rw [hw] at hone'
      exact absurd hone' id
    | done =>
      rw [hw] at hone'
      obtain ⟨event, hev⟩ := hone'
      have hpo : postedOf s.trace = [event] := by
        rw [← postedOf_workerTrace, hev]; rfl
      exact Or.inr ⟨rfl, event, hev, hpo⟩
  · intro pc hw
    unfold OneShotOK at hone'
    rw [hw] at hone'
    exact hone'
  · intro hmem
    have hmem' : TimerObs.wait ∈ workerTrace s.trace := by
      simp only [workerTrace, List.mem_filter]
      exact ⟨hmem, trivial⟩
    unfold OneShotOK at hone'
    cases hw : s.wpc with
    | sleep => rw [hw] at hone'; rw [hone'] at hmem'; cases hmem'
    | post e => rw [hw] at hone'; rw [hone'] at hmem'; cases hmem'
    | wait pc => rw [hw] at hone'; exact hone'
    | done =>
      rw [hw] at hone'
      obtain ⟨event, hev⟩ := hone'
      rw [hev] at hmem'
      simp at hmem'

theorem examplePlatform_ok : PlatformOK examplePlatform :=
  ⟨Heap.bump_ok, Heap.bump_ok, Heap.bump_ok, Heap.bump_ok, Heap.bump_ok, Heap.bump_ok, rfl⟩

/-- Instance of `kdSetTimer_oneshot` for thread 1 of `twoThreads`, with one run
evaluated: the worker posts event 1 (kind 42, user pointer 77) to thread 1 and
returns; a cancel by thread 1 then posts its QUIT event to the worker, which
never reads it, joins and returns `0`. -/
theorem kdSetTimer_oneshot_witness :
    PlatformOK examplePlatform ∧ twoThreads.__kd_window = KD_NULL ∧
    twoThreads.threads.read 1 = some __kdThreadInit ∧
    QueueCells twoThreads.nodes __kdThreadInit.eventqueue [] ∧
    (∃ s0, TimerSys.start examplePlatform twoThreads 1 1000 KD_TIMER_ONESHOT 77 = some s0 ∧
      s0.wpc = TimerPC.sleep ∧ s0.trace = [] ∧
      ∀ sched, ∃ s, TimerSys.run examplePlatform sched s0 = some s ∧
        s.proc.__kd_window = KD_NULL ∧
        s.proc.queueOf 1 = some (([] : List (Ptr × Ptr)).map Prod.snd ++ postedOf s.trace) ∧
        (∀ event ∈ postedOf s.trace,
          kindAt s.proc.events event = some (KD_EVENT_TIMER, 77)) ∧
        ((s.wpc ≠ TimerPC.done ∧ workerTrace s.trace = [] ∧ postedOf s.trace = []) ∨
          (s.wpc = TimerPC.done ∧ ∃ event,
            workerTrace s.trace = [TimerObs.posted event, TimerObs.exited] ∧
            postedOf s.trace = [event])) ∧
        (∀ pc, s.wpc ≠ TimerPC.wait pc) ∧ TimerObs.wait ∉ s.trace ∧
        ∃ s', TimerSys.run examplePlatform [TimerLabel.worker, TimerLabel.worker] s = some s' ∧
          s'.wpc = TimerPC.done) ∧
    (oneshotExample.bind (TimerSys.run examplePlatform
        [TimerLabel.worker, TimerLabel.cancel, TimerLabel.worker, TimerLabel.cancel,
          TimerLabel.cancel, TimerLabel.worker])).map (fun s => (s.wpc, s.cpc, s.trace)) =
      some (TimerPC.done, CancelPC.returned 0,
        [TimerObs.posted 1, TimerObs.exited, TimerObs.quit 2, TimerObs.joined,
          TimerObs.returned 0]) ∧
    (oneshotExample.bind (TimerSys.run examplePlatform
        [TimerLabel.worker, TimerLabel.cancel, TimerLabel.worker, TimerLabel.cancel,
          TimerLabel.cancel, TimerLabel.worker])).bind (fun s => s.proc.queueOf 1) =
      some [1] ∧
    (oneshotExample.bind (TimerSys.run examplePlatform
        [TimerLabel.worker, TimerLabel.cancel, TimerLabel.worker, TimerLabel.cancel,
          TimerLabel.cancel, TimerLabel.worker])).bind (fun s => s.proc.events.read 1) =
      some ⟨1000, KD_EVENT_TIMER, 77⟩ :=
  ⟨examplePlatform_ok, rfl, by decide, kdQueueCreateVEN_cells _,
    kdSetTimer_oneshot examplePlatform examplePlatform_ok twoThreads 1 __kdThreadInit [] 1000 77
      rfl (by decide) (kdQueueCreateVEN_cells _),
    by decide, by decide, by decide⟩

theorem timerInv_returned {L0 : List Ptr} {interval mode : Int} {u : Ptr} {s : TimerSys}
    (h : TimerInv L0 interval mode u s) {r : Int} (hr : s.cpc = CancelPC.returned r) :
    TimerDone L0 mode u s := by
  rcases h with ⟨g, h⟩ | h
  · have := h.cok
    simp only [CancelOK, hr] at this
  · exact h

theorem timerInv_join {L0 : List Ptr} {interval mode : Int} {u : Ptr} {s : TimerSys}
    (h : TimerInv L0 interval mode u s) (hj : s.cpc = CancelPC.join) :
    ∃ q, TimerObs.quit q ∈ s.trace := by
  rcases h with ⟨g, h⟩ | h
  · have := h.cok
    simpa only [CancelOK, hj] using this
  · exact h.quit

theorem timerInv_pending {L0 : List Ptr} {interval mode : Int} {u : Ptr} {s : TimerSys}
    (h : TimerInv L0 interval mode u s) (hj : s.cpc = CancelPC.join)
    (hs : stopped s.trace = false) :
    ∃ q, kindAt s.proc.events q = some (KD_EVENT_QUIT, KD_NULL) ∧
      (s.proc.queueOf s.worker).map (fun L => L ++ heldOf s.wpc) = some [q] := by
  rcases h with ⟨g, h⟩ | h
  · have hlen := h.wql
    rw [if_pos ⟨hj, hs⟩] at hlen
    obtain ⟨q, hq⟩ := List.length_eq_one.1 hlen
    refine ⟨q, h.wqk q (by rw [hq]; simp), ?_⟩
    rw [Process.queueOf_cells h.hw h.qw, Option.map_some', hq]
  · have := h.cpc
    rw [hj] at this
    cases this

/-- C15: `kdCancelTimer(timer)` called by a thread other than `timer->originthr`
returns `-1` and sets the last error of the caller to `KD_EINVAL`; nothing
else changes: no event is created or posted, the worker is not joined, and
the timer and its payload are as before.  Called by the thread that set the
timer (no window existing), `kdCancelTimer` returns only the value `0`, under every schedule of the
worker and the caller, and from every point of a run the schedule
`finishSchedule` lets it return. -/
theorem kdCancelTimer_origin (P : Platform) (hP : PlatformOK P) :
    (∀ (p : Process) (self timer : Ptr) (record : KDTimer) (t : KDThread),
      p.timers.read timer = some record → record.originthr ≠ self →
      p.threads.read self = some t →
      kdCancelTimer_begin P p self timer =
        some ({ p with threads := p.threads.write self { t with lasterror := KD_EINVAL } },
          CancelStage.returned (-1))) ∧
    (∀ (s : TimerSys) (record : KDTimer) (t : KDThread), s.cpc = CancelPC.ready →
      s.proc.timers.read s.timer = some record → record.originthr ≠ s.caller →
      s.proc.threads.read s.caller = some t →
      s.step P TimerLabel.cancel =
        some { s with
          proc := { s.proc with
            threads := s.proc.threads.write s.caller { t with lasterror := KD_EINVAL } },
          cpc := CancelPC.returned (-1), trace := s.trace ++ [TimerObs.returned (-1)] }) ∧
    (∀ (p : Process) (self : Ptr) (tc : KDThread) (cells : List (Ptr × Ptr))
      (interval mode : Int) (u : Ptr), p.__kd_window = KD_NULL →
      p.threads.read self = some tc → QueueCells p.nodes tc.eventqueue cells →
      (mode = KD_TIMER_ONESHOT ∨ mode = KD_TIMER_PERIODIC_AVERAGE ∨
        mode = KD_TIMER_PERIODIC_MINIMUM) →
      ∃ s0, TimerSys.start P p self interval mode u = some s0 ∧
        s0.caller = self ∧ s0.cpc = CancelPC.ready ∧
        (s0.proc.timers.read s0.timer).map KDTimer.originthr = some self ∧
        ∀ sched, ∃ s, TimerSys.run P sched s0 = some s ∧
          (∀ r, s.cpc = CancelPC.returned r → r = 0) ∧
          ∃ s', TimerSys.run P finishSchedule s = some s' ∧
            s'.cpc = CancelPC.returned 0) := by
  refine ⟨?_, ?_, ?_⟩
  · intro p self timer record t hr ho ht
    simp only [kdCancelTimer_begin, hr, ho, ne_eq, not_false_eq_true, if_true,
      Process.kdSetError_eq ht, Option.map_some']
  · intro s record t hpc hr ho ht
    simp only [TimerSys.step, hpc, kdCancelTimer_begin, hr, ho, ne_eq, not_false_eq_true,
      if_true, Process.kdSetError_eq ht, Option.map_some']
  · intro p self tc cells interval mode u hwin ht hq hmode
    obtain ⟨s0, g, hstart, -, -, hlive, -, hc0, -, hcaller⟩ :=
      timerSys_start hP hwin ht hq interval mode u hmode
    refine ⟨s0, hstart, hcaller, hc0, ?_, ?_⟩
    · rw [hlive.tm, ← hcaller]
      rfl
    · intro sched
      obtain ⟨s, hrun, hinv⟩ := timerInv_run hP sched s0 (Or.inl ⟨g, hlive⟩)
      obtain ⟨s', hrun', hdone⟩ := timerInv_finish hP hinv
      refine ⟨s, hrun, ?_, s', hrun', hdone.cpc⟩
      intro r hr
      have := (timerInv_returned hinv hr).cpc
      rw [hr] at this
      cases this
      rfl

/-- C16: a periodic timer set by a thread with a well-formed queue, no window
existing, its worker and a `kdCancelTimer` call by the creator, under every
schedule: every step
runs without fault; the worker posts no event after it has dequeued a QUIT
event nor after `kdCancelTimer` has returned (`ordered`), and has returned
from its handler once it has dequeued the QUIT event; `kdCancelTimer` is in
its join only after it posted the QUIT event, which is then the one event in
the queue of the worker (or in its hands during the pump) until the worker
dequeues it; `kdCancelTimer` returns only `0`, and only when the worker has
returned; after that return no step changes the state; the
queue of the creator is at every point its former content followed by the
events the worker posted, all of kind `KD_EVENT_TIMER` with user pointer `u`;
and from every point of a run the schedule `finishSchedule` lets
`kdCancelTimer` return. -/
theorem kdCancelTimer_quiesces (P : Platform) (hP : PlatformOK P) (p : Process) (self : Ptr)
    (tc : KDThread) (cells : List (Ptr × Ptr)) (interval mode : Int) (u : Ptr)
    (hwin : p.__kd_window = KD_NULL) (ht : p.threads.read self = some tc)
    (hq : QueueCells p.nodes tc.eventqueue cells)
    (hmode : mode = KD_TIMER_PERIODIC_AVERAGE ∨ mode = KD_TIMER_PERIODIC_MINIMUM) :
    ∃ s0, TimerSys.start P p self interval mode u = some s0 ∧
      s0.wpc = TimerPC.sleep ∧ s0.cpc = CancelPC.ready ∧ s0.trace = [] ∧
      ∀ sched, ∃ s, TimerSys.run P sched s0 = some s ∧ s.proc.__kd_window = KD_NULL ∧
        ordered s.trace = true ∧
        (stopped s.trace = true → s.wpc = TimerPC.done) ∧
        (s.cpc = CancelPC.join → ∃ q, TimerObs.quit q ∈ s.trace) ∧
        (s.cpc = CancelPC.join → stopped s.trace = false →
          ∃ q, kindAt s.proc.events q = some (KD_EVENT_QUIT, KD_NULL) ∧
            (s.proc.queueOf s.worker).map (fun L => L ++ heldOf s.wpc) = some [q]) ∧
        (∀ r, s.cpc = CancelPC.returned r →
          r = 0 ∧ s.wpc = TimerPC.done ∧ (∃ q, TimerObs.quit q ∈ s.trace) ∧
          ∀ ls, TimerSys.run P ls s = some s) ∧
        s.proc.queueOf self = some (cells.map Prod.snd ++ postedOf s.trace) ∧
        (∀ event ∈ postedOf s.trace,
          kindAt s.proc.events event = some (KD_EVENT_TIMER, u)) ∧
        ∃ s', TimerSys.run P finishSchedule s = some s' ∧
          s'.cpc = CancelPC.returned 0 ∧ s'.wpc = TimerPC.done := by
  obtain ⟨s0, g, hstart, -, -, hlive, hw0, hc0, htr0, hcaller⟩ :=
    timerSys_start hP hwin ht hq interval mode u (Or.inr hmode)
  refine ⟨s0, hstart, hw0, hc0, htr0, ?_⟩
  intro sched
  obtain ⟨s, hrun, hinv⟩ := timerInv_run hP sched s0 (Or.inl ⟨g, hlive⟩)
  have hcs : s.caller = self := by
    rw [TimerSys.run_caller sched s0 s hrun, hcaller]
  obtain ⟨hqueue, hkinds, hord, hstop, -, hnowin, -⟩ := timerInv_queue hinv
  rw [hcs] at hqueue
  obtain ⟨s', hrun', hdone⟩ := timerInv_finish hP hinv
  refine ⟨s, hrun, hnowin, hord, hstop, timerInv_join hinv, timerInv_pending hinv, ?_, hqueue, hkinds,
    s', hrun', hdone.cpc, hdone.wpc⟩
  intro r hr
  have hd := timerInv_returned hinv hr
  have := hd.cpc
  rw [hr] at this
  cases this
  exact ⟨rfl, hd.wpc, hd.quit, fun ls => timerDone_run hd ls⟩

/-- Instance of `kdCancelTimer_origin` on the example platform, with the
foreign call evaluated: thread 2 calls `kdCancelTimer` on the timer set by
thread 1. -/
theorem kdCancelTimer_origin_witness :
    PlatformOK examplePlatform ∧
    ((∀ (p : Process) (self timer : Ptr) (record : KDTimer) (t : KDThread),
      p.timers.read timer = some record → record.originthr ≠ self →
      p.threads.read self = some t →
      kdCancelTimer_begin examplePlatform p self timer =
        some ({ p with threads := p.threads.write self { t with lasterror := KD_EINVAL } },
          CancelStage.returned (-1))) ∧
    (∀ (s : TimerSys) (record : KDTimer) (t : KDThread), s.cpc = CancelPC.ready →
      s.proc.timers.read s.timer = some record → record.originthr ≠ s.caller →
      s.proc.threads.read s.caller = some t →
      s.step examplePlatform TimerLabel.cancel =
        some { s with
          proc := { s.proc with
            threads := s.proc.threads.write s.caller { t with lasterror := KD_EINVAL } },
          cpc := CancelPC.returned (-1), trace := s.trace ++ [TimerObs.returned (-1)] }) ∧
    (∀ (p : Process) (self : Ptr) (tc : KDThread) (cells : List (Ptr × Ptr))
      (interval mode : Int) (u : Ptr), p.__kd_window = KD_NULL →
      p.threads.read self = some tc → QueueCells p.nodes tc.eventqueue cells →
      (mode = KD_TIMER_ONESHOT ∨ mode = KD_TIMER_PERIODIC_AVERAGE ∨
        mode = KD_TIMER_PERIODIC_MINIMUM) →
      ∃ s0, TimerSys.start examplePlatform p self interval mode u = some s0 ∧
        s0.caller = self ∧ s0.cpc = CancelPC.ready ∧
        (s0.proc.timers.read s0.timer).map KDTimer.originthr = some self ∧
        ∀ sched, ∃ s, TimerSys.run examplePlatform sched s0 = some s ∧
          (∀ r, s.cpc = CancelPC.returned r → r = 0) ∧
          ∃ s', TimerSys.run examplePlatform finishSchedule s = some s' ∧
            s'.cpc = CancelPC.returned 0)) ∧
    (periodicExample.bind (fun s => kdCancelTimer_begin examplePlatform s.proc 2 s.timer)).map
        Prod.snd = some (CancelStage.returned (-1)) ∧
    (periodicExample.bind (fun s => kdCancelTimer_begin examplePlatform s.proc 2 s.timer)).map
        (fun r => (r.1.threads.read 2).map KDThread.lasterror) = some (some KD_EINVAL) ∧
    (periodicExample.bind (fun s => kdCancelTimer_begin examplePlatform s.proc 2 s.timer)).map
        (fun r => (r.1.timers, r.1.payloads, r.1.events, r.1.nodes)) =
      periodicExample.map
        (fun s => (s.proc.timers, s.proc.payloads, s.proc.events, s.proc.nodes)) ∧
    (periodicExample.bind (TimerSys.run examplePlatform finishSchedule)).map
        (fun s => (s.wpc, s.cpc)) = some (TimerPC.done, CancelPC.returned 0) :=
  ⟨examplePlatform_ok, kdCancelTimer_origin examplePlatform examplePlatform_ok,
    by decide, by decide, by decide, by decide⟩

/-- Instance of `kdCancelTimer_quiesces` for thread 1 of `twoThreads`, with the
run `cancelSchedule` evaluated: the worker posts events 1 and 2, the QUIT
event 3 is posted, the worker still posts event 4, then dequeues the QUIT
event and returns, and only then does `kdCancelTimer` return `0`; the queue of
thread 1 holds the three TIMER events. -/
theorem kdCancelTimer_quiesces_witness :
    PlatformOK examplePlatform ∧ twoThreads.__kd_window = KD_NULL ∧
    twoThreads.threads.read 1 = some __kdThreadInit ∧
    QueueCells twoThreads.nodes __kdThreadInit.eventqueue [] ∧
    (∃ s0, TimerSys.start examplePlatform twoThreads 1 1000 KD_TIMER_PERIODIC_AVERAGE 77 =
        some s0 ∧
      s0.wpc = TimerPC.sleep ∧ s0.cpc = CancelPC.ready ∧ s0.trace = [] ∧
      ∀ sched, ∃ s, TimerSys.run examplePlatform sched s0 = some s ∧
        s.proc.__kd_window = KD_NULL ∧ ordered s.trace = true ∧
        (stopped s.trace = true → s.wpc = TimerPC.done) ∧
        (s.cpc = CancelPC.join → ∃ q, TimerObs.quit q ∈ s.trace) ∧
        (s.cpc = CancelPC.join → stopped s.trace = false →
          ∃ q, kindAt s.proc.events q = some (KD_EVENT_QUIT, KD_NULL) ∧
            (s.proc.queueOf s.worker).map (fun L => L ++ heldOf s.wpc) = some [q]) ∧
        (∀ r, s.cpc = CancelPC.returned r →
          r = 0 ∧ s.wpc = TimerPC.done ∧ (∃ q, TimerObs.quit q ∈ s.trace) ∧
          ∀ ls, TimerSys.run examplePlatform ls s = some s) ∧
        s.proc.queueOf 1 = some (([] : List (Ptr × Ptr)).map Prod.snd ++ postedOf s.trace) ∧
        (∀ event ∈ postedOf s.trace,
          kindAt s.proc.events event = some (KD_EVENT_TIMER, 77)) ∧
        ∃ s', TimerSys.run examplePlatform finishSchedule s = some s' ∧
          s'.cpc = CancelPC.returned 0 ∧ s'.wpc = TimerPC.done) ∧
    (periodicExample.bind (TimerSys.run examplePlatform cancelSchedule)).map
        (fun s => (s.wpc, s.cpc, s.trace)) =
      some (TimerPC.done, CancelPC.returned 0,
        [TimerObs.posted 1, TimerObs.wait, TimerObs.dequeued KD_NULL none,
          TimerObs.posted 2, TimerObs.wait, TimerObs.dequeued KD_NULL none,
          TimerObs.quit 3, TimerObs.posted 4, TimerObs.wait,
          TimerObs.dequeued 3 (some KD_EVENT_QUIT), TimerObs.exited, TimerObs.joined,
          TimerObs.returned 0]) ∧
    (periodicExample.bind (TimerSys.run examplePlatform cancelSchedule)).bind
        (fun s => s.proc.queueOf 1) = some [1, 2, 4] ∧
    (periodicExample.bind (TimerSys.run examplePlatform
        (List.replicate 3 TimerLabel.worker ++ List.replicate 2 TimerLabel.cancel ++
          List.replicate 2 TimerLabel.worker ++ [TimerLabel.cancel]))).map
        (fun s => (s.wpc, s.cpc, s.trace)) =
      some (TimerPC.done, CancelPC.returned 0,
        [TimerObs.posted 1, TimerObs.wait, TimerObs.quit 2,
          TimerObs.dequeued 2 (some KD_EVENT_QUIT), TimerObs.exited, TimerObs.joined,
          TimerObs.returned 0]) :=
  ⟨examplePlatform_ok, rfl, by decide, kdQueueCreateVEN_cells _,
    kdCancelTimer_quiesces examplePlatform examplePlatform_ok twoThreads 1 __kdThreadInit []
      1000 KD_TIMER_PERIODIC_AVERAGE 77 rfl (by decide) (kdQueueCreateVEN_cells _) (Or.inl rfl),
    by decide, by decide, by decide⟩

/-! ### The last error is per thread -/

theorem Process.kdGetError_eq {p : Process} {self : Ptr} {t : KDThread}
    (ht : p.threads.read self = some t) : p.kdGetError self = some t.lasterror := by
  simp [Process.kdGetError, ht]

/-- C22: the last error is kept per thread.  The context `__kdThreadInit`
builds has last error 0; `kdSetError(e)` by a live thread `self` succeeds, and
afterwards `kdGetError()` by `self` returns `e`, `kdGetError()` by every other
thread returns what it returned before, the context of every other thread is
untouched, the context of `self` differs in `lasterror` only, and nothing else
of the process changes. -/
theorem kdSetError_per_thread (p : Process) (self : Ptr) (t : KDThread) (e : Int)
    (ht : p.threads.read self = some t) :
    __kdThreadInit.lasterror = 0 ∧
    ∃ p', p.kdSetError self e = some p' ∧
      p'.kdGetError self = some e ∧
      (∀ other, other ≠ self → p'.kdGetError other = p.kdGetError other) ∧
      (∀ other, other ≠ self → p'.threads.read other = p.threads.read other) ∧
      p'.threads.read self = some { t with lasterror := e } ∧
      p' = { p with threads := p'.threads } := by
  have h0 : self ≠ KD_NULL := by
    intro h; rw [h, Heap.read_null] at ht; cases ht
  refine ⟨rfl, _, Process.kdSetError_eq ht e, ?_, ?_, ?_, ?_, rfl⟩
  · simp only [Process.kdGetError]
    rw [Heap.read_write_same _ _ _ h0]; rfl
  · intro other ho
    simp only [Process.kdGetError]
    rw [Heap.read_write_ne _ _ _ _ ho]
  · intro other ho
    exact Heap.read_write_ne _ _ _ _ ho
  · exact Heap.read_write_same _ _ _ h0

theorem kdSetError_per_thread_witness :
    __kdThreadInit.lasterror = 0 ∧
    ∃ p', twoThreads.kdSetError 1 KD_EINVAL = some p' ∧
      p'.kdGetError 1 = some KD_EINVAL ∧
      (∀ other, other ≠ 1 → p'.kdGetError other = twoThreads.kdGetError other) ∧
      (∀ other, other ≠ 1 → p'.threads.read other = twoThreads.threads.read other) ∧
      p'.threads.read 1 = some { __kdThreadInit with lasterror := KD_EINVAL } ∧
      p' = { twoThreads with threads := p'.threads } :=
  kdSetError_per_thread twoThreads 1 __kdThreadInit KD_EINVAL (by decide)

/-! ### Detaching a thread (POSIX backend) -/

theorem kdThreadDetach_null_attr {s : PosixThreads} {thread : Ptr} {t : KDThreadNative}
    (ht : s.contexts.read thread = some t) (ha : t.attr = KD_NULL) :
    s.kdThreadDetach thread = none := by
  simp [PosixThreads.kdThreadDetach, ht, ha, Heap.read_null]

theorem kdThreadDetach_joinable_attr {s : PosixThreads} {thread : Ptr} {t : KDThreadNative}
    {a : KDThreadAttr} (ht : s.contexts.read thread = some t)
    (ha : s.attrs.read t.attr = some a)
    (hj : a.nativeattr = DetachState.PTHREAD_CREATE_JOINABLE) :
    s.kdThreadDetach thread = some (s, 0) := by
  simp [PosixThreads.kdThreadDetach, ht, ha, hj]

theorem kdThreadDetach_detached_attr {s : PosixThreads} {thread : Ptr} {t : KDThreadNative}
    {a : KDThreadAttr} (ht : s.contexts.read thread = some t)
    (ha : s.attrs.read t.attr = some a)
    (hj : a.nativeattr = DetachState.PTHREAD_CREATE_DETACHED) :
    s.kdThreadDetach thread =
      if (s.pthread_detach t.nativethread).2 ≠ 0 then
        some ({ (s.pthread_detach t.nativethread).1 with lasterror := KD_EINVAL }, -1)
      else some ((s.pthread_detach t.nativethread).1, 0) := by
  simp [PosixThreads.kdThreadDetach, ht, ha, hj]

/-- C21, the code on a joinable thread: `kdThreadCreate(attr, ...)` with no
attributes or with attributes in their joinable state returns a context whose
native thread is joinable.  `kdThreadDetach` on that context has no result
when there are no attributes (it reads the detach state through the null
`attr`), and with joinable attributes it returns `0` and leaves the state as
it was: `pthread_detach` is not called and the native thread stays joinable. -/
theorem kdThreadDetach_joinable_not_detached (kdMalloc : Heap KDThreadNative → Ptr)
    (hM : MallocOK kdMalloc) (s : PosixThreads) (attr : Ptr)
    (hj : attr = KD_NULL ∨ ∃ a, s.attrs.read attr = some a ∧
      a.nativeattr = DetachState.PTHREAD_CREATE_JOINABLE ∧
      a.detachstate = KD_THREAD_CREATE_JOINABLE) :
    ∃ s1 thread, s.kdThreadCreate kdMalloc 0 attr = some (s1, thread) ∧ thread ≠ KD_NULL ∧
      s1.contexts.read thread = some ⟨s.native.length, attr⟩ ∧
      s1.native[s.native.length]? = some DetachState.PTHREAD_CREATE_JOINABLE ∧
      s1.detachCalls = s.detachCalls ∧
      (attr = KD_NULL → s1.kdThreadDetach thread = none) ∧
      (attr ≠ KD_NULL → s1.kdThreadDetach thread = some (s1, 0)) := by
  have hne := (hM s.contexts).1
  have hcreate : s.kdThreadCreate kdMalloc 0 attr =
      some (⟨s.attrs, s.contexts.write (kdMalloc s.contexts) ⟨s.native.length, attr⟩,
        s.native ++ [DetachState.PTHREAD_CREATE_JOINABLE], s.detachCalls, s.lasterror⟩,
        kdMalloc s.contexts) := by
    rcases hj with h0 | ⟨a, ha, hn, hd⟩
    · subst h0
      simp only [PosixThreads.kdThreadCreate, if_neg hne]
      simp [PosixThreads.pthread_create]
    · have ha0 : attr ≠ KD_NULL := by
        intro h; rw [h, Heap.read_null] at ha; cases ha
      have hdd : ¬ (a.detachstate = KD_THREAD_CREATE_DETACHED) := by
        rw [hd]; decide
      simp only [PosixThreads.kdThreadCreate, if_neg hne]
      simp [PosixThreads.pthread_create, ha, ha0, hdd, hn]
  refine ⟨_, _, hcreate, hne, Heap.read_write_same _ _ _ hne, by simp, rfl, ?_, ?_⟩
  · intro h0
    exact kdThreadDetach_null_attr (Heap.read_write_same _ _ _ hne) h0
  · intro h0
    rcases hj with h | ⟨a, ha, hn, _⟩
    · exact absurd h h0
    · exact kdThreadDetach_joinable_attr (Heap.read_write_same _ _ _ hne) ha hn

theorem kdThreadDetach_joinable_not_detached_witness :
    ∃ s1 thread, joinableAttr.kdThreadCreate Heap.bump 0 1 = some (s1, thread) ∧
      thread ≠ KD_NULL ∧
      s1.contexts.read thread = some ⟨joinableAttr.native.length, 1⟩ ∧
      s1.native[joinableAttr.native.length]? = some DetachState.PTHREAD_CREATE_JOINABLE ∧
      s1.detachCalls = joinableAttr.detachCalls ∧
      ((1 : Ptr) = KD_NULL → s1.kdThreadDetach thread = none) ∧
      ((1 : Ptr) ≠ KD_NULL → s1.kdThreadDetach thread = some (s1, 0)) :=
  kdThreadDetach_joinable_not_detached Heap.bump
    (fun m => ⟨by simp [Heap.bump, KD_NULL], by simp [Heap.bump, Heap.read]⟩) joinableAttr 1
    (Or.inr ⟨⟨DetachState.PTHREAD_CREATE_JOINABLE, KD_THREAD_CREATE_JOINABLE, 100000⟩,
      by decide, rfl, rfl⟩)

/-! ### Host errors and their translation -/

theorem nat_lor_land_right (a b : Nat) : (a ||| b) &&& b = b := by
  apply Nat.eq_of_testBit_eq
  intro i
  simp only [Nat.testBit_land, Nat.testBit_lor]
  cases a.testBit i <;> cases b.testBit i <;> rfl

theorem nat_lor_land_of {a k : Nat} (b : Nat) (h : a &&& k = k) : (a ||| b) &&& k = k := by
  apply Nat.eq_of_testBit_eq
  intro i
  have hi : (a &&& k).testBit i = k.testBit i := by rw [h]
  simp only [Nat.testBit_land, Nat.testBit_lor] at hi ⊢
  revert hi
  cases a.testBit i <;> cases b.testBit i <;> cases k.testBit i <;> simp

theorem allowedOf_foldl_nonneg : ∀ (S : List Int) (init : Int), 0 ≤ init →
    (∀ x ∈ S, 0 ≤ x) → 0 ≤ S.foldl Int.lor init
  | [], _, h, _ => h
  | x :: S, init, h, hS => by
    obtain ⟨a, rfl⟩ := Int.eq_ofNat_of_zero_le h
    obtain ⟨b, rfl⟩ := Int.eq_ofNat_of_zero_le (hS x (List.mem_cons_self _ _))
    exact allowedOf_foldl_nonneg S _ (Int.ofNat_nonneg (a ||| b))
      (fun y hy => hS y (List.mem_cons_of_mem _ hy))

theorem allowedOf_foldl_member : ∀ (S : List Int) (init k : Int), 0 ≤ init → 0 ≤ k →
    (∀ x ∈ S, 0 ≤ x) → (Int.land init k = k ∨ k ∈ S) →
    Int.land (S.foldl Int.lor init) k = k
  | [], _, _, _, _, _, h => by
    rcases h with h | h
    · exact h
    · cases h
  | x :: S, init, k, hi, hk, hS, h => by
    obtain ⟨a, rfl⟩ := Int.eq_ofNat_of_zero_le hi
    obtain ⟨b, rfl⟩ := Int.eq_ofNat_of_zero_le (hS x (List.mem_cons_self _ _))
    obtain ⟨c, rfl⟩ := Int.eq_ofNat_of_zero_le hk
    refine allowedOf_foldl_member S _ _ (Int.ofNat_nonneg (a ||| b)) (Int.ofNat_nonneg c)
      (fun y hy => hS y (List.mem_cons_of_mem _ hy)) ?_
    rcases h with h | h
    · left
      have h1 : a &&& c = c := Int.ofNat.inj h
      exact congrArg Int.ofNat (nat_lor_land_of b h1)
    · rcases List.mem_cons.1 h with h | h
      · left
        have h1 : c = b := Int.ofNat.inj h
        subst h1
        exact congrArg Int.ofNat (nat_lor_land_right a c)
      · right; exact h

theorem allowedOf_nonneg {S : List Int} (hS : ∀ x ∈ S, 0 ≤ x) : 0 ≤ allowedOf S :=
  allowedOf_foldl_nonneg S 0 (le_refl 0) hS

theorem allowedOf_member {S : List Int} (hS : ∀ x ∈ S, 0 ≤ x) {k : Int} (hk : k ∈ S) :
    Int.land (allowedOf S) k = k :=
  allowedOf_foldl_member S 0 k (le_refl 0) (hS k hk) hS (Or.inr hk)

/-- The loop of `kdSetErrorPlatformVEN` finds an `i` exactly when every bit of
the kind is a bit of `allowed`. -/
theorem kdSetErrorPlatformVEN_loop_iff {k allowed : Int} (hk1 : KD_EACCES ≤ k)
    (hk2 : k ≤ KD_ETRY_AGAIN) (ha : 0 ≤ allowed) :
    kdSetErrorPlatformVEN_loop k allowed = true ↔ Int.land allowed k = k := by
  obtain ⟨a, rfl⟩ := Int.eq_ofNat_of_zero_le ha
  have hk0 : (0 : Int) ≤ k := le_trans (by decide) hk1
  obtain ⟨c, rfl⟩ := Int.eq_ofNat_of_zero_le hk0
  simp only [kdSetErrorPlatformVEN_loop, List.any_eq_true, List.mem_range, decide_eq_true_eq]
  simp only [KD_EACCES, KD_ETRY_AGAIN] at hk1 hk2 ⊢
  constructor
  · rintro ⟨j, _, hj⟩
    have h1 : c = a &&& (1 + j) := by
      have : ((c : Nat) : Int) = ((a &&& (1 + j) : Nat) : Int) := by
        rw [hj]; rfl
      exact Int.ofNat.inj this
    have h2 : a &&& c = c := by
      rw [h1, ← Nat.and_assoc, Nat.and_self]
    exact congrArg Int.ofNat h2
  · intro h
    refine ⟨c - 1, ?_, ?_⟩
    · have : (37 - 1 + 1 : Int).toNat = 37 := by decide
      rw [this]; omega
    · have hc : (1 : Int) + ((c - 1 : Nat) : Int) = (c : Int) := by omega
      rw [hc]; exact h.symm

/-- What `kdSetErrorPlatformVEN` does with a host error that the `switch`
translates: the kind is stored when all its bits are bits of `allowed`, and
otherwise the process ends in the assertion. -/
theorem kdSetErrorPlatformVEN_eq (w : World) {error : Errno} {k : Int}
    (hsw : kdSetErrorPlatformVEN_switch error = some k) {allowed : Int} (ha : 0 ≤ allowed) :
    kdSetErrorPlatformVEN w error allowed =
      if Int.land allowed k = k then some (kdSetError w k) else none := by
  have hk : KD_EACCES ≤ k ∧ k ≤ KD_ETRY_AGAIN := by
    cases error <;> simp only [kdSetErrorPlatformVEN_switch, Option.some.injEq] at hsw <;>
      first
      | (subst hsw; decide)
      | cases hsw
  simp only [kdSetErrorPlatformVEN, hsw]
  by_cases h : Int.land allowed k = k
  · rw [if_pos h, if_pos ((kdSetErrorPlatformVEN_loop_iff hk.1 hk.2 ha).2 h)]
  · rw [if_neg h, if_neg (fun h1 => h ((kdSetErrorPlatformVEN_loop_iff hk.1 hk.2 ha).1 h1))]

/-- A kind that is a member of the set passed as `allowed` is stored. -/
theorem kdSetErrorPlatformVEN_member (w : World) {error : Errno} {k : Int}
    (hsw : kdSetErrorPlatformVEN_switch error = some k) {S : List Int}
    (hS : ∀ x ∈ S, 0 ≤ x) (hk : k ∈ S) :
    kdSetErrorPlatformVEN w error (allowedOf S) = some (kdSetError w k) := by
  rw [kdSetErrorPlatformVEN_eq w hsw (allowedOf_nonneg hS), if_pos (allowedOf_member hS hk)]

/-- C23, the code at the failing input: the set is the one `kdRename` passes,
of which `KD_ENOSPC` is not a member, and the host error is `ENOSPC`, which
the `switch` translates to `KD_ENOSPC`.  The call does not end in the
assertion: it stores `KD_ENOSPC` as the last error, because the members of the
set OR to 31 and `31 & 26 == 26`. -/
theorem kdSetErrorPlatformVEN_accepts_non_member (w : World) :
    KD_ENOSPC ∉ [KD_EACCES, KD_EBUSY, KD_EEXIST, KD_EINVAL, KD_EIO, KD_ENAMETOOLONG,
      KD_ENOENT, KD_ENOMEM] ∧
    kdSetErrorPlatformVEN_switch Errno.ENOSPC = some KD_ENOSPC ∧
    allowedOf [KD_EACCES, KD_EBUSY, KD_EEXIST, KD_EINVAL, KD_EIO, KD_ENAMETOOLONG,
      KD_ENOENT, KD_ENOMEM] = 31 ∧
    kdSetErrorPlatformVEN w Errno.ENOSPC
        (allowedOf [KD_EACCES, KD_EBUSY, KD_EEXIST, KD_EINVAL, KD_EIO, KD_ENAMETOOLONG,
          KD_ENOENT, KD_ENOMEM]) = some (kdSetError w KD_ENOSPC) ∧
    kdGetError (kdSetError w KD_ENOSPC) = KD_ENOSPC :=
  ⟨by decide, rfl, by decide, rfl, rfl⟩

/-- C24, the code on the renames of the rename test.  A failing host `rename`
makes `kdRename` return `-1` with last error `KD_ENOENT` for `ENOENT` and for
`ENOTDIR`, `KD_EACCES` for `EISDIR`, `KD_EINVAL` for `EINVAL`; a host `rename`
that returns 0 makes `kdRename` return 0 and change nothing.  For `ENOTEMPTY`,
the non-empty target directory, the last error is `KD_EEXIST`, which is not
the `KD_EBUSY` the test asserts. -/
theorem kdRename_nonempty_target (w : World) (errno : Errno) :
    kdRename w (-1) Errno.ENOENT = some (kdSetError w KD_ENOENT, -1) ∧
    kdRename w (-1) Errno.EISDIR = some (kdSetError w KD_EACCES, -1) ∧
    kdRename w (-1) Errno.ENOTDIR = some (kdSetError w KD_ENOENT, -1) ∧
    kdRename w (-1) Errno.EINVAL = some (kdSetError w KD_EINVAL, -1) ∧
    kdRename w 0 errno = some (w, 0) ∧
    kdRename w (-1) Errno.ENOTEMPTY = some (kdSetError w KD_EEXIST, -1) ∧
    kdGetError (kdSetError w KD_EEXIST) = KD_EEXIST ∧
    KD_EEXIST ≠ KD_EBUSY :=
  ⟨rfl, rfl, rfl, rfl, rfl, rfl, rfl, by decide⟩

/-! ### Sleeping -/

theorem toKDint32_congr (x : Int) : ∃ k : Int, toKDint32 x = x + k * 4294967296 :=
  ⟨-((x + 2147483648) / 4294967296), by simp only [toKDint32]; omega⟩

theorem toKDint32_small {r : Int} (h0 : 0 ≤ r) (h1 : r < 1000000000) (k : Int) :
    toKDint32 (r + k * 4294967296) = r := by
  simp only [toKDint32]; omega

/-- C26: for every timeout `t` with `0 <= t < 2^63` the `timespec` that
`kdThreadSleepVEN(t)` hands to the host sleep has `tv_sec = t / 10^9` and
`tv_nsec = t mod 10^9`, the casts and the 32-bit operations being taken modulo
`2^32`; so `tv_sec * 10^9 + tv_nsec = t` and `0 <= tv_nsec < 10^9`; and the
host sleep of `kdWaitEvent(t)` is called once, with that `timespec`. -/
theorem kdThreadSleepVEN_exact (t : Int) (h0 : 0 ≤ t) (h1 : t < 2 ^ 63) :
    kdThreadSleepVEN t = ⟨t / 1000000000, t % 1000000000⟩ ∧
    (kdThreadSleepVEN t).tv_sec * 1000000000 + (kdThreadSleepVEN t).tv_nsec = t ∧
    0 ≤ (kdThreadSleepVEN t).tv_nsec ∧ (kdThreadSleepVEN t).tv_nsec < 1000000000 ∧
    kdWaitEvent_sleep t = [⟨t / 1000000000, t % 1000000000⟩] := by
  have hsec : (kdThreadSleepVEN t).tv_sec = t / 1000000000 := by
    simp only [kdThreadSleepVEN]
    rw [Int.tmod_eq_emod h0 (by decide)]
    split
    · exact Int.tdiv_eq_ediv h0 (by decide)
    · rw [Int.tdiv_eq_ediv (by omega) (by decide)]; omega
  have hnsec : (kdThreadSleepVEN t).tv_nsec = t % 1000000000 := by
    have hs : (kdThreadSleepVEN t).tv_nsec =
        toKDint32 (toKDint32 t -
          toKDint32 (toKDint32 (kdThreadSleepVEN t).tv_sec * 1000000000)) := rfl
    rw [hs, hsec]
    obtain ⟨a, ha⟩ := toKDint32_congr t
    obtain ⟨b, hb⟩ := toKDint32_congr (t / 1000000000)
    obtain ⟨c, hc⟩ := toKDint32_congr (toKDint32 (t / 1000000000) * 1000000000)
    have hr0 : 0 ≤ t % 1000000000 := by omega
    have hr1 : t % 1000000000 < 1000000000 := by omega
    have hx : toKDint32 t - toKDint32 (toKDint32 (t / 1000000000) * 1000000000) =
        t % 1000000000 + (a - b * 1000000000 - c) * 4294967296 := by
      rw [hc, hb, ha]; ring_nf; omega
    rw [hx]
    exact toKDint32_small hr0 hr1 _
  have heq : kdThreadSleepVEN t = ⟨t / 1000000000, t % 1000000000⟩ := by
    rw [← hsec, ← hnsec]
  have hne : t ≠ -1 := by omega
  refine ⟨heq, ?_, ?_, ?_, ?_⟩
  · rw [hsec, hnsec]; omega
  · rw [hnsec]; omega
  · rw [hnsec]; omega
  · simp only [kdWaitEvent_sleep, if_pos hne, heq]

theorem kdThreadSleepVEN_exact_witness :
    kdThreadSleepVEN 5000000007 = ⟨5000000007 / 1000000000, 5000000007 % 1000000000⟩ ∧
    (kdThreadSleepVEN 5000000007).tv_sec * 1000000000 +
      (kdThreadSleepVEN 5000000007).tv_nsec = 5000000007 ∧
    0 ≤ (kdThreadSleepVEN 5000000007).tv_nsec ∧
    (kdThreadSleepVEN 5000000007).tv_nsec < 1000000000 ∧
    kdWaitEvent_sleep 5000000007 = [⟨5000000007 / 1000000000, 5000000007 % 1000000000⟩] :=
  kdThreadSleepVEN_exact 5000000007 (by decide) (by decide)

/-! ### The frame of `kdInstallCallback` -/

theorem dispatchRef_loop (f : Ptr) {K : Int} (U : Ptr) (ty : Int) (up : Ptr) :
    ∀ (cbs r : List __KDCallback), kdInstallCallback_loop f K U cbs = some r →
    (up ≠ U ∨ (ty ≠ K ∧ ∀ cb, cbs.find? (keyMatches K U) = some cb → cb.eventtype ≠ 0)) →
    dispatchRef r ty up = dispatchRef cbs ty up
  | [], r, hl, _ => by simp [kdInstallCallback_loop] at hl
  | cb :: cbs, r, hl, h => by
    simp only [kdInstallCallback_loop] at hl
    cases hm : keyMatches K U cb with
    | true =>
      have hkey : (cb.eventtype = K ∨ cb.eventtype = 0) ∧ cb.eventuserptr = U := by
        simpa [keyMatches] using hm
      rw [if_pos hkey] at hl
      cases hl
      have hnokey : keyMatches ty up cb = false := by
        simp only [keyMatches, Bool.and_eq_false_imp, Bool.or_eq_true, decide_eq_true_eq,
          decide_eq_false_iff_not]
        intro hty hup
        rcases h with h | h
        · exact h (hup.symm.trans hkey.2)
        · have h0 : cb.eventtype ≠ 0 := h.2 cb (by simp [List.find?_cons, hm])
          rcases hkey.1 with hk | hk
          · rcases hty with hty | hty
            · exact h.1 (hty.symm.trans hk)
            · exact h0 hty
          · exact h0 hk
      have h1 : callbackMatches ty up cb = false := by
        rw [callbackMatches_eq, hnokey, Bool.and_false]
      have h2 : callbackMatches ty up { cb with func := f } = false := by
        rw [callbackMatches_eq]
        have : keyMatches ty up { cb with func := f } = false := hnokey
        rw [this, Bool.and_false]
      simp only [dispatchRef, List.find?_cons, h1, h2]
    | false =>
      have hkey : ¬ ((cb.eventtype = K ∨ cb.eventtype = 0) ∧ cb.eventuserptr = U) := by
        simpa [keyMatches] using hm
      rw [if_neg hkey] at hl
      obtain ⟨r1, hr1, hr⟩ := Option.map_eq_some'.1 hl
      subst hr
      simp only [dispatchRef, List.find?_cons]
      cases callbackMatches ty up cb with
      | true => rfl
      | false =>
        refine dispatchRef_loop f U ty up cbs r1 hr1 ?_
        rcases h with h | h
        · exact Or.inl h
        · refine Or.inr ⟨h.1, fun c hc => h.2 c ?_⟩
          simp only [List.find?_cons, hm]
          exact hc

/-- The entry a `kdInstallCallback(f, K, U)` that returns writes is the first
one passing the test of its loop, or the first entry of an empty table; when
the event has another user pointer than `U`, or another kind than `K` while
that entry is not a wildcard entry, the first entry matching the event is the
same before and after. -/
theorem dispatchRef_installCallback (f : Ptr) {K : Int} (hK : K ≠ 0) (U : Ptr) (ty : Int)
    (up : Ptr) (cbs cbs1 : List __KDCallback) (hi : installCallback cbs f K U = some cbs1)
    (h : up ≠ U ∨ (ty ≠ K ∧ ∀ cb, cbs.find? (keyMatches K U) = some cb → cb.eventtype ≠ 0)) :
    dispatchRef cbs1 ty up = dispatchRef cbs ty up := by
  simp only [installCallback] at hi
  cases hl : kdInstallCallback_loop f K U cbs with
  | some r =>
    rw [hl] at hi
    simp only [Option.some.injEq] at hi
    rw [← hi]
    exact dispatchRef_loop f U ty up cbs r hl h
  | none =>
    rw [hl] at hi
    simp only at hi
    split at hi
    · rename_i hlt
      cases hi
      have h0 : cbs = [] := List.length_eq_zero.1 (by simp only [callbacksCapacity] at hlt; omega)
      subst h0
      have hno : callbackMatches ty up ⟨f, K, U⟩ = false := by
        simp only [callbackMatches, Bool.and_eq_false_imp, decide_eq_true_eq, Bool.or_eq_true,
          decide_eq_false_iff_not]
        intro _ hty hup
        rcases h with h | h
        · exact h hup.symm
        · rcases hty with hty | hty
          · exact h.1 hty.symm
          · exact hK hty
      simp [dispatchRef, hno]
    · cases hi

/-- When `kdInstallCallback` does not return: the table is not empty and no
entry passes the test of the loop, so the new entry would be stored past the
end of the array `callbacks`. -/
theorem kdInstallCallback_eq_none_iff (w : World) (f : Ptr) (K : Int) (U : Ptr) :
    kdInstallCallback w f K U = none ↔
      w.thread.callbacks ≠ [] ∧ ∀ c ∈ w.thread.callbacks, keyMatches K U c = false := by
  simp only [kdInstallCallback, Option.map_eq_none', installCallback]
  cases hl : kdInstallCallback_loop f K U w.thread.callbacks with
  | some r =>
    simp only [reduceCtorEq, false_iff, not_and]
    intro _ hall
    rw [kdInstallCallback_loop_eq_none.2 hall] at hl
    cases hl
  | none =>
    have hall := kdInstallCallback_loop_eq_none.1 hl
    simp only [callbacksCapacity, Nat.lt_one_iff, List.length_eq_zero]
    constructor
    · intro h
      refine ⟨fun hc => ?_, hall⟩
      rw [if_pos hc] at h
      cases h
    · intro h
      rw [if_neg h.1]

/-- C28, amended: a `kdInstallCallback(f, K, U)` with `K != 0` that returns
leaves the dispatch of an event unchanged when the user pointer of the event
differs from `U`, and also when its kind differs from `K` provided the entry
the call writes (the first entry of the table whose user pointer is `U` and
whose kind is `K` or the wildcard) is not a wildcard entry.  The entry
selected for the event is the same, and `__kdExecCallback` on the event makes
the same call, returns the same result and leaves the same heaps. -/
theorem kdInstallCallback_frame_guarded (w : World) (f : Ptr) (K : Int) (U : Ptr)
    (event : Ptr) (e : KDEvent) (he : w.events.read event = some e) (hK : K ≠ 0)
    (w1 : World) (hi : kdInstallCallback w f K U = some (w1, 0))
    (h : e.userptr ≠ U ∨ (e.type ≠ K ∧
      ∀ cb, w.thread.callbacks.find? (keyMatches K U) = some cb → cb.eventtype ≠ 0)) :
    dispatchRef w1.thread.callbacks e.type e.userptr =
      dispatchRef w.thread.callbacks e.type e.userptr ∧
    (__kdExecCallback w1 event).map (fun r => (r.1.calls, r.1.events, r.1.nodes, r.2)) =
      (__kdExecCallback w event).map (fun r => (r.1.calls, r.1.events, r.1.nodes, r.2)) := by
  simp only [kdInstallCallback, Option.map_eq_some', Prod.mk.injEq, and_true] at hi
  obtain ⟨cbs1, hinst, hw1⟩ := hi
  subst hw1
  have hd := dispatchRef_installCallback f hK U e.type e.userptr w.thread.callbacks cbs1 hinst h
  refine ⟨hd, ?_⟩
  have he' : (⟨w.nodes, w.events, { w.thread with callbacks := cbs1 }, w.calls,
    w.tick⟩ : World).events.read event = some e := he
  rw [execCallback_eq_ref _ event e he', execCallback_eq_ref w event e he]
  simp only [Option.map_some', execCallbackRef]
  have hd' : dispatchRef cbs1 e.type e.userptr =
      dispatchRef w.thread.callbacks e.type e.userptr := hd
  rw [hd']
  cases dispatchRef w.thread.callbacks e.type e.userptr with
  | none => rfl
  | some cb => rfl

/-- Instance of `kdInstallCallback_frame_guarded`: in the table
`[(100, KD_EVENT_QUIT, null)]`, reached by one install in the empty table,
`kdInstallCallback(300, KD_EVENT_QUIT, null)` rewrites that entry and the
event 1 of kind 45 is dispatched as before. -/
theorem kdInstallCallback_frame_guarded_witness :
    dispatchRef ({ exampleTableEvent with thread := { exampleTableEvent.thread with
        callbacks := [⟨300, KD_EVENT_QUIT, KD_NULL⟩] } } : World).thread.callbacks 45 KD_NULL =
      dispatchRef exampleTableEvent.thread.callbacks 45 KD_NULL ∧
    (__kdExecCallback { exampleTableEvent with thread := { exampleTableEvent.thread with
        callbacks := [⟨300, KD_EVENT_QUIT, KD_NULL⟩] } } 1).map
        (fun r => (r.1.calls, r.1.events, r.1.nodes, r.2)) =
      (__kdExecCallback exampleTableEvent 1).map
        (fun r => (r.1.calls, r.1.events, r.1.nodes, r.2)) :=
  kdInstallCallback_frame_guarded exampleTableEvent 300 KD_EVENT_QUIT KD_NULL 1
    ⟨0, 45, KD_NULL⟩ (by decide) (by decide)
    { exampleTableEvent with thread := { exampleTableEvent.thread with
        callbacks := [⟨300, KD_EVENT_QUIT, KD_NULL⟩] } }
    (by decide)
    (Or.inr ⟨by decide, fun cb hcb => by
      have h1 : cb = ⟨100, KD_EVENT_QUIT, KD_NULL⟩ := by
        have h2 : exampleTableEvent.thread.callbacks.find? (keyMatches KD_EVENT_QUIT KD_NULL) =
            some ⟨100, KD_EVENT_QUIT, KD_NULL⟩ := by decide
        rw [h2] at hcb
        exact (Option.some.inj hcb).symm
      rw [h1]; decide⟩)

/-- C28, the counterexample: the table `wildcardTable`, the one wildcard entry
`(200, 0, null)`, is reached by one `kdInstallCallback` in the empty table of a
new thread, a store inside the array `callbacks`.
`kdInstallCallback(300, 44, null)` then returns and overwrites the function of
the wildcard entry, so the event 1 of kind 45, which is not 44, is dispatched
to 200 before the call and to 300 after it. -/
theorem kdInstallCallback_wildcard_captured :
    ReachableTable wildcardTable ∧ wildcardTable = [⟨200, 0, KD_NULL⟩] ∧
    wildcardWorld.thread.callbacks = wildcardTable ∧
    (kindAt wildcardWorld.events 1 = some (45, KD_NULL) ∧ (45 : Int) ≠ 44 ∧ (44 : Int) ≠ 0) ∧
    (dispatchRef wildcardTable 45 KD_NULL).map (fun cb => cb.func) = some 200 ∧
    installCallback wildcardTable 300 44 KD_NULL = some [⟨300, 0, KD_NULL⟩] ∧
    (dispatchRef [⟨300, 0, KD_NULL⟩] 45 KD_NULL).map (fun cb => cb.func) = some 300 ∧
    (__kdExecCallback wildcardWorld 1).map (fun r => (r.1.calls, r.2)) =
      some ([(200, 1)], true) ∧
    ((kdInstallCallback wildcardWorld 300 44 KD_NULL).bind
      (fun r => __kdExecCallback r.1 1)).map (fun r => (r.1.calls, r.2)) =
        some ([(300, 1)], true) :=
  ⟨ReachableTable.install [] _ 200 0 KD_NULL ReachableTable.init rfl,
    by decide, by decide, by decide, by decide, by decide, by decide, by decide, by decide⟩

/-! ### Atomics -/

theorem toKDint32_add_neg (a v : Int) : toKDint32 (a + toKDint32 (-v)) = toKDint32 (a - v) := by
  simp only [toKDint32]; omega

/-- The four backends other than `KD_ATOMIC_BUILTIN` return the value held
before the call and leave the sum, respectively the difference, modulo
`2^32`. -/
theorem kdAtomicIntFetch_old (object : KDAtomicIntVEN) (v : Int) :
    (∀ b, b ≠ AtomicBackend.KD_ATOMIC_BUILTIN →
      kdAtomicIntFetchAddVEN b object v = (⟨toKDint32 (object.value + v)⟩, object.value)) ∧
    (∀ b, b ≠ AtomicBackend.KD_ATOMIC_BUILTIN →
      kdAtomicIntFetchSubVEN b object v = (⟨toKDint32 (object.value - v)⟩, object.value)) := by
  constructor
  · intro b hb
    cases b <;> first | rfl | exact absurd rfl hb
  · intro b hb
    cases b
    · rfl
    · simp only [kdAtomicIntFetchSubVEN, _InterlockedExchangeAdd, toKDint32_add_neg]
    · exact absurd rfl hb
    · rfl
    · rfl

/-- C29, the code at the failing input: an object holding 5 and the value 3.
Under `KD_ATOMIC_C11`, `KD_ATOMIC_WIN32`, `KD_ATOMIC_SYNC` and
`KD_ATOMIC_MUTEX` `kdAtomicIntFetchAddVEN` returns 5, the value held before,
and leaves 8; under `KD_ATOMIC_BUILTIN` it leaves 8 and returns 8, the value
after the addition.  Likewise `kdAtomicIntFetchSubVEN` returns 5 and leaves 2
under the four, and returns 2 under `KD_ATOMIC_BUILTIN`; the same holds of
every object and value whose sum, respectively difference, differs from the
object modulo `2^32`. -/
theorem kdAtomicIntFetch_builtin_returns_new :
    kdAtomicIntFetchAddVEN AtomicBackend.KD_ATOMIC_C11 ⟨5⟩ 3 = (⟨8⟩, 5) ∧
    kdAtomicIntFetchAddVEN AtomicBackend.KD_ATOMIC_WIN32 ⟨5⟩ 3 = (⟨8⟩, 5) ∧
    kdAtomicIntFetchAddVEN AtomicBackend.KD_ATOMIC_SYNC ⟨5⟩ 3 = (⟨8⟩, 5) ∧
    kdAtomicIntFetchAddVEN AtomicBackend.KD_ATOMIC_MUTEX ⟨5⟩ 3 = (⟨8⟩, 5) ∧
    kdAtomicIntFetchAddVEN AtomicBackend.KD_ATOMIC_BUILTIN ⟨5⟩ 3 = (⟨8⟩, 8) ∧
    kdAtomicIntFetchSubVEN AtomicBackend.KD_ATOMIC_C11 ⟨5⟩ 3 = (⟨2⟩, 5) ∧
    kdAtomicIntFetchSubVEN AtomicBackend.KD_ATOMIC_WIN32 ⟨5⟩ 3 = (⟨2⟩, 5) ∧
    kdAtomicIntFetchSubVEN AtomicBackend.KD_ATOMIC_SYNC ⟨5⟩ 3 = (⟨2⟩, 5) ∧
    kdAtomicIntFetchSubVEN AtomicBackend.KD_ATOMIC_MUTEX ⟨5⟩ 3 = (⟨2⟩, 5) ∧
    kdAtomicIntFetchSubVEN AtomicBackend.KD_ATOMIC_BUILTIN ⟨5⟩ 3 = (⟨2⟩, 2) ∧
    (∀ (object : KDAtomicIntVEN) (v : Int),
      kdAtomicIntFetchAddVEN AtomicBackend.KD_ATOMIC_BUILTIN object v =
        (⟨toKDint32 (object.value + v)⟩, toKDint32 (object.value + v)) ∧
      kdAtomicIntFetchSubVEN AtomicBackend.KD_ATOMIC_BUILTIN object v =
        (⟨toKDint32 (object.value - v)⟩, toKDint32 (object.value - v))) :=
  ⟨by decide, by decide, by decide, by decide, by decide, by decide, by decide, by decide,
    by decide, by decide, fun _ _ => ⟨rfl, rfl⟩⟩

/-! ### Integers and their text -/

/-- C30, the code at the failing input `KDINT_MIN`: `kdLtostr` with a buffer
of 12 characters writes the text `-(` and returns 2, where the decimal text of
`KDINT_MIN` is `-2147483648`; `kdStrtol` on the text written returns 0 and
leaves `*endptr` at the start.  On the decimal text of `KDINT_MIN` `kdStrtol`
returns `KDINT_MIN`, leaves `*endptr` at the NUL and sets no error; and
`kdLtostr` writes the decimal text of `KDINT_MIN + 1` and of `KDINT_MAX`, which
`kdStrtol` reads back. -/
theorem kdLtostr_int_min :
    kdLtostr 12 KDINT_MIN = some ([45, 40, 0], 2) ∧
    decimalText KDINT_MIN = [45, 50, 49, 52, 55, 52, 56, 51, 54, 52, 56] ∧
    kdStrtol [45, 40, 0] 10 = some ⟨0, 0, none⟩ ∧
    kdStrtol [45, 50, 49, 52, 55, 52, 56, 51, 54, 52, 56, 0] 10 =
      some ⟨KDINT_MIN, 11, none⟩ ∧
    kdLtostr 12 (KDINT_MIN + 1) =
      some ([45, 50, 49, 52, 55, 52, 56, 51, 54, 52, 55, 0], 11) ∧
    kdStrtol [45, 50, 49, 52, 55, 52, 56, 51, 54, 52, 55, 0] 10 =
      some ⟨KDINT_MIN + 1, 11, none⟩ ∧
    kdLtostr 12 KDINT_MAX = some ([50, 49, 52, 55, 52, 56, 51, 54, 52, 55, 0], 10) ∧
    kdStrtol [50, 49, 52, 55, 52, 56, 51, 54, 52, 55, 0] 10 = some ⟨KDINT_MAX, 10, none⟩ := by
  refine ⟨by decide, ?_, by decide, by decide, by decide, by decide, by decide, by decide⟩
  simp [decimalText, decimalDigits, KDINT_MIN]

/-! ### Broken-down time -/

theorem kdIsleap_eq {y : Int} (h : 0 ≤ y) : __kdIsleap y = gregorianLeap y := by
  simp only [__kdIsleap, gregorianLeap, Int.tmod_eq_emod h (by decide : (0 : Int) ≤ 4),
    Int.tmod_eq_emod h (by decide : (0 : Int) ≤ 100),
    Int.tmod_eq_emod h (by decide : (0 : Int) ≤ 400)]

theorem gregorianLeap_iff (y : Int) :
    gregorianLeap y = true ↔ y % 4 = 0 ∧ (y % 100 ≠ 0 ∨ y % 400 = 0) := by
  simp [gregorianLeap]

theorem daysBeforeYear_succ (y : Int) :
    daysBeforeYear (y + 1) = daysBeforeYear y + (if gregorianLeap y then 366 else 365) := by
  by_cases h : gregorianLeap y = true
  · rw [if_pos h]
    have h' := (gregorianLeap_iff y).1 h
    simp only [daysBeforeYear, leapsBefore]
    omega
  · rw [if_neg h]
    have h' : ¬ (y % 4 = 0 ∧ (y % 100 ≠ 0 ∨ y % 400 = 0)) := fun hh =>
      h ((gregorianLeap_iff y).2 hh)
    simp only [daysBeforeYear, leapsBefore]
    omega

theorem kdGmtime_r_year_spec : ∀ (fuel : Nat) (days year : Int), 0 ≤ days → 0 ≤ year →
    days < fuel →
    ∃ d y, kdGmtime_r_year fuel days year = some (d, y) ∧ 0 ≤ d ∧
      d < (if gregorianLeap y then 366 else 365) ∧
      daysBeforeYear y + d = daysBeforeYear year + days ∧ year ≤ y
  | 0, days, year, h0, _, hf => by
    exfalso; simp at hf; omega
  | fuel + 1, days, year, h0, hy, hf => by
    rw [kdGmtime_r_year, kdIsleap_eq hy]
    by_cases hd : days ≥ (if gregorianLeap year then 366 else 365)
    · rw [if_pos hd]
      have hlen : (365 : Int) ≤ (if gregorianLeap year then 366 else 365) := by
        split <;> decide
      obtain ⟨d, y, hr, hd0, hd1, hsum, hle⟩ :=
        kdGmtime_r_year_spec fuel (days - (if gregorianLeap year then 366 else 365)) (year + 1)
          (by omega) (by omega) (by push_cast at hf; omega)
      refine ⟨d, y, hr, hd0, hd1, ?_, by omega⟩
      rw [hsum, daysBeforeYear_succ]; omega
    · rw [if_neg hd]
      exact ⟨days, year, rfl, h0, by omega, rfl, le_refl _⟩

theorem kdGmtime_r_months_at {y : Int} (hy : 0 ≤ y) {m : Nat} (hm : m ≤ 11) :
    (kdGmtime_r_months.getD (if __kdIsleap y then 1 else 0) [])[m]? =
      some ((monthLengths y).getD m 0) ∧
    daysBeforeMonth y (m + 1) = daysBeforeMonth y m + (monthLengths y).getD m 0 := by
  rw [kdIsleap_eq hy]
  cases hl : gregorianLeap y <;> interval_cases m <;>
    simp [kdGmtime_r_months, monthLengths, daysBeforeMonth, hl]

theorem daysBeforeMonth_twelve (y : Int) :
    daysBeforeMonth y 12 = (if gregorianLeap y then 366 else 365) := by
  cases hl : gregorianLeap y <;> simp [monthLengths, daysBeforeMonth, hl]

theorem kdGmtime_r_month_spec {y : Int} (hy : 0 ≤ y) : ∀ (fuel m : Nat) (d : Int), m ≤ 11 →
    13 ≤ fuel + m → 0 ≤ d →
    daysBeforeMonth y m + d < (if gregorianLeap y then 366 else 365) →
    ∃ d' m', kdGmtime_r_month y fuel d m = some (d', m') ∧ m' ≤ 11 ∧ 0 ≤ d' ∧
      d' < (monthLengths y).getD m' 0 ∧ daysBeforeMonth y m' + d' = daysBeforeMonth y m + d
  | 0, m, d, hm, hf, _, _ => by omega
  | fuel + 1, m, d, hm, hf, h0, hlt => by
    obtain ⟨hat, hsucc⟩ := kdGmtime_r_months_at hy hm
    rw [kdGmtime_r_month, hat]
    by_cases hd : d ≥ (monthLengths y).getD m 0
    · simp only [if_pos hd]
      have hm' : m + 1 ≤ 11 := by
        by_contra hc
        have h11 : m = 11 := by omega
        subst h11
        rw [daysBeforeMonth_twelve] at hsucc
        omega
      obtain ⟨d', m', hr, hm1, hd0, hd1, hsum⟩ :=
        kdGmtime_r_month_spec hy fuel (m + 1) (d - (monthLengths y).getD m 0) hm' (by omega)
          (by omega) (by rw [hsucc]; omega)
      exact ⟨d', m', hr, hm1, hd0, hd1, by rw [hsum, hsucc]; omega⟩
    · simp only [if_neg hd]
      exact ⟨d, m, rfl, hm, h0, by omega, rfl⟩

/-- What `kdGmtime_r` returns for `0 <= t` with `t / 86400 < 2^31`: it returns,
and every field but `tm_wday` is the one of the proleptic Gregorian calendar;
`tm_wday` is `(days + 4) % 7` with the sum taken modulo `2^32`. -/
theorem kdGmtime_r_fields (t : Int) (h0 : 0 ≤ t) (h1 : t / 86400 < 2 ^ 31) :
    ∃ r, kdGmtime_r t = some r ∧ kdLocaltime_r t = some r ∧
      (0 ≤ r.tm_sec ∧ r.tm_sec < 60) ∧ (0 ≤ r.tm_min ∧ r.tm_min < 60) ∧
      (0 ≤ r.tm_hour ∧ r.tm_hour < 24) ∧
      r.tm_hour * 3600 + r.tm_min * 60 + r.tm_sec = t % 86400 ∧
      (0 ≤ r.tm_mon ∧ r.tm_mon ≤ 11) ∧
      (1 ≤ r.tm_mday ∧
        r.tm_mday ≤ (monthLengths (r.tm_year + 1900)).getD r.tm_mon.toNat 0) ∧
      daysBeforeYear (r.tm_year + 1900) + daysBeforeMonth (r.tm_year + 1900) r.tm_mon.toNat +
        (r.tm_mday - 1) = t / 86400 ∧
      r.tm_yday = daysBeforeMonth (r.tm_year + 1900) r.tm_mon.toNat + (r.tm_mday - 1) ∧
      r.tm_wday = Int.tmod (toKDint32 (t / 86400 + 4)) 7 ∧
      r.tm_isdst = 0 := by
  have e1 : (3600 * 24 : Int) = 86400 := by norm_num
  have hsecs : toKDint32 (Int.tmod t 86400) = t % 86400 := by
    rw [Int.tmod_eq_emod h0 (by decide)]
    simp only [toKDint32]; omega
  have hdays : toKDint32 (Int.tdiv t 86400) = t / 86400 := by
    rw [Int.tdiv_eq_ediv h0 (by decide)]
    simp only [toKDint32]; omega
  have hd0 : 0 ≤ t / 86400 := by omega
  have hs0 : 0 ≤ t % 86400 := by omega
  have hs1 : t % 86400 < 86400 := by omega
  obtain ⟨d, y, hyr, hdy0, hdy1, hsum, hyle⟩ :=
    kdGmtime_r_year_spec ((t / 86400).toNat + 1) (t / 86400) 1970 hd0 (by decide)
      (by push_cast; rw [Int.toNat_of_nonneg hd0]; omega)
  have hy0 : 0 ≤ y := by omega
  obtain ⟨d', m', hmr, hm1, hd'0, hd'1, hmsum⟩ :=
    kdGmtime_r_month_spec hy0 13 0 d (by decide) (by decide) hdy0
      (by simp only [daysBeforeMonth, List.take_zero, List.sum_nil]; omega)
  have hb0 : daysBeforeMonth y 0 = 0 := by simp [daysBeforeMonth]
  have hby : daysBeforeYear 1970 = 0 := by simp [daysBeforeYear]
  have hr : kdGmtime_r t = some ⟨Int.tmod (t % 86400) 60,
      Int.tdiv (Int.tmod (t % 86400) 3600) 60, Int.tdiv (t % 86400) 3600, d' + 1, (m' : Int),
      y - 1900, Int.tmod (toKDint32 (t / 86400 + 4)) 7, d, 0⟩ := by
    simp only [kdGmtime_r, e1, hsecs, hdays, hyr, hmr]
  refine ⟨_, hr, hr, ?_⟩
  simp only [sub_add_cancel, Int.toNat_ofNat, add_sub_cancel_right]
  rw [Int.tmod_eq_emod hs0 (by decide), Int.tmod_eq_emod hs0 (by decide),
    Int.tdiv_eq_ediv hs0 (by decide), Int.tdiv_eq_ediv (by omega) (by decide)]
  refine ⟨by omega, by omega, by omega, by omega, by omega, ⟨by omega, by omega⟩, ?_, ?_,
    trivial, trivial⟩
  · omega
  · omega

/-- C27, amended: for every time `t >= 0` whose day count `t / 86400` is at
most `2^31 - 5`, `kdGmtime_r` returns, and the record is the UTC broken-down
time of `t` in the proleptic Gregorian calendar (time of day, year, month, day
of the month, zero-based day of the year, weekday with 0 for Sunday, no
daylight saving); `kdLocaltime_r` returns the same record. -/
theorem kdGmtime_r_gregorian (t : Int) (h0 : 0 ≤ t) (h1 : t / 86400 ≤ 2 ^ 31 - 5) :
    ∃ r, kdGmtime_r t = some r ∧ GregorianUTC t r ∧ kdLocaltime_r t = some r := by
  obtain ⟨r, hr, hl, hsec, hmin, hhour, htime, hmon, hmday, hdate, hyday, hwday, hdst⟩ :=
    kdGmtime_r_fields t h0 (by omega)
  refine ⟨r, hr, ⟨hsec, hmin, hhour, htime, hmon, hmday, hdate, hyday, ?_, hdst⟩, hl⟩
  have hw : toKDint32 (t / 86400 + 4) = t / 86400 + 4 := by
    simp only [toKDint32]; omega
  rw [hwday, hw, Int.tmod_eq_emod (by omega) (by decide)]
  omega

theorem kdGmtime_r_gregorian_witness :
    ∃ r, kdGmtime_r 0 = some r ∧ GregorianUTC 0 r ∧ kdLocaltime_r 0 = some r :=
  kdGmtime_r_gregorian 0 (by decide) (by decide)

/-- C27, the counterexample: the day count of `t = (2^31 - 1) * 86400` is
`2^31 - 1`, which fits in 32 bits; `kdGmtime_r` returns a record whose
`tm_wday` is `-6`, because `days + 4` leaves the range of `KDint32`; the record
is not the broken-down time of `t`.  At `t = 0` the record is Thursday
1 January 1970, 00:00:00. -/
theorem kdGmtime_r_wday_overflow :
    (0 : Int) ≤ 2147483647 * 86400 ∧ (2147483647 * 86400 : Int) / 86400 = 2 ^ 31 - 1 ∧
    (∃ r, kdGmtime_r (2147483647 * 86400) = some r ∧ r.tm_wday = -6 ∧
      ¬ GregorianUTC (2147483647 * 86400) r) ∧
    kdGmtime_r 0 = some ⟨0, 0, 0, 1, 0, 70, 4, 0, 0⟩ := by
  refine ⟨by decide, by decide, ?_, by decide⟩
  obtain ⟨r, hr, _, _, _, _, _, _, _, _, _, hwday, _⟩ :=
    kdGmtime_r_fields (2147483647 * 86400) (by decide) (by decide)
  have hw : r.tm_wday = -6 := by
    rw [hwday]; decide
  refine ⟨r, hr, hw, ?_⟩
  intro hg
  have := hg.2.2.2.2.2.2.2.2.1.1
  omega

/-! ### Producers and a consumer on one queue -/

theorem getD_lt_length {l : List (List Ptr)} {i : Nat} {v : Ptr} {vs : List Ptr}
    (h : l.getD i [] = v :: vs) : i < l.length := by
  by_contra hc
  rw [List.getD_eq_getElem?_getD, List.getElem?_eq_none (by omega)] at h
  cases h

theorem getD_set_self {l : List (List Ptr)} {i : Nat} (hi : i < l.length) (x : List Ptr) :
    (l.set i x).getD i [] = x := by
  rw [List.getD_eq_getElem?_getD, List.getElem?_set_self hi]; rfl

theorem getD_set_ne {l : List (List Ptr)} {i j : Nat} (hij : i ≠ j) (x : List Ptr) :
    (l.set i x).getD j [] = l.getD j [] := by
  rw [List.getD_eq_getElem?_getD, List.getD_eq_getElem?_getD, List.getElem?_set_ne hij]

theorem flatten_set_perm : ∀ (l : List (List Ptr)) (i : Nat) (v : Ptr) (vs : List Ptr),
    l.getD i [] = v :: vs → (v :: (l.set i vs).flatten).Perm l.flatten
  | [], i, v, vs, h => by simp at h
  | x :: l, 0, v, vs, h => by
    have hx : x = v :: vs := by simpa using h
    subst hx
    simp
  | x :: l, i + 1, v, vs, h => by
    have h' : l.getD i [] = v :: vs := by simpa using h
    have ih := flatten_set_perm l i v vs h'
    simp only [List.set_cons_succ, List.flatten_cons]
    exact (List.perm_middle.symm.trans ((List.Perm.append_left x ih)))

theorem flatten_eq_nil_of : ∀ (l : List (List Ptr)),
    (∀ i, i < l.length → l.getD i [] = []) → l.flatten = []
  | [], _ => rfl
  | x :: l, h => by
    have hx : x = [] := by simpa using h 0 (by simp)
    have hl : l.flatten = [] := flatten_eq_nil_of l (fun i hi => by
      simpa using h (i + 1) (by simp; omega))
    simp [hx, hl]

theorem getD_eq_nil_of_flatten : ∀ (l : List (List Ptr)), l.flatten = [] →
    ∀ i, l.getD i [] = []
  | [], _, i => by simp
  | x :: l, h, i => by
    simp only [List.flatten_cons, List.append_eq_nil] at h
    cases i with
    | zero => simpa using h.1
    | succ i => simpa using getD_eq_nil_of_flatten l h.2 i

/-- What every run of the producers and the consumer maintains: the queue is
well formed and holds `Q`; what was received, followed by `Q`, is what was
pushed, in the order of the pushes; the pushes of each producer, followed by
what it has still to push, are its values in order; and the pushed values with
the values still to push are the produced values. -/
structure ProdConsInv (vals : List (List Ptr)) (s : ProdCons) (Q : List Ptr) : Prop where
  rep : QueueRep s.nodes s.queue Q
  fifo : s.received ++ Q = s.pushed.map Prod.snd
  len : s.todo.length = vals.length
  own : ∀ i, (s.pushed.filter (fun p => decide (p.1 = i))).map Prod.snd ++ s.todo.getD i [] =
    vals.getD i []
  perm : (s.pushed.map Prod.snd ++ s.todo.flatten).Perm vals.flatten

theorem prodConsInv_start (m : NodeHeap) (vals : List (List Ptr)) :
    ProdConsInv vals (ProdCons.start m vals) [] :=
  ⟨kdQueueCreateVEN_rep m, rfl, rfl, fun _ => rfl, List.Perm.refl _⟩

theorem prodConsInv_producer {kdMalloc : NodeHeap → Ptr} (hM : MallocOK kdMalloc)
    {vals : List (List Ptr)} {s : ProdCons} {Q : List Ptr} (h : ProdConsInv vals s Q)
    (total i : Nat) :
    ∃ s' Q', s.step kdMalloc total (ProdConsLabel.producer i) = some s' ∧
      ProdConsInv vals s' Q' ∧ s'.received = s.received ∧
      (s'.todo.getD i []).length = (s.todo.getD i []).length - 1 ∧
      (∀ j, (s'.todo.getD j []).length ≤ (s.todo.getD j []).length) := by
  cases htodo : s.todo.getD i [] with
  | nil =>
    refine ⟨s, Q, ?_, h, rfl, by rw [htodo]; rfl, fun j => le_refl _⟩
    simp only [ProdCons.step, htodo]
  | cons v vs =>
    obtain ⟨m', q', hpush, hrep⟩ := kdQueuePushTailVEN_rep hM h.rep v
    have hi : i < s.todo.length := getD_lt_length htodo
    refine ⟨⟨m', q', s.todo.set i vs, s.pushed ++ [(i, v)], s.received⟩, Q ++ [v], ?_, ?_, rfl,
      ?_, ?_⟩
    · simp only [ProdCons.step, htodo, hpush]
    · refine ⟨hrep, ?_, ?_, ?_, ?_⟩
      · show s.received ++ (Q ++ [v]) = (s.pushed ++ [(i, v)]).map Prod.snd
        rw [List.map_append, ← h.fifo, List.append_assoc]; rfl
      · show (s.todo.set i vs).length = vals.length
        rw [List.length_set]; exact h.len
      · intro j
        show ((s.pushed ++ [(i, v)]).filter (fun p => decide (p.1 = j))).map Prod.snd ++
          (s.todo.set i vs).getD j [] = vals.getD j []
        by_cases hij : i = j
        · subst hij
          rw [getD_set_self hi, ← h.own i, htodo]
          simp [List.filter_append]
        · rw [getD_set_ne hij, ← h.own j]
          simp [List.filter_append, hij]
      · show ((s.pushed ++ [(i, v)]).map Prod.snd ++ (s.todo.set i vs).flatten).Perm vals.flatten
        refine List.Perm.trans ?_ h.perm
        rw [List.map_append, List.append_assoc]
        exact List.Perm.append_left _ (flatten_set_perm s.todo i v vs htodo)
    · show ((s.todo.set i vs).getD i []).length = (v :: vs).length - 1
      rw [getD_set_self hi]; rfl
    · intro j
      show ((s.todo.set i vs).getD j []).length ≤ (s.todo.getD j []).length
      by_cases hij : i = j
      · subst hij
        rw [getD_set_self hi, htodo]; simp
      · rw [getD_set_ne hij]

theorem prodConsInv_length {vals : List (List Ptr)} {s : ProdCons} {Q : List Ptr}
    (h : ProdConsInv vals s Q) :
    s.received.length + Q.length + s.todo.flatten.length = vals.flatten.length := by
  have h1 := h.perm.length_eq
  have h2 := congrArg List.length h.fifo
  simp only [List.length_append, List.length_map] at h1 h2
  omega

theorem prodConsInv_consumer (kdMalloc : NodeHeap → Ptr) {vals : List (List Ptr)}
    (hnn : ∀ v ∈ vals.flatten, v ≠ KD_NULL) {s : ProdCons} {Q : List Ptr}
    (h : ProdConsInv vals s Q) (total : Nat) :
    ∃ s' Q', s.step kdMalloc total ProdConsLabel.consumer = some s' ∧
      ProdConsInv vals s' Q' ∧ s'.todo = s.todo ∧
      s'.received.length =
        (if s.received.length < total ∧ Q ≠ [] then s.received.length + 1
          else s.received.length) := by
  by_cases hlt : s.received.length < total
  · cases Q with
    | nil =>
      refine ⟨⟨s.nodes, s.queue, s.todo, s.pushed, s.received⟩, [], ?_, ?_, rfl, ?_⟩
      · simp only [ProdCons.step, if_pos hlt, kdQueuePopHeadVEN_rep_nil h.rep]
        simp
      · exact ⟨h.rep, h.fifo, h.len, h.own, h.perm⟩
      · simp
    | cons v Q' =>
      obtain ⟨m', q', hpop, hrep⟩ := kdQueuePopHeadVEN_rep_cons h.rep
      have hv : v ≠ KD_NULL := by
        apply hnn
        have h1 : v ∈ s.pushed.map Prod.snd := by
          rw [← h.fifo]; simp
        exact h.perm.subset (List.mem_append_left _ h1)
      refine ⟨⟨m', q', s.todo, s.pushed, s.received ++ [v]⟩, Q', ?_, ?_, rfl, ?_⟩
      · simp only [ProdCons.step, if_pos hlt, hpop]
        simp [hv]
      · refine ⟨hrep, ?_, h.len, h.own, h.perm⟩
        show (s.received ++ [v]) ++ Q' = s.pushed.map Prod.snd
        rw [← h.fifo, List.append_assoc]; rfl
      · simp [hlt]
  · refine ⟨s, Q, ?_, h, rfl, ?_⟩
    · simp only [ProdCons.step, if_neg hlt]
    · simp [hlt]

/-- Every call runs without fault and keeps the invariant; no producer gets
more to push and the consumer loses nothing. -/
theorem prodConsInv_step {kdMalloc : NodeHeap → Ptr} (hM : MallocOK kdMalloc)
    {vals : List (List Ptr)} (hnn : ∀ v ∈ vals.flatten, v ≠ KD_NULL) {s : ProdCons}
    {Q : List Ptr} (h : ProdConsInv vals s Q) (total : Nat) (l : ProdConsLabel) :
    ∃ s' Q', s.step kdMalloc total l = some s' ∧ ProdConsInv vals s' Q' ∧
      (∀ j, (s'.todo.getD j []).length ≤ (s.todo.getD j []).length) ∧
      s.received.length ≤ s'.received.length := by
  cases l with
  | producer i =>
    obtain ⟨s', Q', hs, hinv, hr, -, hmono⟩ := prodConsInv_producer hM h total i
    exact ⟨s', Q', hs, hinv, hmono, by rw [hr]⟩
  | consumer =>
    obtain ⟨s', Q', hs, hinv, ht, hr⟩ := prodConsInv_consumer kdMalloc hnn h total
    refine ⟨s', Q', hs, hinv, fun j => by rw [ht], ?_⟩
    rw [hr]; split <;> omega

theorem prodConsInv_run {kdMalloc : NodeHeap → Ptr} (hM : MallocOK kdMalloc)
    {vals : List (List Ptr)} (hnn : ∀ v ∈ vals.flatten, v ≠ KD_NULL) (total : Nat) :
    ∀ (sched : List ProdConsLabel) (s : ProdCons) (Q : List Ptr), ProdConsInv vals s Q →
    ∃ s' Q', ProdCons.run kdMalloc total sched s = some s' ∧ ProdConsInv vals s' Q' ∧
      (∀ j, (s'.todo.getD j []).length ≤ (s.todo.getD j []).length) ∧
      s.received.length ≤ s'.received.length
  | [], s, Q, h => ⟨s, Q, rfl, h, fun _ => le_refl _, le_refl _⟩
  | l :: ls, s, Q, h => by
    obtain ⟨s1, Q1, hs1, hinv1, hmono1, hr1⟩ := prodConsInv_step hM hnn h total l
    obtain ⟨s2, Q2, hs2, hinv2, hmono2, hr2⟩ := prodConsInv_run hM hnn total ls s1 Q1 hinv1
    refine ⟨s2, Q2, ?_, hinv2, fun j => le_trans (hmono2 j) (hmono1 j), le_trans hr1 hr2⟩
    simp only [ProdCons.run, hs1, hs2]

theorem ProdCons.runCalls_append (kdMalloc : NodeHeap → Ptr) (total : Nat) :
    ∀ (l1 l2 : List ProdConsLabel) (s : ProdCons),
    ProdCons.run kdMalloc total (l1 ++ l2) s =
      (ProdCons.run kdMalloc total l1 s).bind (ProdCons.run kdMalloc total l2)
  | [], l2, s => rfl
  | l :: l1, l2, s => by
    simp only [List.cons_append, ProdCons.run]
    cases s.step kdMalloc total l with
    | none => rfl
    | some s1 => exact ProdCons.runCalls_append kdMalloc total l1 l2 s1

theorem prodCons_producer_done {kdMalloc : NodeHeap → Ptr} (hM : MallocOK kdMalloc)
    {vals : List (List Ptr)} (total i : Nat) : ∀ (k : Nat) (s : ProdCons) (Q : List Ptr),
    ProdConsInv vals s Q → (s.todo.getD i []).length ≤ k →
    ∃ s' Q', ProdCons.run kdMalloc total (List.replicate k (ProdConsLabel.producer i)) s =
        some s' ∧ ProdConsInv vals s' Q' ∧ s'.todo.getD i [] = [] ∧
      (∀ j, (s'.todo.getD j []).length ≤ (s.todo.getD j []).length)
  | 0, s, Q, h, hk =>
    ⟨s, Q, rfl, h, List.length_eq_zero.1 (Nat.le_zero.1 hk), fun _ => le_refl _⟩
  | k + 1, s, Q, h, hk => by
    obtain ⟨s1, Q1, hs1, hinv1, -, hlen1, hmono1⟩ := prodConsInv_producer hM h total i
    obtain ⟨s2, Q2, hs2, hinv2, hnil2, hmono2⟩ :=
      prodCons_producer_done hM total i k s1 Q1 hinv1 (by omega)
    refine ⟨s2, Q2, ?_, hinv2, hnil2, fun j => le_trans (hmono2 j) (hmono1 j)⟩
    simp only [List.replicate_succ, ProdCons.run, hs1, hs2]

theorem prodCons_producers_done {kdMalloc : NodeHeap → Ptr} (hM : MallocOK kdMalloc)
    {vals : List (List Ptr)} (total M : Nat) : ∀ (is : List Nat) (s : ProdCons) (Q : List Ptr),
    ProdConsInv vals s Q → (∀ j, (s.todo.getD j []).length ≤ M) →
    ∃ s' Q', ProdCons.run kdMalloc total
        (is.flatMap (fun i => List.replicate M (ProdConsLabel.producer i))) s = some s' ∧
      ProdConsInv vals s' Q' ∧ (∀ i ∈ is, s'.todo.getD i [] = []) ∧
      (∀ j, (s'.todo.getD j []).length ≤ (s.todo.getD j []).length)
  | [], s, Q, h, _ =>
    ⟨s, Q, rfl, h, (fun i hi => absurd hi (List.not_mem_nil i)), (fun _ => le_refl _)⟩
  | i :: is, s, Q, h, hM' => by
    obtain ⟨s1, Q1, hs1, hinv1, hnil1, hmono1⟩ :=
      prodCons_producer_done hM total i M s Q h (hM' i)
    obtain ⟨s2, Q2, hs2, hinv2, hnil2, hmono2⟩ :=
      prodCons_producers_done hM total M is s1 Q1 hinv1
        (fun j => le_trans (hmono1 j) (hM' j))
    refine ⟨s2, Q2, ?_, hinv2, ?_, fun j => le_trans (hmono2 j) (hmono1 j)⟩
    · rw [List.flatMap_cons, ProdCons.runCalls_append, hs1]
      exact hs2
    · intro j hj
      rcases List.mem_cons.1 hj with hj | hj
      · subst hj
        have := hmono2 j
        rw [hnil1] at this
        exact List.length_eq_zero.1 (Nat.le_zero.1 this)
      · exact hnil2 j hj

theorem prodCons_consumer_done (kdMalloc : NodeHeap → Ptr) {vals : List (List Ptr)}
    (hnn : ∀ v ∈ vals.flatten, v ≠ KD_NULL) : ∀ (k : Nat) (s : ProdCons) (Q : List Ptr),
    ProdConsInv vals s Q → s.todo.flatten = [] → vals.flatten.length - s.received.length ≤ k →
    ∃ s' Q', ProdCons.run kdMalloc vals.flatten.length
        (List.replicate k ProdConsLabel.consumer) s = some s' ∧
      ProdConsInv vals s' Q' ∧ s'.received.length = vals.flatten.length
  | 0, s, Q, h, _, hk => by
    have := prodConsInv_length h
    exact ⟨s, Q, rfl, h, by omega⟩
  | k + 1, s, Q, h, ht, hk => by
    obtain ⟨s1, Q1, hs1, hinv1, ht1, hr1⟩ :=
      prodConsInv_consumer kdMalloc hnn h vals.flatten.length
    have hlen := prodConsInv_length h
    have hk1 : vals.flatten.length - s1.received.length ≤ k := by
      rw [hr1]
      by_cases hlt : s.received.length < vals.flatten.length
      · have hQ : Q ≠ [] := by
          intro hQ
          rw [hQ, ht] at hlen
          simp only [List.length_nil] at hlen
          omega
        rw [if_pos ⟨hlt, hQ⟩]; omega
      · rw [if_neg (fun hc => hlt hc.1)]; omega
    obtain ⟨s2, Q2, hs2, hinv2, hr2⟩ :=
      prodCons_consumer_done kdMalloc hnn k s1 Q1 hinv1 (by rw [ht1]; exact ht) hk1
    refine ⟨s2, Q2, ?_, hinv2, hr2⟩
    simp only [List.replicate_succ, ProdCons.run, hs1, hs2]

theorem flatten_length_uniform {M : Nat} : ∀ (vals : List (List Ptr)),
    (∀ vs ∈ vals, vs.length = M) → vals.flatten.length = vals.length * M
  | [], _ => by simp
  | x :: l, h => by
    have hx : x.length = M := h x (List.mem_cons_self _ _)
    have hl := flatten_length_uniform l (fun vs hvs => h vs (List.mem_cons_of_mem _ hvs))
    simp only [List.flatten_cons, List.length_append, List.length_cons, hx, hl]
    rw [Nat.add_mul, Nat.one_mul, Nat.add_comm]

theorem getD_length_uniform {M : Nat} {vals : List (List Ptr)}
    (h : ∀ vs ∈ vals, vs.length = M) (j : Nat) : (vals.getD j []).length ≤ M := by
  rw [List.getD_eq_getElem?_getD]
  cases hj : vals[j]? with
  | none => simp
  | some vs =>
    have : vs ∈ vals := by
      obtain ⟨hj1, hj2⟩ := List.getElem?_eq_some.1 hj
      rw [← hj2]; exact List.getElem_mem _
    simp [h vs this]

/-- C25: `N` producers push `M` non-null values each with `kdQueuePushTailVEN`
on one freshly created queue while one consumer calls `kdQueuePopHeadVEN`
until it has received `N * M` values, the calls being interleaved in any
order.  No call faults.  At every moment the values received are the first
values pushed, in the order of the pushes, so those of each producer are a
prefix of its values, in its push order, and there are at most `N * M`.  When
the consumer has received `N * M` values, they are the produced values, one
per produced value, those of each producer in its push order, and
`kdQueueSizeVEN` is 0.  From every moment on the run can be completed: after
every producer made its calls and the consumer `N * M` more, the consumer has
`N * M` values. -/
theorem kdQueue_producers_consumer (kdMalloc : NodeHeap → Ptr) (hM : MallocOK kdMalloc)
    (m : NodeHeap) (vals : List (List Ptr)) (M : Nat) (hlen : ∀ vs ∈ vals, vs.length = M)
    (hnn : ∀ vs ∈ vals, ∀ v ∈ vs, v ≠ KD_NULL) (sched : List ProdConsLabel) :
    ∃ s, ProdCons.run kdMalloc (vals.length * M) sched (ProdCons.start m vals) = some s ∧
      s.received = (s.pushed.take s.received.length).map Prod.snd ∧
      (∀ i, ((s.pushed.take s.received.length).filter (fun p => decide (p.1 = i))).map Prod.snd
        <+: vals.getD i []) ∧
      s.received.length ≤ vals.length * M ∧
      (s.received.length = vals.length * M →
        s.received.Perm vals.flatten ∧ s.received = s.pushed.map Prod.snd ∧
        (∀ i, (s.pushed.filter (fun p => decide (p.1 = i))).map Prod.snd = vals.getD i []) ∧
        kdQueueSizeVEN s.queue = 0) ∧
      ∃ s', ProdCons.run kdMalloc (vals.length * M) (ProdCons.finish vals.length M) s =
          some s' ∧ s'.received.length = vals.length * M := by
  have hnn' : ∀ v ∈ vals.flatten, v ≠ KD_NULL := by
    intro v hv
    obtain ⟨vs, hvs, hv'⟩ := List.mem_flatten.1 hv
    exact hnn vs hvs v hv'
  have htotal := flatten_length_uniform vals hlen
  rw [← htotal]
  obtain ⟨s, Q, hrun, hinv, hmono, -⟩ :=
    prodConsInv_run hM hnn' vals.flatten.length sched (ProdCons.start m vals) []
      (prodConsInv_start m vals)
  have hcount := prodConsInv_length hinv
  have htake : s.received = (s.pushed.take s.received.length).map Prod.snd := by
    rw [List.map_take, ← hinv.fifo, List.take_left']
    rfl
  refine ⟨s, hrun, htake, ?_, by omega, ?_, ?_⟩
  · intro i
    have h1 : ((s.pushed.take s.received.length).filter (fun p => decide (p.1 = i))).map Prod.snd
        <+: (s.pushed.filter (fun p => decide (p.1 = i))).map Prod.snd :=
      ((List.take_prefix _ _).filter _).map _
    have h2 : (s.pushed.filter (fun p => decide (p.1 = i))).map Prod.snd <+: vals.getD i [] := by
      rw [← hinv.own i]; exact List.prefix_append _ _
    exact h1.trans h2
  · intro hall
    have hQ : Q = [] := List.length_eq_zero.1 (by omega)
    have ht : s.todo.flatten = [] := List.length_eq_zero.1 (by omega)
    have hfifo : s.received = s.pushed.map Prod.snd := by
      have := hinv.fifo
      rw [hQ, List.append_nil] at this
      exact this
    refine ⟨?_, hfifo, ?_, ?_⟩
    · have := hinv.perm
      rw [ht, List.append_nil, ← hfifo] at this
      exact this
    · intro i
      have := hinv.own i
      rw [getD_eq_nil_of_flatten s.todo ht i, List.append_nil] at this
      exact this
    · have := queueRep_size hinv.rep
      rw [hQ] at this
      exact this
  · have hle : ∀ j, (s.todo.getD j []).length ≤ M := fun j =>
      le_trans (hmono j) (getD_length_uniform hlen j)
    obtain ⟨s1, Q1, hrun1, hinv1, hnil1, -⟩ :=
      prodCons_producers_done hM vals.flatten.length M (List.range vals.length) s Q hinv hle
    have ht1 : s1.todo.flatten = [] := by
      apply flatten_eq_nil_of
      intro i hi
      exact hnil1 i (List.mem_range.2 (by rw [← hinv1.len]; exact hi))
    obtain ⟨s2, Q2, hrun2, -, hr2⟩ :=
      prodCons_consumer_done kdMalloc hnn' (vals.length * M) s1 Q1 hinv1 ht1
        (by rw [← htotal]; omega)
    refine ⟨s2, ?_, hr2⟩
    rw [ProdCons.finish, ProdCons.runCalls_append, hrun1]
    exact hrun2

theorem kdQueue_producers_consumer_witness :
    ∃ s, ProdCons.run Heap.bump
        (((List.range 4).map (fun i =>
          (List.range 10000).map (fun k => 10000 * i + k + 1))).length * 10000)
        [ProdConsLabel.producer 1, ProdConsLabel.consumer, ProdConsLabel.producer 0]
        (ProdCons.start Heap.empty ((List.range 4).map (fun i =>
          (List.range 10000).map (fun k => 10000 * i + k + 1)))) = some s ∧
      s.received = (s.pushed.take s.received.length).map Prod.snd ∧
      (∀ i, ((s.pushed.take s.received.length).filter (fun p => decide (p.1 = i))).map Prod.snd
        <+: ((List.range 4).map (fun i =>
          (List.range 10000).map (fun k => 10000 * i + k + 1))).getD i []) ∧
      s.received.length ≤ ((List.range 4).map (fun i =>
          (List.range 10000).map (fun k => 10000 * i + k + 1))).length * 10000 ∧
      (s.received.length = ((List.range 4).map (fun i =>
          (List.range 10000).map (fun k => 10000 * i + k + 1))).length * 10000 →
        s.received.Perm ((List.range 4).map (fun i =>
          (List.range 10000).map (fun k => 10000 * i + k + 1))).flatten ∧
        s.received = s.pushed.map Prod.snd ∧
        (∀ i, (s.pushed.filter (fun p => decide (p.1 = i))).map Prod.snd =
          ((List.range 4).map (fun i =>
            (List.range 10000).map (fun k => 10000 * i + k + 1))).getD i []) ∧
        kdQueueSizeVEN s.queue = 0) ∧
      ∃ s', ProdCons.run Heap.bump
          (((List.range 4).map (fun i =>
            (List.range 10000).map (fun k => 10000 * i + k + 1))).length * 10000)
          (ProdCons.finish ((List.range 4).map (fun i =>
            (List.range 10000).map (fun k => 10000 * i + k + 1))).length 10000) s =
          some s' ∧ s'.received.length = ((List.range 4).map (fun i =>
            (List.range 10000).map (fun k => 10000 * i + k + 1))).length * 10000 :=
  kdQueue_producers_consumer Heap.bump
    (fun m => ⟨by simp [Heap.bump, KD_NULL], by simp [Heap.bump, Heap.read]⟩) Heap.empty
    ((List.range 4).map (fun i => (List.range 10000).map (fun k => 10000 * i + k + 1))) 10000
    (by simp) (by simp [KD_NULL])
    [ProdConsLabel.producer 1, ProdConsLabel.consumer, ProdConsLabel.producer 0]

/-! ### Integers and their text: the round trip -/

theorem decimalDigits_lt (m : Nat) : ∀ d ∈ decimalDigits m, d < 10 := by
  intro d hd
  simp only [decimalDigits] at hd
  split at hd
  · simp at hd; omega
  · exact Nat.digits_lt_base (by decide) (List.mem_reverse.1 hd)

theorem decimalDigits_ne_nil (m : Nat) : decimalDigits m ≠ [] := by
  simp only [decimalDigits]
  split
  · simp
  · rename_i h
    simp only [ne_eq, List.reverse_eq_nil_iff]
    exact fun hc => h (Nat.digits_eq_nil_iff_eq_zero.1 hc)

/-- The `do ... while` loop of `__kdItoa` stores the decimal digits of a
number that is not negative, least significant first. -/
theorem kdItoa_loop_digits : ∀ (fuel : Nat) (m : Nat), 0 < fuel → m < 10 ^ fuel →
    __kdItoa_loop 10 fuel (m : Int) =
      some ((decimalDigits m).reverse.map (fun (d : Nat) => (d : Int) + 48))
  | 0, _, h, _ => absurd h (by decide)
  | fuel + 1, m, _, hm => by
    have hmod : Int.tmod (m : Int) 10 = ((m % 10 : Nat) : Int) := by
      rw [Int.tmod_eq_emod (Int.ofNat_nonneg m) (by decide)]; rfl
    have hdiv : Int.tdiv (m : Int) 10 = ((m / 10 : Nat) : Int) := by
      rw [Int.tdiv_eq_ediv (Int.ofNat_nonneg m) (by decide)]; rfl
    rw [__kdItoa_loop, if_neg (by decide), hmod, hdiv]
    by_cases h10 : m < 10
    · have h0 : m / 10 = 0 := by omega
      have hnot : ¬ (((m / 10 : Nat) : Int) > 0) := by rw [h0]; decide
      simp only [if_neg hnot]
      by_cases hz : m = 0
      · subst hz; simp [decimalDigits]
      · have hd : Nat.digits 10 m = [m] := by
          rw [Nat.digits_def' (by decide) (by omega), h0, Nat.digits_zero,
            Nat.mod_eq_of_lt h10]
        simp [decimalDigits, hz, hd, Nat.mod_eq_of_lt h10]
    · have hpos : ((m / 10 : Nat) : Int) > 0 := by
        have : 0 < m / 10 := by omega
        exact_mod_cast this
      have hz : m ≠ 0 := by omega
      have hz' : m / 10 ≠ 0 := by omega
      have hfuel : 0 < fuel := by
        rcases Nat.eq_zero_or_pos fuel with h | h
        · subst h; simp at hm; omega
        · exact h
      have hlt : m / 10 < 10 ^ fuel := by
        rw [Nat.pow_succ] at hm
        exact Nat.div_lt_of_lt_mul (by rw [Nat.mul_comm]; exact hm)
      simp only [if_pos hpos, kdItoa_loop_digits fuel (m / 10) hfuel hlt]
      have hd : Nat.digits 10 m = (m % 10) :: Nat.digits 10 (m / 10) :=
        Nat.digits_def' (by decide) (by omega)
      simp [decimalDigits, hz, hz', hd]

theorem getD_append_length (P : List Int) (x : Int) (R : List Int) :
    (P ++ x :: R).getD P.length 0 = x := by
  induction P with
  | nil => rfl
  | cons p P ih => simpa using ih

theorem set_append_length (P : List Int) (x v : Int) (R : List Int) :
    (P ++ x :: R).set P.length v = P ++ v :: R := by
  induction P with
  | nil => rfl
  | cons p P ih => simp [ih]

/-- The swap loop of `__kdItoa` reverses the characters between `i` and `j`. -/
theorem kdItoa_swap_reverse : ∀ (fuel : Nat) (X P S : List Int), X.length ≤ fuel →
    __kdItoa_swap fuel (P ++ X ++ S) P.length (P.length + X.length - 1) = P ++ X.reverse ++ S
  | 0, X, P, S, h => by
    have hX : X = [] := List.length_eq_zero.1 (Nat.le_zero.1 h)
    subst hX
    simp [__kdItoa_swap]
  | fuel + 1, X, P, S, h => by
    rcases X with _ | ⟨x, X'⟩
    · have : ¬ (P.length < P.length + 0 - 1) := by omega
      simp [__kdItoa_swap, this]
    · rcases List.eq_nil_or_concat X' with hX | ⟨Y, y, hX⟩
      · subst hX
        have : ¬ (P.length < P.length + 1 - 1) := by omega
        simp [__kdItoa_swap, this]
      · rw [List.concat_eq_append] at hX
        subst hX
        have hlen : (x :: (Y ++ [y])).length = Y.length + 2 := by simp
        have hij : P.length < P.length + (Y.length + 2) - 1 := by omega
        have hj : P.length + (Y.length + 2) - 1 = (P ++ x :: Y).length := by
          simp
        have hb1 : P ++ x :: (Y ++ [y]) ++ S = P ++ x :: (Y ++ y :: S) := by simp
        have hb2 : P ++ x :: (Y ++ y :: S) = (P ++ x :: Y) ++ y :: S := by simp
        have hb3 : P ++ y :: (Y ++ y :: S) = (P ++ y :: Y) ++ y :: S := by simp
        have hj' : (P ++ x :: Y).length = (P ++ y :: Y).length := by simp
        have hYf : Y.length ≤ fuel := by
          simp at h; omega
        have ih := kdItoa_swap_reverse fuel Y (P ++ [y]) (x :: S) hYf
        have hi1 : P.length + 1 = (P ++ [y]).length := by simp
        have hj1 : (P ++ y :: Y).length - 1 = (P ++ [y]).length + Y.length - 1 := by
          simp
        have hb4 : (P ++ y :: Y) ++ x :: S = P ++ [y] ++ Y ++ x :: S := by simp
        rw [__kdItoa_swap, hlen, if_pos hij, hj, hb1, getD_append_length, set_append_length]
        rw [hb2, getD_append_length, hb3, hj']
        dsimp only
        rw [set_append_length, hi1, hj1, hb4, ih]
        simp

theorem kdStrlen_append_nul : ∀ (T : List Int), (∀ c ∈ T, c ≠ 0) →
    kdStrlen (T ++ [0]) = T.length
  | [], _ => by simp [kdStrlen]
  | c :: T, h => by
    have hc : c ≠ 0 := h c (List.mem_cons_self _ _)
    have ih := kdStrlen_append_nul T (fun d hd => h d (List.mem_cons_of_mem _ hd))
    have ih' : (List.takeWhile (fun c => !decide (c = 0)) (T ++ [0])).length = T.length := by
      simpa [kdStrlen] using ih
    simp [kdStrlen, List.takeWhile_cons, hc, ih']

/-- `kdLtostr` writes the decimal text of every `KDint` but `KDINT_MIN`, with
its NUL, and returns its length, when the buffer has room for it. -/
theorem kdLtostr_decimal (buflen : Nat) (n : Int) (h1 : KDINT_MIN < n) (h2 : n ≤ KDINT_MAX)
    (hb : (decimalText n).length < buflen) :
    kdLtostr buflen n = some (decimalText n ++ [0], ((decimalText n).length : Int)) := by
  simp only [KDINT_MIN, KDINT_MAX] at h1 h2
  have hnum : (if n < 0 then toKDint32 (-n) else n) = (n.natAbs : Int) := by
    split
    · simp only [toKDint32]; omega
    · omega
  have hm : n.natAbs < 10 ^ 64 := by
    have : n.natAbs < 2147483648 := by omega
    exact lt_trans this (by norm_num)
  have hloop := kdItoa_loop_digits 64 n.natAbs (by decide) hm
  have hT : ∀ c ∈ (decimalDigits n.natAbs).reverse.map (fun (d : Nat) => (d : Int) + 48) ++
      (if n < 0 then [45] else []), c ≠ 0 := by
    intro c hc
    rcases List.mem_append.1 hc with hc | hc
    · obtain ⟨d, -, rfl⟩ := List.mem_map.1 hc
      omega
    · split at hc
      · simp at hc; omega
      · cases hc
  have hrev : ((decimalDigits n.natAbs).reverse.map (fun (d : Nat) => (d : Int) + 48) ++
      (if n < 0 then [45] else [])).reverse = decimalText n := by
    simp only [decimalText, List.reverse_append, List.map_reverse, List.reverse_reverse]
    split <;> rfl
  have hlenT : ((decimalDigits n.natAbs).reverse.map (fun (d : Nat) => (d : Int) + 48) ++
      (if n < 0 then [45] else [])).length = (decimalText n).length := by
    rw [← hrev, List.length_reverse]
  have hpos : 0 < (decimalText n).length := by
    have := List.length_pos.2 (decimalDigits_ne_nil n.natAbs)
    simp only [decimalText, List.length_append, List.length_map]
    omega
  have hb0 : buflen ≠ 0 := by omega
  have hswap := kdItoa_swap_reverse
    (((decimalDigits n.natAbs).reverse.map (fun (d : Nat) => (d : Int) + 48) ++
      (if n < 0 then [45] else []) ++ [0]).length)
    ((decimalDigits n.natAbs).reverse.map (fun (d : Nat) => (d : Int) + 48) ++
      (if n < 0 then [45] else [])) [] [0] (by simp)
  simp only [List.nil_append, List.length_nil, Nat.zero_add] at hswap
  rw [hrev, hlenT] at hswap
  simp only [kdLtostr, __kdItoa, if_neg hb0, hnum, hloop, kdStrlen_append_nul _ hT, hlenT,
    List.length_append, List.length_singleton]
  have hc : ¬ (buflen < (decimalText n).length + 1 ∨ (decimalText n).length = 0) := by
    omega
  rw [if_neg hc]
  simp only [List.length_append, List.length_singleton, hlenT] at hswap
  rw [hswap]
  simp

theorem drop_cons_get {l : List Int} {s : Nat} {x : Int} {rest : List Int}
    (h : l.drop s = x :: rest) : l[s]? = some x ∧ l.drop (s + 1) = rest := by
  constructor
  · have h1 : (l.drop s)[0]? = l[s + 0]? := List.getElem?_drop l s 0
    rw [h] at h1
    simpa using h1.symm
  · have h2 : l.drop (s + 1) = (l.drop s).drop 1 := by
      rw [List.drop_drop, Nat.add_comm]
    rw [h2, h]; rfl

/-- One turn of the conversion loop of `kdStrtol` on a decimal digit that
keeps the value in range. -/
theorem kdStrtol_loop_step (nptr : List Int) (neg : Bool) (cutoff cutlim : Int) (fuel : Nat)
    (acc any : Int) (d : Nat) (s : Nat) (err : Option Int) (ch : Int) (hd : d < 10)
    (hany : any = 0 ∨ any = 1) (hs : nptr[s]? = some ch)
    (hok : if neg then ¬ (acc < cutoff ∨ (acc = cutoff ∧ (d : Int) > cutlim))
      else ¬ (acc > cutoff ∨ (acc = cutoff ∧ (d : Int) > cutlim))) :
    kdStrtol_loop nptr 10 neg cutoff cutlim (fuel + 1) acc any ((d : Int) + 48) s err =
      kdStrtol_loop nptr 10 neg cutoff cutlim fuel
        (if neg then acc * 10 - d else acc * 10 + d) 1 (toKDuint8 ch) (s + 1) err := by
  have hdig : __kdIsdigit ((d : Int) + 48) = true := by
    simp only [__kdIsdigit, Bool.and_eq_true, decide_eq_true_eq]; omega
  have hsub : (d : Int) + 48 - 48 = d := by omega
  have hbase : ¬ ((d : Int) ≥ 10) := by omega
  have hany' : ¬ (any < 0) := by omega
  rw [kdStrtol_loop]
  simp only [hdig, if_true, hsub, if_neg hbase, if_neg hany', hs]
  cases neg with
  | true =>
    simp only [if_true] at hok
    simp only [if_true, if_neg hok]
  | false =>
    simp only [Bool.false_eq_true, if_false] at hok
    simp only [Bool.false_eq_true, if_false, if_neg hok]

theorem kdStrtol_loop_stop (nptr : List Int) (base : Int) (neg : Bool) (cutoff cutlim : Int)
    (fuel : Nat) (acc any : Int) (s : Nat) (err : Option Int) :
    kdStrtol_loop nptr base neg cutoff cutlim (fuel + 1) acc any 0 s err =
      some (acc, any, s, err) := by
  rw [kdStrtol_loop]
  have h1 : __kdIsdigit 0 = false := by decide
  have h2 : __kdIsalpha 0 = false := by decide
  simp only [h1, h2, Bool.false_eq_true, if_false]

theorem foldl_digits_ge : ∀ (ds : List Nat) (a : Int), 0 ≤ a →
    a ≤ ds.foldl (fun (v : Int) (x : Nat) => v * 10 + (x : Int)) a
  | [], _, _ => le_refl _
  | x :: ds, a, h => by
    have := foldl_digits_ge ds (a * 10 + (x : Int)) (by omega)
    simp only [List.foldl_cons]
    omega

/-- The conversion loop of `kdStrtol` on the digits `d :: ds` followed by the
NUL, entered with the value `a` of the digits before: it ends at the NUL with
the value of all digits, negated for a negative number, as long as that value
is in the range of `KDint`. -/
theorem kdStrtol_loop_digits (nptr : List Int) (neg : Bool) (err : Option Int) :
    ∀ (ds : List Nat) (s d : Nat) (a any : Int) (fuel : Nat),
    nptr.drop s = ds.map (fun (d : Nat) => (d : Int) + 48) ++ [0] → d < 10 →
    (∀ x ∈ ds, x < 10) → 0 ≤ a → (any = 0 ∨ any = 1) →
    ds.foldl (fun (v : Int) (x : Nat) => v * 10 + (x : Int)) (a * 10 + d) ≤
      (if neg then 2147483648 else 2147483647) →
    ds.length + 2 ≤ fuel →
    kdStrtol_loop nptr 10 neg (if neg then -214748364 else 214748364) (if neg then 8 else 7)
        fuel (if neg then -a else a) any ((d : Int) + 48) s err =
      some (if neg then -(ds.foldl (fun (v : Int) (x : Nat) => v * 10 + (x : Int)) (a * 10 + d))
        else ds.foldl (fun (v : Int) (x : Nat) => v * 10 + (x : Int)) (a * 10 + d),
        1, s + ds.length + 1, err)
  | [], s, d, a, any, fuel, hdrop, hd, _, ha, hany, hbound, hfuel => by
    obtain ⟨fuel1, rfl⟩ : ∃ k, fuel = k + 1 := ⟨fuel - 1, by simp at hfuel; omega⟩
    obtain ⟨fuel2, rfl⟩ : ∃ k, fuel1 = k + 1 := ⟨fuel1 - 1, by simp at hfuel; omega⟩
    obtain ⟨hget, -⟩ := drop_cons_get (by simpa using hdrop)
    simp only [List.foldl_nil] at hbound ⊢
    have hok : if neg then ¬ ((if neg then -a else a) < (if neg then -214748364 else 214748364) ∨
          ((if neg then -a else a) = (if neg then -214748364 else 214748364) ∧
            (d : Int) > (if neg then 8 else 7)))
        else ¬ ((if neg then -a else a) > (if neg then -214748364 else 214748364) ∨
          ((if neg then -a else a) = (if neg then -214748364 else 214748364) ∧
            (d : Int) > (if neg then 8 else 7))) := by
      cases neg <;> simp only [Bool.false_eq_true, if_true, if_false] at hbound ⊢ <;> omega
    rw [kdStrtol_loop_step nptr neg _ _ _ _ any d s err 0 hd hany hget hok]
    have h0 : toKDuint8 0 = 0 := by decide
    rw [h0, kdStrtol_loop_stop]
    cases neg with
    | true =>
      simp only [if_true, List.length_nil, Nat.add_zero]
      congr 2
      omega
    | false =>
      simp only [Bool.false_eq_true, if_false, List.length_nil, Nat.add_zero]
  | d' :: ds, s, d, a, any, fuel, hdrop, hd, hds, ha, hany, hbound, hfuel => by
    obtain ⟨fuel1, rfl⟩ : ∃ k, fuel = k + 1 := ⟨fuel - 1, by simp at hfuel; omega⟩
    obtain ⟨hget, hdrop'⟩ := drop_cons_get (by simpa using hdrop)
    have hd' : d' < 10 := hds d' (List.mem_cons_self _ _)
    simp only [List.foldl_cons] at hbound ⊢
    have hge := foldl_digits_ge ds ((a * 10 + (d : Int)) * 10 + (d' : Int)) (by omega)
    have hok : if neg then ¬ ((if neg then -a else a) < (if neg then -214748364 else 214748364) ∨
          ((if neg then -a else a) = (if neg then -214748364 else 214748364) ∧
            (d : Int) > (if neg then 8 else 7)))
        else ¬ ((if neg then -a else a) > (if neg then -214748364 else 214748364) ∨
          ((if neg then -a else a) = (if neg then -214748364 else 214748364) ∧
            (d : Int) > (if neg then 8 else 7))) := by
      cases neg <;> simp only [Bool.false_eq_true, if_true, if_false] at hbound ⊢ <;> omega
    rw [kdStrtol_loop_step nptr neg _ _ _ _ any d s err _ hd hany hget hok]
    have hch : toKDuint8 ((d' : Int) + 48) = (d' : Int) + 48 := by
      simp only [toKDuint8]; omega
    have hacc : (if neg then (if neg then -a else a) * 10 - (d : Int)
        else (if neg then -a else a) * 10 + (d : Int)) =
        (if neg then -(a * 10 + (d : Int)) else a * 10 + (d : Int)) := by
      cases neg with
      | true => simp only [if_true]; omega
      | false => simp only [Bool.false_eq_true, if_false]
    rw [hch, hacc, kdStrtol_loop_digits nptr neg err ds (s + 1) d' (a * 10 + (d : Int)) 1 fuel1
      hdrop' hd' (fun x hx => hds x (List.mem_cons_of_mem _ hx)) (by omega) (Or.inr rfl) hbound
      (by simp at hfuel; omega)]
    have hidx : s + 1 + ds.length + 1 = s + (d' :: ds).length + 1 := by
      simp only [List.length_cons]; omega
    rw [hidx]

theorem foldl_reverse_ofDigits : ∀ (L : List Nat),
    L.reverse.foldl (fun (v : Int) (x : Nat) => v * 10 + (x : Int)) 0 =
      ((Nat.ofDigits 10 L : Nat) : Int)
  | [] => by simp
  | x :: L => by
    rw [List.reverse_cons, List.foldl_append, foldl_reverse_ofDigits L, Nat.ofDigits_cons]
    simp only [List.foldl_cons, List.foldl_nil]
    push_cast
    ring

theorem foldl_decimalDigits (m : Nat) :
    (decimalDigits m).foldl (fun (v : Int) (x : Nat) => v * 10 + (x : Int)) 0 = (m : Int) := by
  simp only [decimalDigits]
  split
  · rename_i h; subst h; simp
  · rw [foldl_reverse_ofDigits, Nat.ofDigits_digits]

theorem kdStrtol_skip_first (nptr : List Int) (fuel : Nat) (c : Int) (rest : List Int)
    (hn : nptr = c :: rest) (h0 : 33 ≤ c) (h1 : c < 256) :
    kdStrtol_skip nptr (fuel + 1) 0 = some (c, 1) := by
  have hc : toKDuint8 c = c := by simp only [toKDuint8]; omega
  have hsp : __kdIsspace c = false := by
    simp only [__kdIsspace, Bool.or_eq_false_iff, Bool.and_eq_false_imp, decide_eq_true_eq,
      decide_eq_false_iff_not]
    omega
  subst hn
  simp [kdStrtol_skip, hc, hsp]

/-- `kdStrtol` reads the decimal text of every `KDint` back: it returns the
number, leaves `*endptr` at the NUL and sets no error. -/
theorem kdStrtol_decimal (n : Int) (h1 : KDINT_MIN ≤ n) (h2 : n ≤ KDINT_MAX) :
    kdStrtol (decimalText n ++ [0]) 10 = some ⟨n, (decimalText n).length, none⟩ := by
  simp only [KDINT_MIN, KDINT_MAX] at h1 h2
  have hlt := decimalDigits_lt n.natAbs
  have hval := foldl_decimalDigits n.natAbs
  have hne := decimalDigits_ne_nil n.natAbs
  have e1 : Int.tmod KDINT_MAX 10 = 7 := by decide
  have e2 : Int.tdiv KDINT_MAX 10 = 214748364 := by decide
  have e3 : Int.tmod KDINT_MIN 10 = -8 := by decide
  have e4 : Int.tdiv KDINT_MIN 10 = -214748364 := by decide
  cases hds : decimalDigits n.natAbs with
  | nil => exact absurd hds hne
  | cons d ds =>
    rw [hds] at hlt hval
    have hd : d < 10 := hlt d (List.mem_cons_self _ _)
    have hds' : ∀ x ∈ ds, x < 10 := fun x hx => hlt x (List.mem_cons_of_mem _ hx)
    simp only [List.foldl_cons, zero_mul, zero_add] at hval
    by_cases hneg : n < 0
    · have htext : decimalText n ++ [0] =
          45 :: ((d : Int) + 48) :: (ds.map (fun (d : Nat) => (d : Int) + 48) ++ [0]) := by
        simp [decimalText, hneg, hds]
      have hlen : (decimalText n).length = ds.length + 2 := by
        simp [decimalText, hneg, hds]
      rw [htext, hlen]
      have hskip := kdStrtol_skip_first
        (45 :: ((d : Int) + 48) :: (ds.map (fun (d : Nat) => (d : Int) + 48) ++ [0]))
        (ds.length + 3) 45 _ rfl (by decide) (by decide)
      have hloop := kdStrtol_loop_digits
        (45 :: ((d : Int) + 48) :: (ds.map (fun (d : Nat) => (d : Int) + 48) ++ [0])) true none
        ds 2 d 0 0 (ds.length + 4) rfl hd hds' (le_refl 0) (Or.inl rfl)
        (by simp only [if_true, zero_mul, zero_add]; rw [hval]; omega) (by omega)
      simp only [if_true, zero_mul, zero_add, neg_zero, hval] at hloop
      have hflen : (45 :: ((d : Int) + 48) ::
          (ds.map (fun (d : Nat) => (d : Int) + 48) ++ [0])).length + 1 = ds.length + 4 := by
        simp
      have hres : toKDint32 (-(n.natAbs : Int)) = n := by
        simp only [toKDint32]; omega
      simp [kdStrtol, hflen, hskip, e3, e4, hloop, hres]
      refine ⟨?_, by omega⟩
      rw [← Int.natCast_natAbs]; exact hres
    · have htext : decimalText n ++ [0] =
          ((d : Int) + 48) :: (ds.map (fun (d : Nat) => (d : Int) + 48) ++ [0]) := by
        simp [decimalText, hneg, hds]
      have hlen : (decimalText n).length = ds.length + 1 := by
        simp [decimalText, hneg, hds]
      rw [htext, hlen]
      have hskip := kdStrtol_skip_first
        (((d : Int) + 48) :: (ds.map (fun (d : Nat) => (d : Int) + 48) ++ [0]))
        (ds.length + 2) ((d : Int) + 48) _ rfl (by omega) (by omega)
      have hloop := kdStrtol_loop_digits
        (((d : Int) + 48) :: (ds.map (fun (d : Nat) => (d : Int) + 48) ++ [0])) false none
        ds 1 d 0 0 (ds.length + 3) rfl hd hds' (le_refl 0) (Or.inl rfl)
        (by simp only [Bool.false_eq_true, if_false, zero_mul, zero_add]; rw [hval]; omega)
        (by omega)
      simp only [Bool.false_eq_true, if_false, zero_mul, zero_add, hval] at hloop
      have hflen : (((d : Int) + 48) ::
          (ds.map (fun (d : Nat) => (d : Int) + 48) ++ [0])).length + 1 = ds.length + 3 := by
        simp
      have hres : toKDint32 (n.natAbs : Int) = n := by
        simp only [toKDint32]; omega
      have hc45 : ¬ ((d : Int) + 48 = 45) := by omega
      have hc43 : ¬ ((d : Int) + 48 = 43) := by omega
      simp [kdStrtol, hflen, hskip, e1, e2, hloop, hres, hc45, hc43]
      refine ⟨?_, by omega⟩
      rw [← Int.natCast_natAbs]; exact hres

/-- The two steps of one `kdCreateWindow` call taken with no step of another
thread in between are the call `kdCreateWindow`. -/
theorem kdCreateWindow_step_atomic (P : Platform) (p : Process) (self u : Ptr) :
    (kdCreateWindow_step P p self u CreateWindowPc.test).bind
        (fun r => kdCreateWindow_step P r.1 self u r.2) =
      (kdCreateWindow P p self u).map (fun r => (r.1, CreateWindowPc.returned r.2)) := by
  by_cases h0 : p.__kd_window = KD_NULL
  · by_cases hw : P.mallocWindow p.windows = KD_NULL
    · cases hs : p.kdSetError self KD_ENOMEM with
      | none => simp [kdCreateWindow_step, kdCreateWindow, h0, hw, hs]
      | some p1 => simp [kdCreateWindow_step, kdCreateWindow, h0, hw, hs]
    · simp [kdCreateWindow_step, kdCreateWindow, h0, hw]
  · cases hs : p.kdSetError self KD_EPERM with
    | none => simp [kdCreateWindow_step, kdCreateWindow, h0, hs]
    | some p1 => simp [kdCreateWindow_step, kdCreateWindow, h0, hs]

/-- C17: the claim that at most one window exists at any time fails when two
`kdCreateWindow` calls overlap. With no window (`__kd_window` null), let thread
`a` and then thread `b` pass the test of `__kd_window` (kd.c:6482) before either
reaches `__kd_window = window` (kd.c:6554); no lock orders the two. Then both
calls return a window, the two windows are different and both live, each owned
by its caller, no error is set, and `__kd_window` refers to the second only. -/
theorem kdCreateWindow_overlap_two_windows (P : Platform) (hP : PlatformOK P) (p : Process)
    (h0 : p.__kd_window = KD_NULL) (a b ua ub : Ptr) :
    ∃ s w1 w2,
      CreateWindowRace.run P a b ua ub [true, false, true, false] (CreateWindowRace.start p) =
        some s ∧
      s.pc1 = CreateWindowPc.returned w1 ∧ s.pc2 = CreateWindowPc.returned w2 ∧
      w1 ≠ KD_NULL ∧ w2 ≠ KD_NULL ∧ w1 ≠ w2 ∧
      (∃ r1, s.proc.windows.read w1 = some r1 ∧ r1.originthr = a) ∧
      (∃ r2, s.proc.windows.read w2 = some r2 ∧ r2.originthr = b) ∧
      s.proc.__kd_window = w2 ∧ s.proc.threads = p.threads ∧ ¬ OneWindow s.proc := by
  have hM := hP.2.2.2.2.2.1
  let r1 : KDWindow :=
    ⟨P.XCreateSimpleWindow, P.XOpenDisplay, 0,
      if ua = KD_NULL then P.mallocWindow p.windows else ua, a⟩
  have hne1 := (hM p.windows).1
  have hne2 := (hM (p.windows.write (P.mallocWindow p.windows) r1)).1
  have hfree2 := (hM (p.windows.write (P.mallocWindow p.windows) r1)).2
  have h12 : P.mallocWindow p.windows ≠
      P.mallocWindow (p.windows.write (P.mallocWindow p.windows) r1) := by
    intro h
    rw [← h, Heap.read_write_same _ _ _ hne1] at hfree2
    cases hfree2
  have hlive1 : ((p.windows.write (P.mallocWindow p.windows) r1).write
      (P.mallocWindow (p.windows.write (P.mallocWindow p.windows) r1))
      ⟨P.XCreateSimpleWindow, P.XOpenDisplay, 0,
        if ub = KD_NULL then P.mallocWindow (p.windows.write (P.mallocWindow p.windows) r1)
        else ub, b⟩).read (P.mallocWindow p.windows) = some r1 := by
    rw [Heap.read_write_ne _ _ _ _ h12, Heap.read_write_same _ _ _ hne1]
  refine ⟨⟨{ p with
      windows := (p.windows.write (P.mallocWindow p.windows) r1).write
        (P.mallocWindow (p.windows.write (P.mallocWindow p.windows) r1))
        ⟨P.XCreateSimpleWindow, P.XOpenDisplay, 0,
          if ub = KD_NULL then P.mallocWindow (p.windows.write (P.mallocWindow p.windows) r1)
          else ub, b⟩,
      __kd_window := P.mallocWindow (p.windows.write (P.mallocWindow p.windows) r1) },
      CreateWindowPc.returned (P.mallocWindow p.windows),
      CreateWindowPc.returned (P.mallocWindow (p.windows.write (P.mallocWindow p.windows) r1))⟩,
    P.mallocWindow p.windows,
    P.mallocWindow (p.windows.write (P.mallocWindow p.windows) r1), ?_, rfl, rfl, hne1, hne2, h12,
    ⟨r1, hlive1, rfl⟩, ⟨_, Heap.read_write_same _ _ _ hne2, rfl⟩, rfl, rfl, ?_⟩
  · simp [CreateWindowRace.run, CreateWindowRace.step, CreateWindowRace.start,
      kdCreateWindow_step, h0, hne1, hne2, r1]
  · intro h
    exact h12 (h _ (by rw [hlive1]; simp))

/-- Instance of `kdCreateWindow_overlap_two_windows` on the example platform,
with the schedule evaluated: threads 1 and 2 of `twoThreads` both pass the test,
thread 1 creates window 1, thread 2 creates window 2; both calls return their
window, both windows are live, the last error of both threads is still 0 and
`__kd_window` is 2. Under the schedule that lets thread 1 finish first, thread 2
gets null and `KD_EPERM`, and one window is live. -/
theorem kdCreateWindow_overlap_two_windows_witness :
    PlatformOK examplePlatform ∧ twoThreads.__kd_window = KD_NULL ∧
    (∃ s w1 w2,
      CreateWindowRace.run examplePlatform 1 2 KD_NULL KD_NULL [true, false, true, false]
          (CreateWindowRace.start twoThreads) = some s ∧
      s.pc1 = CreateWindowPc.returned w1 ∧ s.pc2 = CreateWindowPc.returned w2 ∧
      w1 ≠ KD_NULL ∧ w2 ≠ KD_NULL ∧ w1 ≠ w2 ∧
      (∃ r1, s.proc.windows.read w1 = some r1 ∧ r1.originthr = 1) ∧
      (∃ r2, s.proc.windows.read w2 = some r2 ∧ r2.originthr = 2) ∧
      s.proc.__kd_window = w2 ∧ s.proc.threads = twoThreads.threads ∧ ¬ OneWindow s.proc) ∧
    (CreateWindowRace.run examplePlatform 1 2 KD_NULL KD_NULL [true, false, true, false]
        (CreateWindowRace.start twoThreads)).map (fun s => (s.pc1, s.pc2)) =
      some (CreateWindowPc.returned 1, CreateWindowPc.returned 2) ∧
    (CreateWindowRace.run examplePlatform 1 2 KD_NULL KD_NULL [true, false, true, false]
        (CreateWindowRace.start twoThreads)).map
        (fun s => (s.proc.__kd_window, s.proc.windows)) =
      some (2, ⟨[some ⟨600, 500, 0, 1, 1⟩, some ⟨600, 500, 0, 2, 2⟩]⟩) ∧
    (CreateWindowRace.run examplePlatform 1 2 KD_NULL KD_NULL [true, false, true, false]
        (CreateWindowRace.start twoThreads)).map
        (fun s => ((s.proc.threads.read 1).map KDThread.lasterror,
          (s.proc.threads.read 2).map KDThread.lasterror)) =
      some (some 0, some 0) ∧
    (CreateWindowRace.run examplePlatform 1 2 KD_NULL KD_NULL [true, true, false, false]
        (CreateWindowRace.start twoThreads)).map (fun s => (s.pc1, s.pc2)) =
      some (CreateWindowPc.returned 1, CreateWindowPc.returned KD_NULL) ∧
    (CreateWindowRace.run examplePlatform 1 2 KD_NULL KD_NULL [true, true, false, false]
        (CreateWindowRace.start twoThreads)).map
        (fun s => (s.proc.__kd_window, s.proc.windows)) =
      some (1, ⟨[some ⟨600, 500, 0, 1, 1⟩]⟩) ∧
    (CreateWindowRace.run examplePlatform 1 2 KD_NULL KD_NULL [true, true, false, false]
        (CreateWindowRace.start twoThreads)).map
        (fun s => ((s.proc.threads.read 1).map KDThread.lasterror,
          (s.proc.threads.read 2).map KDThread.lasterror)) =
      some (some 0, some KD_EPERM) :=
  ⟨⟨Heap.bump_ok, Heap.bump_ok, Heap.bump_ok, Heap.bump_ok, Heap.bump_ok, Heap.bump_ok, rfl⟩,
    rfl,
    kdCreateWindow_overlap_two_windows examplePlatform
      ⟨Heap.bump_ok, Heap.bump_ok, Heap.bump_ok, Heap.bump_ok, Heap.bump_ok, Heap.bump_ok, rfl⟩
      twoThreads rfl 1 2 KD_NULL KD_NULL,
    by decide, by decide, by decide, by decide, by decide, by decide⟩

end KD
